import Mathlib

/-!
# Sandia OpenSHMEM: teams, the pSync pool allocator, and the contexts of the OFI transport

A shallow embedding of `src/shmem_team.c` and of the start-up checks, the STX
pool and the context registry of `src/transport_ofi.c`.

Conventions of the embedding:

* C `int` and `long` values are `Int`.  Every quantity handled here is a PE
  number, a team size or a small index, far below `INT_MAX`, so no wrap-around
  is modelled; where C leaves the result undefined (signed overflow, division
  by zero) the model has no counterpart in the program.
* `uint64_t` words are `Nat`, always kept below `2 ^ 64`.
* C `/` and `%` on `int` truncate towards zero: `Int.tdiv` and `Int.tmod`.
* The one `float` expression, `ceil(parent_size / (float) xrange)`, is
  evaluated in IEEE 754 single precision (round to nearest, ties to even).
* A pointer that may be `SHMEMX_TEAM_NULL` is an `Option`.
* The file-scope globals of `shmem_team.c` on one PE are collected in
  `TeamsState` and threaded explicitly.
* `RAISE_ERROR_MSG` / `RAISE_ERROR_STR` print and abort the process:
  a function that can reach one returns `Except String _`, the abort being
  `Except.error`.
-/

set_option linter.unusedVariables false

deriving instance DecidableEq for Except

namespace SOS

/-! ## Data model -/

/-- The record `shmem_internal_team_t`.  `config` holds the single field of
`shmemx_team_config_t` that the code touches, `num_contexts`. -/
structure shmem_internal_team_t where
  team_id     : Int
  psync_idx   : Int
  start       : Int
  stride      : Int
  size        : Int
  my_pe       : Int
  config      : Int
  config_mask : Int
deriving DecidableEq, Repr

/-- What `calloc(1, sizeof(shmem_internal_team_t))` and a zero-filled static
hand out: every field 0. -/
def shmem_internal_team_t.zeroed : shmem_internal_team_t :=
  { team_id := 0, psync_idx := 0, start := 0, stride := 0, size := 0,
    my_pe := 0, config := 0, config_mask := 0 }

/-- The globals one PE keeps for teams: `shmem_internal_num_pes`,
`shmem_internal_my_pe`, `shmem_internal_params.TEAMS_MAX`, the static counter
`num_teams`, the word `*shmem_internal_psync_pool_reserved` and
`shmem_internal_team_world`. -/
structure TeamsState where
  shmem_internal_num_pes : Int
  shmem_internal_my_pe   : Int
  TEAMS_MAX              : Int
  num_teams              : Int
  shmem_internal_psync_pool_reserved : Nat
  shmem_internal_team_world : shmem_internal_team_t
deriving DecidableEq, Repr

/-- The globals at program start, before `shmem_internal_teams_init`:
`num_teams = 0`, the world team zero-filled, no reservation word yet. -/
def TeamsState.boot (num_pes my_pe teams_max : Int) : TeamsState :=
  { shmem_internal_num_pes := num_pes
    shmem_internal_my_pe := my_pe
    TEAMS_MAX := teams_max
    num_teams := 0
    shmem_internal_psync_pool_reserved := 0
    shmem_internal_team_world := shmem_internal_team_t.zeroed }

/-- The invariant the spec attaches to a team in a job of `num_pes` PEs:
`start ≥ 0 ∧ stride ≥ 1 ∧ size > 0 ∧ start + (size−1)·stride < N`. -/
def team_invariant (num_pes : Int) (t : shmem_internal_team_t) : Prop :=
  0 ≤ t.start ∧ 1 ≤ t.stride ∧ 0 < t.size ∧ t.start + (t.size - 1) * t.stride < num_pes

/-! ## Helpers that live in headers outside the shown sources -/

/-- Modelled from the spec: `shmem_internal_pe_in_active_set`, an inline helper
of `shmem_internal.h`, which is not among the sources.  The spec gives the test
as `(me−start) mod stride == 0 ∧ 0 ≤ (me−start)/stride < size`; the
out-parameter `translated_pe` receives the team-local rank `(me−start)/stride`
on a hit and −1 on a miss ("the destination-local rank or −1").  The result is
the pair (return value, value stored through the out-parameter). -/
def shmem_internal_pe_in_active_set (global_pe PE_start PE_stride PE_size : Int) :
    Bool × Int :=
  let n := (global_pe - PE_start).tdiv PE_stride
  if (global_pe - PE_start).tmod PE_stride = 0 ∧ 0 ≤ n ∧ n < PE_size then
    (true, n)
  else
    (false, -1)

/-- Scan of `word` for a set bit, from bit `i` upwards, over `fuel` positions. -/
def first_nonzero_scan (word : Nat) : Nat → Nat → Option Nat
  | 0, _ => none
  | fuel + 1, i =>
    if word.testBit i then some i else first_nonzero_scan word fuel (i + 1)

/-- Modelled from the spec: `shmem_internal_1st_nonzero_bit(ptr, size)`, an
inline helper of `shmem_internal.h`, which is not among the sources.  The spec:
"picks `psync_idx` = least-significant set bit of the resulting mask. Failure
(no free bit) raises teams exhausted. The chosen bit is cleared locally."
The helper looks at the first `size` bytes (`size * 8` bits) of the word,
returns the index of the lowest set bit and clears that bit in place, or
returns −1 and leaves the word alone.  The result is the pair
(return value, word afterwards). -/
def shmem_internal_1st_nonzero_bit (word : Nat) (size : Nat) : Int × Nat :=
  match first_nonzero_scan word (size * 8) 0 with
  | some i => ((i : Int), word ^^^ (1 <<< i))
  | none => (-1, word)

/-- Modelled from the spec: `shmem_internal_op_to_all` with `SHM_INTERNAL_BAND`
on one `uint64_t`, source and target both the caller's reservation word; the
collective lives in `shmem_collectives.h`, which is not among the sources.  The
spec: "a bitwise-AND reduction of their pSync reservation masks restricted to
the child's active set".  `source` is the caller's own word, `peers` the words
contributed by the other PEs of the active set; the result is what the caller
finds in its target word afterwards. -/
def shmem_internal_op_to_all_BAND (source : Nat) (peers : List Nat) : Nat :=
  peers.foldl (fun acc w => acc &&& w) source

/-! ## `shmem_team.c` -/

/-- `shmem_internal_teams_init`.  `pool_allocated` tells whether
`shmem_internal_shmalloc` returned a non-NULL pSync pool.
`sizeof(uint64_t) * CHAR_BIT` is 64 and has type `size_t`, so the comparison
`max_teams > sizeof(uint64_t) * CHAR_BIT` is made after the `long` `max_teams`
is converted to `size_t`, that is modulo `2 ^ 64`.  `~((uint64_t)0) << 1` is
`2 ^ 64 - 2` in 64 bits. -/
def shmem_internal_teams_init (s : TeamsState) (pool_allocated : Bool) :
    Except String (Int × TeamsState) :=
  let num_teams := s.num_teams + 1
  let world : shmem_internal_team_t :=
    { s.shmem_internal_team_world with
      team_id := num_teams
      psync_idx := 0
      start := 0
      stride := 1
      size := s.shmem_internal_num_pes
      config_mask := 0
      config := 0 }
  let s1 : TeamsState :=
    { s with num_teams := num_teams, shmem_internal_team_world := world }
  let max_teams := s.TEAMS_MAX
  if !pool_allocated then
    .ok (-1, s1)
  else if max_teams % 2 ^ 64 > 64 then
    .error "Requested more teams than are supported"
  else
    .ok (0, { s1 with
      shmem_internal_psync_pool_reserved := ((2 ^ 64 - 1) <<< 1) % 2 ^ 64 })

/-- `shmem_internal_team_my_pe`. -/
def shmem_internal_team_my_pe (team : Option shmem_internal_team_t) : Int :=
  match team with
  | none => -1
  | some t => t.my_pe

/-- `shmem_internal_team_n_pes`. -/
def shmem_internal_team_n_pes (team : Option shmem_internal_team_t) : Int :=
  match team with
  | none => -1
  | some t => t.size

/-- `shmem_internal_team_translate_pe`; `shmem_internal_num_pes` is the global
it reads. -/
def shmem_internal_team_translate_pe (shmem_internal_num_pes : Int)
    (src_team : Option shmem_internal_team_t) (src_pe : Int)
    (dest_team : Option shmem_internal_team_t) : Int :=
  match src_team, dest_team with
  | some team_src, some team_dest =>
    if src_pe > team_src.size then
      -1
    else
      let src_pe_world := team_src.start + src_pe * team_src.stride
      if src_pe_world < team_src.start ∨ src_pe_world ≥ shmem_internal_num_pes then
        -1
      else
        (shmem_internal_pe_in_active_set src_pe_world team_dest.start
          team_dest.stride team_dest.size).2
  | _, _ => -1

/-- `shmem_internal_team_split_strided` on one PE.  `peers` are the
reservation words the other PEs of the new active set bring into the BAND
reduction; `config` is `none` for a NULL `config` pointer; `new_team` is what
`*new_team` held before the call.  The result is (return value, `*new_team`
afterwards, globals afterwards).  The barrier on the parent team changes no
local state.  `sizeof(long)` is 8. -/
def shmem_internal_team_split_strided (s : TeamsState) (peers : List Nat)
    (parent_team : shmem_internal_team_t) (PE_start PE_stride PE_size : Int)
    (config : Option Int) (config_mask : Int)
    (new_team : Option shmem_internal_team_t) :
    Except String (Int × Option shmem_internal_team_t × TeamsState) :=
  if PE_size ≤ 0 ∨ PE_stride < 1 ∨ PE_start < 0 then
    .ok (-1, new_team, s)
  else
    let num_teams := s.num_teams + 1
    let myteam : shmem_internal_team_t :=
      { shmem_internal_team_t.zeroed with
        team_id := num_teams
        start := PE_start
        stride := PE_stride
        size := PE_size
        config := match config with
          | some c => c
          | none => 0
        config_mask := match config with
          | some _ => config_mask
          | none => 0 }
    let in_set :=
      shmem_internal_pe_in_active_set s.shmem_internal_my_pe PE_start PE_stride PE_size
    let myteam := { myteam with my_pe := in_set.2 }
    if in_set.1 then
      let reduced :=
        shmem_internal_op_to_all_BAND s.shmem_internal_psync_pool_reserved peers
      let found := shmem_internal_1st_nonzero_bit reduced 8
      let myteam := { myteam with psync_idx := found.1 }
      if myteam.psync_idx = -1 then
        .error "No more teams available, try increasing SHMEM_TEAMS_MAX"
      else
        .ok (0, some myteam,
          { s with num_teams := num_teams
                   shmem_internal_psync_pool_reserved := found.2 })
    else
      .ok (0, none, { s with num_teams := num_teams })

/-! ### The `float` arithmetic of `shmem_internal_team_split_2d` -/

/-- The number of binary digits of `n`: the halvings until 0 is reached, at
most `fuel` of them. -/
def binary_digits : Nat → Nat → Nat
  | 0, _ => 0
  | fuel + 1, n => if n = 0 then 0 else binary_digits fuel (n / 2) + 1

/-- The natural number `n · 2 ^ e` for `e ≥ 0`, and `n` for `e < 0`. -/
def scale_up (n : Nat) (e : Int) : Nat :=
  n * 2 ^ e.toNat

/-- The exponent of the last of the 24 significant bits of the positive
rational `num / den`: `e − 23` for `2 ^ e ≤ num / den < 2 ^ (e + 1)`. -/
def float_exponent (num den : Nat) : Int :=
  let digits : Int := (binary_digits num num : Int) - (binary_digits den den : Int)
  (if scale_up num (-digits) ≥ scale_up den digits then digits else digits - 1) - 23

/-- Rounding of the positive rational `num / den` to a `float` (IEEE 754
binary32: 24 significant bits, round to nearest, ties to even), for a value in
the range of the normal numbers.  The result is (significand, exponent), the
`float` being `significand · 2 ^ exponent`, with the significand in
`[2 ^ 23, 2 ^ 24]`. -/
def float_round (num den : Nat) : Nat × Int :=
  let exponent := float_exponent num den
  let q := scale_up num (-exponent) / scale_up den exponent
  let r := scale_up num (-exponent) % scale_up den exponent
  if 2 * r > scale_up den exponent ∨ (2 * r = scale_up den exponent ∧ q % 2 = 1) then
    (q + 1, exponent)
  else
    (q, exponent)

/-- The quotient of two positive `float`s, rounded to a `float`. -/
def float_div (a b : Nat × Int) : Nat × Int :=
  float_round (scale_up a.1 a.2 * scale_up 1 (-b.2)) (scale_up 1 (-a.2) * scale_up b.1 b.2)

/-- `ceil` of a positive `float`. -/
def float_ceil (a : Nat × Int) : Nat :=
  (scale_up a.1 a.2 + scale_up 1 (-a.2) - 1) / scale_up 1 (-a.2)

/-- `floor` of a positive `float`. -/
def float_floor (a : Nat × Int) : Nat :=
  scale_up a.1 a.2 / scale_up 1 (-a.2)

/-- The value of `(int) ceil(parent_size / (float) xrange)`: `xrange` is
converted to `float`, then `parent_size` is (the usual arithmetic conversions),
the quotient is rounded to `float`, and `ceil` is taken of it, exactly, in
`double`.  Arithmetic is IEEE 754 with `FLT_EVAL_METHOD` 0.  For a negative
quotient `ceil` is minus the `floor` of the absolute value.  Where C leaves the
expression undefined (`xrange = 0`, a ceiling outside `int`) the definition
has no counterpart in the program; it gives 0 for `xrange = 0`. -/
def ceil_of_float_quotient (parent_size xrange : Int) : Int :=
  if xrange = 0 ∨ parent_size = 0 then
    0
  else
    let quotient :=
      float_div (float_round parent_size.natAbs 1) (float_round xrange.natAbs 1)
    if (0 < parent_size ∧ 0 < xrange) ∨ (parent_size < 0 ∧ xrange < 0) then
      (float_ceil quotient : Int)
    else
      -(float_floor quotient : Int)

/-- The ceiling the spec names, `ceil(size / xrange)`, of the exact quotient. -/
def spec_ceil_quotient (parent_size xrange : Int) : Int :=
  -((-parent_size) / xrange)

/-- The `(start, stride, size)` triples of the first loop of
`shmem_internal_team_split_2d`, one per iteration, from iteration `i` with the
running value `start`, for `fuel` more iterations. -/
def split_2d_xteams_from (parent_stride parent_size xrange num_xteams : Int) :
    Nat → Int → Int → List (Int × Int × Int)
  | 0, _, _ => []
  | fuel + 1, i, start =>
    let num_xmembers :=
      if i = num_xteams - 1 ∧ parent_size.tmod xrange ≠ 0 then
        parent_size.tmod xrange
      else
        xrange
    (start, parent_stride, num_xmembers) ::
      split_2d_xteams_from parent_stride parent_size xrange num_xteams fuel (i + 1)
        (start + xrange * parent_stride)

/-- The x-teams `shmem_internal_team_split_2d` generates for a parent team. -/
def split_2d_xteams (parent_team : shmem_internal_team_t) (xrange : Int) :
    List (Int × Int × Int) :=
  let num_xteams := ceil_of_float_quotient parent_team.size xrange
  split_2d_xteams_from parent_team.stride parent_team.size xrange num_xteams
    num_xteams.toNat 0 parent_team.start

/-- The `(start, stride, size)` triples of the second loop of
`shmem_internal_team_split_2d`, one per iteration. -/
def split_2d_yteams_from (parent_stride parent_size xrange : Int) :
    Nat → Int → Int → List (Int × Int × Int)
  | 0, _, _ => []
  | fuel + 1, i, start =>
    let remainder := parent_size.tmod xrange
    let yrange := parent_size.tdiv xrange
    let num_ymembers :=
      if remainder ≠ 0 ∧ i < remainder then yrange + 1 else yrange
    (start, xrange * parent_stride, num_ymembers) ::
      split_2d_yteams_from parent_stride parent_size xrange fuel (i + 1)
        (start + parent_stride)

/-- The y-teams `shmem_internal_team_split_2d` generates for a parent team:
`num_yteams = xrange` of them. -/
def split_2d_yteams (parent_team : shmem_internal_team_t) (xrange : Int) :
    List (Int × Int × Int) :=
  split_2d_yteams_from parent_team.stride parent_team.size xrange xrange.toNat 0
    parent_team.start

/-- The body shared by both loops of `shmem_internal_team_split_2d`, run over
the triples of one axis: a PE that lies in the active set of a triple calls
`shmem_internal_team_split_strided` with it and aborts on a nonzero return.
`peers k` are the peer words of the reduction in iteration `k`; `failure` is
the text of the abort.  The result is (`*axis_team` afterwards, globals
afterwards, the triples the PE called the strided split with). -/
def split_2d_axis (parent_team : shmem_internal_team_t) (axis_config : Option Int)
    (axis_mask : Int) (peers : Nat → List Nat) (failure : String) :
    List (Int × Int × Int) → Nat → TeamsState → Option shmem_internal_team_t →
      List (Int × Int × Int) →
      Except String (Option shmem_internal_team_t × TeamsState × List (Int × Int × Int))
  | [], _, s, axis_team, calls => .ok (axis_team, s, calls)
  | (start, stride, members) :: rest, k, s, axis_team, calls =>
    if (shmem_internal_pe_in_active_set s.shmem_internal_my_pe start stride members).1 then
      match shmem_internal_team_split_strided s (peers k) parent_team start stride members
          axis_config axis_mask axis_team with
      | .error e => .error e
      | .ok (ret, axis_team1, s1) =>
        if ret ≠ 0 then
          .error failure
        else
          split_2d_axis parent_team axis_config axis_mask peers failure rest (k + 1) s1
            axis_team1 (calls ++ [(start, stride, members)])
    else
      split_2d_axis parent_team axis_config axis_mask peers failure rest (k + 1) s
        axis_team calls

/-- `shmem_internal_team_split_2d` on one PE.  `xpeers` and `ypeers` give the
peer words of the reductions by loop iteration.  The result is (return value,
`*xaxis_team`, `*yaxis_team`, globals afterwards, the triples of the strided
splits the PE made on the x axis, those on the y axis). -/
def shmem_internal_team_split_2d (s : TeamsState) (xpeers ypeers : Nat → List Nat)
    (parent_team : shmem_internal_team_t) (xrange : Int)
    (xaxis_config : Option Int) (xaxis_mask : Int)
    (xaxis_team : Option shmem_internal_team_t)
    (yaxis_config : Option Int) (yaxis_mask : Int)
    (yaxis_team : Option shmem_internal_team_t) :
    Except String (Int × Option shmem_internal_team_t × Option shmem_internal_team_t ×
      TeamsState × List (Int × Int × Int) × List (Int × Int × Int)) :=
  match split_2d_axis parent_team xaxis_config xaxis_mask xpeers
      "x-axis 2D strided split failed" (split_2d_xteams parent_team xrange) 0 s
      xaxis_team [] with
  | .error e => .error e
  | .ok (xt, s1, xcalls) =>
    match split_2d_axis parent_team yaxis_config yaxis_mask ypeers
        "y-axis 2D strided split failed" (split_2d_yteams parent_team xrange) 0 s1
        yaxis_team [] with
    | .error e => .error e
    | .ok (yt, s2, ycalls) => .ok (0, xt, yt, s2, xcalls, ycalls)

/-! ## The PEs of a job taken together -/

/-- The world ranks below `num_pes` that lie in the active set
`(PE_start, PE_stride, PE_size)`, in increasing order. -/
def active_set_pes (num_pes : Nat) (PE_start PE_stride PE_size : Int) : List Nat :=
  (List.range num_pes).filter
    (fun r => (shmem_internal_pe_in_active_set (r : Int) PE_start PE_stride PE_size).1)

/-- The words the other PEs of the active set bring into the reduction that PE
`me` takes part in, `masks r` being the reservation word of PE `r`. -/
def peer_words (masks : Nat → Nat) (num_pes : Nat) (me : Nat)
    (PE_start PE_stride PE_size : Int) : List Nat :=
  ((active_set_pes num_pes PE_start PE_stride PE_size).erase me).map masks

/-- The bitwise AND of the reservation words of all PEs of the active set. -/
def band_active_set (masks : Nat → Nat) (num_pes : Nat)
    (PE_start PE_stride PE_size : Int) : Nat :=
  ((active_set_pes num_pes PE_start PE_stride PE_size).map masks).foldl
    (fun acc w => acc &&& w) (2 ^ 64 - 1)

/-- The globals of a PE right after a successful `shmem_internal_teams_init`
in a job of `num_pes` PEs. -/
def TeamsState.after_init (num_pes my_pe teams_max : Int) : TeamsState :=
  match shmem_internal_teams_init (TeamsState.boot num_pes my_pe teams_max) true with
  | .ok (_, s) => s
  | .error _ => TeamsState.boot num_pes my_pe teams_max

/-- The states of one PE that a run can be in: after a successful
`shmem_internal_teams_init`, and after any returning call of
`shmem_internal_team_split_strided` from such a state. -/
inductive TeamsState.Reachable : TeamsState → Prop
  | init (num_pes my_pe teams_max : Int) (s : TeamsState)
      (h : shmem_internal_teams_init (TeamsState.boot num_pes my_pe teams_max) true
        = .ok (0, s)) : TeamsState.Reachable s
  | split (s : TeamsState) (peers : List Nat) (parent_team : shmem_internal_team_t)
      (PE_start PE_stride PE_size : Int) (config : Option Int) (config_mask : Int)
      (new_team : Option shmem_internal_team_t) (ret : Int)
      (out : Option shmem_internal_team_t) (s1 : TeamsState)
      (hs : TeamsState.Reachable s)
      (h : shmem_internal_team_split_strided s peers parent_team PE_start PE_stride
        PE_size config config_mask new_team = .ok (ret, out, s1)) :
      TeamsState.Reachable s1

/-- `shmem_internal_team_destroy`: frees the local record and returns 1; the
globals, the reservation word among them, stay as they are. -/
def shmem_internal_team_destroy (s : TeamsState) (team : shmem_internal_team_t) :
    Int × TeamsState :=
  (1, s)

/-- A run of `n` successive calls of `shmem_internal_team_split_strided` with
the same arguments and no peers, each starting from the globals the previous
one left; it stops at the first call that aborts. -/
def split_strided_repeatedly (parent_team : shmem_internal_team_t)
    (PE_start PE_stride PE_size : Int) : Nat → TeamsState → Except String TeamsState
  | 0, s => .ok s
  | n + 1, s =>
    match shmem_internal_team_split_strided s [] parent_team PE_start PE_stride PE_size
        none 0 none with
    | .error e => .error e
    | .ok (_, _, s1) => split_strided_repeatedly parent_team PE_start PE_stride PE_size n s1

/-! ## Concrete runs -/

/-- The world team of a job of four PEs, as `shmem_internal_teams_init`
leaves it. -/
def world_of_four : shmem_internal_team_t :=
  { team_id := 1, psync_idx := 0, start := 0, stride := 1, size := 4,
    my_pe := 0, config := 0, config_mask := 0 }

/-- The reservation word right after init: all ones except bit 0. -/
def word_after_init : Nat := 2 ^ 64 - 2

/-- The team over PEs 0 and 2 of a four-PE job, as a strided split
`(start 0, stride 2, size 2)` hands it out, with the given id, pSync index and
rank of the calling PE. -/
def team_of_pes_0_2 (team_id psync_idx my_pe : Int) : shmem_internal_team_t :=
  { team_id := team_id, psync_idx := psync_idx, start := 0, stride := 2, size := 2,
    my_pe := my_pe, config := 0, config_mask := 0 }

/-- The world team of a job of six PEs. -/
def world_of_six : shmem_internal_team_t :=
  { team_id := 1, psync_idx := 0, start := 0, stride := 1, size := 6,
    my_pe := 0, config := 0, config_mask := 0 }

/-! ## `transport_ofi.c`: checks made at start-up

Conventions for this file of the program, beyond those above:

* Calls into the provider library (libfabric) and the runtime are inputs: each
  modelled function takes the values those calls return.
* `OFI_CHECK_RETURN_MSG` / `OFI_CHECK_RETURN_STR` warn and `return ret` when
  `ret` is nonzero; `OFI_CHECK_ERROR_MSG` raises the fatal error when `ret` is
  nonzero; `RAISE_WARN_*` only prints; a failing `shmem_internal_assert` /
  `shmem_internal_assertp` aborts.
-/

/-- The type `atomic_support_lv`. -/
inductive atomic_support_lv where
  | ATOMIC_NO_SUPPORT
  | ATOMIC_WARNINGS
  | ATOMIC_SOFT_SUPPORT
deriving DecidableEq, Repr

/-- The datatype names that occur in the tables `DT_AMO_STANDARD`,
`DT_AMO_EXTENDED`, `DT_REDUCE_BITWISE`, `DT_REDUCE_COMPARE`, `DT_REDUCE_ARITH`
and `DT_INTERNAL_REQ`. -/
inductive shm_internal_datatype where
  | SHM_INTERNAL_SHORT
  | SHM_INTERNAL_INT
  | SHM_INTERNAL_LONG
  | SHM_INTERNAL_LONG_LONG
  | SHM_INTERNAL_INT32
  | SHM_INTERNAL_INT64
  | SHM_INTERNAL_FLOAT
  | SHM_INTERNAL_DOUBLE
  | SHM_INTERNAL_LONG_DOUBLE
  | SHM_INTERNAL_FLOAT_COMPLEX
  | SHM_INTERNAL_DOUBLE_COMPLEX
  | SHM_INTERNAL_FORTRAN_INTEGER
deriving DecidableEq, Repr

/-- The operation names that occur in the `*_OPS` tables. -/
inductive shm_internal_op where
  | SHM_INTERNAL_SUM
  | SHM_INTERNAL_PROD
  | SHM_INTERNAL_BAND
  | SHM_INTERNAL_BOR
  | SHM_INTERNAL_BXOR
  | SHM_INTERNAL_MAX
  | SHM_INTERNAL_MIN
  | FI_CSWAP
  | FI_MSWAP
  | FI_ATOMIC_WRITE
  | FI_ATOMIC_READ
deriving DecidableEq, Repr

open shm_internal_datatype shm_internal_op atomic_support_lv

/-- The answers of the provider to the three validity queries on the default
context's endpoint: for a datatype and an operation, the return code and the
value stored in `atomic_size`. -/
structure atomic_provider where
  fi_atomicvalid : shm_internal_datatype → shm_internal_op → Int × Int
  fi_fetch_atomicvalid : shm_internal_datatype → shm_internal_op → Int × Int
  fi_compare_atomicvalid : shm_internal_datatype → shm_internal_op → Int × Int

def DT_AMO_STANDARD : List shm_internal_datatype :=
  [SHM_INTERNAL_INT, SHM_INTERNAL_LONG, SHM_INTERNAL_LONG_LONG, SHM_INTERNAL_INT32,
   SHM_INTERNAL_INT64]

def AMO_STANDARD_OPS : List shm_internal_op := [SHM_INTERNAL_SUM]

def FETCH_AMO_STANDARD_OPS : List shm_internal_op := [SHM_INTERNAL_SUM]

def COMPARE_AMO_STANDARD_OPS : List shm_internal_op := [FI_CSWAP]

def DT_AMO_EXTENDED : List shm_internal_datatype :=
  [SHM_INTERNAL_FLOAT, SHM_INTERNAL_DOUBLE, SHM_INTERNAL_INT, SHM_INTERNAL_LONG,
   SHM_INTERNAL_LONG_LONG, SHM_INTERNAL_INT32, SHM_INTERNAL_INT64,
   SHM_INTERNAL_FORTRAN_INTEGER]

def AMO_EXTENDED_OPS : List shm_internal_op := [FI_ATOMIC_WRITE]

def FETCH_AMO_EXTENDED_OPS : List shm_internal_op := [FI_ATOMIC_WRITE, FI_ATOMIC_READ]

def DT_REDUCE_BITWISE : List shm_internal_datatype :=
  [SHM_INTERNAL_SHORT, SHM_INTERNAL_INT, SHM_INTERNAL_LONG, SHM_INTERNAL_LONG_LONG,
   SHM_INTERNAL_INT32, SHM_INTERNAL_INT64]

def REDUCE_BITWISE_OPS : List shm_internal_op :=
  [SHM_INTERNAL_BAND, SHM_INTERNAL_BOR, SHM_INTERNAL_BXOR]

def DT_REDUCE_COMPARE : List shm_internal_datatype :=
  [SHM_INTERNAL_FLOAT, SHM_INTERNAL_DOUBLE, SHM_INTERNAL_SHORT, SHM_INTERNAL_INT,
   SHM_INTERNAL_LONG, SHM_INTERNAL_LONG_LONG, SHM_INTERNAL_INT32, SHM_INTERNAL_INT64,
   SHM_INTERNAL_LONG_DOUBLE]

def REDUCE_COMPARE_OPS : List shm_internal_op := [SHM_INTERNAL_MAX, SHM_INTERNAL_MIN]

def DT_REDUCE_ARITH : List shm_internal_datatype :=
  [SHM_INTERNAL_FLOAT, SHM_INTERNAL_DOUBLE, SHM_INTERNAL_FLOAT_COMPLEX,
   SHM_INTERNAL_DOUBLE_COMPLEX, SHM_INTERNAL_SHORT, SHM_INTERNAL_INT, SHM_INTERNAL_LONG,
   SHM_INTERNAL_LONG_LONG, SHM_INTERNAL_INT32, SHM_INTERNAL_INT64,
   SHM_INTERNAL_LONG_DOUBLE]

def REDUCE_ARITH_OPS : List shm_internal_op := [SHM_INTERNAL_SUM, SHM_INTERNAL_PROD]

def DT_INTERNAL_REQ : List shm_internal_datatype := [SHM_INTERNAL_INT]

def INTERNAL_REQ_OPS : List shm_internal_op := [FI_MSWAP]

/-- `atomicvalid_rtncheck`, without the warning it prints. -/
def atomicvalid_rtncheck (ret atomic_size : Int) (atomic_sup : atomic_support_lv) : Int :=
  if (ret ≠ 0 ∨ atomic_size = 0) ∧ atomic_sup ≠ ATOMIC_SOFT_SUPPORT then
    if atomic_sup ≠ ATOMIC_WARNINGS then
      (if ret ≠ 0 then ret else -1)
    else
      0
  else
    0

/-- The inner loop of the three `*atomicvalid_DTxOP` functions for one
datatype: `some ret` when the function returns from inside the loop, with the
value it returns, `none` when the loop runs to its end. -/
def atomicvalid_ops_loop (query : shm_internal_datatype → shm_internal_op → Int × Int)
    (dt : shm_internal_datatype) (atomic_sup : atomic_support_lv) :
    List shm_internal_op → Option Int
  | [] => none
  | op :: rest =>
    let ret := (query dt op).1
    let atomic_size := (query dt op).2
    if atomicvalid_rtncheck ret atomic_size atomic_sup ≠ 0 then
      some ret
    else
      atomicvalid_ops_loop query dt atomic_sup rest

/-- The outer loop of the three `*atomicvalid_DTxOP` functions. -/
def atomicvalid_dt_loop (query : shm_internal_datatype → shm_internal_op → Int × Int)
    (OPS : List shm_internal_op) (atomic_sup : atomic_support_lv) :
    List shm_internal_datatype → Int
  | [] => 0
  | dt :: rest =>
    match atomicvalid_ops_loop query dt atomic_sup OPS with
    | some ret => ret
    | none => atomicvalid_dt_loop query OPS atomic_sup rest

/-- `atomicvalid_DTxOP`: the loops run over the first `DT_MAX` datatypes and
the first `OPS_MAX` operations of the tables. -/
def atomicvalid_DTxOP (p : atomic_provider) (DT_MAX OPS_MAX : Nat)
    (DT : List shm_internal_datatype) (OPS : List shm_internal_op)
    (atomic_sup : atomic_support_lv) : Int :=
  atomicvalid_dt_loop p.fi_atomicvalid (OPS.take OPS_MAX) atomic_sup (DT.take DT_MAX)

/-- `compare_atomicvalid_DTxOP`. -/
def compare_atomicvalid_DTxOP (p : atomic_provider) (DT_MAX OPS_MAX : Nat)
    (DT : List shm_internal_datatype) (OPS : List shm_internal_op)
    (atomic_sup : atomic_support_lv) : Int :=
  atomicvalid_dt_loop p.fi_compare_atomicvalid (OPS.take OPS_MAX) atomic_sup (DT.take DT_MAX)

/-- `fetch_atomicvalid_DTxOP`. -/
def fetch_atomicvalid_DTxOP (p : atomic_provider) (DT_MAX OPS_MAX : Nat)
    (DT : List shm_internal_datatype) (OPS : List shm_internal_op)
    (atomic_sup : atomic_support_lv) : Int :=
  atomicvalid_dt_loop p.fi_fetch_atomicvalid (OPS.take OPS_MAX) atomic_sup (DT.take DT_MAX)

/-- `atomic_limitations_check`.  `OFI_ATOMIC_CHECKS_WARN` is the parameter of
that name; `ENABLE_FORTRAN` selects `SIZEOF_AMO_EX_DT` 8 or 7. -/
def atomic_limitations_check (p : atomic_provider) (OFI_ATOMIC_CHECKS_WARN : Bool)
    (ENABLE_FORTRAN : Bool) : Int :=
  let general_atomic_sup :=
    if OFI_ATOMIC_CHECKS_WARN then ATOMIC_WARNINGS else ATOMIC_NO_SUPPORT
  let reduction_sup := ATOMIC_SOFT_SUPPORT
  let SIZEOF_AMO_EX_DT := if ENABLE_FORTRAN then 8 else 7
  let ret := atomicvalid_DTxOP p 5 1 DT_AMO_STANDARD AMO_STANDARD_OPS general_atomic_sup
  if ret ≠ 0 then ret else
  let ret := fetch_atomicvalid_DTxOP p 5 1 DT_AMO_STANDARD FETCH_AMO_STANDARD_OPS
    general_atomic_sup
  if ret ≠ 0 then ret else
  let ret := compare_atomicvalid_DTxOP p 5 1 DT_AMO_STANDARD COMPARE_AMO_STANDARD_OPS
    general_atomic_sup
  if ret ≠ 0 then ret else
  let ret := atomicvalid_DTxOP p SIZEOF_AMO_EX_DT 1 DT_AMO_EXTENDED AMO_EXTENDED_OPS
    general_atomic_sup
  if ret ≠ 0 then ret else
  let ret := fetch_atomicvalid_DTxOP p SIZEOF_AMO_EX_DT 2 DT_AMO_EXTENDED
    FETCH_AMO_EXTENDED_OPS general_atomic_sup
  if ret ≠ 0 then ret else
  let ret := atomicvalid_DTxOP p 6 3 DT_REDUCE_BITWISE REDUCE_BITWISE_OPS reduction_sup
  if ret ≠ 0 then ret else
  let ret := atomicvalid_DTxOP p 9 2 DT_REDUCE_COMPARE REDUCE_COMPARE_OPS reduction_sup
  if ret ≠ 0 then ret else
  let ret := atomicvalid_DTxOP p 11 2 DT_REDUCE_ARITH REDUCE_ARITH_OPS reduction_sup
  if ret ≠ 0 then ret else
  let ret := compare_atomicvalid_DTxOP p 1 1 DT_INTERNAL_REQ INTERNAL_REQ_OPS
    general_atomic_sup
  if ret ≠ 0 then ret else
  0

/-- `populate_av`.  `alladdrs_allocated` tells whether `malloc` succeeded,
`shmem_runtime_get i` is the return code of the runtime lookup of the endpoint
name of PE `i`, `fi_av_insert` the value the address-vector insertion
returns. -/
def populate_av (shmem_internal_num_pes : Int) (alladdrs_allocated : Bool)
    (shmem_runtime_get : Int → Int) (fi_av_insert : Int) : Except String Int :=
  if !alladdrs_allocated then
    .ok 1
  else if (List.range shmem_internal_num_pes.toNat).any
      (fun i => shmem_runtime_get (i : Int) ≠ 0) then
    .error "Runtime get of fi_epname failed"
  else
    let ret := fi_av_insert
    if ret ≠ shmem_internal_num_pes then
      .ok ret
    else
      .ok 0

/-- One entry of the list `fi_getinfo` hands back: the fields of `struct
fi_info` that `query_for_fabric` reads. -/
structure fi_info where
  fabric_attr_name : String
  domain_attr_name : String
  ep_attr_max_msg_size : Nat
  tx_attr_inject_size : Nat
deriving DecidableEq, Repr

/-- The record `struct fabric_info`; `p_info` points into `fabrics` or is
NULL, a name that was not supplied is NULL. -/
structure fabric_info where
  fabrics : List fi_info
  p_info : Option fi_info
  prov_name : Option String
  fabric_name : Option String
  domain_name : Option String
  npes : Int
deriving DecidableEq, Repr

/-- The loop of `query_for_fabric` over the offered fabrics: the first one
whose names pass the supplied filters. -/
def query_for_fabric_select (fnmatch : String → String → Int)
    (fabric_name domain_name : Option String) : List fi_info → Option fi_info
  | [] => none
  | cur_fabric :: next =>
    if (match fabric_name with
        | none => true
        | some pattern => fnmatch pattern cur_fabric.fabric_attr_name == 0) then
      if (match domain_name with
          | none => true
          | some pattern => fnmatch pattern cur_fabric.domain_attr_name == 0) then
        some cur_fabric
      else
        query_for_fabric_select fnmatch fabric_name domain_name next
    else
      query_for_fabric_select fnmatch fabric_name domain_name next

/-- `query_for_fabric`.  `fnmatch` is the glob comparison (or `strcmp` where
`fnmatch.h` is missing), `fi_getinfo` the return code and the list of the
provider lookup.  The result is (return value, `*info` afterwards,
`shmem_transport_ofi_max_msg_size`, `shmem_transport_ofi_max_buffered_send`);
`sizeof(long double)` is 16 and `max_msg_size` is the global's value before the
call. -/
def query_for_fabric (fnmatch : String → String → Int)
    (fi_getinfo : Int × List fi_info) (info : fabric_info) (max_msg_size : Nat) :
    Except String (Int × fabric_info × Nat × Nat) :=
  let max_buffered_send := 16
  let ret := fi_getinfo.1
  let info := { info with fabrics := fi_getinfo.2 }
  if ret ≠ 0 then
    .ok (ret, info, max_msg_size, max_buffered_send)
  else
    let info :=
      if info.fabric_name.isSome ∨ info.domain_name.isSome then
        { info with
          p_info := query_for_fabric_select fnmatch info.fabric_name info.domain_name
            info.fabrics }
      else
        { info with p_info := info.fabrics.head? }
    match info.p_info with
    | none => .ok (ret, info, max_msg_size, max_buffered_send)
    | some p_info =>
      if p_info.ep_attr_max_msg_size > 0 then
        if p_info.tx_attr_inject_size ≥ max_buffered_send then
          .ok (ret, info, p_info.ep_attr_max_msg_size, p_info.tx_attr_inject_size)
        else
          .error "assertion failed: inject_size >= shmem_transport_ofi_max_buffered_send"
      else
        .ok (1, info, max_msg_size, max_buffered_send)

/-- A provider that supports every queried combination with 8-byte atomics. -/
def provider_all_valid : atomic_provider :=
  { fi_atomicvalid := fun _ _ => (0, 8)
    fi_fetch_atomicvalid := fun _ _ => (0, 8)
    fi_compare_atomicvalid := fun _ _ => (0, 8) }

/-- A provider whose query for the plain atomic SUM on `int` returns 0 but
reports an atomic size of 0, every other combination being supported. -/
def provider_int_sum_size_zero : atomic_provider :=
  { provider_all_valid with
    fi_atomicvalid := fun dt op =>
      if dt = SHM_INTERNAL_INT ∧ op = SHM_INTERNAL_SUM then (0, 0) else (0, 8) }

/-- Comparison of a pattern with a name by equality, as `strcmp` does: 0 on a
match. -/
def fnmatch_by_equality (pattern name : String) : Int :=
  if pattern = name then 0 else 1

/-! ## `transport_ofi.c`: contexts and the STX pool

Further conventions:

* An option word (`long options`) is the set of flags it carries:
  `options & FLAG` reads a field of `ctx_options`, `options &= ~FLAG` clears
  it; the remaining bits are kept in `other`.
* A handle obtained from the provider (endpoint, counter, completion queue,
  free list) is a `Bool`: whether the pointer is non-NULL.
* The context registry holds the context records themselves where the program
  holds pointers to them; `shmem_transport_ofi_contexts_len` is the length of
  the list.
* The uthash table `shmem_transport_ofi_stx_kvs` is the list of its entries in
  insertion order.
* `malloc` and `realloc` of the context array, of a context and of a table
  entry succeed: their failure raises the fatal error.
* The locks are left out: every function here runs under the one transport
  lock.
-/

/-- The record `struct shmem_internal_tid`: the tag `tid_t` and the value of
the union. `memset` to 0 gives `⟨0, 0⟩`. -/
structure shmem_internal_tid where
  tid_t : Nat
  val : Nat
deriving DecidableEq, Repr

/-- The flags of an option word. -/
structure ctx_options where
  SHMEM_CTX_PRIVATE : Bool
  SHMEMX_CTX_BOUNCE_BUFFER : Bool
  other : Nat
deriving DecidableEq, Repr

/-- The threading levels, in their order `SINGLE < FUNNELED < SERIALIZED <
MULTIPLE`. -/
inductive shmem_thread_level where
  | SHMEM_THREAD_SINGLE
  | SHMEM_THREAD_FUNNELED
  | SHMEM_THREAD_SERIALIZED
  | SHMEM_THREAD_MULTIPLE
deriving DecidableEq, Repr

/-- The test `shmem_internal_thread_level > SHMEM_THREAD_FUNNELED`. -/
def shmem_thread_level.above_funneled : shmem_thread_level → Bool
  | .SHMEM_THREAD_SINGLE => false
  | .SHMEM_THREAD_FUNNELED => false
  | .SHMEM_THREAD_SERIALIZED => true
  | .SHMEM_THREAD_MULTIPLE => true

/-- The type `stx_allocator_t`. -/
inductive stx_allocator_t where
  | ROUNDROBIN
  | RANDOM
deriving DecidableEq, Repr

/-- The record `shmem_transport_ofi_stx_t`, without the provider handle. -/
structure shmem_transport_ofi_stx_t where
  ref_cnt : Int
  is_private : Bool
deriving DecidableEq, Repr

/-- The record `shmem_transport_ofi_stx_kvs_t`, without the hash handle. -/
structure shmem_transport_ofi_stx_kvs_t where
  stx_idx : Int
  tid : shmem_internal_tid
deriving DecidableEq, Repr

/-- The record `shmem_transport_ctx_t`: the fields that context creation and
destruction read or write. -/
structure shmem_transport_ctx_t where
  id : Int
  options : ctx_options
  stx_idx : Int
  tid : shmem_internal_tid
  ep : Bool
  put_cntr : Bool
  get_cntr : Bool
  cq : Bool
  bounce_buffers : Bool
deriving DecidableEq, Repr

/-- A context after `memset(ctxp, 0, sizeof(shmem_transport_ctx_t))`. -/
def shmem_transport_ctx_t.zeroed : shmem_transport_ctx_t :=
  { id := 0
    options := { SHMEM_CTX_PRIVATE := false, SHMEMX_CTX_BOUNCE_BUFFER := false, other := 0 }
    stx_idx := 0
    tid := { tid_t := 0, val := 0 }
    ep := false, put_cntr := false, get_cntr := false, cq := false
    bounce_buffers := false }

/-- `SHMEM_TRANSPORT_CTX_DEFAULT_ID`. -/
def SHMEM_TRANSPORT_CTX_DEFAULT_ID : Int := -1

/-- The globals of `transport_ofi.c` that contexts and the STX pool use:
`shmem_internal_thread_level`, the parameter `OFI_STX_DISABLE_PRIVATE`, the
allocator settings, the pool, the owner table, the cursor `rr_start_idx` of
`shmem_transport_ofi_stx_search_shared`, the values `rand_r` will return from
now on (`rand_r_values`), the bounce-buffer settings, the context registry and
the default context. -/
structure TransportState where
  shmem_internal_thread_level : shmem_thread_level
  OFI_STX_DISABLE_PRIVATE : Bool
  shmem_transport_ofi_stx_allocator : stx_allocator_t
  shmem_transport_ofi_stx_max : Int
  shmem_transport_ofi_stx_threshold : Int
  shmem_transport_ofi_stx_pool : List shmem_transport_ofi_stx_t
  shmem_transport_ofi_stx_kvs : List shmem_transport_ofi_stx_kvs_t
  rr_start_idx : Int
  rand_r_values : List Nat
  shmem_transport_ofi_bounce_buffer_size : Nat
  shmem_transport_ofi_max_bounce_buffers : Int
  shmem_transport_ofi_contexts : List (Option shmem_transport_ctx_t)
  shmem_transport_ctx_default : shmem_transport_ctx_t
deriving DecidableEq, Repr

/-- `shmem_transport_ofi_grow_size`. -/
def shmem_transport_ofi_grow_size : Nat := 128

/-- The slot `shmem_transport_ofi_stx_pool[i]`. -/
def stx_pool_get (pool : List shmem_transport_ofi_stx_t) (i : Int) :
    shmem_transport_ofi_stx_t :=
  pool.getD i.toNat { ref_cnt := 0, is_private := false }

/-- The pool after `shmem_transport_ofi_stx_pool[i].ref_cnt++`. -/
def stx_pool_incr (pool : List shmem_transport_ofi_stx_t) (i : Int) :
    List shmem_transport_ofi_stx_t :=
  pool.set i.toNat { stx_pool_get pool i with ref_cnt := (stx_pool_get pool i).ref_cnt + 1 }

/-- The pool after `shmem_transport_ofi_stx_pool[i].ref_cnt--`. -/
def stx_pool_decr (pool : List shmem_transport_ofi_stx_t) (i : Int) :
    List shmem_transport_ofi_stx_t :=
  pool.set i.toNat { stx_pool_get pool i with ref_cnt := (stx_pool_get pool i).ref_cnt - 1 }

/-- The pool after `shmem_transport_ofi_stx_pool[i].is_private = v`. -/
def stx_pool_set_private (pool : List shmem_transport_ofi_stx_t) (i : Int) (v : Bool) :
    List shmem_transport_ofi_stx_t :=
  pool.set i.toNat { stx_pool_get pool i with is_private := v }

/-- `shmem_transport_ofi_is_private`. -/
def shmem_transport_ofi_is_private (s : TransportState) (options : ctx_options) : Bool :=
  if !s.OFI_STX_DISABLE_PRIVATE && options.SHMEM_CTX_PRIVATE then true else false

/-- The loop of `shmem_transport_ofi_stx_search_unused` from index `i`, for
`fuel` more iterations. -/
def stx_search_unused_loop (pool : List shmem_transport_ofi_stx_t) :
    Nat → Int → Except String Int
  | 0, _ => .ok (-1)
  | fuel + 1, i =>
    if (stx_pool_get pool i).ref_cnt = 0 then
      if (stx_pool_get pool i).is_private then
        .error "assertion failed: !shmem_transport_ofi_stx_pool[i].is_private"
      else
        .ok i
    else
      stx_search_unused_loop pool fuel (i + 1)

/-- `shmem_transport_ofi_stx_search_unused`. -/
def shmem_transport_ofi_stx_search_unused (s : TransportState) : Except String Int :=
  stx_search_unused_loop s.shmem_transport_ofi_stx_pool s.shmem_transport_ofi_stx_max.toNat 0

/-- The condition both allocators test on a slot: in use, within the
threshold (or no threshold), not private. -/
def stx_shareable (slot : shmem_transport_ofi_stx_t) (threshold : Int) : Bool :=
  decide (slot.ref_cnt > 0) && (decide (slot.ref_cnt ≤ threshold) || decide (threshold = -1))
    && !slot.is_private

/-- The round-robin loop of `shmem_transport_ofi_stx_search_shared` from
index `i`, for `fuel` more iterations: the slot found and the new value of
`rr_start_idx`, or `none`. -/
def stx_search_shared_rr_loop (pool : List shmem_transport_ofi_stx_t)
    (stx_max threshold : Int) : Nat → Int → Option (Int × Int)
  | 0, _ => none
  | fuel + 1, i =>
    if stx_shareable (stx_pool_get pool i) threshold then
      some (i, (i + 1).tmod stx_max)
    else
      stx_search_shared_rr_loop pool stx_max threshold fuel ((i + 1).tmod stx_max)

/-- `RAND_MAX + 1` of the C library, `2 ^ 31`. -/
def RAND_MAX_plus_one : Nat := 2147483648

/-- The probing loop of the random allocator: each value `u` of `rand_r` gives
the index `(int) (u / (RAND_MAX + 1.0) * stx_max)`, which for a pool of fewer
than `2 ^ 22` slots is the integer quotient `u * stx_max / (RAND_MAX + 1)`;
the loop ends at the first index whose slot can be shared.  The result is the
index and the values of `rand_r` still to come. -/
def stx_search_shared_random_probe (pool : List shmem_transport_ofi_stx_t)
    (stx_max threshold : Int) : List Nat → Except String (Int × List Nat)
  | [] => .error "random probe of the STX pool did not end"
  | u :: rest =>
    let stx_idx := ((u : Int) * stx_max) / (RAND_MAX_plus_one : Int)
    if stx_shareable (stx_pool_get pool stx_idx) threshold then
      .ok (stx_idx, rest)
    else
      stx_search_shared_random_probe pool stx_max threshold rest

/-- `shmem_transport_ofi_stx_search_shared`: the index found, or −1, and the
globals afterwards (the cursor, the values of `rand_r` to come). -/
def shmem_transport_ofi_stx_search_shared (s : TransportState) (threshold : Int) :
    Except String (Int × TransportState) :=
  match s.shmem_transport_ofi_stx_allocator with
  | .ROUNDROBIN =>
    match stx_search_shared_rr_loop s.shmem_transport_ofi_stx_pool
        s.shmem_transport_ofi_stx_max threshold s.shmem_transport_ofi_stx_max.toNat
        s.rr_start_idx with
    | some (stx_idx, rr) => .ok (stx_idx, { s with rr_start_idx := rr })
    | none => .ok (-1, s)
  | .RANDOM =>
    if (List.range s.shmem_transport_ofi_stx_max.toNat).any
        (fun i => stx_shareable (stx_pool_get s.shmem_transport_ofi_stx_pool (i : Int))
          threshold) then
      match stx_search_shared_random_probe s.shmem_transport_ofi_stx_pool
          s.shmem_transport_ofi_stx_max threshold s.rand_r_values with
      | .ok (stx_idx, rest) => .ok (stx_idx, { s with rand_r_values := rest })
      | .error e => .error e
    else
      .ok (-1, s)

/-- `shmem_transport_ofi_stx_allocate`: the context and the globals
afterwards. -/
def shmem_transport_ofi_stx_allocate (s : TransportState) (ctx : shmem_transport_ctx_t) :
    Except String (shmem_transport_ctx_t × TransportState) :=
  if shmem_transport_ofi_is_private s ctx.options then
    match s.shmem_transport_ofi_stx_kvs.find? (fun e => decide (e.tid = ctx.tid)) with
    | some f =>
      .ok ({ ctx with stx_idx := f.stx_idx },
        { s with
          shmem_transport_ofi_stx_pool := stx_pool_incr s.shmem_transport_ofi_stx_pool f.stx_idx })
    | none =>
      match shmem_transport_ofi_stx_search_unused s with
      | .error e => .error e
      | .ok unused_idx =>
        if unused_idx < 0 then
          match shmem_transport_ofi_stx_search_shared s s.shmem_transport_ofi_stx_threshold with
          | .error e => .error e
          | .ok (idx1, s1) =>
            match (if idx1 < 0 then shmem_transport_ofi_stx_search_shared s1 (-1)
                   else .ok (idx1, s1)) with
            | .error e => .error e
            | .ok (stx_idx, s2) =>
              if stx_idx ≥ 0 then
                .ok ({ ctx with
                       stx_idx := stx_idx
                       options := { ctx.options with SHMEM_CTX_PRIVATE := false } },
                  { s2 with
                    shmem_transport_ofi_stx_pool :=
                      stx_pool_incr s2.shmem_transport_ofi_stx_pool stx_idx })
              else
                .error "assertion failed: stx_idx >= 0"
        else
          .ok ({ ctx with stx_idx := unused_idx },
            { s with
              shmem_transport_ofi_stx_pool :=
                stx_pool_set_private (stx_pool_incr s.shmem_transport_ofi_stx_pool unused_idx)
                  unused_idx true
              shmem_transport_ofi_stx_kvs :=
                s.shmem_transport_ofi_stx_kvs ++ [{ stx_idx := unused_idx, tid := ctx.tid }] })
  else
    match shmem_transport_ofi_stx_search_shared s s.shmem_transport_ofi_stx_threshold with
    | .error e => .error e
    | .ok (idx1, s1) =>
      match (if idx1 < 0 then shmem_transport_ofi_stx_search_unused s1 else .ok idx1) with
      | .error e => .error e
      | .ok idx2 =>
        match (if idx2 < 0 then shmem_transport_ofi_stx_search_shared s1 (-1)
               else .ok (idx2, s1)) with
        | .error e => .error e
        | .ok (stx_idx, s2) =>
          if stx_idx ≥ 0 then
            .ok ({ ctx with stx_idx := stx_idx },
              { s2 with
                shmem_transport_ofi_stx_pool :=
                  stx_pool_incr s2.shmem_transport_ofi_stx_pool stx_idx })
          else
            .error "assertion failed: stx_idx >= 0"

/-- The return codes of the provider calls made while one context is set up:
the two `fi_cntr_open`, `fi_cq_open`, `fi_endpoint`, and
`bind_enable_ep_resources` as a whole. -/
structure ctx_provider_results where
  put_cntr_open : Int
  get_cntr_open : Int
  cq_open : Int
  endpoint : Int
  bind_enable : Int
deriving DecidableEq, Repr

/-- The return codes of the `fi_close` calls made while one context is torn
down. -/
structure ctx_close_results where
  ep_close : Int
  put_cntr_close : Int
  get_cntr_close : Int
  cq_close : Int
deriving DecidableEq, Repr

/-- `shmem_transport_ofi_ctx_init`.  `gettid` is what
`shmem_transport_ofi_gettid()` returns on the calling thread.  The result is
(return value, the context afterwards, the globals afterwards). -/
def shmem_transport_ofi_ctx_init (s : TransportState) (ctx : shmem_transport_ctx_t)
    (id : Int) (gettid : shmem_internal_tid) (prov : ctx_provider_results) :
    Except String (Int × shmem_transport_ctx_t × TransportState) :=
  let ctx := { ctx with id := id }
  if prov.put_cntr_open ≠ 0 then .ok (prov.put_cntr_open, ctx, s) else
  let ctx := { ctx with put_cntr := true }
  if prov.get_cntr_open ≠ 0 then .ok (prov.get_cntr_open, ctx, s) else
  let ctx := { ctx with get_cntr := true }
  if prov.cq_open ≠ 0 then .ok (prov.cq_open, ctx, s) else
  let ctx := { ctx with cq := true }
  if prov.endpoint ≠ 0 then .ok (prov.endpoint, ctx, s) else
  let ctx := { ctx with ep := true }
  let ctx :=
    if s.shmem_internal_thread_level.above_funneled
        && shmem_transport_ofi_is_private s ctx.options then
      { ctx with tid := gettid }
    else
      ctx
  match shmem_transport_ofi_stx_allocate s ctx with
  | .error e => .error e
  | .ok (ctx, s) =>
    if prov.bind_enable ≠ 0 then .ok (prov.bind_enable, ctx, s) else
    if ctx.options.SHMEMX_CTX_BOUNCE_BUFFER
        && decide (s.shmem_transport_ofi_bounce_buffer_size > 0)
        && decide (s.shmem_transport_ofi_max_bounce_buffers > 0) then
      .ok (0, { ctx with bounce_buffers := true }, s)
    else
      .ok (0,
        { ctx with
          options := { ctx.options with SHMEMX_CTX_BOUNCE_BUFFER := false }
          bounce_buffers := false }, s)

/-- The part of `shmem_transport_ctx_destroy` under `if (ctx->stx_idx >= 0)`:
the release of the context's STX. -/
def shmem_transport_ctx_destroy_stx (s : TransportState) (ctx : shmem_transport_ctx_t) :
    Except String TransportState :=
  if ctx.stx_idx ≥ 0 then
    if shmem_transport_ofi_is_private s ctx.options then
      match s.shmem_transport_ofi_stx_kvs.find? (fun e => decide (e.tid = ctx.tid)) with
      | some e =>
        let pool := stx_pool_decr s.shmem_transport_ofi_stx_pool ctx.stx_idx
        if (stx_pool_get pool ctx.stx_idx).ref_cnt = 0 then
          .ok { s with
                shmem_transport_ofi_stx_kvs := s.shmem_transport_ofi_stx_kvs.erase e
                shmem_transport_ofi_stx_pool := stx_pool_set_private pool ctx.stx_idx false }
        else
          .ok { s with shmem_transport_ofi_stx_pool := pool }
      | none => .ok s
    else
      let pool := stx_pool_decr s.shmem_transport_ofi_stx_pool ctx.stx_idx
      if (stx_pool_get pool ctx.stx_idx).is_private then
        .error "Destroyed a ctx with an inconsistent is_private field"
      else
        .ok { s with shmem_transport_ofi_stx_pool := pool }
  else
    .ok s

/-- `shmem_transport_ctx_destroy`, without the debug dump. -/
def shmem_transport_ctx_destroy (s : TransportState) (ctx : shmem_transport_ctx_t)
    (close : ctx_close_results) : Except String TransportState :=
  if ctx.ep && decide (close.ep_close ≠ 0) then
    .error "Context endpoint close failed"
  else
    match shmem_transport_ctx_destroy_stx s ctx with
    | .error e => .error e
    | .ok s =>
      if ctx.put_cntr && decide (close.put_cntr_close ≠ 0) then
        .error "Context put CNTR close failed"
      else if ctx.get_cntr && decide (close.get_cntr_close ≠ 0) then
        .error "Context get CNTR close failed"
      else if ctx.cq && decide (close.cq_close ≠ 0) then
        .error "Context CQ close failed"
      else if ctx.id ≥ 0 then
        .ok { s with
              shmem_transport_ofi_contexts :=
                s.shmem_transport_ofi_contexts.set ctx.id.toNat none }
      else if ctx.id ≠ SHMEM_TRANSPORT_CTX_DEFAULT_ID then
        .error "Attempted to destroy an invalid context"
      else
        .ok s

/-- The first loop of `shmem_transport_ctx_create`: the least index from `id`
on whose registry slot is NULL, or the length of the registry. -/
def ctx_create_find_slot : List (Option shmem_transport_ctx_t) → Nat → Nat
  | [], id => id
  | none :: _, id => id
  | some _ :: rest, id => ctx_create_find_slot rest (id + 1)

/-- `shmem_transport_ctx_create`.  `ctx` is what `*ctx` held before the call;
`close` gives the return codes of the closes made if the set-up fails and the
half-built context is destroyed.  The result is (return value, `*ctx`
afterwards, globals afterwards). -/
def shmem_transport_ctx_create (s : TransportState) (options : ctx_options)
    (ctx : Option shmem_transport_ctx_t) (gettid : shmem_internal_tid)
    (prov : ctx_provider_results) (close : ctx_close_results) :
    Except String (Int × Option shmem_transport_ctx_t × TransportState) :=
  let id := ctx_create_find_slot s.shmem_transport_ofi_contexts 0
  let s :=
    if id ≥ s.shmem_transport_ofi_contexts.length then
      { s with
        shmem_transport_ofi_contexts :=
          s.shmem_transport_ofi_contexts ++ List.replicate shmem_transport_ofi_grow_size none }
    else
      s
  let ctxp := { shmem_transport_ctx_t.zeroed with stx_idx := -1, options := options }
  match shmem_transport_ofi_ctx_init s ctxp (id : Int) gettid prov with
  | .error e => .error e
  | .ok (ret, ctxp, s) =>
    if ret ≠ 0 then
      match shmem_transport_ctx_destroy s ctxp close with
      | .error e => .error e
      | .ok s => .ok (ret, ctx, s)
    else
      .ok (ret, some ctxp,
        { s with
          shmem_transport_ofi_contexts := s.shmem_transport_ofi_contexts.set id (some ctxp) })

/-- The pool `shmem_transport_startup` sets up: `shmem_transport_ofi_stx_max`
slots with `ref_cnt = 0` and `is_private = 0`, and the default context set up
on it with `SHMEM_TRANSPORT_CTX_DEFAULT_ID`.  The result is (return value of
`shmem_transport_ofi_ctx_init`, globals afterwards). -/
def shmem_transport_startup_contexts (s : TransportState) (gettid : shmem_internal_tid)
    (prov : ctx_provider_results) : Except String (Int × TransportState) :=
  let s := { s with
    shmem_transport_ofi_stx_pool :=
      List.replicate s.shmem_transport_ofi_stx_max.toNat { ref_cnt := 0, is_private := false } }
  match shmem_transport_ofi_ctx_init s s.shmem_transport_ctx_default
      SHMEM_TRANSPORT_CTX_DEFAULT_ID gettid prov with
  | .error e => .error e
  | .ok (ret, ctx, s) => .ok (ret, { s with shmem_transport_ctx_default := ctx })

/-- The globals when `shmem_transport_startup` begins, after
`shmem_transport_init` with the given settings: no pool yet, an empty owner
table, the cursor at 0, an empty registry, and the default context zero-filled
but for its options, `SHMEMX_CTX_BOUNCE_BUFFER`. -/
def TransportState.at_startup (level : shmem_thread_level) (disable_private : Bool)
    (allocator : stx_allocator_t) (stx_max stx_threshold : Int) (rand_r_values : List Nat)
    (bounce_buffer_size : Nat) (max_bounce_buffers : Int) : TransportState :=
  { shmem_internal_thread_level := level
    OFI_STX_DISABLE_PRIVATE := disable_private
    shmem_transport_ofi_stx_allocator := allocator
    shmem_transport_ofi_stx_max := stx_max
    shmem_transport_ofi_stx_threshold := stx_threshold
    shmem_transport_ofi_stx_pool := []
    shmem_transport_ofi_stx_kvs := []
    rr_start_idx := 0
    rand_r_values := rand_r_values
    shmem_transport_ofi_bounce_buffer_size := bounce_buffer_size
    shmem_transport_ofi_max_bounce_buffers := max_bounce_buffers
    shmem_transport_ofi_contexts := []
    shmem_transport_ctx_default :=
      { shmem_transport_ctx_t.zeroed with
        options := { SHMEM_CTX_PRIVATE := false, SHMEMX_CTX_BOUNCE_BUFFER := true,
                     other := 0 } } }

/-- Provider calls that all succeed. -/
def provider_calls_ok : ctx_provider_results :=
  { put_cntr_open := 0, get_cntr_open := 0, cq_open := 0, endpoint := 0, bind_enable := 0 }

/-- Closes that all succeed. -/
def closes_ok : ctx_close_results :=
  { ep_close := 0, put_cntr_close := 0, get_cntr_close := 0, cq_close := 0 }

/-! ## Runs of the context layer -/

/-- What a live context holds of the STX pool: the slot it is bound to, its
thread id, and whether it counts as private
(`shmem_transport_ofi_is_private` of its options). -/
structure stx_binding where
  stx_idx : Int
  tid : shmem_internal_tid
  is_private : Bool
deriving DecidableEq, Repr

/-- The binding of a context. -/
def ctx_binding (s : TransportState) (ctx : shmem_transport_ctx_t) : stx_binding :=
  { stx_idx := ctx.stx_idx, tid := ctx.tid,
    is_private := shmem_transport_ofi_is_private s ctx.options }

/-- The sum of `ref_cnt` over all slots of the pool. -/
def stx_ref_cnt_sum (s : TransportState) : Int :=
  (s.shmem_transport_ofi_stx_pool.map (fun slot => slot.ref_cnt)).sum

/-- Whether the default context has been set up and not yet destroyed. -/
inductive default_ctx_phase where
  | absent
  | live
  | destroyed
deriving DecidableEq, Repr

/-- The live contexts: the default context while it is live, and the contexts
in the registry. -/
def live_contexts (s : TransportState) (phase : default_ctx_phase) :
    List shmem_transport_ctx_t :=
  (if phase = .live then [s.shmem_transport_ctx_default] else [])
    ++ s.shmem_transport_ofi_contexts.reduceOption

/-- The states a run of the context layer can be in, with the phase of the
default context.  A run starts from the initial pool
(`shmem_transport_ofi_stx_max ≥ 1` slots, all with `ref_cnt = 0` and not
private, an empty owner table, an empty registry, the options of the
default context as `shmem_transport_init` sets them); its steps are the set-up of
the default context by `shmem_transport_ofi_ctx_init`, as in
`shmem_transport_startup`, any returning `shmem_transport_ctx_create`, and any
returning `shmem_transport_ctx_destroy` of a context of the registry or of the
live default context. -/
inductive TransportReachable : TransportState → default_ctx_phase → Prop
  | init (s : TransportState)
      (hmax : 1 ≤ s.shmem_transport_ofi_stx_max)
      (hpool : s.shmem_transport_ofi_stx_pool =
        List.replicate s.shmem_transport_ofi_stx_max.toNat
          { ref_cnt := 0, is_private := false })
      (hkvs : s.shmem_transport_ofi_stx_kvs = [])
      (hrr : s.rr_start_idx = 0)
      (hreg : s.shmem_transport_ofi_contexts = [])
      (hdef : s.shmem_transport_ctx_default.options =
        { SHMEM_CTX_PRIVATE := false, SHMEMX_CTX_BOUNCE_BUFFER := true, other := 0 }) :
      TransportReachable s .absent
  | startup (s : TransportState) (gettid : shmem_internal_tid)
      (prov : ctx_provider_results) (ctx : shmem_transport_ctx_t) (s1 : TransportState)
      (hs : TransportReachable s .absent)
      (h : shmem_transport_ofi_ctx_init s s.shmem_transport_ctx_default
        SHMEM_TRANSPORT_CTX_DEFAULT_ID gettid prov = .ok (0, ctx, s1)) :
      TransportReachable { s1 with shmem_transport_ctx_default := ctx } .live
  | create (s : TransportState) (phase : default_ctx_phase) (options : ctx_options)
      (ctx : Option shmem_transport_ctx_t) (gettid : shmem_internal_tid)
      (prov : ctx_provider_results) (close : ctx_close_results) (ret : Int)
      (out : Option shmem_transport_ctx_t) (s1 : TransportState)
      (hs : TransportReachable s phase)
      (h : shmem_transport_ctx_create s options ctx gettid prov close = .ok (ret, out, s1)) :
      TransportReachable s1 phase
  | destroy (s : TransportState) (phase : default_ctx_phase) (i : Nat)
      (ctx : shmem_transport_ctx_t) (close : ctx_close_results) (s1 : TransportState)
      (hs : TransportReachable s phase)
      (hlive : s.shmem_transport_ofi_contexts[i]? = some (some ctx))
      (h : shmem_transport_ctx_destroy s ctx close = .ok s1) :
      TransportReachable s1 phase
  | destroy_default (s : TransportState) (close : ctx_close_results) (s1 : TransportState)
      (hs : TransportReachable s .live)
      (h : shmem_transport_ctx_destroy s s.shmem_transport_ctx_default close = .ok s1) :
      TransportReachable s1 .destroyed

/-- The invariant of the STX pool that the runs keep, stated for the globals
and the bindings of the live contexts. -/
structure PoolInv (s : TransportState) (L : List stx_binding) : Prop where
  len : s.shmem_transport_ofi_stx_pool.length = s.shmem_transport_ofi_stx_max.toNat
  max_pos : 1 ≤ s.shmem_transport_ofi_stx_max
  cursor : 0 ≤ s.rr_start_idx ∧ s.rr_start_idx < s.shmem_transport_ofi_stx_max
  refs : ∀ i : Nat, i < s.shmem_transport_ofi_stx_pool.length →
    (stx_pool_get s.shmem_transport_ofi_stx_pool i).ref_cnt =
      L.countP (fun b => decide (b.stx_idx = (i : Int)))
  bound : ∀ b ∈ L, 0 ≤ b.stx_idx ∧ b.stx_idx < s.shmem_transport_ofi_stx_max
  owner : ∀ b ∈ L, b.is_private = true →
    ({ stx_idx := b.stx_idx, tid := b.tid } : shmem_transport_ofi_stx_kvs_t)
      ∈ s.shmem_transport_ofi_stx_kvs
  kvs_ok : ∀ e ∈ s.shmem_transport_ofi_stx_kvs,
    0 ≤ e.stx_idx ∧ e.stx_idx < s.shmem_transport_ofi_stx_max ∧
      (stx_pool_get s.shmem_transport_ofi_stx_pool e.stx_idx).is_private = true
  kvs_tid : (s.shmem_transport_ofi_stx_kvs.map (fun e => e.tid)).Nodup
  kvs_idx : (s.shmem_transport_ofi_stx_kvs.map (fun e => e.stx_idx)).Nodup
  priv : ∀ i : Nat, i < s.shmem_transport_ofi_stx_pool.length →
    (stx_pool_get s.shmem_transport_ofi_stx_pool i).is_private = true →
      1 ≤ (stx_pool_get s.shmem_transport_ofi_stx_pool i).ref_cnt
  shared : ∀ b ∈ L, b.is_private = false →
    (stx_pool_get s.shmem_transport_ofi_stx_pool b.stx_idx).is_private = false
  total : stx_ref_cnt_sum s = L.length

/-- The states of the STX pool alone, with the contexts bound to it: from the
initial pool, by any returning `shmem_transport_ofi_stx_allocate` and any
returning STX release of `shmem_transport_ctx_destroy` for a context that is
bound. -/
inductive StxPoolReachable : TransportState → List shmem_transport_ctx_t → Prop
  | init (s : TransportState)
      (hmax : 1 ≤ s.shmem_transport_ofi_stx_max)
      (hpool : s.shmem_transport_ofi_stx_pool =
        List.replicate s.shmem_transport_ofi_stx_max.toNat
          { ref_cnt := 0, is_private := false })
      (hkvs : s.shmem_transport_ofi_stx_kvs = [])
      (hrr : s.rr_start_idx = 0) :
      StxPoolReachable s []
  | allocate (s : TransportState) (live : List shmem_transport_ctx_t)
      (ctx ctx1 : shmem_transport_ctx_t) (s1 : TransportState)
      (hs : StxPoolReachable s live)
      (h : shmem_transport_ofi_stx_allocate s ctx = .ok (ctx1, s1)) :
      StxPoolReachable s1 (ctx1 :: live)
  | release (s : TransportState) (live : List shmem_transport_ctx_t)
      (ctx : shmem_transport_ctx_t) (s1 : TransportState)
      (hs : StxPoolReachable s live)
      (hlive : ctx ∈ live)
      (h : shmem_transport_ctx_destroy_stx s ctx = .ok s1) :
      StxPoolReachable s1 (live.erase ctx)

/-- A pool of two slots when a run begins: thread level `SHMEM_THREAD_MULTIPLE`,
private contexts enabled, the round-robin allocator, threshold 1. -/
def pool_of_two : TransportState :=
  { TransportState.at_startup .SHMEM_THREAD_MULTIPLE false .ROUNDROBIN 2 1 [] 0 0 with
    shmem_transport_ofi_stx_pool := List.replicate 2 { ref_cnt := 0, is_private := false } }

/-- A context that asks for `SHMEM_CTX_PRIVATE` on the thread `tid`, before it
is bound to a slot. -/
def private_ctx_of (tid : Nat) : shmem_transport_ctx_t :=
  { shmem_transport_ctx_t.zeroed with
    stx_idx := -1
    tid := { tid_t := 0, val := tid }
    options := { SHMEM_CTX_PRIVATE := true, SHMEMX_CTX_BOUNCE_BUFFER := false, other := 0 } }

/-- The invariant of the context layer that the runs keep: the pool invariant
for the bindings of the live contexts, every context of the registry carrying
its index as id, the live default context carrying
`SHMEM_TRANSPORT_CTX_DEFAULT_ID`, and the default context not private. -/
structure TransportInv (s : TransportState) (phase : default_ctx_phase) : Prop where
  pool : PoolInv s ((live_contexts s phase).map (ctx_binding s))
  registry : ∀ (i : Nat) (c : shmem_transport_ctx_t),
    s.shmem_transport_ofi_contexts[i]? = some (some c) → c.id = (i : Int)
  default_id : phase = .live →
    s.shmem_transport_ctx_default.id = SHMEM_TRANSPORT_CTX_DEFAULT_ID
  default_opt : s.shmem_transport_ctx_default.options.SHMEM_CTX_PRIVATE = false

/-- The default context of `pool_of_two` once `shmem_transport_ofi_ctx_init`
has set it up: bound to slot 0, bounce buffering off (the buffer size is 0). -/
def default_ctx_set_up : shmem_transport_ctx_t :=
  { id := -1
    options := { SHMEM_CTX_PRIVATE := false, SHMEMX_CTX_BOUNCE_BUFFER := false, other := 0 }
    stx_idx := 0
    tid := { tid_t := 0, val := 0 }
    ep := true
    put_cntr := true
    get_cntr := true
    cq := true
    bounce_buffers := false }

/-- The globals of `pool_of_two` after the set-up of the default context. -/
def pool_of_two_started : TransportState :=
  { pool_of_two with
    shmem_transport_ofi_stx_pool :=
      [{ ref_cnt := 1, is_private := false }, { ref_cnt := 0, is_private := false }]
    shmem_transport_ctx_default := default_ctx_set_up }

/-- The options of a request for a private context. -/
def options_private : ctx_options :=
  { SHMEM_CTX_PRIVATE := true, SHMEMX_CTX_BOUNCE_BUFFER := false, other := 0 }

/-- A private context of the thread `tid` as `shmem_transport_ctx_create`
leaves it: registry index `id`, bound to the slot `stx_idx`. -/
def private_ctx_created (id stx_idx : Int) (tid : Nat) : shmem_transport_ctx_t :=
  { id := id
    options := options_private
    stx_idx := stx_idx
    tid := { tid_t := 0, val := tid }
    ep := true
    put_cntr := true
    get_cntr := true
    cq := true
    bounce_buffers := false }

/-! ## The queries behind the start-up check of atomics -/

/-- The answers of the provider to the queries that one `*atomicvalid_DTxOP`
call makes when it scans its whole table: one (return code, atomic size) per
datatype and operation. -/
def atomic_table_answers (query : shm_internal_datatype → shm_internal_op → Int × Int)
    (DT_MAX OPS_MAX : Nat) (DT : List shm_internal_datatype) (OPS : List shm_internal_op) :
    List (Int × Int) :=
  ((DT.take DT_MAX).map (fun dt => (OPS.take OPS_MAX).map (fun op => query dt op))).flatten

/-- The answers to the queries of `atomic_limitations_check` for the tables it
scans with `general_atomic_sup`: the standard, the extended and the internally
required combinations. -/
def atomic_general_answers (p : atomic_provider) (ENABLE_FORTRAN : Bool) : List (Int × Int) :=
  atomic_table_answers p.fi_atomicvalid 5 1 DT_AMO_STANDARD AMO_STANDARD_OPS
    ++ atomic_table_answers p.fi_fetch_atomicvalid 5 1 DT_AMO_STANDARD FETCH_AMO_STANDARD_OPS
    ++ atomic_table_answers p.fi_compare_atomicvalid 5 1 DT_AMO_STANDARD
        COMPARE_AMO_STANDARD_OPS
    ++ atomic_table_answers p.fi_atomicvalid (if ENABLE_FORTRAN then 8 else 7) 1
        DT_AMO_EXTENDED AMO_EXTENDED_OPS
    ++ atomic_table_answers p.fi_fetch_atomicvalid (if ENABLE_FORTRAN then 8 else 7) 2
        DT_AMO_EXTENDED FETCH_AMO_EXTENDED_OPS
    ++ atomic_table_answers p.fi_compare_atomicvalid 1 1 DT_INTERNAL_REQ INTERNAL_REQ_OPS

/-! ## The layout of the pSync pool -/

/-- The number of pSync slots (of `SHMEM_SYNC_SIZE` words each) in the pool
that `shmem_internal_teams_init` allocates and fills:
`2 * SHMEM_SYNC_SIZE * max_teams` words. -/
def psync_pool_slots (max_teams : Int) : Int := 2 * max_teams

/-- The slot, counted in units of `SHMEM_SYNC_SIZE` words, that a split on a
team uses for the reduction: `&shmem_internal_psync_pool[psync_idx *
SHMEM_SYNC_SIZE]`. -/
def psync_slot_group0 (psync_idx : Int) : Int := psync_idx

/-- The slot, counted in units of `SHMEM_SYNC_SIZE` words, that a split on a
team uses for the barrier: `&shmem_internal_psync_pool[(max_teams + psync_idx) *
SHMEM_SYNC_SIZE]`. -/
def psync_slot_group1 (max_teams psync_idx : Int) : Int := max_teams + psync_idx

/-! ## `transport_ofi.c`: the settings made by init and startup -/

/-- The fields of `shmem_internal_params` that `shmem_transport_init` and
`shmem_transport_startup` read for the STX pool and for bounce buffering.
`BOUNCE_SIZE` is the value as it arrives in the `size_t`
`shmem_transport_ofi_bounce_buffer_size`. -/
structure transport_params where
  OFI_STX_MAX : Int
  OFI_STX_MAX_provided : Bool
  OFI_STX_THRESHOLD : Int
  OFI_STX_ALLOCATOR : String
  OFI_STX_AUTO : Bool
  OFI_STX_NODE_MAX : Int
  OFI_STX_NODE_MAX_provided : Bool
  BOUNCE_SIZE : Nat
  MAX_BOUNCE_BUFFERS : Int
deriving DecidableEq, Repr

/-- `shmem_transport_init`, from the call of `query_for_fabric` on: the
globals it sets that contexts and the STX pool use.  The return codes of
`query_for_fabric`, `allocate_fabric_resources`,
`shmem_transport_ofi_target_ep_init`, `publish_mr_info` and `publish_av_info`
are inputs, as is whether the provider's `mode` has `FI_CONTEXT`.  The result
is (return value, globals afterwards). -/
def shmem_transport_init (s : TransportState) (p : transport_params)
    (query_for_fabric_ret allocate_fabric_resources_ret : Int) (mode_FI_CONTEXT : Bool)
    (target_ep_init_ret publish_mr_info_ret publish_av_info_ret : Int) :
    Int × TransportState :=
  if query_for_fabric_ret ≠ 0 then (query_for_fabric_ret, s) else
  if allocate_fabric_resources_ret ≠ 0 then (allocate_fabric_resources_ret, s) else
  let s :=
    if (s.shmem_internal_thread_level = .SHMEM_THREAD_SINGLE
          ∨ s.shmem_internal_thread_level = .SHMEM_THREAD_FUNNELED)
        ∧ p.OFI_STX_MAX > 1 then
      { s with shmem_transport_ofi_stx_max := 1 }
    else
      { s with shmem_transport_ofi_stx_max := p.OFI_STX_MAX }
  let s := { s with shmem_transport_ofi_stx_threshold := p.OFI_STX_THRESHOLD }
  let s :=
    if p.OFI_STX_ALLOCATOR = "round-robin" then
      { s with shmem_transport_ofi_stx_allocator := .ROUNDROBIN }
    else if p.OFI_STX_ALLOCATOR = "random" then
      { s with shmem_transport_ofi_stx_allocator := .RANDOM }
    else
      { s with shmem_transport_ofi_stx_allocator := .ROUNDROBIN }
  let s :=
    if mode_FI_CONTEXT then
      { s with
        shmem_transport_ofi_bounce_buffer_size := 0
        shmem_transport_ofi_max_bounce_buffers := 0 }
    else
      { s with
        shmem_transport_ofi_bounce_buffer_size := p.BOUNCE_SIZE
        shmem_transport_ofi_max_bounce_buffers := p.MAX_BOUNCE_BUFFERS }
  let s :=
    { s with
      shmem_transport_ctx_default :=
        { s.shmem_transport_ctx_default with
          options := { SHMEM_CTX_PRIVATE := false, SHMEMX_CTX_BOUNCE_BUFFER := true,
                       other := 0 } } }
  if target_ep_init_ret ≠ 0 then (target_ep_init_ret, s) else
  if publish_mr_info_ret ≠ 0 then (publish_mr_info_ret, s) else
  if publish_av_info_ret ≠ 0 then (publish_av_info_ret, s) else
  (0, s)

/-- The first block of `shmem_transport_startup`: the value of
`shmem_transport_ofi_stx_max` when the pool is allocated.  `stx_max` is the
value `shmem_transport_init` left, `tx_ctx_cnt` is
`shmem_transport_ofi_info.fabrics->domain_attr->tx_ctx_cnt`, `num_on_node` what
`shmem_runtime_get_local_size()` returns.  `OFI_STX_NODE_MAX_provided` is a
flag, 1 when the parameter was given. -/
def shmem_transport_startup_stx_max (p : transport_params) (stx_max tx_ctx_cnt : Int)
    (num_on_node shmem_internal_my_pe shmem_internal_num_pes : Int) : Except String Int :=
  if p.OFI_STX_AUTO then
    let chosen : Except String Int :=
      if p.OFI_STX_NODE_MAX_provided then
        if (if p.OFI_STX_NODE_MAX_provided then (1 : Int) else 0) > 0 then
          .ok p.OFI_STX_NODE_MAX
        else
          .error "OFI_STX_NODE_MAX must be greater than zero"
      else
        .ok tx_ctx_cnt
    match chosen with
    | .error e => .error e
    | .ok ofi_tx_ctx_cnt =>
      let stx_max := ofi_tx_ctx_cnt.tdiv num_on_node
      let remainder := ofi_tx_ctx_cnt.tmod num_on_node
      let node_pe := shmem_internal_my_pe.tmod shmem_internal_num_pes
      let stx_max :=
        if remainder > 0 ∧ node_pe.tmod num_on_node < remainder then stx_max + 1 else stx_max
      let stx_max := if stx_max ≤ 0 then 1 else stx_max
      .ok stx_max
  else
    .ok stx_max

/-- Parameters as a run without any setting would have them, but for the
given `OFI_STX_MAX`: threshold 1, the round-robin allocator, no auto mode, a
bounce-buffer size of 2048 bytes and 128 buffers. -/
def params_with_stx_max (OFI_STX_MAX : Int) : transport_params :=
  { OFI_STX_MAX := OFI_STX_MAX
    OFI_STX_MAX_provided := true
    OFI_STX_THRESHOLD := 1
    OFI_STX_ALLOCATOR := "round-robin"
    OFI_STX_AUTO := false
    OFI_STX_NODE_MAX := 0
    OFI_STX_NODE_MAX_provided := false
    BOUNCE_SIZE := 2048
    MAX_BOUNCE_BUFFERS := 128 }

/-- The globals of the context layer before `shmem_transport_init`, all
zero-filled, at the given threading level. -/
def TransportState.zeroed (level : shmem_thread_level) : TransportState :=
  { shmem_internal_thread_level := level
    OFI_STX_DISABLE_PRIVATE := false
    shmem_transport_ofi_stx_allocator := .ROUNDROBIN
    shmem_transport_ofi_stx_max := 0
    shmem_transport_ofi_stx_threshold := 0
    shmem_transport_ofi_stx_pool := []
    shmem_transport_ofi_stx_kvs := []
    rr_start_idx := 0
    rand_r_values := []
    shmem_transport_ofi_bounce_buffer_size := 0
    shmem_transport_ofi_max_bounce_buffers := 0
    shmem_transport_ofi_contexts := []
    shmem_transport_ctx_default := shmem_transport_ctx_t.zeroed }

/-- The pool `pool_of_two` with bounce buffering on: buffers of 2048 bytes, at
most 128 of them. -/
def pool_of_two_bouncing : TransportState :=
  { pool_of_two with
    shmem_transport_ofi_bounce_buffer_size := 2048
    shmem_transport_ofi_max_bounce_buffers := 128 }

/-- The default context of `pool_of_two_bouncing` once
`shmem_transport_ofi_ctx_init` has set it up: bound to slot 0, with its
bounce-buffer free list. -/
def default_ctx_bouncing : shmem_transport_ctx_t :=
  { id := -1
    options := { SHMEM_CTX_PRIVATE := false, SHMEMX_CTX_BOUNCE_BUFFER := true, other := 0 }
    stx_idx := 0
    tid := { tid_t := 0, val := 0 }
    ep := true
    put_cntr := true
    get_cntr := true
    cq := true
    bounce_buffers := true }

/-- A context that asks for no option, before it is bound to a slot. -/
def shared_ctx : shmem_transport_ctx_t :=
  { shmem_transport_ctx_t.zeroed with stx_idx := -1 }

/-- One `shmem_transport_ofi_stx_allocate` for each context of the list, in
order: the contexts and the globals afterwards. -/
def stx_allocate_each (s : TransportState) :
    List shmem_transport_ctx_t → Except String (List shmem_transport_ctx_t × TransportState)
  | [] => .ok ([], s)
  | ctx :: rest =>
    match shmem_transport_ofi_stx_allocate s ctx with
    | .error e => .error e
    | .ok (ctx1, s1) =>
      match stx_allocate_each s1 rest with
      | .error e => .error e
      | .ok (ctxs, s2) => .ok (ctx1 :: ctxs, s2)

/-- The globals of `pool_of_two_started` after `shmem_transport_ctx_create` was
asked for a private context on thread 7: the context has slot 1 to itself. -/
def pool_of_two_with_private : TransportState :=
  { pool_of_two_started with
    shmem_transport_ofi_stx_pool :=
      [{ ref_cnt := 1, is_private := false }, { ref_cnt := 1, is_private := true }]
    shmem_transport_ofi_stx_kvs := [{ stx_idx := 1, tid := { tid_t := 0, val := 7 } }]
    shmem_transport_ofi_contexts :=
      (List.replicate 128 none).set 0 (some (private_ctx_created 0 1 7)) }

/-- The pool `pool_of_two` with `OFI_STX_DISABLE_PRIVATE` set. -/
def pool_of_two_no_private : TransportState :=
  { pool_of_two with OFI_STX_DISABLE_PRIVATE := true }

/-- The globals of `pool_of_two_no_private` after the set-up of the default
context. -/
def pool_of_two_no_private_started : TransportState :=
  { pool_of_two_no_private with
    shmem_transport_ofi_stx_pool :=
      [{ ref_cnt := 1, is_private := false }, { ref_cnt := 0, is_private := false }]
    shmem_transport_ctx_default := default_ctx_set_up }

/-- The globals of `pool_of_two_no_private_started` after
`shmem_transport_ctx_create` was asked for a private context on thread 7: the
context shares slot 0 with the default context, keeps `SHMEM_CTX_PRIVATE` in
its options, and has no thread id recorded. -/
def pool_of_two_no_private_created : TransportState :=
  { pool_of_two_no_private_started with
    shmem_transport_ofi_stx_pool :=
      [{ ref_cnt := 2, is_private := false }, { ref_cnt := 0, is_private := false }]
    rr_start_idx := 1
    shmem_transport_ofi_contexts :=
      (List.replicate 128 none).set 0 (some (private_ctx_created 0 0 0)) }

/-- The world team of a job of `2 ^ 24 + 1 = 16777217` PEs, as
`shmem_internal_teams_init` leaves it. -/
def world_of_16777217 : shmem_internal_team_t :=
  { team_id := 1, psync_idx := 0, start := 0, stride := 1, size := 16777217,
    my_pe := 0, config := 0, config_mask := 0 }

/-! # Theorems -/

theorem pe_in_active_set_hit (g st sd sz n : Int) (hsd : 1 ≤ sd)
    (h0 : 0 ≤ n) (h1 : n < sz) (hg : g = st + n * sd) :
    shmem_internal_pe_in_active_set g st sd sz = (true, n) := by
  have hd : g - st = n * sd := by rw [hg]; ring
  have hne : sd ≠ 0 := by omega
  have hm : (g - st).tmod sd = 0 := by rw [hd]; exact Int.mul_tmod_left n sd
  have hq : (g - st).tdiv sd = n := by rw [hd]; exact Int.mul_tdiv_cancel n hne
  simp [shmem_internal_pe_in_active_set, hm, hq, h0, h1]

theorem pe_in_active_set_cases (g st sd sz : Int) :
    (shmem_internal_pe_in_active_set g st sd sz = (false, -1) ∧
      ¬ ((g - st).tmod sd = 0 ∧ 0 ≤ (g - st).tdiv sd ∧ (g - st).tdiv sd < sz)) ∨
    (shmem_internal_pe_in_active_set g st sd sz = (true, (g - st).tdiv sd) ∧
      ((g - st).tmod sd = 0 ∧ 0 ≤ (g - st).tdiv sd ∧ (g - st).tdiv sd < sz) ∧
      g = st + (g - st).tdiv sd * sd) := by
  by_cases h : (g - st).tmod sd = 0 ∧ 0 ≤ (g - st).tdiv sd ∧ (g - st).tdiv sd < sz
  · right
    refine ⟨by simp [shmem_internal_pe_in_active_set, h], h, ?_⟩
    have := Int.tdiv_add_tmod (g - st) sd
    rw [h.1] at this
    linarith [mul_comm sd ((g - st).tdiv sd)]
  · left
    exact ⟨by simp only [shmem_internal_pe_in_active_set, if_neg h], h⟩

/-- The world rank of a member of a team that meets the team invariant lies
between the team's start and the number of PEs. -/
theorem team_invariant_world_rank (num_pes : Int) (src : shmem_internal_team_t) (src_pe : Int)
    (hsrc : team_invariant num_pes src) (h0 : 0 ≤ src_pe) (h1 : src_pe < src.size) :
    src.start ≤ src.start + src_pe * src.stride ∧
    src.start + src_pe * src.stride < num_pes := by
  obtain ⟨_, hs2, _, hs4⟩ := hsrc
  constructor
  · nlinarith
  · nlinarith

/-- On records that miss the bound `start + (size−1)·stride < N` the translation
still returns −1 for a world rank at or above `N`, even when that rank passes
the active-set test of the destination: the guard on `shmem_internal_num_pes`
comes first. -/
theorem translate_pe_rank_beyond_job :
    shmem_internal_team_translate_pe 4
        (some { world_of_four with size := 10 }) 5
        (some { world_of_four with size := 10 }) = -1 ∧
    shmem_internal_pe_in_active_set 5 0 1 10 = (true, 5) := by
  decide

/-- The translation returns −1 for every `src_pe` below 0 and every `src_pe`
above `src.size`, the source stride being at least 1. -/
theorem translate_pe_out_of_range (num_pes : Int) (src dest : shmem_internal_team_t)
    (src_pe : Int) (hstride : 1 ≤ src.stride) (h : src_pe < 0 ∨ src.size < src_pe) :
    shmem_internal_team_translate_pe num_pes (some src) src_pe (some dest) = -1 := by
  simp only [shmem_internal_team_translate_pe]
  rcases h with h | h
  · have hlo : src.start + src_pe * src.stride < src.start := by nlinarith
    by_cases hsz : src_pe > src.size
    · rw [if_pos hsz]
    · rw [if_neg hsz, if_pos (Or.inl hlo)]
  · rw [if_pos h]

/-- C2, the code at the failing input: on PE 0 of a four-PE job the strided
split `(start 0, stride 1, size 2)` of the world team hands back a team of size
2, and translating `src_pe = 2`, which is `src.size` and so outside
`[0, src.size)`, from that team to the world team returns 2, not −1. -/
theorem C2_translate_pe_accepts_size :
    shmem_internal_team_split_strided (TeamsState.after_init 4 0 16) [word_after_init]
        world_of_four 0 1 2 none 0 none =
      .ok (0,
        some { team_id := 2, psync_idx := 1, start := 0, stride := 1, size := 2,
               my_pe := 0, config := 0, config_mask := 0 },
        { TeamsState.after_init 4 0 16 with
          num_teams := 2, shmem_internal_psync_pool_reserved := 2 ^ 64 - 4 }) ∧
    shmem_internal_team_translate_pe 4
        (some { team_id := 2, psync_idx := 1, start := 0, stride := 1, size := 2,
                my_pe := 0, config := 0, config_mask := 0 }) 2
        (some world_of_four) = 2 := by
  decide

theorem first_nonzero_scan_some (w : Nat) :
    ∀ (fuel i k : Nat), first_nonzero_scan w fuel i = some k →
      i ≤ k ∧ k < i + fuel ∧ w.testBit k = true ∧ ∀ j, i ≤ j → j < k → w.testBit j = false
  | 0, i, k, h => by simp [first_nonzero_scan] at h
  | fuel + 1, i, k, h => by
    unfold first_nonzero_scan at h
    by_cases hb : w.testBit i = true
    · rw [if_pos hb] at h
      obtain rfl : i = k := by simpa using h
      exact ⟨le_refl _, by omega, hb, fun j h1 h2 => by omega⟩
    · rw [if_neg hb] at h
      obtain ⟨h1, h2, h3, h4⟩ := first_nonzero_scan_some w fuel (i + 1) k h
      refine ⟨by omega, by omega, h3, fun j hj1 hj2 => ?_⟩
      rcases Nat.eq_or_lt_of_le hj1 with rfl | hlt
      · simpa using hb
      · exact h4 j hlt hj2

theorem first_nonzero_scan_none (w : Nat) :
    ∀ (fuel i : Nat), first_nonzero_scan w fuel i = none →
      ∀ j, i ≤ j → j < i + fuel → w.testBit j = false
  | 0, i, _, j, h1, h2 => by omega
  | fuel + 1, i, h, j, h1, h2 => by
    unfold first_nonzero_scan at h
    by_cases hb : w.testBit i = true
    · rw [if_pos hb] at h; cases h
    · rw [if_neg hb] at h
      rcases Nat.eq_or_lt_of_le h1 with rfl | hlt
      · simpa using hb
      · exact first_nonzero_scan_none w fuel (i + 1) h j hlt (by omega)

theorem first_nonzero_scan_least (w fuel k : Nat) (hk : k < fuel)
    (hbit : w.testBit k = true) (hleast : ∀ j, j < k → w.testBit j = false) :
    first_nonzero_scan w fuel 0 = some k := by
  cases h : first_nonzero_scan w fuel 0 with
  | none =>
    have := first_nonzero_scan_none w fuel 0 h k (Nat.zero_le _) (by omega)
    rw [hbit] at this; cases this
  | some k1 =>
    obtain ⟨_, _, h3, h4⟩ := first_nonzero_scan_some w fuel 0 k1 h
    rcases Nat.lt_trichotomy k1 k with hlt | rfl | hgt
    · rw [hleast k1 hlt] at h3; cases h3
    · rfl
    · rw [h4 k (Nat.zero_le _) hgt] at hbit; cases hbit

theorem testBit_clear_bit (w k j : Nat) (hk : w.testBit k = true) :
    (w ^^^ (1 <<< k)).testBit j = (w.testBit j && decide (j ≠ k)) := by
  rw [Nat.testBit_xor, Nat.one_shiftLeft, Nat.testBit_two_pow]
  by_cases h : k = j
  · subst h; simp [hk]
  · have h1 : j ≠ k := fun e => h e.symm
    simp [h, h1]

theorem testBit_op_to_all_BAND (i : Nat) :
    ∀ (peers : List Nat) (source : Nat),
      (shmem_internal_op_to_all_BAND source peers).testBit i =
        (source.testBit i && peers.all (fun w => w.testBit i))
  | [], source => by simp [shmem_internal_op_to_all_BAND]
  | w :: rest, source => by
    have ih := testBit_op_to_all_BAND i rest (source &&& w)
    simp only [shmem_internal_op_to_all_BAND, List.foldl_cons] at ih ⊢
    rw [ih, Nat.testBit_and, List.all_cons, Bool.and_assoc]

/-- What a returning, team-producing call of the strided split did. -/
theorem split_strided_returns_team (s : TeamsState) (peers : List Nat)
    (parent_team : shmem_internal_team_t) (PE_start PE_stride PE_size : Int)
    (config : Option Int) (config_mask : Int) (new_team : Option shmem_internal_team_t)
    (t : shmem_internal_team_t) (s1 : TeamsState)
    (h : shmem_internal_team_split_strided s peers parent_team PE_start PE_stride PE_size
      config config_mask new_team = .ok (0, some t, s1)) :
    ∃ k : Nat, k < 64 ∧ t.psync_idx = (k : Int) ∧
      (shmem_internal_op_to_all_BAND s.shmem_internal_psync_pool_reserved peers).testBit k
        = true ∧
      (∀ j, j < k →
        (shmem_internal_op_to_all_BAND s.shmem_internal_psync_pool_reserved peers).testBit j
          = false) ∧
      s1.shmem_internal_psync_pool_reserved =
        shmem_internal_op_to_all_BAND s.shmem_internal_psync_pool_reserved peers
          ^^^ (1 <<< k) ∧
      s1.num_teams = s.num_teams + 1 ∧
      t.start = PE_start ∧ t.stride = PE_stride ∧ t.size = PE_size ∧
      0 ≤ PE_start ∧ 1 ≤ PE_stride ∧ 0 < PE_size ∧
      shmem_internal_pe_in_active_set s.shmem_internal_my_pe PE_start PE_stride PE_size
        = (true, t.my_pe) := by
  unfold shmem_internal_team_split_strided at h
  by_cases hbad : PE_size ≤ 0 ∨ PE_stride < 1 ∨ PE_start < 0
  · rw [if_pos hbad] at h
    simp at h
  · rw [if_neg hbad] at h
    dsimp only at h
    by_cases hin : (shmem_internal_pe_in_active_set s.shmem_internal_my_pe PE_start
        PE_stride PE_size).1 = true
    · rw [if_pos hin] at h
      unfold shmem_internal_1st_nonzero_bit at h
      cases hscan : first_nonzero_scan
          (shmem_internal_op_to_all_BAND s.shmem_internal_psync_pool_reserved peers)
          (8 * 8) 0 with
      | none =>
        rw [hscan] at h
        simp at h
      | some k =>
        rw [hscan] at h
        obtain ⟨_, h2, h3, h4⟩ := first_nonzero_scan_some _ _ _ _ hscan
        have hne : ¬ ((k : Int) = -1) := by omega
        simp only [if_neg hne] at h
        injection h with h
        injection h with _ h
        injection h with ht hs
        injection ht with ht
        subst ht; subst hs
        refine ⟨k, by omega, rfl, h3, fun j hj => h4 j (Nat.zero_le _) hj, rfl, rfl, rfl, rfl,
          rfl, by omega, by omega, by omega, ?_⟩
        exact Prod.ext hin rfl
    · rw [if_neg hin] at h
      simp at h

/-- A participating PE whose reduced word has `k` as lowest set bit gets the
team with `psync_idx = k`, and the word with bit `k` cleared. -/
theorem split_strided_participant (s : TeamsState) (peers : List Nat)
    (parent_team : shmem_internal_team_t) (PE_start PE_stride PE_size : Int)
    (config : Option Int) (config_mask : Int) (new_team : Option shmem_internal_team_t)
    (n : Int) (k : Nat)
    (ha : 0 ≤ PE_start) (hb : 1 ≤ PE_stride) (hc : 0 < PE_size)
    (hin : shmem_internal_pe_in_active_set s.shmem_internal_my_pe PE_start PE_stride PE_size
      = (true, n))
    (hk : k < 64)
    (hbit : (shmem_internal_op_to_all_BAND s.shmem_internal_psync_pool_reserved
      peers).testBit k = true)
    (hleast : ∀ j, j < k →
      (shmem_internal_op_to_all_BAND s.shmem_internal_psync_pool_reserved peers).testBit j
        = false) :
    shmem_internal_team_split_strided s peers parent_team PE_start PE_stride PE_size
        config config_mask new_team =
      .ok (0,
        some { team_id := s.num_teams + 1, psync_idx := (k : Int), start := PE_start,
               stride := PE_stride, size := PE_size, my_pe := n,
               config := match config with
                 | some c => c
                 | none => 0
               config_mask := match config with
                 | some _ => config_mask
                 | none => 0 },
        { s with
          num_teams := s.num_teams + 1
          shmem_internal_psync_pool_reserved :=
            shmem_internal_op_to_all_BAND s.shmem_internal_psync_pool_reserved peers
              ^^^ (1 <<< k) }) := by
  have hscan := first_nonzero_scan_least _ (8 * 8) k (by omega) hbit hleast
  have hgood : ¬ (PE_size ≤ 0 ∨ PE_stride < 1 ∨ PE_start < 0) := by omega
  have hne : ¬ ((k : Int) = -1) := by omega
  unfold shmem_internal_team_split_strided
  rw [if_neg hgood]
  simp only [hin, shmem_internal_1st_nonzero_bit, hscan, if_true, if_neg hne,
    shmem_internal_team_t.zeroed]

/-- A PE outside the active set gets the null handle and keeps its word. -/
theorem split_strided_bystander (s : TeamsState) (peers : List Nat)
    (parent_team : shmem_internal_team_t) (PE_start PE_stride PE_size : Int)
    (config : Option Int) (config_mask : Int) (new_team : Option shmem_internal_team_t)
    (ha : 0 ≤ PE_start) (hb : 1 ≤ PE_stride) (hc : 0 < PE_size)
    (hout : (shmem_internal_pe_in_active_set s.shmem_internal_my_pe PE_start PE_stride
      PE_size).1 = false) :
    shmem_internal_team_split_strided s peers parent_team PE_start PE_stride PE_size
        config config_mask new_team =
      .ok (0, none, { s with num_teams := s.num_teams + 1 }) := by
  have hgood : ¬ (PE_size ≤ 0 ∨ PE_stride < 1 ∨ PE_start < 0) := by omega
  unfold shmem_internal_team_split_strided
  rw [if_neg hgood]
  simp only [hout, Bool.false_eq_true, if_false]

/-- Every word has a lowest set bit below any position at which it has a set
bit. -/
theorem exists_least_set_bit (w : Nat) :
    ∀ (i : Nat), w.testBit i = true →
      ∃ k, k ≤ i ∧ w.testBit k = true ∧ ∀ j, j < k → w.testBit j = false := by
  intro i
  induction i using Nat.strong_induction_on with
  | _ i ih =>
    intro hi
    by_cases h : ∃ j, j < i ∧ w.testBit j = true
    · obtain ⟨j, hj, hjb⟩ := h
      obtain ⟨k, hk, hkb, hkl⟩ := ih j hj hjb
      exact ⟨k, by omega, hkb, hkl⟩
    · refine ⟨i, le_refl _, hi, fun j hj => ?_⟩
      by_contra hc
      exact h ⟨j, hj, by simpa using hc⟩

/-- The reservation word after any returning call: untouched, or the reduced
word with one of its set bits cleared. -/
theorem split_strided_word (s : TeamsState) (peers : List Nat)
    (parent_team : shmem_internal_team_t) (PE_start PE_stride PE_size : Int)
    (config : Option Int) (config_mask : Int) (new_team : Option shmem_internal_team_t)
    (ret : Int) (out : Option shmem_internal_team_t) (s1 : TeamsState)
    (h : shmem_internal_team_split_strided s peers parent_team PE_start PE_stride PE_size
      config config_mask new_team = .ok (ret, out, s1)) :
    s1.shmem_internal_psync_pool_reserved = s.shmem_internal_psync_pool_reserved ∨
    ∃ k : Nat,
      (shmem_internal_op_to_all_BAND s.shmem_internal_psync_pool_reserved peers).testBit k
        = true ∧
      s1.shmem_internal_psync_pool_reserved =
        shmem_internal_op_to_all_BAND s.shmem_internal_psync_pool_reserved peers
          ^^^ (1 <<< k) := by
  unfold shmem_internal_team_split_strided at h
  by_cases hbad : PE_size ≤ 0 ∨ PE_stride < 1 ∨ PE_start < 0
  · rw [if_pos hbad] at h
    injection h with h
    injection h with _ h
    injection h with _ hs
    subst hs
    exact Or.inl rfl
  · rw [if_neg hbad] at h
    dsimp only at h
    by_cases hin : (shmem_internal_pe_in_active_set s.shmem_internal_my_pe PE_start
        PE_stride PE_size).1 = true
    · rw [if_pos hin] at h
      unfold shmem_internal_1st_nonzero_bit at h
      cases hscan : first_nonzero_scan
          (shmem_internal_op_to_all_BAND s.shmem_internal_psync_pool_reserved peers)
          (8 * 8) 0 with
      | none =>
        rw [hscan] at h
        simp at h
      | some k =>
        rw [hscan] at h
        obtain ⟨_, h2, h3, h4⟩ := first_nonzero_scan_some _ _ _ _ hscan
        have hne : ¬ ((k : Int) = -1) := by omega
        simp only [if_neg hne] at h
        injection h with h
        injection h with _ h
        injection h with _ hs
        subst hs
        exact Or.inr ⟨k, h3, rfl⟩
    · rw [if_neg hin] at h
      injection h with h
      injection h with _ h
      injection h with _ hs
      subst hs
      exact Or.inl rfl

/-- Bit 0 of the reservation word, the world team's slot, is never free. -/
theorem reachable_world_slot_reserved (s : TeamsState) (hs : TeamsState.Reachable s) :
    s.shmem_internal_psync_pool_reserved.testBit 0 = false := by
  induction hs with
  | init num_pes my_pe teams_max s h =>
    unfold shmem_internal_teams_init at h
    by_cases hmax : (TeamsState.boot num_pes my_pe teams_max).TEAMS_MAX % 2 ^ 64 > 64
    · simp only [Bool.not_true, Bool.false_eq_true, if_false, if_pos hmax] at h
      cases h
    · simp only [Bool.not_true, Bool.false_eq_true, if_false, if_neg hmax] at h
      injection h with h
      injection h with _ hs
      subst hs
      show ((2 ^ 64 - 1) <<< 1 % 2 ^ 64).testBit 0 = false
      decide
  | split s peers parent_team a b c config config_mask new_team ret out s1 _ h ih =>
    rcases split_strided_word s peers parent_team a b c config config_mask new_team ret out
      s1 h with hw | ⟨k, hk, hw⟩
    · rw [hw]; exact ih
    · rw [hw, testBit_clear_bit _ _ _ hk, testBit_op_to_all_BAND, ih]
      rfl

/-- C3, as stated, fails: on PE 0 of a four-PE job with `TEAMS_MAX = 64`, after
init and 63 calls `team_split_strided(world, 0, 1, 1)` that each returned, the
reservation word is 0, and the 64th call, with the same valid arguments
(`start = 0 ≥ 0`, `stride = 1 ≥ 1`, `size = 1 > 0`) on a PE of the active set,
raises the teams-exhausted error instead of returning 0. -/
theorem C3_split_strided_exhausted :
    split_strided_repeatedly world_of_four 0 1 1 63 (TeamsState.after_init 4 0 64) =
      .ok { TeamsState.after_init 4 0 64 with
            num_teams := 64, shmem_internal_psync_pool_reserved := 0 } ∧
    shmem_internal_team_split_strided
        { TeamsState.after_init 4 0 64 with
          num_teams := 64, shmem_internal_psync_pool_reserved := 0 }
        [] world_of_four 0 1 1 none 0 none =
      .error "No more teams available, try increasing SHMEM_TEAMS_MAX" := by
  decide

/-- C3, amended: for every call `team_split_strided(parent, start, stride, size, ...)`
with `start ≥ 0`, `stride ≥ 1`, `size > 0` made on PE `me`, provided that, when
`me` is in the active set, the AND-reduced reservation word has a set bit among
its 64 bits: the call returns 0; if `me` is in the active set
(`(me − start) mod stride == 0` and `0 ≤ (me − start)/stride < size`) the output
handle is a team with exactly that start, stride and size and
`my_pe == (me − start)/stride`; otherwise the output handle is the null team. -/
theorem C3_split_strided_result (s : TeamsState) (peers : List Nat)
    (parent_team : shmem_internal_team_t) (PE_start PE_stride PE_size : Int)
    (config : Option Int) (config_mask : Int) (new_team : Option shmem_internal_team_t)
    (ha : 0 ≤ PE_start) (hb : 1 ≤ PE_stride) (hc : 0 < PE_size)
    (hfree :
      ((s.shmem_internal_my_pe - PE_start).tmod PE_stride = 0 ∧
        0 ≤ (s.shmem_internal_my_pe - PE_start).tdiv PE_stride ∧
        (s.shmem_internal_my_pe - PE_start).tdiv PE_stride < PE_size) →
      ∃ i, i < 64 ∧
        (shmem_internal_op_to_all_BAND s.shmem_internal_psync_pool_reserved
          peers).testBit i = true) :
    ∃ out s1,
      shmem_internal_team_split_strided s peers parent_team PE_start PE_stride PE_size
        config config_mask new_team = .ok (0, out, s1) ∧
      (((s.shmem_internal_my_pe - PE_start).tmod PE_stride = 0 ∧
          0 ≤ (s.shmem_internal_my_pe - PE_start).tdiv PE_stride ∧
          (s.shmem_internal_my_pe - PE_start).tdiv PE_stride < PE_size) →
        ∃ t, out = some t ∧ t.start = PE_start ∧ t.stride = PE_stride ∧
          t.size = PE_size ∧
          t.my_pe = (s.shmem_internal_my_pe - PE_start).tdiv PE_stride) ∧
      (¬ ((s.shmem_internal_my_pe - PE_start).tmod PE_stride = 0 ∧
          0 ≤ (s.shmem_internal_my_pe - PE_start).tdiv PE_stride ∧
          (s.shmem_internal_my_pe - PE_start).tdiv PE_stride < PE_size) →
        out = none) := by
  rcases pe_in_active_set_cases s.shmem_internal_my_pe PE_start PE_stride PE_size with
    ⟨he, hn⟩ | ⟨he, hy, _⟩
  · refine ⟨none, _, split_strided_bystander s peers parent_team PE_start PE_stride PE_size
      config config_mask new_team ha hb hc (by rw [he]), fun h => absurd h hn, fun _ => rfl⟩
  · obtain ⟨i, hi, hbit⟩ := hfree hy
    obtain ⟨k, hk, hkb, hkl⟩ := exists_least_set_bit _ i hbit
    refine ⟨_, _, split_strided_participant s peers parent_team PE_start PE_stride PE_size
      config config_mask new_team _ k ha hb hc he (by omega) hkb hkl,
      fun _ => ⟨_, rfl, rfl, rfl, rfl, rfl⟩, fun h => absurd hy h⟩

theorem C3_split_strided_result_witness :
    ∃ out s1,
      shmem_internal_team_split_strided (TeamsState.after_init 4 2 16) [word_after_init]
        world_of_four 0 2 2 none 0 none = .ok (0, out, s1) ∧
      ((((2 : Int) - 0).tmod 2 = 0 ∧ 0 ≤ ((2 : Int) - 0).tdiv 2 ∧ ((2 : Int) - 0).tdiv 2 < 2) →
        ∃ t, out = some t ∧ t.start = 0 ∧ t.stride = 2 ∧ t.size = 2 ∧
          t.my_pe = ((2 : Int) - 0).tdiv 2) ∧
      (¬ (((2 : Int) - 0).tmod 2 = 0 ∧ 0 ≤ ((2 : Int) - 0).tdiv 2 ∧
          ((2 : Int) - 0).tdiv 2 < 2) → out = none) :=
  C3_split_strided_result (TeamsState.after_init 4 2 16) [word_after_init] world_of_four
    0 2 2 none 0 none (by decide) (by decide) (by decide)
    (fun _ => ⟨1, by decide, by decide⟩)

/-- A PE below `num_pes` that passes the active-set test is listed among the
PEs of the active set. -/
theorem mem_active_set_pes (num_pes me : Nat) (PE_start PE_stride PE_size : Int)
    (hme : me < num_pes)
    (hin : (shmem_internal_pe_in_active_set (me : Int) PE_start PE_stride PE_size).1 = true) :
    me ∈ active_set_pes num_pes PE_start PE_stride PE_size := by
  unfold active_set_pes
  rw [List.mem_filter]
  exact ⟨List.mem_range.mpr hme, hin⟩

/-- On the 64 bits of the word, the reduction a participating PE sees (its own
word ANDed with its peers' words) is the AND over the whole active set. -/
theorem testBit_reduced_eq_band (masks : Nat → Nat) (num_pes me : Nat)
    (PE_start PE_stride PE_size : Int)
    (hmem : me ∈ active_set_pes num_pes PE_start PE_stride PE_size)
    (i : Nat) (hi : i < 64) :
    (shmem_internal_op_to_all_BAND (masks me)
        (peer_words masks num_pes me PE_start PE_stride PE_size)).testBit i =
      (band_active_set masks num_pes PE_start PE_stride PE_size).testBit i := by
  have hband := testBit_op_to_all_BAND i
    ((active_set_pes num_pes PE_start PE_stride PE_size).map masks) (2 ^ 64 - 1)
  unfold shmem_internal_op_to_all_BAND at hband
  unfold band_active_set
  rw [hband, testBit_op_to_all_BAND, Nat.testBit_two_pow_sub_one]
  unfold peer_words
  rw [List.all_map, List.all_map, Bool.eq_iff_iff]
  simp only [Bool.and_eq_true, List.all_eq_true, decide_eq_true_eq, Function.comp_apply]
  constructor
  · rintro ⟨hown, hrest⟩
    refine ⟨hi, fun r hr => ?_⟩
    by_cases hrm : r = me
    · rw [hrm]; exact hown
    · exact hrest r ((List.mem_erase_of_ne hrm).mpr hr)
  · rintro ⟨_, hall⟩
    exact ⟨hall me hmem, fun r hr => hall r (List.mem_of_mem_erase hr)⟩

theorem word_after_init_bit_zero : word_after_init.testBit 0 = false := by decide

theorem word_after_init_bit_one : word_after_init.testBit 1 = true := by decide

/-- C4: in every strided split, the BAND reduction being the bitwise AND of the
reservation words of the PEs of the child's active set, every participating PE
obtains the same `psync_idx`, the index of the least-significant set bit of
that AND; for the first split after teams init, when every word is
`...1111_1110`, that index is 1. -/
theorem C4_same_psync_idx :
    (∀ (num_pes : Nat) (masks : Nat → Nat) (PE_start PE_stride PE_size : Int) (i : Nat),
      0 ≤ PE_start → 1 ≤ PE_stride → 0 < PE_size →
      i < 64 →
      (band_active_set masks num_pes PE_start PE_stride PE_size).testBit i = true →
      (∀ j, j < i →
        (band_active_set masks num_pes PE_start PE_stride PE_size).testBit j = false) →
      ∀ (me : Nat) (s : TeamsState) (parent_team : shmem_internal_team_t)
        (config : Option Int) (config_mask : Int)
        (new_team : Option shmem_internal_team_t),
        me < num_pes →
        (shmem_internal_pe_in_active_set (me : Int) PE_start PE_stride PE_size).1 = true →
        s.shmem_internal_my_pe = (me : Int) →
        s.shmem_internal_psync_pool_reserved = masks me →
        ∃ t s1,
          shmem_internal_team_split_strided s
              (peer_words masks num_pes me PE_start PE_stride PE_size) parent_team
              PE_start PE_stride PE_size config config_mask new_team
            = .ok (0, some t, s1) ∧
          t.psync_idx = (i : Int)) ∧
    (∀ (num_pes : Nat) (PE_start PE_stride PE_size : Int),
      0 ≤ PE_start → 1 ≤ PE_stride → 0 < PE_size →
      ∀ (me : Nat) (s : TeamsState) (parent_team : shmem_internal_team_t)
        (config : Option Int) (config_mask : Int)
        (new_team : Option shmem_internal_team_t),
        me < num_pes →
        (shmem_internal_pe_in_active_set (me : Int) PE_start PE_stride PE_size).1 = true →
        s.shmem_internal_my_pe = (me : Int) →
        s.shmem_internal_psync_pool_reserved = word_after_init →
        ∃ t s1,
          shmem_internal_team_split_strided s
              (peer_words (fun _ => word_after_init) num_pes me PE_start PE_stride PE_size)
              parent_team PE_start PE_stride PE_size config config_mask new_team
            = .ok (0, some t, s1) ∧
          t.psync_idx = 1) := by
  constructor
  · intro num_pes masks a b c i ha hb hc hi hbit hleast me s parent_team config config_mask
      new_team hme hin hmy hword
    have hmem := mem_active_set_pes num_pes me a b c hme hin
    have hpair : shmem_internal_pe_in_active_set s.shmem_internal_my_pe a b c =
        (true, (shmem_internal_pe_in_active_set s.shmem_internal_my_pe a b c).2) := by
      rw [hmy]; exact Prod.ext hin rfl
    refine ⟨_, _, split_strided_participant s _ parent_team a b c config config_mask
      new_team _ i ha hb hc hpair hi ?_ ?_, rfl⟩
    · rw [hword, testBit_reduced_eq_band masks num_pes me a b c hmem i hi]; exact hbit
    · intro j hj
      rw [hword, testBit_reduced_eq_band masks num_pes me a b c hmem j (by omega)]
      exact hleast j hj
  · intro num_pes a b c ha hb hc me s parent_team config config_mask new_team hme hin hmy
      hword
    have hpair : shmem_internal_pe_in_active_set s.shmem_internal_my_pe a b c =
        (true, (shmem_internal_pe_in_active_set s.shmem_internal_my_pe a b c).2) := by
      rw [hmy]; exact Prod.ext hin rfl
    refine ⟨_, _, split_strided_participant s _ parent_team a b c config config_mask
      new_team _ 1 ha hb hc hpair (by decide) ?_ ?_, rfl⟩
    · rw [hword, testBit_op_to_all_BAND]
      unfold peer_words
      rw [List.all_map, word_after_init_bit_one, Bool.true_and, List.all_eq_true]
      intro r _
      rw [Function.comp_apply]
      exact word_after_init_bit_one
    · intro j hj
      obtain rfl : j = 0 := by omega
      rw [hword, testBit_op_to_all_BAND]
      rw [word_after_init_bit_zero, Bool.false_and]

theorem C4_same_psync_idx_witness :
    ∃ t s1,
      shmem_internal_team_split_strided (TeamsState.after_init 4 2 16)
          (peer_words (fun _ => word_after_init) 4 2 0 2 2) world_of_four 0 2 2 none 0 none
        = .ok (0, some t, s1) ∧
      t.psync_idx = 1 :=
  C4_same_psync_idx.2 4 0 2 2 (by decide) (by decide) (by decide) 2
    (TeamsState.after_init 4 2 16) world_of_four none 0 none (by decide) (by decide)
    (by decide) (by decide)

/-- C5: after a strided split returns on a participating PE, the bit of that
PE's reservation word at the new team's `psync_idx` is 0; with four PEs, after
`team_split_strided(world, 0, 2, 2)` following init, the reservation word of the
participating PEs 0 and 2 is `...1111_1100`. -/
theorem C5_split_strided_clears_bit :
    (∀ (s : TeamsState) (peers : List Nat) (parent_team : shmem_internal_team_t)
        (PE_start PE_stride PE_size : Int) (config : Option Int) (config_mask : Int)
        (new_team : Option shmem_internal_team_t) (t : shmem_internal_team_t)
        (s1 : TeamsState),
      shmem_internal_team_split_strided s peers parent_team PE_start PE_stride PE_size
          config config_mask new_team = .ok (0, some t, s1) →
      0 ≤ t.psync_idx ∧
      s1.shmem_internal_psync_pool_reserved.testBit t.psync_idx.toNat = false) ∧
    (∀ me : Nat, me = 0 ∨ me = 2 →
      ∃ t,
        shmem_internal_team_split_strided (TeamsState.after_init 4 me 16)
            (peer_words (fun _ => word_after_init) 4 me 0 2 2) world_of_four 0 2 2 none 0
            none =
          .ok (0, some t,
            { TeamsState.after_init 4 me 16 with
              num_teams := 2
              shmem_internal_psync_pool_reserved := 2 ^ 64 - 4 }) ∧
        t.psync_idx = 1) := by
  constructor
  · intro s peers parent_team a b c config config_mask new_team t s1 h
    obtain ⟨k, _, hidx, hbit, _, hword, _⟩ :=
      split_strided_returns_team s peers parent_team a b c config config_mask new_team t s1 h
    rw [hidx, hword, Int.toNat_ofNat, testBit_clear_bit _ _ _ hbit]
    exact ⟨Int.ofNat_nonneg k, by simp⟩
  · intro me hme
    rcases hme with rfl | rfl
    · exact ⟨team_of_pes_0_2 2 1 0, by decide, rfl⟩
    · exact ⟨team_of_pes_0_2 2 1 1, by decide, rfl⟩

theorem C5_split_strided_clears_bit_witness :
    shmem_internal_team_split_strided (TeamsState.after_init 4 0 16) [word_after_init]
        world_of_four 0 2 2 none 0 none =
      .ok (0, some (team_of_pes_0_2 2 1 0),
        { TeamsState.after_init 4 0 16 with
          num_teams := 2, shmem_internal_psync_pool_reserved := 2 ^ 64 - 4 }) ∧
    0 ≤ (team_of_pes_0_2 2 1 0).psync_idx ∧
    (2 ^ 64 - 4 : Nat).testBit (team_of_pes_0_2 2 1 0).psync_idx.toNat = false :=
  ⟨by decide,
    C5_split_strided_clears_bit.1 (TeamsState.after_init 4 0 16) [word_after_init]
      world_of_four 0 2 2 none 0 none (team_of_pes_0_2 2 1 0)
      { TeamsState.after_init 4 0 16 with
        num_teams := 2, shmem_internal_psync_pool_reserved := 2 ^ 64 - 4 }
      (by decide)⟩

/-- After the split of C5's scenario, the PEs outside the active set, 1 and 3,
still hold the word `...1111_1110`: only participants clear the bit. -/
theorem split_strided_bystander_word_unchanged :
    ∀ me : Nat, me = 1 ∨ me = 3 →
      shmem_internal_team_split_strided (TeamsState.after_init 4 me 16) [] world_of_four
          0 2 2 none 0 none =
        .ok (0, none, { TeamsState.after_init 4 me 16 with num_teams := 2 }) ∧
      (TeamsState.after_init 4 me 16).shmem_internal_psync_pool_reserved = 2 ^ 64 - 2 := by
  intro me hme
  rcases hme with rfl | rfl
  · decide
  · decide

/-- C6: on a PE that takes part in two successive strided splits, the two teams
have different `psync_idx`, and neither has index 0, the world team's slot. -/
theorem C6_successive_splits_distinct_slots (s : TeamsState)
    (hs : TeamsState.Reachable s)
    (peers1 peers2 : List Nat) (parent1 parent2 : shmem_internal_team_t)
    (start1 stride1 size1 start2 stride2 size2 : Int)
    (config1 config2 : Option Int) (mask1 mask2 : Int)
    (new_team1 new_team2 : Option shmem_internal_team_t)
    (t1 t2 : shmem_internal_team_t) (s1 s2 : TeamsState)
    (h1 : shmem_internal_team_split_strided s peers1 parent1 start1 stride1 size1 config1
      mask1 new_team1 = .ok (0, some t1, s1))
    (h2 : shmem_internal_team_split_strided s1 peers2 parent2 start2 stride2 size2 config2
      mask2 new_team2 = .ok (0, some t2, s2)) :
    t1.psync_idx ≠ t2.psync_idx ∧ t1.psync_idx ≠ 0 ∧ t2.psync_idx ≠ 0 := by
  have hs1 : TeamsState.Reachable s1 :=
    TeamsState.Reachable.split s peers1 parent1 start1 stride1 size1 config1 mask1 new_team1
      0 (some t1) s1 hs h1
  have hz := reachable_world_slot_reserved s hs
  have hz1 := reachable_world_slot_reserved s1 hs1
  obtain ⟨k1, _, hidx1, hbit1, _, hword1, _⟩ :=
    split_strided_returns_team s peers1 parent1 start1 stride1 size1 config1 mask1 new_team1
      t1 s1 h1
  obtain ⟨k2, _, hidx2, hbit2, _, _, _⟩ :=
    split_strided_returns_team s1 peers2 parent2 start2 stride2 size2 config2 mask2
      new_team2 t2 s2 h2
  rw [testBit_op_to_all_BAND] at hbit1 hbit2
  have hk1 : k1 ≠ 0 := by
    rintro rfl
    rw [hz] at hbit1
    simp at hbit1
  have hk2 : k2 ≠ 0 := by
    rintro rfl
    rw [hz1] at hbit2
    simp at hbit2
  have hne : k1 ≠ k2 := by
    rintro rfl
    have hclr : s1.shmem_internal_psync_pool_reserved.testBit k1 = false := by
      rw [hword1, testBit_clear_bit _ _ _ (by rw [testBit_op_to_all_BAND]; exact hbit1)]
      simp
    rw [hclr] at hbit2
    simp at hbit2
  rw [hidx1, hidx2]
  refine ⟨?_, ?_, ?_⟩ <;> omega

theorem C6_successive_splits_distinct_slots_witness :
    shmem_internal_team_split_strided (TeamsState.after_init 4 0 16) [word_after_init]
        world_of_four 0 2 2 none 0 none =
      .ok (0, some (team_of_pes_0_2 2 1 0),
        { TeamsState.after_init 4 0 16 with
          num_teams := 2, shmem_internal_psync_pool_reserved := 2 ^ 64 - 4 }) ∧
    shmem_internal_team_split_strided
        { TeamsState.after_init 4 0 16 with
          num_teams := 2, shmem_internal_psync_pool_reserved := 2 ^ 64 - 4 }
        [2 ^ 64 - 4] world_of_four 0 2 2 none 0 none =
      .ok (0, some (team_of_pes_0_2 3 2 0),
        { TeamsState.after_init 4 0 16 with
          num_teams := 3, shmem_internal_psync_pool_reserved := 2 ^ 64 - 8 }) ∧
    (team_of_pes_0_2 2 1 0).psync_idx ≠ (team_of_pes_0_2 3 2 0).psync_idx ∧
    (team_of_pes_0_2 2 1 0).psync_idx ≠ 0 ∧ (team_of_pes_0_2 3 2 0).psync_idx ≠ 0 :=
  ⟨by decide, by decide,
    C6_successive_splits_distinct_slots (TeamsState.after_init 4 0 16)
      (TeamsState.Reachable.init 4 0 16 _ (by decide))
      [word_after_init] [2 ^ 64 - 4] world_of_four world_of_four 0 2 2 0 2 2 none none 0 0
      none none (team_of_pes_0_2 2 1 0) (team_of_pes_0_2 3 2 0)
      { TeamsState.after_init 4 0 16 with
        num_teams := 2, shmem_internal_psync_pool_reserved := 2 ^ 64 - 4 }
      { TeamsState.after_init 4 0 16 with
        num_teams := 3, shmem_internal_psync_pool_reserved := 2 ^ 64 - 8 }
      (by decide) (by decide)⟩

/-- C7, the code at the failing input: on PE 0 of a four-PE job, right after
init, `team_split_strided(world, 0, 1, 5)` asks for 5 PEs of a parent that has
4.  No check rejects it: the call returns 0, hands back a team of size 5 and
clears bit 1 of the reservation word. -/
theorem C7_split_strided_oversized :
    world_of_four.size = 4 ∧
    shmem_internal_team_split_strided (TeamsState.after_init 4 0 16)
        (peer_words (fun _ => word_after_init) 4 0 0 1 5) world_of_four 0 1 5 none 0 none =
      .ok (0,
        some { team_id := 2, psync_idx := 1, start := 0, stride := 1, size := 5,
               my_pe := 0, config := 0, config_mask := 0 },
        { TeamsState.after_init 4 0 16 with
          num_teams := 2, shmem_internal_psync_pool_reserved := 2 ^ 64 - 4 }) ∧
    (TeamsState.after_init 4 0 16).shmem_internal_psync_pool_reserved = 2 ^ 64 - 2 := by
  decide

/-- C8: for every call of the strided split with `size ≤ 0`, `stride < 1` or
`start < 0`, the call returns −1 and creates no team: `*new_team` is not
written, and the globals, the reservation word and `num_teams` among them, are
unchanged. -/
theorem C8_split_strided_bad_arguments (s : TeamsState) (peers : List Nat)
    (parent_team : shmem_internal_team_t) (PE_start PE_stride PE_size : Int)
    (config : Option Int) (config_mask : Int) (new_team : Option shmem_internal_team_t)
    (h : PE_size ≤ 0 ∨ PE_stride < 1 ∨ PE_start < 0) :
    shmem_internal_team_split_strided s peers parent_team PE_start PE_stride PE_size
        config config_mask new_team = .ok (-1, new_team, s) := by
  unfold shmem_internal_team_split_strided
  rw [if_pos h]

theorem C8_split_strided_bad_arguments_witness :
    ((2 : Int) ≤ 0 ∨ (0 : Int) < 1 ∨ (0 : Int) < 0) ∧
    shmem_internal_team_split_strided (TeamsState.after_init 4 0 16) [word_after_init]
        world_of_four 0 0 2 none 0 none = .ok (-1, none, TeamsState.after_init 4 0 16) :=
  ⟨by decide,
    C8_split_strided_bad_arguments (TeamsState.after_init 4 0 16) [word_after_init]
      world_of_four 0 0 2 none 0 none (by decide)⟩

/-- The part of the team invariant that the argument check of the strided split
does establish: every team handed back has `start ≥ 0`, `stride ≥ 1`,
`size > 0`. -/
theorem split_strided_team_fields (s : TeamsState) (peers : List Nat)
    (parent_team : shmem_internal_team_t) (PE_start PE_stride PE_size : Int)
    (config : Option Int) (config_mask : Int) (new_team : Option shmem_internal_team_t)
    (t : shmem_internal_team_t) (s1 : TeamsState)
    (h : shmem_internal_team_split_strided s peers parent_team PE_start PE_stride PE_size
      config config_mask new_team = .ok (0, some t, s1)) :
    0 ≤ t.start ∧ 1 ≤ t.stride ∧ 0 < t.size := by
  obtain ⟨_, _, _, _, _, _, _, h1, h2, h3, h4, h5, h6, _⟩ :=
    split_strided_returns_team s peers parent_team PE_start PE_stride PE_size config
      config_mask new_team t s1 h
  rw [h1, h2, h3]
  exact ⟨h4, h5, h6⟩

/-- The world team meets the team invariant in every job with at least one
PE. -/
theorem world_team_invariant (num_pes my_pe teams_max : Int) (s : TeamsState)
    (hn : 0 < num_pes)
    (h : shmem_internal_teams_init (TeamsState.boot num_pes my_pe teams_max) true
      = .ok (0, s)) :
    team_invariant num_pes s.shmem_internal_team_world := by
  unfold shmem_internal_teams_init at h
  by_cases hmax : (TeamsState.boot num_pes my_pe teams_max).TEAMS_MAX % 2 ^ 64 > 64
  · simp only [Bool.not_true, Bool.false_eq_true, if_false, if_pos hmax] at h
    cases h
  · simp only [Bool.not_true, Bool.false_eq_true, if_false, if_neg hmax] at h
    injection h with h
    injection h with _ hs
    subst hs
    simp only [team_invariant, TeamsState.boot]
    omega

/-- C9, the code at the failing input: on PE 2 of a four-PE job, right after
init, `team_split_strided(world, 2, 3, 2)` returns 0 and hands back the team
`(start 2, stride 3, size 2)`, whose last member would be world rank 5: the
team does not meet the invariant `start + (size−1)·stride < N` with `N = 4`. -/
theorem C9_split_strided_team_out_of_range :
    shmem_internal_team_split_strided (TeamsState.after_init 4 2 16)
        (peer_words (fun _ => word_after_init) 4 2 2 3 2) world_of_four 2 3 2 none 0 none =
      .ok (0,
        some { team_id := 2, psync_idx := 1, start := 2, stride := 3, size := 2,
               my_pe := 0, config := 0, config_mask := 0 },
        { TeamsState.after_init 4 2 16 with
          num_teams := 2, shmem_internal_psync_pool_reserved := 2 ^ 64 - 4 }) ∧
    ¬ team_invariant 4
        { team_id := 2, psync_idx := 1, start := 2, stride := 3, size := 2,
          my_pe := 0, config := 0, config_mask := 0 } := by
  refine ⟨by decide, ?_⟩
  unfold team_invariant
  decide

/-- For a stride of at least 1 the active-set test holds exactly for the world
ranks `start + n·stride` with `0 ≤ n < size`. -/
theorem pe_in_active_set_iff (g st sd sz : Int) (hsd : 1 ≤ sd) :
    (shmem_internal_pe_in_active_set g st sd sz).1 = true ↔
      ∃ n, 0 ≤ n ∧ n < sz ∧ g = st + n * sd := by
  constructor
  · intro h
    rcases pe_in_active_set_cases g st sd sz with ⟨he, _⟩ | ⟨_, hy, hw⟩
    · rw [he] at h; cases h
    · exact ⟨_, hy.2.1, hy.2.2, hw⟩
  · rintro ⟨n, h0, h1, hg⟩
    rw [pe_in_active_set_hit g st sd sz n hsd h0 h1 hg]

/-- Membership of the parent's `k`-th PE in the x-team of iteration `i`. -/
theorem split_2d_x_member (pstart sd k i xr m : Int) (hsd : 1 ≤ sd) :
    (shmem_internal_pe_in_active_set (pstart + k * sd) (pstart + i * xr * sd) sd m).1 = true ↔
      (i * xr ≤ k ∧ k < i * xr + m) := by
  rw [pe_in_active_set_iff _ _ _ _ hsd]
  constructor
  · rintro ⟨n, h0, h1, hg⟩
    have hz : (k - i * xr - n) * sd = 0 := by linear_combination hg
    have hsd0 : sd ≠ 0 := by omega
    have : k - i * xr - n = 0 := by
      rcases mul_eq_zero.mp hz with h | h
      · exact h
      · exact absurd h hsd0
    constructor <;> omega
  · rintro ⟨h0, h1⟩
    exact ⟨k - i * xr, by omega, by omega, by ring⟩

/-- Membership of the parent's `k`-th PE in the y-team of iteration `i`. -/
theorem split_2d_y_member (pstart sd k i xr m : Int) (hsd : 1 ≤ sd) (hxr : 1 ≤ xr) :
    (shmem_internal_pe_in_active_set (pstart + k * sd) (pstart + i * sd) (xr * sd) m).1
        = true ↔
      ∃ n, 0 ≤ n ∧ n < m ∧ k = i + n * xr := by
  have hprod : 1 ≤ xr * sd := by nlinarith
  rw [pe_in_active_set_iff _ _ _ _ hprod]
  have hsd0 : sd ≠ 0 := by omega
  constructor
  · rintro ⟨n, h0, h1, hg⟩
    refine ⟨n, h0, h1, ?_⟩
    have hz : (k - i - n * xr) * sd = 0 := by linear_combination hg
    rcases mul_eq_zero.mp hz with h | h
    · omega
    · exact absurd h hsd0
  · rintro ⟨n, h0, h1, hk⟩
    exact ⟨n, h0, h1, by rw [hk]; ring⟩

/-- Among the x-teams of iterations `i, i+1, ..., num_xteams − 1`, the parent's
`k`-th PE lies in exactly one if `i·xrange ≤ k`, and in none otherwise. -/
theorem split_2d_xteams_from_count (pstart sd sz xr nx k : Int)
    (hsd : 1 ≤ sd) (hxr : 1 ≤ xr) (hk : k < sz) (H1 : sz ≤ nx * xr)
    (H2 : sz.tmod xr ≠ 0 → (nx - 1) * xr + sz.tmod xr = sz) :
    ∀ (fuel : Nat) (i start : Int), i + fuel = nx → start = pstart + i * xr * sd →
      ((split_2d_xteams_from sd sz xr nx fuel i start).filter
        (fun t => (shmem_internal_pe_in_active_set (pstart + k * sd) t.1 t.2.1 t.2.2).1)).length
        = if i * xr ≤ k then 1 else 0
  | 0, i, start, hi, _ => by
    have : i = nx := by omega
    subst this
    have hn : ¬ (i * xr ≤ k) := by omega
    simp [split_2d_xteams_from, hn]
  | fuel + 1, i, start, hi, hstart => by
    subst hstart
    have ih := split_2d_xteams_from_count pstart sd sz xr nx k hsd hxr hk H1 H2 fuel (i + 1)
      (pstart + i * xr * sd + xr * sd) (by push_cast at hi; omega) (by ring)
    have hnext : (i + 1) * xr = i * xr + xr := by ring
    rw [hnext] at ih
    unfold split_2d_xteams_from
    rw [List.filter_cons]
    dsimp only
    by_cases hlast : i = nx - 1 ∧ sz.tmod xr ≠ 0
    · have hiff := split_2d_x_member pstart sd k i xr (sz.tmod xr) hsd
      rw [if_pos hlast]
      have h2 := H2 hlast.2
      have hi1 : i = nx - 1 := hlast.1
      have hno : ¬ (i * xr + xr ≤ k) := by
        have : i * xr + xr = nx * xr := by rw [hi1]; ring
        omega
      have hsum : i * xr + sz.tmod xr = sz := by rw [hi1]; exact h2
      rw [if_neg hno] at ih
      by_cases hlo : i * xr ≤ k
      · rw [if_pos (hiff.mpr ⟨hlo, by omega⟩), List.length_cons, ih, if_pos hlo]
      · rw [if_neg (fun h => hlo (hiff.mp h).1), ih, if_neg hlo]
    · have hiff := split_2d_x_member pstart sd k i xr xr hsd
      rw [if_neg hlast]
      by_cases hmem : i * xr ≤ k ∧ k < i * xr + xr
      · have hno : ¬ (i * xr + xr ≤ k) := by omega
        rw [if_pos (hiff.mpr hmem), List.length_cons, ih, if_neg hno, if_pos hmem.1]
      · rw [if_neg (fun h => hmem (hiff.mp h)), ih]
        by_cases hlo : i * xr ≤ k
        · have hyes : i * xr + xr ≤ k := by
            by_contra hc
            exact hmem ⟨hlo, by omega⟩
          rw [if_pos hyes, if_pos hlo]
        · have hno : ¬ (i * xr + xr ≤ k) := by omega
          rw [if_neg hno, if_neg hlo]

/-- The number of x-teams times `xrange` covers the parent. -/
theorem spec_ceil_quotient_covers (sz xr : Int) (hxr : 1 ≤ xr) :
    sz ≤ spec_ceil_quotient sz xr * xr := by
  unfold spec_ceil_quotient
  have h := Int.ediv_mul_le (-sz) (b := xr) (by omega)
  have : -(-sz / xr) * xr = -((-sz) / xr * xr) := by ring
  rw [this]
  omega

theorem spec_ceil_quotient_nonneg (sz xr : Int) (hsz : 0 ≤ sz) (hxr : 1 ≤ xr) :
    0 ≤ spec_ceil_quotient sz xr := by
  unfold spec_ceil_quotient
  have h := Int.lt_ediv_add_one_mul_self (-sz) (b := xr) (by omega)
  have hle : -sz / xr < 1 := by
    by_contra hc
    have h1 : 1 ≤ -sz / xr := by omega
    have : 1 * xr ≤ -sz / xr * xr := Int.mul_le_mul_of_nonneg_right h1 (by omega)
    have h2 := Int.ediv_mul_le (-sz) (b := xr) (by omega)
    omega
  omega

/-- When `xrange` does not divide the parent's size, the last x-team ends
exactly at the parent's last PE. -/
theorem spec_ceil_quotient_last (sz xr : Int) (hsz : 0 ≤ sz) (hxr : 1 ≤ xr)
    (hrem : sz.tmod xr ≠ 0) :
    (spec_ceil_quotient sz xr - 1) * xr + sz.tmod xr = sz := by
  rw [Int.tmod_eq_emod hsz (by omega)] at hrem ⊢
  have hr0 := Int.emod_nonneg sz (b := xr) (by omega)
  have hr1 := Int.emod_lt_of_pos sz (b := xr) (by omega)
  have hdecomp := Int.emod_add_ediv sz xr
  have hq : -sz / xr = -(sz / xr) - 1 ∧ -sz % xr = xr - sz % xr := by
    rw [Int.ediv_emod_unique (by omega)]
    refine ⟨?_, by omega, by omega⟩
    linear_combination -hdecomp
  unfold spec_ceil_quotient
  rw [hq.1]
  linear_combination hdecomp

/-- The parent's `k`-th PE lies in exactly one of the x-teams, when the `float`
expression for their number yields the ceiling of the quotient. -/
theorem split_2d_xteams_count (parent_team : shmem_internal_team_t) (xrange k : Int)
    (hsd : 1 ≤ parent_team.stride) (hxr : 1 ≤ xrange)
    (hfl : ceil_of_float_quotient parent_team.size xrange
      = spec_ceil_quotient parent_team.size xrange)
    (hk0 : 0 ≤ k) (hk : k < parent_team.size) :
    ((split_2d_xteams parent_team xrange).filter
      (fun t => (shmem_internal_pe_in_active_set
        (parent_team.start + k * parent_team.stride) t.1 t.2.1 t.2.2).1)).length = 1 := by
  have hsz : 0 ≤ parent_team.size := by omega
  have hnn := spec_ceil_quotient_nonneg parent_team.size xrange hsz hxr
  have h := split_2d_xteams_from_count parent_team.start parent_team.stride parent_team.size
    xrange (spec_ceil_quotient parent_team.size xrange) k hsd hxr hk
    (spec_ceil_quotient_covers parent_team.size xrange hxr)
    (spec_ceil_quotient_last parent_team.size xrange hsz hxr)
    (spec_ceil_quotient parent_team.size xrange).toNat 0 parent_team.start
    (by rw [Int.toNat_of_nonneg hnn]; ring) (by ring)
  unfold split_2d_xteams
  rw [hfl, h, Int.zero_mul, if_pos hk0]

/-- Among the y-teams of iterations `i, i+1, ..., xrange − 1`, the parent's
`k`-th PE lies in exactly one if `i ≤ k mod xrange`, and in none otherwise. -/
theorem split_2d_yteams_from_count (pstart sd sz xr k : Int)
    (hsd : 1 ≤ sd) (hxr : 1 ≤ xr) (hk0 : 0 ≤ k)
    (hfit : k / xr <
      if sz.tmod xr ≠ 0 ∧ k % xr < sz.tmod xr then sz.tdiv xr + 1 else sz.tdiv xr) :
    ∀ (fuel : Nat) (i start : Int), 0 ≤ i → i + fuel = xr → start = pstart + i * sd →
      ((split_2d_yteams_from sd sz xr fuel i start).filter
        (fun t => (shmem_internal_pe_in_active_set (pstart + k * sd) t.1 t.2.1 t.2.2).1)).length
        = if i ≤ k % xr then 1 else 0
  | 0, i, start, _, hi, _ => by
    have hlt := Int.emod_lt_of_pos k (b := xr) (by omega)
    have hn : ¬ (i ≤ k % xr) := by omega
    simp [split_2d_yteams_from, hn]
  | fuel + 1, i, start, hi0, hi, hstart => by
    subst hstart
    have ih := split_2d_yteams_from_count pstart sd sz xr k hsd hxr hk0 hfit fuel (i + 1)
      (pstart + i * sd + sd) (by omega) (by push_cast at hi; omega) (by ring)
    have hxr0 : (0 : Int) < xr := by omega
    have hhead : ∀ m : Int,
        (m = if sz.tmod xr ≠ 0 ∧ i < sz.tmod xr then sz.tdiv xr + 1 else sz.tdiv xr) →
        ((shmem_internal_pe_in_active_set (pstart + k * sd) (pstart + i * sd) (xr * sd) m).1
          = true ↔ i = k % xr) := by
      intro m hm
      rw [split_2d_y_member pstart sd k i xr m hsd hxr]
      constructor
      · rintro ⟨n, _, _, hkn⟩
        have hu : k / xr = n ∧ k % xr = i :=
          (Int.ediv_emod_unique hxr0).mpr ⟨by rw [hkn]; ring, hi0, by push_cast at hi; omega⟩
        exact hu.2.symm
      · intro hic
        refine ⟨k / xr, Int.ediv_nonneg hk0 (by omega), ?_, ?_⟩
        · rw [hm, hic]; exact hfit
        · have := Int.emod_add_ediv k xr
          rw [hic]; linear_combination -this
    unfold split_2d_yteams_from
    rw [List.filter_cons]
    dsimp only
    have hiff := hhead _ rfl
    by_cases hic : i = k % xr
    · have hno : ¬ (i + 1 ≤ k % xr) := by omega
      rw [if_pos (hiff.mpr hic), List.length_cons, ih, if_neg hno, if_pos (by omega)]
    · rw [if_neg (fun h => hic (hiff.mp h)), ih]
      by_cases hle : i ≤ k % xr
      · rw [if_pos (by omega), if_pos hle]
      · rw [if_neg (by omega), if_neg hle]

/-- The parent's `k`-th PE lies in exactly one of the y-teams. -/
theorem split_2d_yteams_count (parent_team : shmem_internal_team_t) (xrange k : Int)
    (hsd : 1 ≤ parent_team.stride) (hxr : 1 ≤ xrange)
    (hk0 : 0 ≤ k) (hk : k < parent_team.size) :
    ((split_2d_yteams parent_team xrange).filter
      (fun t => (shmem_internal_pe_in_active_set
        (parent_team.start + k * parent_team.stride) t.1 t.2.1 t.2.2).1)).length = 1 := by
  have hsz : 0 ≤ parent_team.size := by omega
  have hxr0 : (0 : Int) < xrange := by omega
  have hc0 := Int.emod_nonneg k (b := xrange) (by omega)
  have hkd := Int.emod_add_ediv k xrange
  have hsd' := Int.emod_add_ediv parent_team.size xrange
  have hr0 := Int.emod_nonneg parent_team.size (b := xrange) (by omega)
  have hr1 := Int.emod_lt_of_pos parent_team.size hxr0
  have hfit : k / xrange <
      if parent_team.size.tmod xrange ≠ 0 ∧ k % xrange < parent_team.size.tmod xrange then
        parent_team.size.tdiv xrange + 1
      else parent_team.size.tdiv xrange := by
    rw [Int.tmod_eq_emod hsz (by omega), Int.tdiv_eq_ediv hsz (by omega)]
    have hle : k / xrange ≤ parent_team.size / xrange :=
      Int.ediv_le_ediv hxr0 (by omega)
    by_cases hcase : parent_team.size % xrange ≠ 0 ∧ k % xrange < parent_team.size % xrange
    · rw [if_pos hcase]; omega
    · rw [if_neg hcase]
      by_contra hc
      have heq : k / xrange = parent_team.size / xrange := by omega
      rw [heq] at hkd
      have hlt : k % xrange < parent_team.size % xrange := by omega
      exact hcase ⟨by omega, hlt⟩
  have h := split_2d_yteams_from_count parent_team.start parent_team.stride parent_team.size
    xrange k hsd hxr hk0 hfit xrange.toNat 0 parent_team.start (le_refl _)
    (by rw [Int.toNat_of_nonneg (by omega)]; ring) (by ring)
  unfold split_2d_yteams
  rw [h, if_pos hc0]

/-- A returning strided split leaves `shmem_internal_my_pe` alone. -/
theorem split_strided_my_pe (s : TeamsState) (peers : List Nat)
    (parent_team : shmem_internal_team_t) (PE_start PE_stride PE_size : Int)
    (config : Option Int) (config_mask : Int) (new_team : Option shmem_internal_team_t)
    (ret : Int) (out : Option shmem_internal_team_t) (s1 : TeamsState)
    (h : shmem_internal_team_split_strided s peers parent_team PE_start PE_stride PE_size
      config config_mask new_team = .ok (ret, out, s1)) :
    s1.shmem_internal_my_pe = s.shmem_internal_my_pe := by
  unfold shmem_internal_team_split_strided at h
  by_cases hbad : PE_size ≤ 0 ∨ PE_stride < 1 ∨ PE_start < 0
  · rw [if_pos hbad] at h
    injection h with h
    injection h with _ h
    injection h with _ hs
    subst hs
    rfl
  · rw [if_neg hbad] at h
    dsimp only at h
    by_cases hin : (shmem_internal_pe_in_active_set s.shmem_internal_my_pe PE_start
        PE_stride PE_size).1 = true
    · rw [if_pos hin] at h
      by_cases hidx : (shmem_internal_1st_nonzero_bit
          (shmem_internal_op_to_all_BAND s.shmem_internal_psync_pool_reserved peers) 8).1 = -1
      · rw [if_pos hidx] at h
        cases h
      · rw [if_neg hidx] at h
        injection h with h
        injection h with _ h
        injection h with _ hs
        subst hs
        rfl
    · rw [if_neg hin] at h
      injection h with h
      injection h with _ h
      injection h with _ hs
      subst hs
      rfl

/-- The strided splits a PE makes on one axis are exactly those for the
triples whose active set contains it. -/
theorem split_2d_axis_calls (parent_team : shmem_internal_team_t)
    (axis_config : Option Int) (axis_mask : Int) (peers : Nat → List Nat)
    (failure : String) :
    ∀ (teams : List (Int × Int × Int)) (k : Nat) (s : TeamsState)
      (axis_team : Option shmem_internal_team_t) (calls : List (Int × Int × Int))
      (axis_team1 : Option shmem_internal_team_t) (s1 : TeamsState)
      (calls1 : List (Int × Int × Int)),
      split_2d_axis parent_team axis_config axis_mask peers failure teams k s axis_team calls
        = .ok (axis_team1, s1, calls1) →
      calls1 = calls ++ teams.filter
        (fun t => (shmem_internal_pe_in_active_set s.shmem_internal_my_pe t.1 t.2.1 t.2.2).1) ∧
      s1.shmem_internal_my_pe = s.shmem_internal_my_pe
  | [], k, s, axis_team, calls, axis_team1, s1, calls1, h => by
    unfold split_2d_axis at h
    injection h with h
    injection h with _ h
    injection h with hs hc
    subst hs; subst hc
    simp
  | (start, stride, members) :: rest, k, s, axis_team, calls, axis_team1, s1, calls1, h => by
    unfold split_2d_axis at h
    by_cases hin : (shmem_internal_pe_in_active_set s.shmem_internal_my_pe start stride
        members).1 = true
    · rw [if_pos hin] at h
      cases hsplit : shmem_internal_team_split_strided s (peers k) parent_team start stride
          members axis_config axis_mask axis_team with
      | error e =>
        rw [hsplit] at h
        cases h
      | ok r =>
        obtain ⟨ret, out, s2⟩ := r
        rw [hsplit] at h
        dsimp only at h
        by_cases hret : ret ≠ 0
        · rw [if_pos hret] at h
          cases h
        · rw [if_neg hret] at h
          have hmy := split_strided_my_pe s (peers k) parent_team start stride members
            axis_config axis_mask axis_team ret out s2 hsplit
          obtain ⟨hc, hs⟩ := split_2d_axis_calls parent_team axis_config axis_mask peers
            failure rest (k + 1) s2 out _ axis_team1 s1 calls1 h
          rw [hmy] at hc hs
          refine ⟨?_, hs⟩
          rw [hc, List.filter_cons, if_pos hin, List.append_assoc]
          rfl
    · rw [if_neg hin] at h
      obtain ⟨hc, hs⟩ := split_2d_axis_calls parent_team axis_config axis_mask peers
        failure rest (k + 1) s axis_team calls axis_team1 s1 calls1 h
      refine ⟨?_, hs⟩
      rw [hc, List.filter_cons, if_neg hin]

/-- For every parent team and every `xrange ≥ 1` for which the `float`
expression `ceil(parent_size / (float) xrange)` yields the ceiling of the
quotient, each PE of the parent's active set lies in the active set of exactly
one of the x-teams and of exactly one of the y-teams that `team_split_2d`
generates, so a returning call has made exactly one strided split per axis;
with six PEs and `xrange = 3`, PE 0 splits into the x-team of PEs 0, 1, 2 and
the y-team of PEs 0, 3, and PE 4 into the x-team of PEs 3, 4, 5 and the y-team
of PEs 1, 4. -/
theorem split_2d_one_team_per_axis :
    (∀ (parent_team : shmem_internal_team_t) (xrange me : Int),
      1 ≤ parent_team.stride → 1 ≤ xrange →
      ceil_of_float_quotient parent_team.size xrange
        = spec_ceil_quotient parent_team.size xrange →
      (shmem_internal_pe_in_active_set me parent_team.start parent_team.stride
        parent_team.size).1 = true →
      ((split_2d_xteams parent_team xrange).filter
        (fun t => (shmem_internal_pe_in_active_set me t.1 t.2.1 t.2.2).1)).length = 1 ∧
      ((split_2d_yteams parent_team xrange).filter
        (fun t => (shmem_internal_pe_in_active_set me t.1 t.2.1 t.2.2).1)).length = 1) ∧
    (∀ (s : TeamsState) (xpeers ypeers : Nat → List Nat)
        (parent_team : shmem_internal_team_t) (xrange : Int)
        (xaxis_config : Option Int) (xaxis_mask : Int)
        (xaxis_team : Option shmem_internal_team_t)
        (yaxis_config : Option Int) (yaxis_mask : Int)
        (yaxis_team : Option shmem_internal_team_t)
        (ret : Int) (xt yt : Option shmem_internal_team_t) (s1 : TeamsState)
        (xcalls ycalls : List (Int × Int × Int)),
      1 ≤ parent_team.stride → 1 ≤ xrange →
      ceil_of_float_quotient parent_team.size xrange
        = spec_ceil_quotient parent_team.size xrange →
      (shmem_internal_pe_in_active_set s.shmem_internal_my_pe parent_team.start
        parent_team.stride parent_team.size).1 = true →
      shmem_internal_team_split_2d s xpeers ypeers parent_team xrange xaxis_config
          xaxis_mask xaxis_team yaxis_config yaxis_mask yaxis_team
        = .ok (ret, xt, yt, s1, xcalls, ycalls) →
      xcalls.length = 1 ∧ ycalls.length = 1) ∧
    ((shmem_internal_team_split_2d (TeamsState.after_init 6 0 16)
          (fun _ => [word_after_init, word_after_init]) (fun _ => [2 ^ 64 - 4])
          world_of_six 3 none 0 none none 0 none).toOption.map
        (fun r => (r.2.2.2.2.1, r.2.2.2.2.2)) = some ([(0, 1, 3)], [(0, 3, 2)]) ∧
      active_set_pes 6 0 1 3 = [0, 1, 2] ∧ active_set_pes 6 0 3 2 = [0, 3]) ∧
    ((shmem_internal_team_split_2d (TeamsState.after_init 6 4 16)
          (fun _ => [word_after_init, word_after_init]) (fun _ => [2 ^ 64 - 4])
          world_of_six 3 none 0 none none 0 none).toOption.map
        (fun r => (r.2.2.2.2.1, r.2.2.2.2.2)) = some ([(3, 1, 3)], [(1, 3, 2)]) ∧
      active_set_pes 6 3 1 3 = [3, 4, 5] ∧ active_set_pes 6 1 3 2 = [1, 4]) := by
  have hcount : ∀ (parent_team : shmem_internal_team_t) (xrange me : Int),
      1 ≤ parent_team.stride → 1 ≤ xrange →
      ceil_of_float_quotient parent_team.size xrange
        = spec_ceil_quotient parent_team.size xrange →
      (shmem_internal_pe_in_active_set me parent_team.start parent_team.stride
        parent_team.size).1 = true →
      ((split_2d_xteams parent_team xrange).filter
        (fun t => (shmem_internal_pe_in_active_set me t.1 t.2.1 t.2.2).1)).length = 1 ∧
      ((split_2d_yteams parent_team xrange).filter
        (fun t => (shmem_internal_pe_in_active_set me t.1 t.2.1 t.2.2).1)).length = 1 := by
    intro parent_team xrange me hsd hxr hfl hin
    obtain ⟨k, hk0, hk, hme⟩ := (pe_in_active_set_iff _ _ _ _ hsd).mp hin
    subst hme
    exact ⟨split_2d_xteams_count parent_team xrange k hsd hxr hfl hk0 hk,
      split_2d_yteams_count parent_team xrange k hsd hxr hk0 hk⟩
  refine ⟨hcount, ?_, by decide, by decide⟩
  intro s xpeers ypeers parent_team xrange xaxis_config xaxis_mask xaxis_team yaxis_config
    yaxis_mask yaxis_team ret xt yt s1 xcalls ycalls hsd hxr hfl hin h
  unfold shmem_internal_team_split_2d at h
  cases hx : split_2d_axis parent_team xaxis_config xaxis_mask xpeers
      "x-axis 2D strided split failed" (split_2d_xteams parent_team xrange) 0 s
      xaxis_team [] with
  | error e => rw [hx] at h; cases h
  | ok rx =>
    obtain ⟨xt1, sx, xc⟩ := rx
    rw [hx] at h
    dsimp only at h
    cases hy : split_2d_axis parent_team yaxis_config yaxis_mask ypeers
        "y-axis 2D strided split failed" (split_2d_yteams parent_team xrange) 0 sx
        yaxis_team [] with
    | error e => rw [hy] at h; cases h
    | ok ry =>
      obtain ⟨yt1, sy, yc⟩ := ry
      rw [hy] at h
      dsimp only at h
      injection h with h
      injection h with _ h
      injection h with _ h
      injection h with _ h
      injection h with _ h
      injection h with hxc hyc
      subst hxc; subst hyc
      obtain ⟨hcx, hsx⟩ := split_2d_axis_calls _ _ _ _ _ _ _ _ _ _ _ _ _ hx
      obtain ⟨hcy, _⟩ := split_2d_axis_calls _ _ _ _ _ _ _ _ _ _ _ _ _ hy
      rw [hsx] at hcy
      obtain ⟨h1, h2⟩ := hcount parent_team xrange s.shmem_internal_my_pe hsd hxr hfl hin
      rw [hcx, hcy, List.nil_append, List.nil_append]
      exact ⟨h1, h2⟩

/-- Six PEs and `xrange = 4`: PE 5 lies in exactly one x-team and one
y-team. -/
theorem split_2d_one_team_per_axis_example :
    ((split_2d_xteams world_of_six 4).filter
      (fun t => (shmem_internal_pe_in_active_set 5 t.1 t.2.1 t.2.2).1)).length = 1 ∧
    ((split_2d_yteams world_of_six 4).filter
      (fun t => (shmem_internal_pe_in_active_set 5 t.1 t.2.1 t.2.2).1)).length = 1 :=
  split_2d_one_team_per_axis.1 world_of_six 4 5 (by decide) (by decide) (by decide) (by decide)

/-- The number of x-teams is the least count whose runs of `xrange` cover the
parent: one fewer falls short. -/
theorem spec_ceil_quotient_tight (sz xr : Int) (hxr : 1 ≤ xr) :
    (spec_ceil_quotient sz xr - 1) * xr < sz := by
  unfold spec_ceil_quotient
  have h := Int.lt_ediv_add_one_mul_self (-sz) (b := xr) (by omega)
  have : (-(-sz / xr) - 1) * xr = -((-sz / xr + 1) * xr) := by ring
  rw [this]
  omega

/-- The count of x-teams is the ceiling of the rational quotient. -/
theorem spec_ceil_quotient_eq_ceil (sz xr : Int) (hxr : 1 ≤ xr) :
    spec_ceil_quotient sz xr = ⌈(sz : ℚ) / (xr : ℚ)⌉ := by
  symm
  rw [Int.ceil_eq_iff]
  have hpos : (0 : ℚ) < (xr : ℚ) := by exact_mod_cast (by omega : (0 : Int) < xr)
  have h1 := spec_ceil_quotient_tight sz xr hxr
  have h2 := spec_ceil_quotient_covers sz xr hxr
  constructor
  · rw [lt_div_iff₀ hpos]
    exact_mod_cast h1
  · rw [div_le_iff₀ hpos]
    exact_mod_cast h2

/-- When `xrange` divides the parent's size, the x-teams end exactly at the
parent's last PE. -/
theorem spec_ceil_quotient_exact (sz xr : Int) (hsz : 0 ≤ sz) (hxr : 1 ≤ xr)
    (hrem : sz.tmod xr = 0) :
    spec_ceil_quotient sz xr * xr = sz := by
  rw [Int.tmod_eq_emod hsz (by omega)] at hrem
  have hdecomp := Int.emod_add_ediv sz xr
  rw [hrem] at hdecomp
  have h1 := spec_ceil_quotient_tight sz xr hxr
  have h2 := spec_ceil_quotient_covers sz xr hxr
  have hlt : (spec_ceil_quotient sz xr - 1) * xr < xr * (sz / xr) := by omega
  have hle : xr * (sz / xr) ≤ spec_ceil_quotient sz xr * xr := by omega
  have hxr0 : (0 : Int) < xr := by omega
  have ha : spec_ceil_quotient sz xr - 1 < sz / xr := by
    by_contra hc
    have : xr * (sz / xr) ≤ (spec_ceil_quotient sz xr - 1) * xr := by
      rw [mul_comm]
      exact Int.mul_le_mul_of_nonneg_right (by omega) (by omega)
    omega
  have hb : sz / xr ≤ spec_ceil_quotient sz xr := by
    by_contra hc
    have : (spec_ceil_quotient sz xr + 1) * xr ≤ xr * (sz / xr) := by
      rw [mul_comm xr]
      exact Int.mul_le_mul_of_nonneg_right (by omega) (by omega)
    have hex : (spec_ceil_quotient sz xr + 1) * xr
        = spec_ceil_quotient sz xr * xr + xr := by ring
    omega
  have : spec_ceil_quotient sz xr = sz / xr := by omega
  rw [this, mul_comm]
  omega

/-- The triples of the first loop, in closed form. -/
theorem split_2d_xteams_from_eq (sd sz xr nx : Int) :
    ∀ (fuel : Nat) (i start : Int),
      split_2d_xteams_from sd sz xr nx fuel i start =
        (List.range fuel).map (fun j : Nat =>
          (start + (j : Int) * (xr * sd), sd,
            if i + (j : Int) = nx - 1 ∧ sz.tmod xr ≠ 0 then sz.tmod xr else xr))
  | 0, _, _ => by simp [split_2d_xteams_from]
  | fuel + 1, i, start => by
    unfold split_2d_xteams_from
    rw [split_2d_xteams_from_eq sd sz xr nx fuel (i + 1) (start + xr * sd),
      List.range_succ_eq_map, List.map_cons, List.map_map]
    simp
    intro j _
    have h1 : start + xr * sd + (j : Int) * (xr * sd) = start + ((j : Int) + 1) * (xr * sd) := by
      ring
    have h2 : i + 1 + (j : Int) = i + ((j : Int) + 1) := by ring
    rw [h1, h2]
    exact ⟨rfl, rfl⟩

/-- The triples of the second loop, in closed form. -/
theorem split_2d_yteams_from_eq (sd sz xr : Int) :
    ∀ (fuel : Nat) (i start : Int),
      split_2d_yteams_from sd sz xr fuel i start =
        (List.range fuel).map (fun j : Nat =>
          (start + (j : Int) * sd, xr * sd,
            if sz.tmod xr ≠ 0 ∧ i + (j : Int) < sz.tmod xr then sz.tdiv xr + 1
            else sz.tdiv xr))
  | 0, _, _ => by simp [split_2d_yteams_from]
  | fuel + 1, i, start => by
    unfold split_2d_yteams_from
    rw [split_2d_yteams_from_eq sd sz xr fuel (i + 1) (start + sd),
      List.range_succ_eq_map, List.map_cons, List.map_map]
    simp
    intro j _
    have h1 : start + sd + (j : Int) * sd = start + ((j : Int) + 1) * sd := by ring
    have h2 : i + 1 + (j : Int) = i + ((j : Int) + 1) := by ring
    rw [h1, h2]
    exact ⟨rfl, rfl⟩

/-- The sizes of the x-teams of iterations `i, ..., num_xteams − 1` add up to
what is left of the parent from index `i·xrange` on. -/
theorem split_2d_xteams_from_sum (sd sz xr nx : Int)
    (H2 : sz.tmod xr ≠ 0 → (nx - 1) * xr + sz.tmod xr = sz)
    (H3 : sz.tmod xr = 0 → nx * xr = sz) :
    ∀ (fuel : Nat) (i start : Int), i + fuel = nx →
      ((split_2d_xteams_from sd sz xr nx fuel i start).map (fun t => t.2.2)).sum
        = if fuel = 0 then 0 else sz - i * xr
  | 0, _, _, _ => by simp [split_2d_xteams_from]
  | fuel + 1, i, start, hi => by
    have ih := split_2d_xteams_from_sum sd sz xr nx H2 H3 fuel (i + 1) (start + xr * sd)
      (by push_cast at hi; omega)
    have hnext : (i + 1) * xr = i * xr + xr := by ring
    unfold split_2d_xteams_from
    rw [List.map_cons, List.sum_cons, ih, if_neg (Nat.succ_ne_zero fuel), hnext]
    dsimp only
    by_cases hf : fuel = 0
    · subst hf
      have hi1 : i = nx - 1 := by push_cast at hi; omega
      rw [if_pos rfl]
      by_cases hrem : sz.tmod xr = 0
      · have h3 := H3 hrem
        have : nx * xr = i * xr + xr := by rw [hi1]; ring
        rw [if_neg (fun h => h.2 hrem)]
        omega
      · have h2 := H2 hrem
        rw [hi1] at *
        rw [if_pos ⟨rfl, hrem⟩]
        omega
    · have hi1 : ¬ (i = nx - 1) := by push_cast at hi; omega
      rw [if_neg hf, if_neg (fun h => hi1 h.1)]
      omega

/-- The sizes of the y-teams of iterations `i, ..., xrange − 1` add up to
`fuel` times the quotient plus the part of the remainder not yet handed out. -/
theorem split_2d_yteams_from_sum (sd sz xr : Int) (hrem : sz.tmod xr < xr) :
    ∀ (fuel : Nat) (i start : Int), 0 ≤ i → i + fuel = xr →
      ((split_2d_yteams_from sd sz xr fuel i start).map (fun t => t.2.2)).sum
        = (fuel : Int) * sz.tdiv xr + if i < sz.tmod xr then sz.tmod xr - i else 0
  | 0, i, _, _, hi => by
    have : ¬ (i < sz.tmod xr) := by push_cast at hi; omega
    simp [split_2d_yteams_from, this]
  | fuel + 1, i, start, hi0, hi => by
    have ih := split_2d_yteams_from_sum sd sz xr hrem fuel (i + 1) (start + sd) (by omega)
      (by push_cast at hi; omega)
    unfold split_2d_yteams_from
    rw [List.map_cons, List.sum_cons, ih]
    dsimp only
    push_cast
    by_cases hlt : i < sz.tmod xr
    · have hne : sz.tmod xr ≠ 0 := by omega
      rw [if_pos ⟨hne, hlt⟩, if_pos hlt]
      by_cases hlt1 : i + 1 < sz.tmod xr
      · rw [if_pos hlt1]; ring
      · rw [if_neg hlt1]
        have : sz.tmod xr - i = 1 := by omega
        rw [this]; ring
    · rw [if_neg (fun h => hlt h.2), if_neg hlt, if_neg (by omega)]
      ring

/-- For a parent of size `S > 0` and `xrange ≥ 1` for which the `float`
expression `ceil(parent_size / (float) xrange)` yields the ceiling of the
quotient, `team_split_2d` generates `ceil(S/xrange)` x-teams, x-team `i` being
the run of parent indices `[i·xrange, min((i+1)·xrange, S))` with the parent's
stride (only the last may be shorter than `xrange`), and `xrange` y-teams,
y-team `i` with start
`parent.start + i·parent.stride`, stride `xrange·parent.stride` and
`floor(S/xrange) + (1 if i < S mod xrange else 0)` members; the y-team sizes
differ by at most 1, and the x-team sizes and the y-team sizes each sum to
`S`. -/
theorem split_2d_team_shapes (parent_team : shmem_internal_team_t) (xrange : Int)
    (hsize : 0 < parent_team.size) (hxr : 1 ≤ xrange)
    (hfl : ceil_of_float_quotient parent_team.size xrange
      = spec_ceil_quotient parent_team.size xrange) :
    ((split_2d_xteams parent_team xrange).length : Int)
      = ⌈(parent_team.size : ℚ) / (xrange : ℚ)⌉ ∧
    split_2d_xteams parent_team xrange =
      (List.range (split_2d_xteams parent_team xrange).length).map (fun i : Nat =>
        (parent_team.start + (i : Int) * xrange * parent_team.stride, parent_team.stride,
          min (((i : Int) + 1) * xrange) parent_team.size - (i : Int) * xrange)) ∧
    (∀ i : Nat, i + 1 < (split_2d_xteams parent_team xrange).length →
      min (((i : Int) + 1) * xrange) parent_team.size - (i : Int) * xrange = xrange) ∧
    ((split_2d_yteams parent_team xrange).length : Int) = xrange ∧
    split_2d_yteams parent_team xrange =
      (List.range xrange.toNat).map (fun i : Nat =>
        (parent_team.start + (i : Int) * parent_team.stride, xrange * parent_team.stride,
          parent_team.size / xrange +
            if (i : Int) < parent_team.size % xrange then 1 else 0)) ∧
    (∀ a ∈ (split_2d_yteams parent_team xrange).map (fun t => t.2.2),
      ∀ b ∈ (split_2d_yteams parent_team xrange).map (fun t => t.2.2), a - b ≤ 1) ∧
    ((split_2d_xteams parent_team xrange).map (fun t => t.2.2)).sum = parent_team.size ∧
    ((split_2d_yteams parent_team xrange).map (fun t => t.2.2)).sum = parent_team.size := by
  have hsz : 0 ≤ parent_team.size := by omega
  have hnn := spec_ceil_quotient_nonneg parent_team.size xrange hsz hxr
  have hcov := spec_ceil_quotient_covers parent_team.size xrange hxr
  have htight := spec_ceil_quotient_tight parent_team.size xrange hxr
  have hlast := spec_ceil_quotient_last parent_team.size xrange hsz hxr
  have hexact := spec_ceil_quotient_exact parent_team.size xrange hsz hxr
  have hmod := Int.tmod_eq_emod hsz (show (0 : Int) ≤ xrange by omega)
  have hdiv := Int.tdiv_eq_ediv hsz (show (0 : Int) ≤ xrange by omega)
  have hr0 := Int.emod_nonneg parent_team.size (b := xrange) (by omega)
  have hr1 := Int.emod_lt_of_pos parent_team.size (b := xrange) (by omega)
  have hxeq := split_2d_xteams_from_eq parent_team.stride parent_team.size xrange
    (spec_ceil_quotient parent_team.size xrange)
    (spec_ceil_quotient parent_team.size xrange).toNat 0 parent_team.start
  have hyeq := split_2d_yteams_from_eq parent_team.stride parent_team.size xrange
    xrange.toNat 0 parent_team.start
  have hxlen : (split_2d_xteams parent_team xrange).length
      = (spec_ceil_quotient parent_team.size xrange).toNat := by
    unfold split_2d_xteams
    rw [hfl, hxeq, List.length_map, List.length_range]
  have hylen : (split_2d_yteams parent_team xrange).length = xrange.toNat := by
    unfold split_2d_yteams
    rw [hyeq, List.length_map, List.length_range]
  have hyform : split_2d_yteams parent_team xrange =
      (List.range xrange.toNat).map (fun i : Nat =>
        (parent_team.start + (i : Int) * parent_team.stride, xrange * parent_team.stride,
          parent_team.size / xrange +
            if (i : Int) < parent_team.size % xrange then 1 else 0)) := by
    unfold split_2d_yteams
    rw [hyeq]
    apply List.map_congr_left
    intro i _
    rw [hmod, hdiv, Int.zero_add]
    by_cases hlt : (i : Int) < parent_team.size % xrange
    · rw [if_pos ⟨by omega, hlt⟩, if_pos hlt]
    · rw [if_neg (fun h => hlt h.2), if_neg hlt, add_zero]
  refine ⟨?_, ?_, ?_, ?_, hyform, ?_, ?_, ?_⟩
  · rw [hxlen, Int.toNat_of_nonneg hnn]
    exact spec_ceil_quotient_eq_ceil parent_team.size xrange hxr
  · rw [hxlen]
    unfold split_2d_xteams
    rw [hfl, hxeq]
    apply List.map_congr_left
    intro i hi
    have hilt : (i : Int) < spec_ceil_quotient parent_team.size xrange := by
      have := List.mem_range.mp hi
      omega
    have hstart : parent_team.start + (i : Int) * (xrange * parent_team.stride)
        = parent_team.start + (i : Int) * xrange * parent_team.stride := by ring
    have hsucc : ((i : Int) + 1) * xrange = (i : Int) * xrange + xrange := by ring
    rw [hstart, Int.zero_add, hsucc]
    congr 2
    by_cases hl : (i : Int) = spec_ceil_quotient parent_team.size xrange - 1
    · have hfull : spec_ceil_quotient parent_team.size xrange * xrange
          = (i : Int) * xrange + xrange := by rw [hl]; ring
      by_cases hrem : parent_team.size.tmod xrange = 0
      · have := hexact hrem
        rw [if_neg (fun h => h.2 hrem), min_eq_left (by omega)]
        omega
      · have h2 := hlast hrem
        rw [← hl] at h2
        rw [if_pos ⟨hl, hrem⟩, min_eq_right (by omega)]
        omega
    · have hle : (i : Int) + 1 ≤ spec_ceil_quotient parent_team.size xrange - 1 := by
        omega
      have hmul : ((i : Int) + 1) * xrange
          ≤ (spec_ceil_quotient parent_team.size xrange - 1) * xrange :=
        Int.mul_le_mul_of_nonneg_right hle (by omega)
      rw [if_neg (fun h => hl h.1), min_eq_left (by omega)]
      omega
  · intro i hi
    rw [hxlen] at hi
    have hle : (i : Int) + 1 ≤ spec_ceil_quotient parent_team.size xrange - 1 := by
      omega
    have hmul : ((i : Int) + 1) * xrange
        ≤ (spec_ceil_quotient parent_team.size xrange - 1) * xrange :=
      Int.mul_le_mul_of_nonneg_right hle (by omega)
    have hsucc : ((i : Int) + 1) * xrange = (i : Int) * xrange + xrange := by ring
    rw [min_eq_left (by omega)]
    omega
  · rw [hylen, Int.toNat_of_nonneg (by omega)]
  · intro a ha b hb
    rw [hyform, List.map_map] at ha hb
    obtain ⟨i, _, rfl⟩ := List.mem_map.mp ha
    obtain ⟨j, _, rfl⟩ := List.mem_map.mp hb
    simp only [Function.comp_apply]
    split_ifs <;> omega
  · have h := split_2d_xteams_from_sum parent_team.stride parent_team.size xrange
      (spec_ceil_quotient parent_team.size xrange) hlast hexact
      (spec_ceil_quotient parent_team.size xrange).toNat 0 parent_team.start
      (by rw [Int.toNat_of_nonneg hnn]; ring)
    unfold split_2d_xteams
    rw [hfl, h]
    have hpos : 0 < spec_ceil_quotient parent_team.size xrange := by
      by_contra hc
      have h0 : spec_ceil_quotient parent_team.size xrange = 0 := by omega
      rw [h0] at hcov
      omega
    have hne : ¬ ((spec_ceil_quotient parent_team.size xrange).toNat = 0) := by omega
    rw [if_neg hne]
    ring
  · have h := split_2d_yteams_from_sum parent_team.stride parent_team.size xrange
      (by rw [hmod]; exact hr1) xrange.toNat 0 parent_team.start (le_refl _)
      (by rw [Int.toNat_of_nonneg (by omega)]; ring)
    unfold split_2d_yteams
    rw [h, Int.toNat_of_nonneg (by omega)]
    have hd := Int.tdiv_add_tmod parent_team.size xrange
    by_cases hlt : 0 < parent_team.size.tmod xrange
    · rw [if_pos hlt]; linear_combination hd
    · have hz : parent_team.size.tmod xrange = 0 := by omega
      rw [if_neg hlt]
      linear_combination hd - hz

/-- Six PEs and `xrange = 4`: two x-teams of 4 and 2 PEs, four y-teams of 2, 2,
1 and 1 PEs. -/
theorem split_2d_team_shapes_example :
    ((split_2d_xteams world_of_six 4).length : Int) = ⌈((6 : Int) : ℚ) / ((4 : Int) : ℚ)⌉ ∧
    split_2d_xteams world_of_six 4 = [(0, 1, 4), (4, 1, 2)] ∧
    split_2d_yteams world_of_six 4 = [(0, 4, 2), (1, 4, 2), (2, 4, 1), (3, 4, 1)] ∧
    ((split_2d_xteams world_of_six 4).map (fun t => t.2.2)).sum = 6 ∧
    ((split_2d_yteams world_of_six 4).map (fun t => t.2.2)).sum = 6 :=
  ⟨(split_2d_team_shapes world_of_six 4 (by decide) (by decide) (by decide)).1, by decide, by decide,
    (split_2d_team_shapes world_of_six 4 (by decide) (by decide) (by decide)).2.2.2.2.2.2.1,
    (split_2d_team_shapes world_of_six 4 (by decide) (by decide) (by decide)).2.2.2.2.2.2.2⟩

/-- A participating PE whose reduced word has no set bit among its 64 bits is
stopped by the teams-exhausted error. -/
theorem split_strided_exhausted (s : TeamsState) (peers : List Nat)
    (parent_team : shmem_internal_team_t) (PE_start PE_stride PE_size : Int)
    (config : Option Int) (config_mask : Int) (new_team : Option shmem_internal_team_t)
    (ha : 0 ≤ PE_start) (hb : 1 ≤ PE_stride) (hc : 0 < PE_size)
    (hin : (shmem_internal_pe_in_active_set s.shmem_internal_my_pe PE_start PE_stride
      PE_size).1 = true)
    (hnone : ∀ i, i < 64 →
      (shmem_internal_op_to_all_BAND s.shmem_internal_psync_pool_reserved peers).testBit i
        = false) :
    shmem_internal_team_split_strided s peers parent_team PE_start PE_stride PE_size
        config config_mask new_team =
      .error "No more teams available, try increasing SHMEM_TEAMS_MAX" := by
  have hgood : ¬ (PE_size ≤ 0 ∨ PE_stride < 1 ∨ PE_start < 0) := by omega
  have hscan : first_nonzero_scan
      (shmem_internal_op_to_all_BAND s.shmem_internal_psync_pool_reserved peers) (8 * 8) 0
      = none := by
    cases h : first_nonzero_scan
        (shmem_internal_op_to_all_BAND s.shmem_internal_psync_pool_reserved peers) (8 * 8) 0
      with
    | none => rfl
    | some k =>
      obtain ⟨_, h2, h3, _⟩ := first_nonzero_scan_some _ _ _ _ h
      rw [hnone k (by omega)] at h3
      cases h3
  unfold shmem_internal_team_split_strided
  rw [if_neg hgood]
  simp only [hin, shmem_internal_1st_nonzero_bit, hscan, if_true]

/-- C12: on a participating PE, if the AND-reduced reservation word has no set
bit among its 64 bits, the strided split raises the teams-exhausted error
instead of returning a team; if it has a set bit, the call returns 0 with a
team and no error is raised. -/
theorem C12_split_strided_exhaustion (s : TeamsState) (peers : List Nat)
    (parent_team : shmem_internal_team_t) (PE_start PE_stride PE_size : Int)
    (config : Option Int) (config_mask : Int) (new_team : Option shmem_internal_team_t)
    (ha : 0 ≤ PE_start) (hb : 1 ≤ PE_stride) (hc : 0 < PE_size)
    (hin : (shmem_internal_pe_in_active_set s.shmem_internal_my_pe PE_start PE_stride
      PE_size).1 = true) :
    ((∀ i, i < 64 →
        (shmem_internal_op_to_all_BAND s.shmem_internal_psync_pool_reserved peers).testBit i
          = false) →
      shmem_internal_team_split_strided s peers parent_team PE_start PE_stride PE_size
          config config_mask new_team =
        .error "No more teams available, try increasing SHMEM_TEAMS_MAX") ∧
    ((∃ i, i < 64 ∧
        (shmem_internal_op_to_all_BAND s.shmem_internal_psync_pool_reserved peers).testBit i
          = true) →
      ∃ t s1,
        shmem_internal_team_split_strided s peers parent_team PE_start PE_stride PE_size
          config config_mask new_team = .ok (0, some t, s1)) := by
  constructor
  · exact split_strided_exhausted s peers parent_team PE_start PE_stride PE_size config
      config_mask new_team ha hb hc hin
  · rintro ⟨i, hi, hbit⟩
    obtain ⟨k, hk, hkb, hkl⟩ := exists_least_set_bit _ i hbit
    have hpair : shmem_internal_pe_in_active_set s.shmem_internal_my_pe PE_start PE_stride
        PE_size = (true, (shmem_internal_pe_in_active_set s.shmem_internal_my_pe PE_start
          PE_stride PE_size).2) := Prod.ext hin rfl
    exact ⟨_, _, split_strided_participant s peers parent_team PE_start PE_stride PE_size
      config config_mask new_team _ k ha hb hc hpair (by omega) hkb hkl⟩

theorem C12_split_strided_exhaustion_witness :
    shmem_internal_team_split_strided
        { TeamsState.after_init 4 0 64 with
          num_teams := 64, shmem_internal_psync_pool_reserved := 0 }
        [] world_of_four 0 1 1 none 0 none =
      .error "No more teams available, try increasing SHMEM_TEAMS_MAX" :=
  (C12_split_strided_exhaustion
    { TeamsState.after_init 4 0 64 with
      num_teams := 64, shmem_internal_psync_pool_reserved := 0 }
    [] world_of_four 0 1 1 none 0 none (by decide) (by decide) (by decide) (by decide)).1
    (fun i _ => by
      show (shmem_internal_op_to_all_BAND 0 []).testBit i = false
      simp [shmem_internal_op_to_all_BAND])

/-- A negative `TEAMS_MAX` is converted to `size_t` for the comparison with 64
and so exceeds it: were the pool allocated, the fatal error would be
raised. -/
theorem teams_init_negative_limit (s : TeamsState) (h0 : s.TEAMS_MAX < 0)
    (h1 : -(2 ^ 63) ≤ s.TEAMS_MAX) :
    shmem_internal_teams_init s true = .error "Requested more teams than are supported" := by
  have hgt : s.TEAMS_MAX % 2 ^ 64 > 64 := by omega
  simp only [shmem_internal_teams_init, Bool.not_true, Bool.false_eq_true, if_false,
    if_pos hgt]

/-- With severity `ATOMIC_WARNINGS` or `ATOMIC_SOFT_SUPPORT` the return check
never reports an error. -/
theorem atomicvalid_rtncheck_lenient (ret atomic_size : Int) (atomic_sup : atomic_support_lv)
    (h : atomic_sup ≠ ATOMIC_NO_SUPPORT) :
    atomicvalid_rtncheck ret atomic_size atomic_sup = 0 := by
  unfold atomicvalid_rtncheck
  cases atomic_sup <;> simp at h ⊢

/-- With severity `ATOMIC_WARNINGS` or `ATOMIC_SOFT_SUPPORT` a scan of a
datatype-by-operation table returns 0 whatever the provider answers. -/
theorem atomicvalid_dt_loop_lenient
    (query : shm_internal_datatype → shm_internal_op → Int × Int)
    (OPS : List shm_internal_op) (atomic_sup : atomic_support_lv)
    (h : atomic_sup ≠ ATOMIC_NO_SUPPORT) :
    ∀ DT : List shm_internal_datatype, atomicvalid_dt_loop query OPS atomic_sup DT = 0 := by
  have hops : ∀ (dt : shm_internal_datatype) (ops : List shm_internal_op),
      atomicvalid_ops_loop query dt atomic_sup ops = none := by
    intro dt ops
    induction ops with
    | nil => rfl
    | cons op rest ih =>
      unfold atomicvalid_ops_loop
      simp only [atomicvalid_rtncheck_lenient _ _ _ h, ne_eq, not_true_eq_false, if_false]
      exact ih
  intro DT
  induction DT with
  | nil => rfl
  | cons dt rest ih =>
    unfold atomicvalid_dt_loop
    rw [hops]
    exact ih

/-- With `OFI_ATOMIC_CHECKS_WARN` set, `atomic_limitations_check` returns 0
for every provider: no missing combination is an error. -/
theorem atomic_limitations_check_warn (p : atomic_provider) (ENABLE_FORTRAN : Bool) :
    atomic_limitations_check p true ENABLE_FORTRAN = 0 := by
  simp [atomic_limitations_check, atomicvalid_DTxOP, fetch_atomicvalid_DTxOP,
    compare_atomicvalid_DTxOP, atomicvalid_dt_loop_lenient]

/-- The scans of the three reduction tables return 0 for every provider. -/
theorem atomicvalid_DTxOP_reductions (p : atomic_provider) (DT_MAX OPS_MAX : Nat)
    (DT : List shm_internal_datatype) (OPS : List shm_internal_op) :
    atomicvalid_DTxOP p DT_MAX OPS_MAX DT OPS ATOMIC_SOFT_SUPPORT = 0 := by
  unfold atomicvalid_DTxOP
  exact atomicvalid_dt_loop_lenient _ _ _ (by decide) _

/-- A nonzero return code of a validity query under `ATOMIC_NO_SUPPORT` does
make the return check, and the table scan that meets it first, fail. -/
theorem atomicvalid_rtncheck_nonzero_ret (ret atomic_size : Int) (h : ret ≠ 0) :
    atomicvalid_rtncheck ret atomic_size ATOMIC_NO_SUPPORT = ret := by
  simp [atomicvalid_rtncheck, h]

/-- The inner loop under `ATOMIC_NO_SUPPORT`, when no query answers
(0, size 0): it runs to its end exactly when every return code is 0, and
otherwise returns a nonzero code. -/
theorem atomicvalid_ops_loop_no_support
    (query : shm_internal_datatype → shm_internal_op → Int × Int)
    (dt : shm_internal_datatype) :
    ∀ OPS : List shm_internal_op,
      (∀ op ∈ OPS, (query dt op).1 = 0 → (query dt op).2 ≠ 0) →
      ((atomicvalid_ops_loop query dt ATOMIC_NO_SUPPORT OPS = none ↔
          ∀ op ∈ OPS, (query dt op).1 = 0) ∧
        ∀ r, atomicvalid_ops_loop query dt ATOMIC_NO_SUPPORT OPS = some r → r ≠ 0)
  | [], _ => by simp [atomicvalid_ops_loop]
  | op :: rest, h => by
    obtain ⟨ih1, ih2⟩ := atomicvalid_ops_loop_no_support query dt rest
      (fun o ho => h o (List.mem_cons_of_mem _ ho))
    unfold atomicvalid_ops_loop
    dsimp only
    by_cases hr : (query dt op).1 = 0
    · have hsz := h op (List.mem_cons_self _ _) hr
      have hchk : atomicvalid_rtncheck (query dt op).1 (query dt op).2 ATOMIC_NO_SUPPORT = 0 := by
        simp [atomicvalid_rtncheck, hr, hsz]
      rw [hchk]
      simp only [ne_eq, not_true_eq_false, if_false]
      refine ⟨?_, ih2⟩
      rw [ih1]
      simp [hr]
    · have hchk : atomicvalid_rtncheck (query dt op).1 (query dt op).2 ATOMIC_NO_SUPPORT
          = (query dt op).1 := atomicvalid_rtncheck_nonzero_ret _ _ hr
      rw [hchk, if_pos hr]
      refine ⟨?_, ?_⟩
      · simp [hr]
      · intro r hrr
        injection hrr with hrr
        rw [← hrr]
        exact hr

/-- The scan of one table under `ATOMIC_NO_SUPPORT`, when no query answers
(0, size 0): it returns 0 exactly when every return code is 0. -/
theorem atomicvalid_dt_loop_no_support
    (query : shm_internal_datatype → shm_internal_op → Int × Int)
    (OPS : List shm_internal_op) :
    ∀ DT : List shm_internal_datatype,
      (∀ dt ∈ DT, ∀ op ∈ OPS, (query dt op).1 = 0 → (query dt op).2 ≠ 0) →
      (atomicvalid_dt_loop query OPS ATOMIC_NO_SUPPORT DT = 0 ↔
        ∀ dt ∈ DT, ∀ op ∈ OPS, (query dt op).1 = 0)
  | [], _ => by simp [atomicvalid_dt_loop]
  | dt :: rest, h => by
    have ih := atomicvalid_dt_loop_no_support query OPS rest
      (fun d hd => h d (List.mem_cons_of_mem _ hd))
    obtain ⟨h1, h2⟩ := atomicvalid_ops_loop_no_support query dt OPS
      (h dt (List.mem_cons_self _ _))
    unfold atomicvalid_dt_loop
    cases hl : atomicvalid_ops_loop query dt ATOMIC_NO_SUPPORT OPS with
    | none =>
      dsimp only
      rw [ih]
      have := h1.mp hl
      constructor
      · intro hall d hd
        rcases List.mem_cons.mp hd with rfl | hd
        · exact this
        · exact hall d hd
      · intro hall d hd
        exact hall d (List.mem_cons_of_mem _ hd)
    | some r =>
      dsimp only
      have hr := h2 r hl
      have hnot : ¬ ∀ op ∈ OPS, (query dt op).1 = 0 := by
        intro hall
        rw [h1.mpr hall] at hl
        cases hl
      constructor
      · intro h0
        exact absurd h0 hr
      · intro hall
        exact absurd (hall dt (List.mem_cons_self _ _)) hnot

/-- The scan of one table under `ATOMIC_NO_SUPPORT`, in terms of the answers to
its queries. -/
theorem atomicvalid_table_no_support
    (query : shm_internal_datatype → shm_internal_op → Int × Int)
    (DT_MAX OPS_MAX : Nat) (DT : List shm_internal_datatype) (OPS : List shm_internal_op)
    (h : ∀ a ∈ atomic_table_answers query DT_MAX OPS_MAX DT OPS, a.1 = 0 → a.2 ≠ 0) :
    atomicvalid_dt_loop query (OPS.take OPS_MAX) ATOMIC_NO_SUPPORT (DT.take DT_MAX) = 0 ↔
      ∀ a ∈ atomic_table_answers query DT_MAX OPS_MAX DT OPS, a.1 = 0 := by
  have hmem : ∀ a, a ∈ atomic_table_answers query DT_MAX OPS_MAX DT OPS ↔
      ∃ dt ∈ DT.take DT_MAX, ∃ op ∈ OPS.take OPS_MAX, query dt op = a := by
    intro a
    unfold atomic_table_answers
    rw [List.mem_flatten]
    constructor
    · rintro ⟨l, hl, ha⟩
      obtain ⟨dt, hdt, rfl⟩ := List.mem_map.mp hl
      obtain ⟨op, hop, rfl⟩ := List.mem_map.mp ha
      exact ⟨dt, hdt, op, hop, rfl⟩
    · rintro ⟨dt, hdt, op, hop, rfl⟩
      exact ⟨_, List.mem_map.mpr ⟨dt, hdt, rfl⟩, List.mem_map.mpr ⟨op, hop, rfl⟩⟩
  rw [atomicvalid_dt_loop_no_support query _ _
    (fun dt hdt op hop => h _ ((hmem _).mpr ⟨dt, hdt, op, hop, rfl⟩))]
  constructor
  · intro hall a ha
    obtain ⟨dt, hdt, op, hop, rfl⟩ := (hmem a).mp ha
    exact hall dt hdt op hop
  · intro hall dt hdt op hop
    exact hall _ ((hmem _).mpr ⟨dt, hdt, op, hop, rfl⟩)

/-- A chain of nine return-code checks gives 0 exactly when every code is
0. -/
theorem ret_chain_eq_zero (r1 r2 r3 r4 r5 r6 r7 r8 r9 : Int) :
    (if r1 ≠ 0 then r1 else if r2 ≠ 0 then r2 else if r3 ≠ 0 then r3 else
      if r4 ≠ 0 then r4 else if r5 ≠ 0 then r5 else if r6 ≠ 0 then r6 else
      if r7 ≠ 0 then r7 else if r8 ≠ 0 then r8 else if r9 ≠ 0 then r9 else 0) = 0 ↔
    r1 = 0 ∧ r2 = 0 ∧ r3 = 0 ∧ r4 = 0 ∧ r5 = 0 ∧ r6 = 0 ∧ r7 = 0 ∧ r8 = 0 ∧ r9 = 0 := by
  split_ifs <;> simp_all

/-- The part of C17 that holds: with `OFI_ATOMIC_CHECKS_WARN` unset, and no
query for a standard, extended or internally required combination answering
(return code 0, atomic size 0), `atomic_limitations_check` returns nonzero
exactly when one of those queries returns a nonzero code. -/
theorem atomic_limitations_check_no_support (p : atomic_provider) (ENABLE_FORTRAN : Bool)
    (h : ∀ a ∈ atomic_general_answers p ENABLE_FORTRAN, a.1 = 0 → a.2 ≠ 0) :
    atomic_limitations_check p false ENABLE_FORTRAN ≠ 0 ↔
      ∃ a ∈ atomic_general_answers p ENABLE_FORTRAN, a.1 ≠ 0 := by
  have hmem : ∀ a, a ∈ atomic_general_answers p ENABLE_FORTRAN ↔
      (a ∈ atomic_table_answers p.fi_atomicvalid 5 1 DT_AMO_STANDARD AMO_STANDARD_OPS ∨
       a ∈ atomic_table_answers p.fi_fetch_atomicvalid 5 1 DT_AMO_STANDARD
          FETCH_AMO_STANDARD_OPS ∨
       a ∈ atomic_table_answers p.fi_compare_atomicvalid 5 1 DT_AMO_STANDARD
          COMPARE_AMO_STANDARD_OPS ∨
       a ∈ atomic_table_answers p.fi_atomicvalid (if ENABLE_FORTRAN then 8 else 7) 1
          DT_AMO_EXTENDED AMO_EXTENDED_OPS ∨
       a ∈ atomic_table_answers p.fi_fetch_atomicvalid (if ENABLE_FORTRAN then 8 else 7) 2
          DT_AMO_EXTENDED FETCH_AMO_EXTENDED_OPS ∨
       a ∈ atomic_table_answers p.fi_compare_atomicvalid 1 1 DT_INTERNAL_REQ
          INTERNAL_REQ_OPS) := by
    intro a
    unfold atomic_general_answers
    simp only [List.mem_append, or_assoc]
  have t1 := atomicvalid_table_no_support p.fi_atomicvalid 5 1 DT_AMO_STANDARD
    AMO_STANDARD_OPS (fun a ha => h a ((hmem a).mpr (Or.inl ha)))
  have t2 := atomicvalid_table_no_support p.fi_fetch_atomicvalid 5 1 DT_AMO_STANDARD
    FETCH_AMO_STANDARD_OPS (fun a ha => h a ((hmem a).mpr (Or.inr (Or.inl ha))))
  have t3 := atomicvalid_table_no_support p.fi_compare_atomicvalid 5 1 DT_AMO_STANDARD
    COMPARE_AMO_STANDARD_OPS
    (fun a ha => h a ((hmem a).mpr (Or.inr (Or.inr (Or.inl ha)))))
  have t4 := atomicvalid_table_no_support p.fi_atomicvalid (if ENABLE_FORTRAN then 8 else 7) 1
    DT_AMO_EXTENDED AMO_EXTENDED_OPS
    (fun a ha => h a ((hmem a).mpr (Or.inr (Or.inr (Or.inr (Or.inl ha))))))
  have t5 := atomicvalid_table_no_support p.fi_fetch_atomicvalid
    (if ENABLE_FORTRAN then 8 else 7) 2 DT_AMO_EXTENDED FETCH_AMO_EXTENDED_OPS
    (fun a ha => h a ((hmem a).mpr (Or.inr (Or.inr (Or.inr (Or.inr (Or.inl ha)))))))
  have t6 := atomicvalid_table_no_support p.fi_compare_atomicvalid 1 1 DT_INTERNAL_REQ
    INTERNAL_REQ_OPS
    (fun a ha => h a ((hmem a).mpr (Or.inr (Or.inr (Or.inr (Or.inr (Or.inr ha)))))))
  have hdef : atomic_limitations_check p false ENABLE_FORTRAN =
      (if atomicvalid_DTxOP p 5 1 DT_AMO_STANDARD AMO_STANDARD_OPS ATOMIC_NO_SUPPORT ≠ 0 then
        atomicvalid_DTxOP p 5 1 DT_AMO_STANDARD AMO_STANDARD_OPS ATOMIC_NO_SUPPORT
      else if fetch_atomicvalid_DTxOP p 5 1 DT_AMO_STANDARD FETCH_AMO_STANDARD_OPS
          ATOMIC_NO_SUPPORT ≠ 0 then
        fetch_atomicvalid_DTxOP p 5 1 DT_AMO_STANDARD FETCH_AMO_STANDARD_OPS ATOMIC_NO_SUPPORT
      else if compare_atomicvalid_DTxOP p 5 1 DT_AMO_STANDARD COMPARE_AMO_STANDARD_OPS
          ATOMIC_NO_SUPPORT ≠ 0 then
        compare_atomicvalid_DTxOP p 5 1 DT_AMO_STANDARD COMPARE_AMO_STANDARD_OPS
          ATOMIC_NO_SUPPORT
      else if atomicvalid_DTxOP p (if ENABLE_FORTRAN then 8 else 7) 1 DT_AMO_EXTENDED
          AMO_EXTENDED_OPS ATOMIC_NO_SUPPORT ≠ 0 then
        atomicvalid_DTxOP p (if ENABLE_FORTRAN then 8 else 7) 1 DT_AMO_EXTENDED
          AMO_EXTENDED_OPS ATOMIC_NO_SUPPORT
      else if fetch_atomicvalid_DTxOP p (if ENABLE_FORTRAN then 8 else 7) 2 DT_AMO_EXTENDED
          FETCH_AMO_EXTENDED_OPS ATOMIC_NO_SUPPORT ≠ 0 then
        fetch_atomicvalid_DTxOP p (if ENABLE_FORTRAN then 8 else 7) 2 DT_AMO_EXTENDED
          FETCH_AMO_EXTENDED_OPS ATOMIC_NO_SUPPORT
      else if atomicvalid_DTxOP p 6 3 DT_REDUCE_BITWISE REDUCE_BITWISE_OPS
          ATOMIC_SOFT_SUPPORT ≠ 0 then
        atomicvalid_DTxOP p 6 3 DT_REDUCE_BITWISE REDUCE_BITWISE_OPS ATOMIC_SOFT_SUPPORT
      else if atomicvalid_DTxOP p 9 2 DT_REDUCE_COMPARE REDUCE_COMPARE_OPS
          ATOMIC_SOFT_SUPPORT ≠ 0 then
        atomicvalid_DTxOP p 9 2 DT_REDUCE_COMPARE REDUCE_COMPARE_OPS ATOMIC_SOFT_SUPPORT
      else if atomicvalid_DTxOP p 11 2 DT_REDUCE_ARITH REDUCE_ARITH_OPS
          ATOMIC_SOFT_SUPPORT ≠ 0 then
        atomicvalid_DTxOP p 11 2 DT_REDUCE_ARITH REDUCE_ARITH_OPS ATOMIC_SOFT_SUPPORT
      else if compare_atomicvalid_DTxOP p 1 1 DT_INTERNAL_REQ INTERNAL_REQ_OPS
          ATOMIC_NO_SUPPORT ≠ 0 then
        compare_atomicvalid_DTxOP p 1 1 DT_INTERNAL_REQ INTERNAL_REQ_OPS ATOMIC_NO_SUPPORT
      else 0) := rfl
  have hzero : atomic_limitations_check p false ENABLE_FORTRAN = 0 ↔
      ∀ a ∈ atomic_general_answers p ENABLE_FORTRAN, a.1 = 0 := by
    rw [hdef, ret_chain_eq_zero, atomicvalid_DTxOP_reductions, atomicvalid_DTxOP_reductions,
      atomicvalid_DTxOP_reductions]
    unfold atomicvalid_DTxOP fetch_atomicvalid_DTxOP compare_atomicvalid_DTxOP
    rw [t1, t2, t3, t4, t5, t6]
    constructor
    · rintro ⟨h1, h2, h3, h4, h5, _, _, _, h6⟩ a ha
      rcases (hmem a).mp ha with ha | ha | ha | ha | ha | ha
      · exact h1 a ha
      · exact h2 a ha
      · exact h3 a ha
      · exact h4 a ha
      · exact h5 a ha
      · exact h6 a ha
    · intro hh
      exact ⟨fun a ha => hh a ((hmem a).mpr (Or.inl ha)),
        fun a ha => hh a ((hmem a).mpr (Or.inr (Or.inl ha))),
        fun a ha => hh a ((hmem a).mpr (Or.inr (Or.inr (Or.inl ha)))),
        fun a ha => hh a ((hmem a).mpr (Or.inr (Or.inr (Or.inr (Or.inl ha))))),
        fun a ha => hh a ((hmem a).mpr (Or.inr (Or.inr (Or.inr (Or.inr (Or.inl ha)))))),
        rfl, rfl, rfl,
        fun a ha => hh a ((hmem a).mpr (Or.inr (Or.inr (Or.inr (Or.inr (Or.inr ha))))))⟩
  rw [ne_eq, hzero]
  push_neg
  rfl

/-- C17, the code at the failing input: with `OFI_ATOMIC_CHECKS_WARN` unset
and a provider whose validity query for the atomic SUM on `int` returns 0 but
reports an atomic size of 0, the return check flags the combination (−1), yet
`atomicvalid_DTxOP` passes on the query's return code 0, and
`atomic_limitations_check` returns 0. -/
theorem C17_atomic_check_size_zero :
    provider_int_sum_size_zero.fi_atomicvalid SHM_INTERNAL_INT SHM_INTERNAL_SUM = (0, 0) ∧
    atomicvalid_rtncheck 0 0 ATOMIC_NO_SUPPORT = -1 ∧
    atomicvalid_DTxOP provider_int_sum_size_zero 5 1 DT_AMO_STANDARD AMO_STANDARD_OPS
      ATOMIC_NO_SUPPORT = 0 ∧
    atomic_limitations_check provider_int_sum_size_zero false false = 0 := by
  decide

/-- What `populate_av` returns once the address lookups have succeeded: the
insertion count when it differs from the number of PEs, else 0. -/
theorem populate_av_after_lookups (shmem_internal_num_pes : Int)
    (shmem_runtime_get : Int → Int) (fi_av_insert : Int)
    (hget : ∀ i : Nat, shmem_runtime_get (i : Int) = 0) :
    populate_av shmem_internal_num_pes true shmem_runtime_get fi_av_insert =
      .ok (if fi_av_insert ≠ shmem_internal_num_pes then fi_av_insert else 0) := by
  have hany : (List.range shmem_internal_num_pes.toNat).any
      (fun i => decide (shmem_runtime_get (i : Int) ≠ 0)) = false := by
    rw [List.any_eq_false]
    intro i _
    simp [hget i]
  unfold populate_av
  simp only [Bool.not_true, Bool.false_eq_true, if_false, hany]
  split_ifs <;> rfl

/-- C18, the code at the failing input: with four PEs, all address lookups
succeeding and an address-vector insertion that reports 0 addresses inserted,
`populate_av` returns 0, the value it uses for success. -/
theorem C18_populate_av_zero_inserted :
    populate_av 4 true (fun _ => 0) 0 = .ok 0 ∧ (0 : Int) ≠ 4 := by
  decide

/-- The part of C19 that holds: with a fabric or domain filter supplied and a
successful provider lookup, `p_info` is the first offered fabric whose names
pass the filters, or NULL when there is none. -/
theorem query_for_fabric_selection (fnmatch : String → String → Int)
    (fabrics : List fi_info) (info : fabric_info) (max_msg_size : Nat)
    (ret : Int) (info1 : fabric_info) (m b : Nat)
    (hfilter : info.fabric_name.isSome ∨ info.domain_name.isSome)
    (h : query_for_fabric fnmatch (0, fabrics) info max_msg_size = .ok (ret, info1, m, b)) :
    info1.p_info =
      query_for_fabric_select fnmatch info.fabric_name info.domain_name fabrics := by
  unfold query_for_fabric at h
  simp only [ne_eq, not_true_eq_false, if_false, hfilter, if_true] at h
  split at h
  · rename_i hp
    injection h with h
    injection h with _ h
    injection h with hi _
    rw [← hi]
  · rename_i p hp
    split_ifs at h
    · injection h with h
      injection h with _ h
      injection h with hi _
      rw [← hi]
    · injection h with h
      injection h with _ h
      injection h with hi _
      rw [← hi]

/-- C19, the code at the failing input: the user asks for fabric `ib0`, the
provider lookup succeeds and offers only a fabric named `eth0`; no offered
fabric matches, `p_info` stays NULL, and `query_for_fabric` returns 0. -/
theorem C19_query_for_fabric_no_match :
    query_for_fabric_select fnmatch_by_equality (some "ib0") none
        [{ fabric_attr_name := "eth0", domain_attr_name := "d0",
           ep_attr_max_msg_size := 4096, tx_attr_inject_size := 64 }] = none ∧
    query_for_fabric fnmatch_by_equality
        (0, [{ fabric_attr_name := "eth0", domain_attr_name := "d0",
               ep_attr_max_msg_size := 4096, tx_attr_inject_size := 64 }])
        { fabrics := [], p_info := none, prov_name := none, fabric_name := some "ib0",
          domain_name := none, npes := 4 } 0 =
      .ok (0,
        { fabrics := [{ fabric_attr_name := "eth0", domain_attr_name := "d0",
                        ep_attr_max_msg_size := 4096, tx_attr_inject_size := 64 }],
          p_info := none, prov_name := none, fabric_name := some "ib0",
          domain_name := none, npes := 4 }, 0, 16) := by
  decide

theorem stx_pool_get_set_same (pool : List shmem_transport_ofi_stx_t) (i : Int)
    (v : shmem_transport_ofi_stx_t) (h : i.toNat < pool.length) :
    stx_pool_get (pool.set i.toNat v) i = v := by
  simp [stx_pool_get, List.getD_eq_getElem?_getD, List.getElem?_set, h]

theorem stx_pool_get_set_other (pool : List shmem_transport_ofi_stx_t) (i j : Int)
    (v : shmem_transport_ofi_stx_t) (h : j.toNat ≠ i.toNat) :
    stx_pool_get (pool.set j.toNat v) i = stx_pool_get pool i := by
  simp [stx_pool_get, List.getD_eq_getElem?_getD, List.getElem?_set, h]

theorem stx_pool_sum_set (pool : List shmem_transport_ofi_stx_t) (i : Nat)
    (v : shmem_transport_ofi_stx_t) (h : i < pool.length) :
    ((pool.set i v).map (fun slot => slot.ref_cnt)).sum =
      (pool.map (fun slot => slot.ref_cnt)).sum
        - (pool.getD i { ref_cnt := 0, is_private := false }).ref_cnt + v.ref_cnt := by
  induction pool generalizing i with
  | nil => simp at h
  | cons a rest ih =>
    cases i with
    | zero => simp; ring
    | succ k =>
      have hk : k < rest.length := by simpa using h
      simp only [List.set_cons_succ, List.map_cons, List.sum_cons, ih k hk,
        List.getD_cons_succ]
      ring

/-- What the scan for an unused slot returns: −1 when every slot scanned is in
use, else the first slot with `ref_cnt = 0`, which is not private. -/
theorem stx_search_unused_loop_spec (pool : List shmem_transport_ofi_stx_t) :
    ∀ (fuel : Nat) (i idx : Int), 0 ≤ i →
      stx_search_unused_loop pool fuel i = .ok idx →
      (idx = -1 ∧ ∀ j : Int, i ≤ j → j < i + fuel → (stx_pool_get pool j).ref_cnt ≠ 0) ∨
      (i ≤ idx ∧ idx < i + fuel ∧ (stx_pool_get pool idx).ref_cnt = 0 ∧
        (stx_pool_get pool idx).is_private = false ∧
        ∀ j : Int, i ≤ j → j < idx → (stx_pool_get pool j).ref_cnt ≠ 0)
  | 0, i, idx, _, h => by
    unfold stx_search_unused_loop at h
    injection h with h
    exact Or.inl ⟨h.symm, fun j h1 h2 => by omega⟩
  | fuel + 1, i, idx, hi, h => by
    unfold stx_search_unused_loop at h
    by_cases hz : (stx_pool_get pool i).ref_cnt = 0
    · rw [if_pos hz] at h
      by_cases hp : (stx_pool_get pool i).is_private = true
      · rw [if_pos hp] at h
        cases h
      · rw [if_neg hp] at h
        injection h with h
        subst h
        exact Or.inr ⟨le_refl _, by push_cast; omega, hz, by simpa using hp,
          fun j h1 h2 => by omega⟩
    · rw [if_neg hz] at h
      rcases stx_search_unused_loop_spec pool fuel (i + 1) idx (by omega) h with
        ⟨h1, h2⟩ | ⟨h1, h2, h3, h4, h5⟩
      · refine Or.inl ⟨h1, fun j hj1 hj2 => ?_⟩
        by_cases hji : j = i
        · rw [hji]; exact hz
        · exact h2 j (by omega) (by push_cast at hj2; omega)
      · refine Or.inr ⟨by omega, by push_cast; omega, h3, h4, fun j hj1 hj2 => ?_⟩
        by_cases hji : j = i
        · rw [hji]; exact hz
        · exact h5 j (by omega) hj2

/-- A slot that can be shared lies inside the pool. -/
theorem stx_shareable_in_pool (pool : List shmem_transport_ofi_stx_t) (i threshold : Int)
    (h : stx_shareable (stx_pool_get pool i) threshold = true) :
    i.toNat < pool.length ∧ 0 < (stx_pool_get pool i).ref_cnt ∧
      (stx_pool_get pool i).is_private = false := by
  unfold stx_shareable at h
  simp only [Bool.and_eq_true, Bool.or_eq_true, decide_eq_true_eq, Bool.not_eq_true'] at h
  refine ⟨?_, h.1.1, h.2⟩
  by_contra hc
  have hget : stx_pool_get pool i = { ref_cnt := 0, is_private := false } := by
    unfold stx_pool_get
    rw [List.getD_eq_getElem?_getD, List.getElem?_eq_none (by omega)]
    rfl
  rw [hget] at h
  simp at h

/-- The round-robin scan returns a slot that can be shared and a cursor that
is not negative. -/
theorem stx_search_shared_rr_loop_spec (pool : List shmem_transport_ofi_stx_t)
    (stx_max threshold : Int) (hmax : 1 ≤ stx_max) :
    ∀ (fuel : Nat) (i idx rr : Int), 0 ≤ i →
      stx_search_shared_rr_loop pool stx_max threshold fuel i = some (idx, rr) →
      0 ≤ idx ∧ stx_shareable (stx_pool_get pool idx) threshold = true ∧
        0 ≤ rr ∧ rr < stx_max
  | 0, i, idx, rr, _, h => by
    unfold stx_search_shared_rr_loop at h
    cases h
  | fuel + 1, i, idx, rr, hi, h => by
    have hnext : 0 ≤ (i + 1).tmod stx_max := by
      rw [Int.tmod_eq_emod (by omega) (by omega)]
      exact Int.emod_nonneg _ (by omega)
    have hnext2 : (i + 1).tmod stx_max < stx_max := by
      rw [Int.tmod_eq_emod (by omega) (by omega)]
      exact Int.emod_lt_of_pos _ (by omega)
    unfold stx_search_shared_rr_loop at h
    by_cases hs : stx_shareable (stx_pool_get pool i) threshold = true
    · rw [if_pos hs] at h
      injection h with h
      injection h with h1 h2
      subst h1; subst h2
      exact ⟨hi, hs, hnext, hnext2⟩
    · rw [if_neg hs] at h
      exact stx_search_shared_rr_loop_spec pool stx_max threshold hmax fuel _ idx rr hnext h

/-- The random probe returns a slot that can be shared. -/
theorem stx_search_shared_random_probe_spec (pool : List shmem_transport_ofi_stx_t)
    (stx_max threshold : Int) (hmax : 1 ≤ stx_max) :
    ∀ (values : List Nat) (idx : Int) (rest : List Nat),
      stx_search_shared_random_probe pool stx_max threshold values = .ok (idx, rest) →
      0 ≤ idx ∧ stx_shareable (stx_pool_get pool idx) threshold = true
  | [], idx, rest, h => by
    unfold stx_search_shared_random_probe at h
    cases h
  | u :: values, idx, rest, h => by
    unfold stx_search_shared_random_probe at h
    dsimp only at h
    by_cases hs : stx_shareable
        (stx_pool_get pool (((u : Int) * stx_max) / (RAND_MAX_plus_one : Int))) threshold = true
    · rw [if_pos hs] at h
      injection h with h
      injection h with h1 h2
      subst h1
      refine ⟨?_, hs⟩
      apply Int.ediv_nonneg
      · exact Int.mul_nonneg (Int.ofNat_nonneg u) (by omega)
      · exact Int.ofNat_nonneg _
    · rw [if_neg hs] at h
      exact stx_search_shared_random_probe_spec pool stx_max threshold hmax values idx rest h

/-- What `shmem_transport_ofi_stx_search_shared` returns and changes: only the
cursor and the pending `rand_r` values change; the index is −1 or that of a
slot of the pool that is in use, within the threshold and not private. -/
theorem stx_search_shared_spec (s : TransportState) (threshold idx : Int)
    (s1 : TransportState)
    (hlen : s.shmem_transport_ofi_stx_pool.length = s.shmem_transport_ofi_stx_max.toNat)
    (hmax : 1 ≤ s.shmem_transport_ofi_stx_max)
    (hrr : 0 ≤ s.rr_start_idx ∧ s.rr_start_idx < s.shmem_transport_ofi_stx_max)
    (h : shmem_transport_ofi_stx_search_shared s threshold = .ok (idx, s1)) :
    (∃ rr values, (0 ≤ rr ∧ rr < s.shmem_transport_ofi_stx_max) ∧
      s1 = { s with rr_start_idx := rr, rand_r_values := values }) ∧
    (idx = -1 ∨
      (0 ≤ idx ∧ idx < s.shmem_transport_ofi_stx_max ∧
        stx_shareable (stx_pool_get s.shmem_transport_ofi_stx_pool idx) threshold = true)) := by
  have hin : ∀ j : Int, 0 ≤ j →
      stx_shareable (stx_pool_get s.shmem_transport_ofi_stx_pool j) threshold = true →
      j < s.shmem_transport_ofi_stx_max := by
    intro j hj hsh
    have := (stx_shareable_in_pool _ _ _ hsh).1
    omega
  unfold shmem_transport_ofi_stx_search_shared at h
  cases hall : s.shmem_transport_ofi_stx_allocator with
  | ROUNDROBIN =>
    rw [hall] at h
    dsimp only at h
    cases hloop : stx_search_shared_rr_loop s.shmem_transport_ofi_stx_pool
        s.shmem_transport_ofi_stx_max threshold s.shmem_transport_ofi_stx_max.toNat
        s.rr_start_idx with
    | none =>
      rw [hloop] at h
      injection h with h
      injection h with h1 h2
      subst h1; subst h2
      refine ⟨⟨s.rr_start_idx, s.rand_r_values, hrr, ?_⟩, Or.inl rfl⟩
      cases s
      simp only at hall
      simp only [hall]
    | some r =>
      obtain ⟨i, rr⟩ := r
      rw [hloop] at h
      injection h with h
      injection h with h1 h2
      subst h1; subst h2
      obtain ⟨h0, hsh, hrr1⟩ := stx_search_shared_rr_loop_spec _ _ _ hmax _ _ _ _ hrr.1 hloop
      exact ⟨⟨rr, s.rand_r_values, hrr1, rfl⟩, Or.inr ⟨h0, hin _ h0 hsh, hsh⟩⟩
  | RANDOM =>
    rw [hall] at h
    dsimp only at h
    split at h
    · cases hprobe : stx_search_shared_random_probe s.shmem_transport_ofi_stx_pool
          s.shmem_transport_ofi_stx_max threshold s.rand_r_values with
      | error e =>
        rw [hprobe] at h
        cases h
      | ok r =>
        obtain ⟨i, rest⟩ := r
        rw [hprobe] at h
        injection h with h
        injection h with h1 h2
        subst h1; subst h2
        obtain ⟨h0, hsh⟩ := stx_search_shared_random_probe_spec _ _ _ hmax _ _ _ hprobe
        exact ⟨⟨s.rr_start_idx, rest, hrr, rfl⟩, Or.inr ⟨h0, hin _ h0 hsh, hsh⟩⟩
    · injection h with h
      injection h with h1 h2
      subst h1; subst h2
      refine ⟨⟨s.rr_start_idx, s.rand_r_values, hrr, ?_⟩, Or.inl rfl⟩
      cases s
      simp only at hall
      simp only [hall]

theorem stx_pool_incr_length (pool : List shmem_transport_ofi_stx_t) (i : Int) :
    (stx_pool_incr pool i).length = pool.length := by
  simp [stx_pool_incr]

theorem stx_pool_decr_length (pool : List shmem_transport_ofi_stx_t) (i : Int) :
    (stx_pool_decr pool i).length = pool.length := by
  simp [stx_pool_decr]

theorem stx_pool_set_private_length (pool : List shmem_transport_ofi_stx_t) (i : Int)
    (v : Bool) : (stx_pool_set_private pool i v).length = pool.length := by
  simp [stx_pool_set_private]

/-- The pool invariant bounds every count from below by 0. -/
theorem PoolInv.ref_cnt_nonneg {s : TransportState} {L : List stx_binding}
    (h : PoolInv s L) (i : Nat) (hi : i < s.shmem_transport_ofi_stx_pool.length) :
    0 ≤ (stx_pool_get s.shmem_transport_ofi_stx_pool i).ref_cnt := by
  rw [h.refs i hi]
  exact Int.ofNat_nonneg _

/-- Binding one more context to a slot by `ref_cnt++`, the owner table left
alone, keeps the pool invariant. -/
theorem PoolInv.bind_incr {s : TransportState} {L : List stx_binding} (h : PoolInv s L)
    (s1 : TransportState) (idx : Int) (b : stx_binding)
    (h0 : 0 ≤ idx) (h1 : idx < s.shmem_transport_ofi_stx_max) (hb : b.stx_idx = idx)
    (hown : b.is_private = true →
      ({ stx_idx := idx, tid := b.tid } : shmem_transport_ofi_stx_kvs_t)
        ∈ s.shmem_transport_ofi_stx_kvs)
    (hpool : s1.shmem_transport_ofi_stx_pool = stx_pool_incr s.shmem_transport_ofi_stx_pool idx)
    (hkvs : s1.shmem_transport_ofi_stx_kvs = s.shmem_transport_ofi_stx_kvs)
    (hmax : s1.shmem_transport_ofi_stx_max = s.shmem_transport_ofi_stx_max)
    (hrr : 0 ≤ s1.rr_start_idx ∧ s1.rr_start_idx < s.shmem_transport_ofi_stx_max)
    (hshared : b.is_private = false →
      (stx_pool_get s.shmem_transport_ofi_stx_pool idx).is_private = false) :
    PoolInv s1 (b :: L) := by
  have hlen := h.len
  have hin : idx.toNat < s.shmem_transport_ofi_stx_pool.length := by omega
  have hcast : ((idx.toNat : Nat) : Int) = idx := Int.toNat_of_nonneg h0
  have hget_same : stx_pool_get (stx_pool_incr s.shmem_transport_ofi_stx_pool idx) idx =
      { stx_pool_get s.shmem_transport_ofi_stx_pool idx with
        ref_cnt := (stx_pool_get s.shmem_transport_ofi_stx_pool idx).ref_cnt + 1 } := by
    unfold stx_pool_incr
    exact stx_pool_get_set_same _ _ _ hin
  have hget_other : ∀ j : Int, idx.toNat ≠ j.toNat →
      stx_pool_get (stx_pool_incr s.shmem_transport_ofi_stx_pool idx) j =
        stx_pool_get s.shmem_transport_ofi_stx_pool j := by
    intro j hj
    unfold stx_pool_incr
    exact stx_pool_get_set_other _ _ _ _ hj
  have hpriv_same : ∀ j : Int,
      (stx_pool_get (stx_pool_incr s.shmem_transport_ofi_stx_pool idx) j).is_private =
        (stx_pool_get s.shmem_transport_ofi_stx_pool j).is_private := by
    intro j
    by_cases hj : idx.toNat = j.toNat
    · have hjj : stx_pool_get s.shmem_transport_ofi_stx_pool j
          = stx_pool_get s.shmem_transport_ofi_stx_pool idx := by
        unfold stx_pool_get; rw [hj]
      have hjj2 : stx_pool_get (stx_pool_incr s.shmem_transport_ofi_stx_pool idx) j
          = stx_pool_get (stx_pool_incr s.shmem_transport_ofi_stx_pool idx) idx := by
        unfold stx_pool_get; rw [hj]
      rw [hjj2, hget_same, hjj]
    · rw [hget_other j hj]
  refine
    { len := by rw [hpool, stx_pool_incr_length, hmax]; exact hlen
      max_pos := by rw [hmax]; exact h.max_pos
      cursor := by rw [hmax]; exact hrr
      refs := ?_
      bound := ?_
      owner := ?_
      kvs_ok := ?_
      kvs_tid := by rw [hkvs]; exact h.kvs_tid
      kvs_idx := by rw [hkvs]; exact h.kvs_idx
      priv := ?_
      shared := ?_
      total := ?_ }
  · intro i hi
    rw [hpool, stx_pool_incr_length] at hi
    rw [hpool, List.countP_cons]
    by_cases hii : i = idx.toNat
    · have hi2 : ((i : Nat) : Int) = idx := by rw [hii]; exact hcast
      rw [hi2, hget_same]
      have := h.refs i hi
      rw [hi2] at this
      simp only [hb, decide_True, if_true]
      rw [this]
      push_cast
      rfl
    · have hne : idx.toNat ≠ ((i : Nat) : Int).toNat := by
        simp only [Int.toNat_ofNat]
        exact fun e => hii e.symm
      have hne2 : ¬ (b.stx_idx = (i : Int)) := by
        rw [hb]
        intro e
        apply hii
        omega
      rw [hget_other _ hne, h.refs i hi]
      simp [hne2]
  · intro c hc
    rcases List.mem_cons.mp hc with rfl | hc
    · rw [hmax, hb]; exact ⟨h0, h1⟩
    · rw [hmax]; exact h.bound c hc
  · intro c hc hp
    rw [hkvs]
    rcases List.mem_cons.mp hc with rfl | hc
    · rw [hb]; exact hown hp
    · exact h.owner c hc hp
  · intro e he
    rw [hkvs] at he
    obtain ⟨e0, e1, e2⟩ := h.kvs_ok e he
    rw [hmax, hpool, hpriv_same]
    exact ⟨e0, e1, e2⟩
  · intro i hi hp
    rw [hpool, stx_pool_incr_length] at hi
    rw [hpool] at hp ⊢
    rw [hpriv_same] at hp
    by_cases hii : i = idx.toNat
    · have hi2 : ((i : Nat) : Int) = idx := by rw [hii]; exact hcast
      rw [hi2, hget_same]
      have := h.ref_cnt_nonneg i hi
      rw [hi2] at this
      show 1 ≤ (stx_pool_get s.shmem_transport_ofi_stx_pool idx).ref_cnt + 1
      omega
    · have hne : idx.toNat ≠ ((i : Nat) : Int).toNat := by
        simp only [Int.toNat_ofNat]
        exact fun e => hii e.symm
      rw [hget_other _ hne]
      exact h.priv i hi hp
  · intro c hc hp
    rw [hpool, hpriv_same]
    rcases List.mem_cons.mp hc with rfl | hc
    · rw [hb]; exact hshared hp
    · exact h.shared c hc hp
  · have ht := h.total
    unfold stx_ref_cnt_sum at ht ⊢
    rw [hpool]
    unfold stx_pool_incr
    rw [stx_pool_sum_set _ _ _ hin, ht]
    unfold stx_pool_get
    simp only [List.length_cons]
    push_cast
    ring

/-- Taking an unused slot as the private slot of a thread (`ref_cnt++`,
`is_private = 1`, a new entry in the owner table) keeps the pool invariant. -/
theorem PoolInv.bind_unused {s : TransportState} {L : List stx_binding} (h : PoolInv s L)
    (s1 : TransportState) (idx : Int) (tid : shmem_internal_tid)
    (h0 : 0 ≤ idx) (h1 : idx < s.shmem_transport_ofi_stx_max)
    (hzero : (stx_pool_get s.shmem_transport_ofi_stx_pool idx).ref_cnt = 0)
    (hmiss : s.shmem_transport_ofi_stx_kvs.find? (fun e => decide (e.tid = tid)) = none)
    (hpool : s1.shmem_transport_ofi_stx_pool =
      stx_pool_set_private (stx_pool_incr s.shmem_transport_ofi_stx_pool idx) idx true)
    (hkvs : s1.shmem_transport_ofi_stx_kvs =
      s.shmem_transport_ofi_stx_kvs ++ [{ stx_idx := idx, tid := tid }])
    (hmax : s1.shmem_transport_ofi_stx_max = s.shmem_transport_ofi_stx_max)
    (hrr : 0 ≤ s1.rr_start_idx ∧ s1.rr_start_idx < s.shmem_transport_ofi_stx_max) :
    PoolInv s1 ({ stx_idx := idx, tid := tid, is_private := true } :: L) := by
  have hlen := h.len
  have hin : idx.toNat < s.shmem_transport_ofi_stx_pool.length := by omega
  have hcast : ((idx.toNat : Nat) : Int) = idx := Int.toNat_of_nonneg h0
  have hin2 : idx.toNat < (stx_pool_incr s.shmem_transport_ofi_stx_pool idx).length := by
    rw [stx_pool_incr_length]; exact hin
  have hget_same : stx_pool_get s1.shmem_transport_ofi_stx_pool idx =
      { ref_cnt := 1, is_private := true } := by
    rw [hpool]
    unfold stx_pool_set_private
    rw [stx_pool_get_set_same _ _ _ hin2]
    unfold stx_pool_incr
    rw [stx_pool_get_set_same _ _ _ hin, hzero]
    rfl
  have hget_other : ∀ j : Int, idx.toNat ≠ j.toNat →
      stx_pool_get s1.shmem_transport_ofi_stx_pool j =
        stx_pool_get s.shmem_transport_ofi_stx_pool j := by
    intro j hj
    rw [hpool]
    unfold stx_pool_set_private
    rw [stx_pool_get_set_other _ _ _ _ hj]
    unfold stx_pool_incr
    exact stx_pool_get_set_other _ _ _ _ hj
  have hlen1 : s1.shmem_transport_ofi_stx_pool.length
      = s.shmem_transport_ofi_stx_pool.length := by
    rw [hpool, stx_pool_set_private_length, stx_pool_incr_length]
  have hnotmem : ∀ e ∈ s.shmem_transport_ofi_stx_kvs, e.stx_idx ≠ idx := by
    intro e he heq
    obtain ⟨e0, e1, e2⟩ := h.kvs_ok e he
    rw [heq] at e2
    have := h.priv idx.toNat hin (by rw [hcast]; exact e2)
    rw [hcast, hzero] at this
    omega
  have hnotid : ∀ e ∈ s.shmem_transport_ofi_stx_kvs, e.tid ≠ tid := by
    intro e he heq
    have := List.find?_eq_none.mp hmiss e he
    simp [heq] at this
  refine
    { len := by rw [hlen1, hmax]; exact hlen
      max_pos := by rw [hmax]; exact h.max_pos
      cursor := by rw [hmax]; exact hrr
      refs := ?_
      bound := ?_
      owner := ?_
      kvs_ok := ?_
      kvs_tid := ?_
      kvs_idx := ?_
      priv := ?_
      shared := ?_
      total := ?_ }
  · intro i hi
    rw [hlen1] at hi
    rw [List.countP_cons]
    by_cases hii : i = idx.toNat
    · have hi2 : ((i : Nat) : Int) = idx := by rw [hii]; exact hcast
      rw [hi2, hget_same]
      have := h.refs i hi
      rw [hi2, hzero] at this
      simp only [decide_True, if_true]
      push_cast
      rw [← this]
      rfl
    · have hne : idx.toNat ≠ ((i : Nat) : Int).toNat := by
        simp only [Int.toNat_ofNat]
        exact fun e => hii e.symm
      have hne2 : ¬ (idx = (i : Int)) := by
        intro e
        apply hii
        omega
      rw [hget_other _ hne, h.refs i hi]
      simp [hne2]
  · intro c hc
    rcases List.mem_cons.mp hc with rfl | hc
    · rw [hmax]; exact ⟨h0, h1⟩
    · rw [hmax]; exact h.bound c hc
  · intro c hc hp
    rw [hkvs]
    rcases List.mem_cons.mp hc with rfl | hc
    · exact List.mem_append_right _ (List.mem_singleton.mpr rfl)
    · exact List.mem_append_left _ (h.owner c hc hp)
  · intro e he
    rw [hkvs] at he
    rw [hmax]
    rcases List.mem_append.mp he with he | he
    · obtain ⟨e0, e1, e2⟩ := h.kvs_ok e he
      refine ⟨e0, e1, ?_⟩
      by_cases hj : idx.toNat = e.stx_idx.toNat
      · exact absurd (by omega : e.stx_idx = idx) (hnotmem e he)
      · rw [hget_other _ hj]; exact e2
    · rw [List.mem_singleton.mp he]
      exact ⟨h0, h1, by rw [hget_same]⟩
  · rw [hkvs, List.map_append, List.nodup_append]
    refine ⟨h.kvs_tid, by simp, ?_⟩
    intro a ha hb
    obtain ⟨e, he, rfl⟩ := List.mem_map.mp ha
    simp only [List.map_cons, List.map_nil, List.mem_singleton] at hb
    exact hnotid e he hb
  · rw [hkvs, List.map_append, List.nodup_append]
    refine ⟨h.kvs_idx, by simp, ?_⟩
    intro a ha hb
    obtain ⟨e, he, rfl⟩ := List.mem_map.mp ha
    simp only [List.map_cons, List.map_nil, List.mem_singleton] at hb
    exact hnotmem e he hb
  · intro i hi hp
    rw [hlen1] at hi
    by_cases hii : i = idx.toNat
    · have hi2 : ((i : Nat) : Int) = idx := by rw [hii]; exact hcast
      rw [hi2, hget_same]
    · have hne : idx.toNat ≠ ((i : Nat) : Int).toNat := by
        simp only [Int.toNat_ofNat]
        exact fun e => hii e.symm
      rw [hget_other _ hne] at hp ⊢
      exact h.priv i hi hp
  · intro c hc hp
    rcases List.mem_cons.mp hc with rfl | hc
    · cases hp
    · have hne : c.stx_idx ≠ idx := by
        intro heq
        have hr := h.refs idx.toNat hin
        rw [hcast, hzero] at hr
        have hpos : 0 < L.countP (fun b => decide (b.stx_idx = idx)) :=
          List.countP_pos_iff.mpr ⟨c, hc, by simp [heq]⟩
        omega
      have hc0 := (h.bound c hc).1
      rw [hget_other _ (by omega)]
      exact h.shared c hc hp
  · have ht := h.total
    unfold stx_ref_cnt_sum at ht ⊢
    rw [hpool]
    unfold stx_pool_set_private
    rw [stx_pool_sum_set _ _ _ hin2]
    have hg : (stx_pool_incr s.shmem_transport_ofi_stx_pool idx).getD idx.toNat
        { ref_cnt := 0, is_private := false }
        = stx_pool_get (stx_pool_incr s.shmem_transport_ofi_stx_pool idx) idx := rfl
    rw [hg]
    unfold stx_pool_incr
    rw [stx_pool_sum_set _ _ _ hin, ht, stx_pool_get_set_same _ _ _ hin]
    have hg2 : s.shmem_transport_ofi_stx_pool.getD idx.toNat
        { ref_cnt := 0, is_private := false }
        = stx_pool_get s.shmem_transport_ofi_stx_pool idx := rfl
    rw [hg2, hzero]
    simp only [List.length_cons]
    push_cast
    ring

/-- What `shmem_transport_ofi_stx_allocate` leaves alone: of the globals, all
but the pool, the owner table, the cursor and the pending `rand_r` values; of
the context, all but `stx_idx` and the PRIVATE flag. -/
theorem stx_allocate_frame (s : TransportState) (ctx ctx1 : shmem_transport_ctx_t)
    (s1 : TransportState) (L : List stx_binding) (hinv : PoolInv s L)
    (h : shmem_transport_ofi_stx_allocate s ctx = .ok (ctx1, s1)) :
    (∃ pool kvs rr values,
      s1 = { s with
        shmem_transport_ofi_stx_pool := pool
        shmem_transport_ofi_stx_kvs := kvs
        rr_start_idx := rr
        rand_r_values := values }) ∧
    (∃ idx flag,
      (flag = true → ctx.options.SHMEM_CTX_PRIVATE = true) ∧
      ctx1 = { ctx with
        stx_idx := idx
        options := { ctx.options with SHMEM_CTX_PRIVATE := flag } }) ∧
    PoolInv s1 (ctx_binding s1 ctx1 :: L) := by
  have hlen := hinv.len
  have hmax := hinv.max_pos
  have hrr := hinv.cursor
  unfold shmem_transport_ofi_stx_allocate at h
  by_cases hp : shmem_transport_ofi_is_private s ctx.options = true
  · rw [if_pos hp] at h
    have hflag : ctx.options.SHMEM_CTX_PRIVATE = true := by
      unfold shmem_transport_ofi_is_private at hp
      by_contra hc
      simp [hc] at hp
    cases hfind : s.shmem_transport_ofi_stx_kvs.find? (fun e => decide (e.tid = ctx.tid)) with
    | some f =>
      rw [hfind] at h
      injection h with h
      injection h with hc hs
      subst hc; subst hs
      have hfmem := List.mem_of_find?_eq_some hfind
      have hftid : f.tid = ctx.tid := by
        have := List.find?_some hfind
        simpa using this
      obtain ⟨f0, f1, _⟩ := hinv.kvs_ok f hfmem
      refine ⟨⟨_, s.shmem_transport_ofi_stx_kvs, s.rr_start_idx, s.rand_r_values, rfl⟩,
        ⟨f.stx_idx, true, fun _ => hflag, ?_⟩, ?_⟩
      · rw [← hflag]
      · exact hinv.bind_incr _ f.stx_idx _ f0 f1 rfl
          (fun _ => by
            show ({ stx_idx := f.stx_idx, tid := ctx.tid } : shmem_transport_ofi_stx_kvs_t) ∈ _
            rw [← hftid]; exact hfmem) rfl rfl rfl hrr
          (fun hpr => by
            have : shmem_transport_ofi_is_private s ctx.options = false := hpr
            rw [hp] at this
            cases this)
    | none =>
      rw [hfind] at h
      dsimp only at h
      cases hun : shmem_transport_ofi_stx_search_unused s with
      | error e => rw [hun] at h; cases h
      | ok unused_idx =>
        rw [hun] at h
        dsimp only at h
        have hspec := stx_search_unused_loop_spec _ _ 0 unused_idx (le_refl _) hun
        by_cases hneg : unused_idx < 0
        · rw [if_pos hneg] at h
          cases hsh1 : shmem_transport_ofi_stx_search_shared s
              s.shmem_transport_ofi_stx_threshold with
          | error e => rw [hsh1] at h; cases h
          | ok r1 =>
            obtain ⟨idx1, sa⟩ := r1
            rw [hsh1] at h
            dsimp only at h
            obtain ⟨⟨rr1, v1, hrr1, hsa⟩, hidx1⟩ :=
              stx_search_shared_spec s _ idx1 sa hlen hmax hrr hsh1
            have key : ∀ (idx2 : Int) (sb : TransportState),
                (∃ rr values, (0 ≤ rr ∧ rr < s.shmem_transport_ofi_stx_max) ∧
                  sb = { s with rr_start_idx := rr, rand_r_values := values }) →
                (idx2 = -1 ∨ (0 ≤ idx2 ∧ idx2 < s.shmem_transport_ofi_stx_max ∧
                  ∃ t, stx_shareable (stx_pool_get s.shmem_transport_ofi_stx_pool idx2) t
                    = true)) →
                (if idx2 ≥ 0 then
                  (Except.ok ({ ctx with
                       stx_idx := idx2
                       options := { ctx.options with SHMEM_CTX_PRIVATE := false } },
                    { sb with
                      shmem_transport_ofi_stx_pool :=
                        stx_pool_incr sb.shmem_transport_ofi_stx_pool idx2 }) :
                    Except String (shmem_transport_ctx_t × TransportState))
                else .error "assertion failed: stx_idx >= 0") = .ok (ctx1, s1) →
                (∃ pool kvs rr values,
                  s1 = { s with
                    shmem_transport_ofi_stx_pool := pool
                    shmem_transport_ofi_stx_kvs := kvs
                    rr_start_idx := rr
                    rand_r_values := values }) ∧
                (∃ idx flag,
                  (flag = true → ctx.options.SHMEM_CTX_PRIVATE = true) ∧
                  ctx1 = { ctx with
                    stx_idx := idx
                    options := { ctx.options with SHMEM_CTX_PRIVATE := flag } }) ∧
                PoolInv s1 (ctx_binding s1 ctx1 :: L) := by
              intro idx2 sb ⟨rr, values, hrrb, hsb⟩ hidx2 hres
              by_cases hge : idx2 ≥ 0
              · rw [if_pos hge] at hres
                injection hres with hres
                injection hres with hc hs
                subst hc; subst hs
                rcases hidx2 with hm | ⟨i0, i1, t, ht⟩
                · omega
                · subst hsb
                  refine ⟨⟨_, s.shmem_transport_ofi_stx_kvs, rr, values, rfl⟩,
                    ⟨idx2, false, fun hc => (by cases hc), rfl⟩, ?_⟩
                  exact hinv.bind_incr _ idx2 _ i0 i1 rfl
                    (fun hpr => by
                      simp [ctx_binding, shmem_transport_ofi_is_private] at hpr)
                    rfl rfl rfl hrrb
                    (fun _ => (stx_shareable_in_pool _ _ _ ht).2.2)
              · rw [if_neg hge] at hres
                cases hres
            by_cases hneg1 : idx1 < 0
            · rw [if_pos hneg1] at h
              cases hsh2 : shmem_transport_ofi_stx_search_shared sa (-1) with
              | error e => rw [hsh2] at h; cases h
              | ok r2 =>
                obtain ⟨idx2, sb⟩ := r2
                rw [hsh2] at h
                dsimp only at h
                have hlen_a : sa.shmem_transport_ofi_stx_pool.length
                    = sa.shmem_transport_ofi_stx_max.toNat := by rw [hsa]; exact hlen
                have hmax_a : 1 ≤ sa.shmem_transport_ofi_stx_max := by rw [hsa]; exact hmax
                have hrr_a : 0 ≤ sa.rr_start_idx
                    ∧ sa.rr_start_idx < sa.shmem_transport_ofi_stx_max := by
                  rw [hsa]; exact hrr1
                obtain ⟨⟨rr2, v2, hrr2, hsb⟩, hidx2⟩ :=
                  stx_search_shared_spec sa _ idx2 sb hlen_a hmax_a hrr_a hsh2
                refine key idx2 sb ⟨rr2, v2, by rw [hsa] at hrr2; exact hrr2,
                  by rw [hsb, hsa]⟩ ?_ h
                rcases hidx2 with hm | ⟨i0, i1, i2⟩
                · exact Or.inl hm
                · rw [hsa] at i1 i2
                  exact Or.inr ⟨i0, i1, _, i2⟩
            · rw [if_neg hneg1] at h
              dsimp only at h
              refine key idx1 sa ⟨rr1, v1, hrr1, hsa⟩ ?_ h
              rcases hidx1 with hm | ⟨i0, i1, i2⟩
              · exact Or.inl hm
              · exact Or.inr ⟨i0, i1, _, i2⟩
        · rw [if_neg hneg] at h
          injection h with h
          injection h with hc hs
          subst hc; subst hs
          rcases hspec with ⟨hm, _⟩ | ⟨u0, u1, u2, u3, _⟩
          · omega
          · have hu1 : unused_idx < s.shmem_transport_ofi_stx_max := by
              have := Int.toNat_of_nonneg (by omega : 0 ≤ s.shmem_transport_ofi_stx_max)
              omega
            refine ⟨⟨_, _, s.rr_start_idx, s.rand_r_values, rfl⟩,
              ⟨unused_idx, true, fun _ => hflag, ?_⟩, ?_⟩
            · rw [← hflag]
            · have hb : ctx_binding
                  { s with
                    shmem_transport_ofi_stx_pool :=
                      stx_pool_set_private
                        (stx_pool_incr s.shmem_transport_ofi_stx_pool unused_idx)
                        unused_idx true
                    shmem_transport_ofi_stx_kvs :=
                      s.shmem_transport_ofi_stx_kvs
                        ++ [{ stx_idx := unused_idx, tid := ctx.tid }] }
                  { ctx with stx_idx := unused_idx }
                  = { stx_idx := unused_idx, tid := ctx.tid, is_private := true } := by
                simp only [ctx_binding, stx_binding.mk.injEq, true_and]
                exact hp
              rw [hb]
              exact hinv.bind_unused _ unused_idx ctx.tid u0 hu1 u2 hfind rfl rfl rfl hrr
  · rw [if_neg hp] at h
    have hpf : shmem_transport_ofi_is_private s ctx.options = false := by
      simpa using hp
    cases hsh1 : shmem_transport_ofi_stx_search_shared s
        s.shmem_transport_ofi_stx_threshold with
    | error e => rw [hsh1] at h; cases h
    | ok r1 =>
      obtain ⟨idx1, sa⟩ := r1
      rw [hsh1] at h
      dsimp only at h
      obtain ⟨⟨rr1, v1, hrr1, hsa⟩, hidx1⟩ :=
        stx_search_shared_spec s _ idx1 sa hlen hmax hrr hsh1
      have hlen_a : sa.shmem_transport_ofi_stx_pool.length
          = sa.shmem_transport_ofi_stx_max.toNat := by rw [hsa]; exact hlen
      have hmax_a : 1 ≤ sa.shmem_transport_ofi_stx_max := by rw [hsa]; exact hmax
      have hrr_a : 0 ≤ sa.rr_start_idx
          ∧ sa.rr_start_idx < sa.shmem_transport_ofi_stx_max := by
        rw [hsa]; exact hrr1
      have key : ∀ (idx2 : Int) (sb : TransportState),
          (∃ rr values, (0 ≤ rr ∧ rr < s.shmem_transport_ofi_stx_max) ∧
            sb = { s with rr_start_idx := rr, rand_r_values := values }) →
          (idx2 = -1 ∨ (0 ≤ idx2 ∧ idx2 < s.shmem_transport_ofi_stx_max ∧
            (stx_pool_get s.shmem_transport_ofi_stx_pool idx2).is_private = false)) →
          (if idx2 ≥ 0 then
            (Except.ok ({ ctx with stx_idx := idx2 },
              { sb with
                shmem_transport_ofi_stx_pool :=
                  stx_pool_incr sb.shmem_transport_ofi_stx_pool idx2 }) :
              Except String (shmem_transport_ctx_t × TransportState))
          else .error "assertion failed: stx_idx >= 0") = .ok (ctx1, s1) →
          (∃ pool kvs rr values,
            s1 = { s with
              shmem_transport_ofi_stx_pool := pool
              shmem_transport_ofi_stx_kvs := kvs
              rr_start_idx := rr
              rand_r_values := values }) ∧
          (∃ idx flag,
            (flag = true → ctx.options.SHMEM_CTX_PRIVATE = true) ∧
            ctx1 = { ctx with
              stx_idx := idx
              options := { ctx.options with SHMEM_CTX_PRIVATE := flag } }) ∧
          PoolInv s1 (ctx_binding s1 ctx1 :: L) := by
        intro idx2 sb ⟨rr, values, hrrb, hsb⟩ hidx2 hres
        by_cases hge : idx2 ≥ 0
        · rw [if_pos hge] at hres
          injection hres with hres
          injection hres with hc hs
          subst hc; subst hs
          rcases hidx2 with hm | ⟨i0, i1, i2⟩
          · omega
          · subst hsb
            refine ⟨⟨_, s.shmem_transport_ofi_stx_kvs, rr, values, rfl⟩,
              ⟨idx2, ctx.options.SHMEM_CTX_PRIVATE, fun hc => hc, rfl⟩, ?_⟩
            exact hinv.bind_incr _ idx2 _ i0 i1 rfl
              (fun hpr => by
                have : shmem_transport_ofi_is_private s ctx.options = true := hpr
                rw [hpf] at this
                cases this)
              rfl rfl rfl hrrb (fun _ => i2)
        · rw [if_neg hge] at hres
          cases hres
      by_cases hneg1 : idx1 < 0
      · rw [if_pos hneg1] at h
        cases hun : shmem_transport_ofi_stx_search_unused sa with
        | error e => rw [hun] at h; cases h
        | ok idx2 =>
          rw [hun] at h
          dsimp only at h
          have hspec := stx_search_unused_loop_spec _ _ 0 idx2 (le_refl _) hun
          by_cases hneg2 : idx2 < 0
          · rw [if_pos hneg2] at h
            cases hsh2 : shmem_transport_ofi_stx_search_shared sa (-1) with
            | error e => rw [hsh2] at h; cases h
            | ok r2 =>
              obtain ⟨idx3, sb⟩ := r2
              rw [hsh2] at h
              dsimp only at h
              obtain ⟨⟨rr2, v2, hrr2, hsb⟩, hidx3⟩ :=
                stx_search_shared_spec sa _ idx3 sb hlen_a hmax_a hrr_a hsh2
              refine key idx3 sb ⟨rr2, v2, by rw [hsa] at hrr2; exact hrr2,
                by rw [hsb, hsa]⟩ ?_ h
              rcases hidx3 with hm | ⟨i0, i1, i2⟩
              · exact Or.inl hm
              · rw [hsa] at i1 i2
                exact Or.inr ⟨i0, i1, (stx_shareable_in_pool _ _ _ i2).2.2⟩
          · rw [if_neg hneg2] at h
            dsimp only at h
            refine key idx2 sa ⟨rr1, v1, hrr1, hsa⟩ ?_ h
            rcases hspec with ⟨hm, _⟩ | ⟨u0, u1, _, u3, _⟩
            · omega
            · have := Int.toNat_of_nonneg (by omega : 0 ≤ sa.shmem_transport_ofi_stx_max)
              rw [hsa] at this u1 u3
              exact Or.inr ⟨u0, by simp only at this u1; omega, u3⟩
      · rw [if_neg hneg1] at h
        dsimp only at h
        rw [if_neg (by omega : ¬ idx1 < 0)] at h
        dsimp only at h
        refine key idx1 sa ⟨rr1, v1, hrr1, hsa⟩ ?_ h
        rcases hidx1 with hm | ⟨i0, i1, i2⟩
        · exact Or.inl hm
        · exact Or.inr ⟨i0, i1, (stx_shareable_in_pool _ _ _ i2).2.2⟩

theorem stx_pool_get_set (pool : List shmem_transport_ofi_stx_t) (i j : Int)
    (v : shmem_transport_ofi_stx_t) (hi : 0 ≤ i) (hj : 0 ≤ j) (h : i.toNat < pool.length) :
    stx_pool_get (pool.set i.toNat v) j = if j = i then v else stx_pool_get pool j := by
  by_cases hji : j = i
  · rw [if_pos hji, hji]
    exact stx_pool_get_set_same _ _ _ h
  · rw [if_neg hji]
    apply stx_pool_get_set_other
    omega

theorem kvs_entry_unique (kvs : List shmem_transport_ofi_stx_kvs_t)
    (hn : (kvs.map (fun e => e.tid)).Nodup) (e f : shmem_transport_ofi_stx_kvs_t)
    (he : e ∈ kvs) (hf : f ∈ kvs) (h : e.tid = f.tid) : e = f :=
  List.inj_on_of_nodup_map hn he hf h

theorem kvs_entry_unique_idx (kvs : List shmem_transport_ofi_stx_kvs_t)
    (hn : (kvs.map (fun e => e.stx_idx)).Nodup) (e f : shmem_transport_ofi_stx_kvs_t)
    (he : e ∈ kvs) (hf : f ∈ kvs) (h : e.stx_idx = f.stx_idx) : e = f :=
  List.inj_on_of_nodup_map hn he hf h

/-- Releasing the slot of a bound context (`shmem_transport_ctx_destroy`, STX
part) keeps the pool invariant, for the remaining bindings. -/
theorem PoolInv.release {s : TransportState} {L : List stx_binding} {b : stx_binding}
    (h : PoolInv s (b :: L)) (ctx : shmem_transport_ctx_t) (s1 : TransportState)
    (hb : ctx_binding s ctx = b)
    (hd : shmem_transport_ctx_destroy_stx s ctx = .ok s1) :
    (∃ pool kvs,
      s1 = { s with
        shmem_transport_ofi_stx_pool := pool
        shmem_transport_ofi_stx_kvs := kvs }) ∧
    PoolInv s1 L := by
  have hlen := h.len
  have hbnd := h.bound b (List.mem_cons_self _ _)
  have hidx : b.stx_idx = ctx.stx_idx := by rw [← hb]; rfl
  have htid : b.tid = ctx.tid := by rw [← hb]; rfl
  have hprv : b.is_private = shmem_transport_ofi_is_private s ctx.options := by rw [← hb]; rfl
  rw [hidx] at hbnd
  obtain ⟨h0, h1⟩ := hbnd
  have hin : ctx.stx_idx.toNat < s.shmem_transport_ofi_stx_pool.length := by omega
  have hcast : ((ctx.stx_idx.toNat : Nat) : Int) = ctx.stx_idx := Int.toNat_of_nonneg h0
  have hcnt : (stx_pool_get s.shmem_transport_ofi_stx_pool ctx.stx_idx).ref_cnt
      = (L.countP (fun c => decide (c.stx_idx = ctx.stx_idx)) : Int) + 1 := by
    have := h.refs ctx.stx_idx.toNat hin
    rw [hcast, List.countP_cons] at this
    rw [this]
    simp [hidx]
  have hgetd : ∀ j : Int, 0 ≤ j →
      stx_pool_get (stx_pool_decr s.shmem_transport_ofi_stx_pool ctx.stx_idx) j =
        if j = ctx.stx_idx then
          { stx_pool_get s.shmem_transport_ofi_stx_pool ctx.stx_idx with
            ref_cnt := (stx_pool_get s.shmem_transport_ofi_stx_pool ctx.stx_idx).ref_cnt - 1 }
        else stx_pool_get s.shmem_transport_ofi_stx_pool j := by
    intro j hj
    unfold stx_pool_decr
    exact stx_pool_get_set _ _ _ _ h0 hj hin
  have hrefs_decr : ∀ i : Nat, i < s.shmem_transport_ofi_stx_pool.length →
      (stx_pool_get (stx_pool_decr s.shmem_transport_ofi_stx_pool ctx.stx_idx) i).ref_cnt
        = (L.countP (fun c => decide (c.stx_idx = (i : Int))) : Int) := by
    intro i hi
    rw [hgetd _ (Int.ofNat_nonneg i)]
    by_cases hii : (i : Int) = ctx.stx_idx
    · rw [if_pos hii, hii]
      simp only
      rw [hcnt]
      ring
    · rw [if_neg hii, h.refs i hi, List.countP_cons]
      have : ¬ (b.stx_idx = (i : Int)) := by rw [hidx]; exact fun e => hii e.symm
      simp [this]
  have htot_decr : ((stx_pool_decr s.shmem_transport_ofi_stx_pool ctx.stx_idx).map
      (fun slot => slot.ref_cnt)).sum = (L.length : Int) := by
    unfold stx_pool_decr
    rw [stx_pool_sum_set _ _ _ hin]
    have := h.total
    unfold stx_ref_cnt_sum at this
    rw [this]
    simp only [List.length_cons]
    unfold stx_pool_get
    push_cast
    ring
  unfold shmem_transport_ctx_destroy_stx at hd
  rw [if_pos (by omega : ctx.stx_idx ≥ 0)] at hd
  by_cases hp : shmem_transport_ofi_is_private s ctx.options = true
  · rw [if_pos hp] at hd
    have hown := h.owner b (List.mem_cons_self _ _) (by rw [hprv]; exact hp)
    rw [hidx, htid] at hown
    cases hfind : s.shmem_transport_ofi_stx_kvs.find? (fun e => decide (e.tid = ctx.tid)) with
    | none =>
      rw [List.find?_eq_none] at hfind
      have := hfind _ hown
      simp at this
    | some e =>
      rw [hfind] at hd
      dsimp only at hd
      have hemem := List.mem_of_find?_eq_some hfind
      have hetid : e.tid = ctx.tid := by
        have := List.find?_some hfind
        simpa using this
      have he : e = { stx_idx := ctx.stx_idx, tid := ctx.tid } :=
        kvs_entry_unique _ h.kvs_tid _ _ hemem hown hetid
      by_cases hz : (stx_pool_get (stx_pool_decr s.shmem_transport_ofi_stx_pool ctx.stx_idx)
          ctx.stx_idx).ref_cnt = 0
      · rw [if_pos hz] at hd
        injection hd with hd
        subst hd
        refine ⟨⟨_, _, rfl⟩, ?_⟩
        have hzero : L.countP (fun c => decide (c.stx_idx = ctx.stx_idx)) = 0 := by
          have := hrefs_decr ctx.stx_idx.toNat hin
          rw [hcast, hz] at this
          exact_mod_cast this.symm
        have hin2 : ctx.stx_idx.toNat
            < (stx_pool_decr s.shmem_transport_ofi_stx_pool ctx.stx_idx).length := by
          rw [stx_pool_decr_length]; exact hin
        have hgetp : ∀ j : Int, 0 ≤ j →
            stx_pool_get (stx_pool_set_private
              (stx_pool_decr s.shmem_transport_ofi_stx_pool ctx.stx_idx) ctx.stx_idx false) j =
              if j = ctx.stx_idx then
                { stx_pool_get (stx_pool_decr s.shmem_transport_ofi_stx_pool ctx.stx_idx)
                    ctx.stx_idx with is_private := false }
              else stx_pool_get (stx_pool_decr s.shmem_transport_ofi_stx_pool ctx.stx_idx) j := by
          intro j hj
          unfold stx_pool_set_private
          exact stx_pool_get_set _ _ _ _ h0 hj hin2
        have hnd : s.shmem_transport_ofi_stx_kvs.Nodup := List.Nodup.of_map _ h.kvs_tid
        refine
          { len := by
              show (stx_pool_set_private _ _ _).length = _
              rw [stx_pool_set_private_length, stx_pool_decr_length]; exact hlen
            max_pos := h.max_pos
            cursor := h.cursor
            refs := ?_
            bound := fun c hc => h.bound c (List.mem_cons_of_mem _ hc)
            owner := ?_
            kvs_ok := ?_
            kvs_tid := (h.kvs_tid).sublist ((List.erase_sublist _ _).map _)
            kvs_idx := (h.kvs_idx).sublist ((List.erase_sublist _ _).map _)
            priv := ?_
            shared := ?_
            total := ?_ }
        · intro i hi
          have hi2 : i < s.shmem_transport_ofi_stx_pool.length := by
            have : (stx_pool_set_private
                (stx_pool_decr s.shmem_transport_ofi_stx_pool ctx.stx_idx)
                ctx.stx_idx false).length = s.shmem_transport_ofi_stx_pool.length := by
              rw [stx_pool_set_private_length, stx_pool_decr_length]
            exact this ▸ hi
          show (stx_pool_get (stx_pool_set_private _ _ _) i).ref_cnt = _
          rw [hgetp _ (Int.ofNat_nonneg i)]
          by_cases hii : (i : Int) = ctx.stx_idx
          · rw [if_pos hii]
            simp only
            have := hrefs_decr i hi2
            rw [hii] at this ⊢
            exact this
          · rw [if_neg hii]
            exact hrefs_decr i hi2
        · intro c hc hcp
          have hmem := h.owner c (List.mem_cons_of_mem _ hc) hcp
          show _ ∈ s.shmem_transport_ofi_stx_kvs.erase e
          have hne : ({ stx_idx := c.stx_idx, tid := c.tid } : shmem_transport_ofi_stx_kvs_t)
              ≠ e := by
            rw [he]
            intro heq
            injection heq with e1 e2
            have hpos : 0 < L.countP (fun c => decide (c.stx_idx = ctx.stx_idx)) :=
              List.countP_pos_iff.mpr ⟨c, hc, by simp [e1]⟩
            omega
          exact (List.mem_erase_of_ne hne).mpr hmem
        · intro f hf
          have hf1 : f ∈ s.shmem_transport_ofi_stx_kvs := List.mem_of_mem_erase hf
          have hfe : f ≠ e := fun heq => by
            rw [heq] at hf
            exact (List.Nodup.not_mem_erase hnd) hf
          obtain ⟨f0, f1, f2⟩ := h.kvs_ok f hf1
          refine ⟨f0, f1, ?_⟩
          have hfi : f.stx_idx ≠ ctx.stx_idx := by
            intro heq
            apply hfe
            apply kvs_entry_unique_idx _ h.kvs_idx _ _ hf1 hemem
            rw [heq, he]
          show (stx_pool_get (stx_pool_set_private _ _ _) f.stx_idx).is_private = true
          rw [hgetp _ f0, if_neg hfi, hgetd _ f0, if_neg hfi]
          exact f2
        · intro i hi
          have hi2 : i < s.shmem_transport_ofi_stx_pool.length := by
            have : (stx_pool_set_private
                (stx_pool_decr s.shmem_transport_ofi_stx_pool ctx.stx_idx)
                ctx.stx_idx false).length = s.shmem_transport_ofi_stx_pool.length := by
              rw [stx_pool_set_private_length, stx_pool_decr_length]
            exact this ▸ hi
          show (stx_pool_get (stx_pool_set_private _ _ _) i).is_private = true →
            1 ≤ (stx_pool_get (stx_pool_set_private _ _ _) i).ref_cnt
          rw [hgetp _ (Int.ofNat_nonneg i)]
          by_cases hii : (i : Int) = ctx.stx_idx
          · rw [if_pos hii]
            intro hc
            simp at hc
          · rw [if_neg hii, hgetd _ (Int.ofNat_nonneg i), if_neg hii]
            exact h.priv i hi2
        · intro c hc hcp
          have hc0 := (h.bound c (List.mem_cons_of_mem _ hc)).1
          show (stx_pool_get (stx_pool_set_private _ _ _) c.stx_idx).is_private = false
          rw [hgetp _ hc0]
          by_cases hci : c.stx_idx = ctx.stx_idx
          · rw [if_pos hci]
          · rw [if_neg hci, hgetd _ hc0, if_neg hci]
            exact h.shared c (List.mem_cons_of_mem _ hc) hcp
        · show ((stx_pool_set_private _ _ _).map (fun slot => slot.ref_cnt)).sum = _
          unfold stx_pool_set_private
          rw [stx_pool_sum_set _ _ _ hin2, htot_decr]
          unfold stx_pool_get
          simp
      · rw [if_neg hz] at hd
        injection hd with hd
        subst hd
        refine ⟨⟨_, s.shmem_transport_ofi_stx_kvs, rfl⟩, ?_⟩
        refine
          { len := by
              show (stx_pool_decr _ _).length = _
              rw [stx_pool_decr_length]; exact hlen
            max_pos := h.max_pos
            cursor := h.cursor
            refs := ?_
            bound := fun c hc => h.bound c (List.mem_cons_of_mem _ hc)
            owner := fun c hc hcp => h.owner c (List.mem_cons_of_mem _ hc) hcp
            kvs_ok := ?_
            kvs_tid := h.kvs_tid
            kvs_idx := h.kvs_idx
            priv := ?_
            shared := ?_
            total := htot_decr }
        · intro i hi
          have hi2 : i < s.shmem_transport_ofi_stx_pool.length := by
            have : (stx_pool_decr s.shmem_transport_ofi_stx_pool ctx.stx_idx).length
                = s.shmem_transport_ofi_stx_pool.length := stx_pool_decr_length _ _
            exact this ▸ hi
          exact hrefs_decr i hi2
        · intro f hf
          obtain ⟨f0, f1, f2⟩ := h.kvs_ok f hf
          refine ⟨f0, f1, ?_⟩
          show (stx_pool_get (stx_pool_decr _ _) f.stx_idx).is_private = true
          rw [hgetd _ f0]
          by_cases hfi : f.stx_idx = ctx.stx_idx
          · rw [if_pos hfi]
            rw [hfi] at f2
            exact f2
          · rw [if_neg hfi]; exact f2
        · intro i hi
          have hi2 : i < s.shmem_transport_ofi_stx_pool.length := by
            have : (stx_pool_decr s.shmem_transport_ofi_stx_pool ctx.stx_idx).length
                = s.shmem_transport_ofi_stx_pool.length := stx_pool_decr_length _ _
            exact this ▸ hi
          show (stx_pool_get (stx_pool_decr _ _) i).is_private = true →
            1 ≤ (stx_pool_get (stx_pool_decr _ _) i).ref_cnt
          by_cases hii : (i : Int) = ctx.stx_idx
          · intro _
            have h2 := hrefs_decr i hi2
            rw [hii] at h2 ⊢
            have h3 : (0 : Int) ≤ (L.countP (fun c => decide (c.stx_idx = ctx.stx_idx)) : Int) :=
              Int.ofNat_nonneg _
            omega
          · rw [hgetd _ (Int.ofNat_nonneg i), if_neg hii]
            exact h.priv i hi2
        · intro c hc hcp
          have hc0 := (h.bound c (List.mem_cons_of_mem _ hc)).1
          have hsh := h.shared c (List.mem_cons_of_mem _ hc) hcp
          show (stx_pool_get (stx_pool_decr _ _) c.stx_idx).is_private = false
          rw [hgetd _ hc0]
          by_cases hci : c.stx_idx = ctx.stx_idx
          · rw [if_pos hci]
            rw [hci] at hsh
            exact hsh
          · rw [if_neg hci]; exact hsh
  · rw [if_neg hp] at hd
    dsimp only at hd
    by_cases hq : (stx_pool_get (stx_pool_decr s.shmem_transport_ofi_stx_pool ctx.stx_idx)
        ctx.stx_idx).is_private = true
    · rw [if_pos hq] at hd
      cases hd
    · rw [if_neg hq] at hd
      injection hd with hd
      subst hd
      refine ⟨⟨_, s.shmem_transport_ofi_stx_kvs, rfl⟩, ?_⟩
      refine
        { len := by
            show (stx_pool_decr _ _).length = _
            rw [stx_pool_decr_length]; exact hlen
          max_pos := h.max_pos
          cursor := h.cursor
          refs := ?_
          bound := fun c hc => h.bound c (List.mem_cons_of_mem _ hc)
          owner := fun c hc hcp => h.owner c (List.mem_cons_of_mem _ hc) hcp
          kvs_ok := ?_
          kvs_tid := h.kvs_tid
          kvs_idx := h.kvs_idx
          priv := ?_
          shared := ?_
          total := htot_decr }
      · intro i hi
        have hi2 : i < s.shmem_transport_ofi_stx_pool.length := by
          have : (stx_pool_decr s.shmem_transport_ofi_stx_pool ctx.stx_idx).length
              = s.shmem_transport_ofi_stx_pool.length := stx_pool_decr_length _ _
          exact this ▸ hi
        exact hrefs_decr i hi2
      · intro f hf
        obtain ⟨f0, f1, f2⟩ := h.kvs_ok f hf
        refine ⟨f0, f1, ?_⟩
        show (stx_pool_get (stx_pool_decr _ _) f.stx_idx).is_private = true
        rw [hgetd _ f0]
        by_cases hfi : f.stx_idx = ctx.stx_idx
        · rw [if_pos hfi]
          rw [hfi] at f2
          exact f2
        · rw [if_neg hfi]; exact f2
      · intro i hi
        have hi2 : i < s.shmem_transport_ofi_stx_pool.length := by
          have : (stx_pool_decr s.shmem_transport_ofi_stx_pool ctx.stx_idx).length
              = s.shmem_transport_ofi_stx_pool.length := stx_pool_decr_length _ _
          exact this ▸ hi
        show (stx_pool_get (stx_pool_decr _ _) i).is_private = true →
          1 ≤ (stx_pool_get (stx_pool_decr _ _) i).ref_cnt
        by_cases hii : (i : Int) = ctx.stx_idx
        · intro hc
          rw [hii] at hc
          exact absurd hc hq
        · rw [hgetd _ (Int.ofNat_nonneg i), if_neg hii]
          exact h.priv i hi2
      · intro c hc hcp
        have hc0 := (h.bound c (List.mem_cons_of_mem _ hc)).1
        have hsh := h.shared c (List.mem_cons_of_mem _ hc) hcp
        show (stx_pool_get (stx_pool_decr _ _) c.stx_idx).is_private = false
        rw [hgetd _ hc0]
        by_cases hci : c.stx_idx = ctx.stx_idx
        · rw [if_pos hci]
          rw [hci] at hsh
          exact hsh
        · rw [if_neg hci]; exact hsh

/-- The pool invariant does not depend on the order of the bindings. -/
theorem PoolInv.perm {s : TransportState} {L L1 : List stx_binding} (h : PoolInv s L)
    (hp : L.Perm L1) : PoolInv s L1 :=
  { len := h.len
    max_pos := h.max_pos
    cursor := h.cursor
    refs := fun i hi => by rw [h.refs i hi, hp.countP_eq]
    bound := fun b hb => h.bound b (hp.mem_iff.mpr hb)
    owner := fun b hb => h.owner b (hp.mem_iff.mpr hb)
    kvs_ok := h.kvs_ok
    kvs_tid := h.kvs_tid
    kvs_idx := h.kvs_idx
    priv := h.priv
    shared := fun b hb => h.shared b (hp.mem_iff.mpr hb)
    total := by rw [h.total, hp.length_eq] }

/-- The pool invariant reads only the pool, the owner table, the size of the
pool and the cursor. -/
theorem PoolInv.of_same_pool {s s1 : TransportState} {L : List stx_binding} (h : PoolInv s L)
    (hpool : s1.shmem_transport_ofi_stx_pool = s.shmem_transport_ofi_stx_pool)
    (hkvs : s1.shmem_transport_ofi_stx_kvs = s.shmem_transport_ofi_stx_kvs)
    (hmax : s1.shmem_transport_ofi_stx_max = s.shmem_transport_ofi_stx_max)
    (hrr : s1.rr_start_idx = s.rr_start_idx) : PoolInv s1 L :=
  { len := by rw [hpool, hmax]; exact h.len
    max_pos := by rw [hmax]; exact h.max_pos
    cursor := by rw [hrr, hmax]; exact h.cursor
    refs := by rw [hpool]; exact h.refs
    bound := by rw [hmax]; exact h.bound
    owner := by rw [hkvs]; exact h.owner
    kvs_ok := by rw [hkvs, hpool, hmax]; exact h.kvs_ok
    kvs_tid := by rw [hkvs]; exact h.kvs_tid
    kvs_idx := by rw [hkvs]; exact h.kvs_idx
    priv := by rw [hpool]; exact h.priv
    shared := by rw [hpool]; exact h.shared
    total := by
      have := h.total
      unfold stx_ref_cnt_sum at this ⊢
      rw [hpool]; exact this }

/-- The initial pool satisfies the pool invariant with no binding. -/
theorem PoolInv.initial (s : TransportState) (hmax : 1 ≤ s.shmem_transport_ofi_stx_max)
    (hpool : s.shmem_transport_ofi_stx_pool =
      List.replicate s.shmem_transport_ofi_stx_max.toNat { ref_cnt := 0, is_private := false })
    (hkvs : s.shmem_transport_ofi_stx_kvs = [])
    (hrr : s.rr_start_idx = 0) : PoolInv s [] := by
  have hget : ∀ j : Int, stx_pool_get s.shmem_transport_ofi_stx_pool j
      = { ref_cnt := 0, is_private := false } := by
    intro j
    rw [hpool]
    unfold stx_pool_get
    rw [List.getD_eq_getElem?_getD]
    by_cases hj : j.toNat < s.shmem_transport_ofi_stx_max.toNat
    · rw [List.getElem?_replicate]
      simp [hj]
    · rw [List.getElem?_eq_none (by rw [List.length_replicate]; omega)]
      rfl
  refine
    { len := by rw [hpool]; simp
      max_pos := hmax
      cursor := by rw [hrr]; omega
      refs := fun i _ => by rw [hget]; simp
      bound := fun b hb => by cases hb
      owner := fun b hb => by cases hb
      kvs_ok := fun e he => by rw [hkvs] at he; cases he
      kvs_tid := by rw [hkvs]; simp
      kvs_idx := by rw [hkvs]; simp
      priv := fun i _ hp => by rw [hget] at hp; cases hp
      shared := fun b hb => by cases hb
      total := by
        unfold stx_ref_cnt_sum
        rw [hpool]
        simp }

/-- The binding of a context reads, of the globals, only
`OFI_STX_DISABLE_PRIVATE`. -/
theorem ctx_binding_of_same_flag (s s1 : TransportState) (ctx : shmem_transport_ctx_t)
    (h : s1.OFI_STX_DISABLE_PRIVATE = s.OFI_STX_DISABLE_PRIVATE) :
    ctx_binding s1 ctx = ctx_binding s ctx := by
  simp [ctx_binding, shmem_transport_ofi_is_private, h]

/-- The slot invariant of the pool, from the pool invariant. -/
theorem PoolInv.slot {s : TransportState} {L : List stx_binding} (h : PoolInv s L)
    (i : Int) (h0 : 0 ≤ i) (h1 : i < s.shmem_transport_ofi_stx_max) :
    0 ≤ (stx_pool_get s.shmem_transport_ofi_stx_pool i).ref_cnt ∧
    ((stx_pool_get s.shmem_transport_ofi_stx_pool i).is_private = true →
      1 ≤ (stx_pool_get s.shmem_transport_ofi_stx_pool i).ref_cnt) ∧
    ((stx_pool_get s.shmem_transport_ofi_stx_pool i).ref_cnt = 0 →
      (stx_pool_get s.shmem_transport_ofi_stx_pool i).is_private = false) := by
  have hlen := h.len
  have hin : i.toNat < s.shmem_transport_ofi_stx_pool.length := by omega
  have hcast : ((i.toNat : Nat) : Int) = i := Int.toNat_of_nonneg h0
  have hn := h.ref_cnt_nonneg i.toNat hin
  have hp := h.priv i.toNat hin
  rw [hcast] at hn hp
  refine ⟨hn, hp, ?_⟩
  intro hz
  by_contra hc
  have := hp (by simpa using hc)
  omega

/-- The bindings of a list of contexts read, of the globals, only
`OFI_STX_DISABLE_PRIVATE`. -/
theorem ctx_bindings_of_same_flag (s s1 : TransportState) (l : List shmem_transport_ctx_t)
    (h : s1.OFI_STX_DISABLE_PRIVATE = s.OFI_STX_DISABLE_PRIVATE) :
    l.map (ctx_binding s1) = l.map (ctx_binding s) :=
  List.map_congr_left (fun c _ => ctx_binding_of_same_flag s s1 c h)

/-- Every state of the pool that allocations and releases reach satisfies the
pool invariant for the bindings of the bound contexts. -/
theorem StxPoolReachable.pool_inv {s : TransportState} {live : List shmem_transport_ctx_t}
    (h : StxPoolReachable s live) : PoolInv s (live.map (ctx_binding s)) := by
  induction h with
  | init s hmax hpool hkvs hrr => exact PoolInv.initial s hmax hpool hkvs hrr
  | allocate s live ctx ctx1 s1 _ h ih =>
    obtain ⟨⟨pool, kvs, rr, values, hs1⟩, _, hinv⟩ := stx_allocate_frame s ctx ctx1 s1 _ ih h
    have hflag : s1.OFI_STX_DISABLE_PRIVATE = s.OFI_STX_DISABLE_PRIVATE := by rw [hs1]
    rw [List.map_cons, ctx_bindings_of_same_flag s s1 live hflag]
    exact hinv
  | release s live ctx s1 _ hlive h ih =>
    have hperm : (live.map (ctx_binding s)).Perm
        (ctx_binding s ctx :: (live.erase ctx).map (ctx_binding s)) :=
      (List.perm_cons_erase hlive).map _
    obtain ⟨⟨pool, kvs, hs1⟩, hinv⟩ := (ih.perm hperm).release ctx s1 rfl h
    have hflag : s1.OFI_STX_DISABLE_PRIVATE = s.OFI_STX_DISABLE_PRIVATE := by rw [hs1]
    rw [ctx_bindings_of_same_flag s s1 _ hflag]
    exact hinv

/-- C14: in every state of the STX pool reached from the initial pool
(`stx_max ≥ 1` slots, all with `ref_cnt = 0`, none private, an empty owner
table) by returning calls of `shmem_transport_ofi_stx_allocate` and returning
STX releases of `shmem_transport_ctx_destroy` for bound contexts, the pool has
`stx_max` slots and every slot has `ref_cnt ≥ 0`, has `ref_cnt ≥ 1` when it is
private, and is not private when `ref_cnt = 0`. -/
theorem C14_stx_slot_invariant (s : TransportState) (live : List shmem_transport_ctx_t)
    (h : StxPoolReachable s live) :
    s.shmem_transport_ofi_stx_pool.length = s.shmem_transport_ofi_stx_max.toNat ∧
    ∀ slot ∈ s.shmem_transport_ofi_stx_pool,
      0 ≤ slot.ref_cnt ∧ (slot.is_private = true → 1 ≤ slot.ref_cnt) ∧
        (slot.ref_cnt = 0 → slot.is_private = false) := by
  have hinv := h.pool_inv
  refine ⟨hinv.len, ?_⟩
  intro slot hslot
  obtain ⟨i, hi, hget⟩ := List.getElem_of_mem hslot
  have hlen := hinv.len
  have hmax := hinv.max_pos
  have hslot_eq : stx_pool_get s.shmem_transport_ofi_stx_pool (i : Int) = slot := by
    unfold stx_pool_get
    rw [List.getD_eq_getElem?_getD, Int.toNat_ofNat, List.getElem?_eq_getElem hi, hget]
    rfl
  have := hinv.slot (i : Int) (Int.ofNat_nonneg i) (by omega)
  rw [hslot_eq] at this
  exact this

theorem C14_stx_slot_invariant_witness :
    StxPoolReachable
      { pool_of_two with
        shmem_transport_ofi_stx_pool :=
          [{ ref_cnt := 1, is_private := true }, { ref_cnt := 0, is_private := false }]
        shmem_transport_ofi_stx_kvs := [{ stx_idx := 0, tid := { tid_t := 0, val := 7 } }] }
      [{ private_ctx_of 7 with stx_idx := 0 }] ∧
    ∀ slot ∈ [({ ref_cnt := 1, is_private := true } : shmem_transport_ofi_stx_t),
        { ref_cnt := 0, is_private := false }],
      0 ≤ slot.ref_cnt ∧ (slot.is_private = true → 1 ≤ slot.ref_cnt) ∧
        (slot.ref_cnt = 0 → slot.is_private = false) :=
  have hrun : StxPoolReachable
      { pool_of_two with
        shmem_transport_ofi_stx_pool :=
          [{ ref_cnt := 1, is_private := true }, { ref_cnt := 0, is_private := false }]
        shmem_transport_ofi_stx_kvs := [{ stx_idx := 0, tid := { tid_t := 0, val := 7 } }] }
      [{ private_ctx_of 7 with stx_idx := 0 }] :=
    StxPoolReachable.allocate pool_of_two [] (private_ctx_of 7) _ _
      (StxPoolReachable.init pool_of_two (by decide) (by decide) rfl rfl) (by decide)
  ⟨hrun, (C14_stx_slot_invariant _ _ hrun).2⟩

/-- The first loop of `shmem_transport_ctx_create` stops at the least index
whose slot is NULL, or at the end of the registry. -/
theorem ctx_create_find_slot_spec :
    ∀ (l : List (Option shmem_transport_ctx_t)) (k : Nat),
      k ≤ ctx_create_find_slot l k ∧ ctx_create_find_slot l k ≤ k + l.length ∧
      (ctx_create_find_slot l k < k + l.length →
        l[ctx_create_find_slot l k - k]? = some none) ∧
      ∀ j : Nat, j < ctx_create_find_slot l k - k → ∃ c, l[j]? = some (some c)
  | [], k => by simp [ctx_create_find_slot]
  | none :: rest, k => by simp [ctx_create_find_slot]
  | some c :: rest, k => by
    obtain ⟨h1, h2, h3, h4⟩ := ctx_create_find_slot_spec rest (k + 1)
    unfold ctx_create_find_slot
    refine ⟨by omega, by simp only [List.length_cons]; omega, ?_, ?_⟩
    · intro hlt
      have hlt2 : ctx_create_find_slot rest (k + 1) < k + 1 + rest.length := by
        simp only [List.length_cons] at hlt; omega
      have hidx : ctx_create_find_slot rest (k + 1) - k
          = (ctx_create_find_slot rest (k + 1) - (k + 1)) + 1 := by omega
      rw [hidx, List.getElem?_cons_succ]
      exact h3 hlt2
    · intro j hj
      cases j with
      | zero => exact ⟨c, by simp⟩
      | succ j =>
        rw [List.getElem?_cons_succ]
        exact h4 j (by omega)

/-- Clearing a registry slot that holds a context removes that context from
the contexts of the registry. -/
theorem reduceOption_set_none :
    ∀ (l : List (Option shmem_transport_ctx_t)) (i : Nat) (c : shmem_transport_ctx_t),
      l[i]? = some (some c) → l.reduceOption.Perm (c :: (l.set i none).reduceOption)
  | [], i, c, h => by simp at h
  | a :: rest, 0, c, h => by
    simp only [List.getElem?_cons_zero, Option.some.injEq] at h
    subst h
    simp [List.reduceOption_cons_of_some, List.reduceOption_cons_of_none]
  | a :: rest, i + 1, c, h => by
    rw [List.getElem?_cons_succ] at h
    have ih := reduceOption_set_none rest i c h
    cases a with
    | none =>
      simp only [List.set_cons_succ, List.reduceOption_cons_of_none]
      exact ih
    | some d =>
      simp only [List.set_cons_succ, List.reduceOption_cons_of_some]
      exact (ih.cons d).trans (List.Perm.swap c d _)

/-- Storing a context in a NULL slot of the registry adds that context to the
contexts of the registry. -/
theorem reduceOption_set_some :
    ∀ (l : List (Option shmem_transport_ctx_t)) (i : Nat) (c : shmem_transport_ctx_t),
      l[i]? = some none → (l.set i (some c)).reduceOption.Perm (c :: l.reduceOption)
  | [], i, c, h => by simp at h
  | a :: rest, 0, c, h => by
    simp only [List.getElem?_cons_zero, Option.some.injEq] at h
    subst h
    simp [List.reduceOption_cons_of_some, List.reduceOption_cons_of_none]
  | a :: rest, i + 1, c, h => by
    rw [List.getElem?_cons_succ] at h
    have ih := reduceOption_set_some rest i c h
    cases a with
    | none =>
      simp only [List.set_cons_succ, List.reduceOption_cons_of_none]
      exact ih
    | some d =>
      simp only [List.set_cons_succ, List.reduceOption_cons_of_some]
      exact (ih.cons d).trans (List.Perm.swap c d _)

/-- Clearing a slot of the registry that is NULL, or beyond its end, changes
nothing. -/
theorem registry_set_none_of_null :
    ∀ (l : List (Option shmem_transport_ctx_t)) (i : Nat),
      (∀ c, l[i]? ≠ some (some c)) → l.set i none = l
  | [], i, h => by simp
  | a :: rest, 0, h => by
    cases a with
    | none => rfl
    | some d => exact absurd (by simp) (h d)
  | a :: rest, i + 1, h => by
    simp only [List.set_cons_succ, List.cons.injEq, true_and]
    apply registry_set_none_of_null rest i
    intro c hc
    exact h c (by rw [List.getElem?_cons_succ]; exact hc)

/-- Growing the registry by NULL slots adds no context. -/
theorem reduceOption_append_nulls (l : List (Option shmem_transport_ctx_t)) (n : Nat) :
    (l ++ List.replicate n none).reduceOption = l.reduceOption := by
  rw [List.reduceOption_append]
  have : (List.replicate n (none : Option shmem_transport_ctx_t)).reduceOption = [] := by
    induction n with
    | zero => rfl
    | succ k ih => rw [List.replicate_succ, List.reduceOption_cons_of_none, ih]
  rw [this, List.append_nil]

/-- A context of the registry is among the contexts of the registry. -/
theorem mem_reduceOption_of_registry (l : List (Option shmem_transport_ctx_t)) (i : Nat)
    (c : shmem_transport_ctx_t) (h : l[i]? = some (some c)) : c ∈ l.reduceOption := by
  rw [List.reduceOption_mem_iff]
  obtain ⟨hi, hget⟩ := List.getElem?_eq_some_iff.mp h
  rw [← hget]
  exact List.getElem_mem hi

/-- What `shmem_transport_ofi_ctx_init` does to the pool and to the context:
of the globals only the pool, the owner table, the cursor and the pending
`rand_r` values may change; the context gets the id passed; a context that is
not private stays so; and either the call failed before the allocation of an
STX, leaving the globals and `stx_idx` alone, or the context is bound to a
slot. -/
theorem ctx_init_spec (s : TransportState) (ctx : shmem_transport_ctx_t) (id : Int)
    (gettid : shmem_internal_tid) (prov : ctx_provider_results) (ret : Int)
    (c1 : shmem_transport_ctx_t) (s1 : TransportState) (L : List stx_binding)
    (hinv : PoolInv s L)
    (h : shmem_transport_ofi_ctx_init s ctx id gettid prov = .ok (ret, c1, s1)) :
    (∃ pool kvs rr values,
      s1 = { s with
        shmem_transport_ofi_stx_pool := pool
        shmem_transport_ofi_stx_kvs := kvs
        rr_start_idx := rr
        rand_r_values := values }) ∧
    c1.id = id ∧
    (ctx.options.SHMEM_CTX_PRIVATE = false → c1.options.SHMEM_CTX_PRIVATE = false) ∧
    ((ret ≠ 0 ∧ c1.stx_idx = ctx.stx_idx ∧ s1 = s) ∨
      PoolInv s1 (ctx_binding s1 c1 :: L)) := by
  have hself : ∃ pool kvs rr values,
      s = { s with
        shmem_transport_ofi_stx_pool := pool
        shmem_transport_ofi_stx_kvs := kvs
        rr_start_idx := rr
        rand_r_values := values } := ⟨_, _, _, _, rfl⟩
  unfold shmem_transport_ofi_ctx_init at h
  dsimp only at h
  split at h
  · injection h with h
    injection h with hr h
    injection h with hc hs
    subst hr; subst hc; subst hs
    exact ⟨hself, rfl, fun hp => hp, Or.inl ⟨by assumption, rfl, rfl⟩⟩
  split at h
  · injection h with h
    injection h with hr h
    injection h with hc hs
    subst hr; subst hc; subst hs
    exact ⟨hself, rfl, fun hp => hp, Or.inl ⟨by assumption, rfl, rfl⟩⟩
  split at h
  · injection h with h
    injection h with hr h
    injection h with hc hs
    subst hr; subst hc; subst hs
    exact ⟨hself, rfl, fun hp => hp, Or.inl ⟨by assumption, rfl, rfl⟩⟩
  split at h
  · injection h with h
    injection h with hr h
    injection h with hc hs
    subst hr; subst hc; subst hs
    exact ⟨hself, rfl, fun hp => hp, Or.inl ⟨by assumption, rfl, rfl⟩⟩
  generalize hcX : (if (s.shmem_internal_thread_level.above_funneled
        && shmem_transport_ofi_is_private s ctx.options) = true then
      ({ id := id, options := ctx.options, stx_idx := ctx.stx_idx, tid := gettid, ep := true,
         put_cntr := true, get_cntr := true, cq := true,
         bounce_buffers := ctx.bounce_buffers } : shmem_transport_ctx_t)
    else
      { id := id, options := ctx.options, stx_idx := ctx.stx_idx, tid := ctx.tid, ep := true,
        put_cntr := true, get_cntr := true, cq := true,
        bounce_buffers := ctx.bounce_buffers }) = cX at h
  have hXid : cX.id = id := by
    rw [← hcX]; split <;> rfl
  have hXopt : cX.options = ctx.options := by
    rw [← hcX]; split <;> rfl
  have hXidx : cX.stx_idx = ctx.stx_idx := by
    rw [← hcX]; split <;> rfl
  split at h
  · cases h
  · rename_i c2 s2 halloc
    obtain ⟨hframe, ⟨idx, flag, hfl, hc2⟩, hpool⟩ := stx_allocate_frame s cX c2 s2 L hinv halloc
    have hid : c2.id = id := by rw [hc2]; exact hXid
    have hopt : ctx.options.SHMEM_CTX_PRIVATE = false →
        c2.options.SHMEM_CTX_PRIVATE = false := by
      intro hp
      rw [hc2]
      show flag = false
      cases flag with
      | false => rfl
      | true =>
        have := hfl rfl
        rw [hXopt, hp] at this
        cases this
    split at h
    · injection h with h
      injection h with hr h
      injection h with hc hs
      subst hr; subst hc; subst hs
      exact ⟨hframe, hid, hopt, Or.inr hpool⟩
    split at h
    · injection h with h
      injection h with hr h
      injection h with hc hs
      subst hr; subst hc; subst hs
      exact ⟨hframe, hid, hopt, Or.inr hpool⟩
    · injection h with h
      injection h with hr h
      injection h with hc hs
      subst hr; subst hc; subst hs
      refine ⟨hframe, hid, hopt, Or.inr ?_⟩
      have : ctx_binding s2
          { c2 with
            options := { c2.options with SHMEMX_CTX_BOUNCE_BUFFER := false }
            bounce_buffers := false } = ctx_binding s2 c2 := by
        simp [ctx_binding, shmem_transport_ofi_is_private]
      rw [this]
      exact hpool

/-- What a returning `shmem_transport_ctx_destroy` does: the STX release, and
then the registry slot of the context is set to NULL, unless the context is
the default one. -/
theorem ctx_destroy_spec (s : TransportState) (ctx : shmem_transport_ctx_t)
    (close : ctx_close_results) (s1 : TransportState)
    (h : shmem_transport_ctx_destroy s ctx close = .ok s1) :
    ∃ s2, shmem_transport_ctx_destroy_stx s ctx = .ok s2 ∧
      ((0 ≤ ctx.id ∧
          s1 = { s2 with
            shmem_transport_ofi_contexts :=
              s2.shmem_transport_ofi_contexts.set ctx.id.toNat none }) ∨
        (ctx.id = SHMEM_TRANSPORT_CTX_DEFAULT_ID ∧ s1 = s2)) := by
  unfold shmem_transport_ctx_destroy at h
  split at h
  · cases h
  split at h
  · cases h
  · rename_i s2 hstx
    refine ⟨s2, hstx, ?_⟩
    split at h
    · cases h
    split at h
    · cases h
    split at h
    · cases h
    split at h
    · rename_i hid
      injection h with h
      exact Or.inl ⟨hid, h.symm⟩
    split at h
    · cases h
    · rename_i hid hne
      injection h with h
      refine Or.inr ⟨?_, h.symm⟩
      by_contra hc
      exact hne hc

/-- The STX release does nothing for a context that is not bound. -/
theorem ctx_destroy_stx_unbound (s : TransportState) (ctx : shmem_transport_ctx_t)
    (h : ctx.stx_idx < 0) : shmem_transport_ctx_destroy_stx s ctx = .ok s := by
  unfold shmem_transport_ctx_destroy_stx
  rw [if_neg (by omega)]

/-- The layer invariant reads the pool part of the globals, the registry, the
default context and `OFI_STX_DISABLE_PRIVATE`. -/
theorem TransportInv.of_same {s s1 : TransportState} {phase : default_ctx_phase}
    (h : TransportInv s phase)
    (hpool : s1.shmem_transport_ofi_stx_pool = s.shmem_transport_ofi_stx_pool)
    (hkvs : s1.shmem_transport_ofi_stx_kvs = s.shmem_transport_ofi_stx_kvs)
    (hmax : s1.shmem_transport_ofi_stx_max = s.shmem_transport_ofi_stx_max)
    (hrr : s1.rr_start_idx = s.rr_start_idx)
    (hflag : s1.OFI_STX_DISABLE_PRIVATE = s.OFI_STX_DISABLE_PRIVATE)
    (hdef : s1.shmem_transport_ctx_default = s.shmem_transport_ctx_default)
    (hreg : s1.shmem_transport_ofi_contexts.reduceOption
      = s.shmem_transport_ofi_contexts.reduceOption)
    (hidx : ∀ (i : Nat) (c : shmem_transport_ctx_t),
      s1.shmem_transport_ofi_contexts[i]? = some (some c) →
        s.shmem_transport_ofi_contexts[i]? = some (some c)) :
    TransportInv s1 phase := by
  have hlive : live_contexts s1 phase = live_contexts s phase := by
    unfold live_contexts
    rw [hdef, hreg]
  refine
    { pool := ?_
      registry := fun i c hc => h.registry i c (hidx i c hc)
      default_id := fun hp => by rw [hdef]; exact h.default_id hp
      default_opt := by rw [hdef]; exact h.default_opt }
  rw [hlive, ctx_bindings_of_same_flag s s1 _ hflag]
  exact h.pool.of_same_pool hpool hkvs hmax hrr

/-- The registry after the growth step of `shmem_transport_ctx_create`: the
layer invariant still holds, the slot chosen is NULL, and every slot before it
holds a context. -/
theorem ctx_create_grow_spec (s : TransportState) (phase : default_ctx_phase)
    (h : TransportInv s phase) (sg : TransportState)
    (hsg : sg = if ctx_create_find_slot s.shmem_transport_ofi_contexts 0
          ≥ s.shmem_transport_ofi_contexts.length then
        { s with
          shmem_transport_ofi_contexts :=
            s.shmem_transport_ofi_contexts
              ++ List.replicate shmem_transport_ofi_grow_size none }
      else s) :
    TransportInv sg phase ∧
    sg.shmem_transport_ofi_contexts[ctx_create_find_slot s.shmem_transport_ofi_contexts 0]?
      = some none ∧
    (∀ j : Nat, j < ctx_create_find_slot s.shmem_transport_ofi_contexts 0 →
      ∃ c, sg.shmem_transport_ofi_contexts[j]? = some (some c)) ∧
    (∃ l, sg = { s with shmem_transport_ofi_contexts := l }) := by
  obtain ⟨_, h2, h3, h4⟩ := ctx_create_find_slot_spec s.shmem_transport_ofi_contexts 0
  simp only [Nat.zero_add, Nat.sub_zero] at h2 h3 h4
  by_cases hge : ctx_create_find_slot s.shmem_transport_ofi_contexts 0
      ≥ s.shmem_transport_ofi_contexts.length
  · rw [if_pos hge] at hsg
    have hid : ctx_create_find_slot s.shmem_transport_ofi_contexts 0
        = s.shmem_transport_ofi_contexts.length := by omega
    subst hsg
    refine ⟨?_, ?_, ?_, ⟨_, rfl⟩⟩
    · refine h.of_same rfl rfl rfl rfl rfl rfl (reduceOption_append_nulls _ _) ?_
      intro i c hc
      simp only at hc
      by_cases hi : i < s.shmem_transport_ofi_contexts.length
      · rw [List.getElem?_append_left hi] at hc
        exact hc
      · rw [List.getElem?_append_right (by omega)] at hc
        rw [List.getElem?_replicate] at hc
        split at hc <;> simp at hc
    · simp only
      rw [hid, List.getElem?_append_right (le_refl _), Nat.sub_self,
        List.getElem?_replicate]
      simp [shmem_transport_ofi_grow_size]
    · intro j hj
      obtain ⟨c, hc⟩ := h4 j hj
      refine ⟨c, ?_⟩
      simp only
      rw [List.getElem?_append_left (by omega)]
      exact hc
  · rw [if_neg hge] at hsg
    subst hsg
    exact ⟨h, h3 (by omega), h4, ⟨_, rfl⟩⟩

/-- One `shmem_transport_ctx_create` keeps the layer invariant.  When it
returns 0 the new context carries the index found by the scan as its id, is
stored at that index of the (grown) registry and is one more live context;
when it returns an error code the registry holds the same contexts as before
and `*ctx` is left alone. -/
theorem ctx_create_spec (s : TransportState) (phase : default_ctx_phase)
    (options : ctx_options) (ctx : Option shmem_transport_ctx_t)
    (gettid : shmem_internal_tid) (prov : ctx_provider_results) (close : ctx_close_results)
    (ret : Int) (out : Option shmem_transport_ctx_t) (s1 : TransportState)
    (hinv : TransportInv s phase)
    (h : shmem_transport_ctx_create s options ctx gettid prov close = .ok (ret, out, s1)) :
    TransportInv s1 phase ∧
    (ret = 0 → ∃ c, out = some c ∧
      c.id = (ctx_create_find_slot s.shmem_transport_ofi_contexts 0 : Nat) ∧
      s1.shmem_transport_ofi_contexts =
        (if ctx_create_find_slot s.shmem_transport_ofi_contexts 0
            ≥ s.shmem_transport_ofi_contexts.length then
          s.shmem_transport_ofi_contexts ++ List.replicate shmem_transport_ofi_grow_size none
        else s.shmem_transport_ofi_contexts).set
          (ctx_create_find_slot s.shmem_transport_ofi_contexts 0) (some c) ∧
      s1.shmem_transport_ofi_contexts[ctx_create_find_slot s.shmem_transport_ofi_contexts 0]?
        = some (some c) ∧
      (live_contexts s1 phase).Perm (c :: live_contexts s phase)) ∧
    (ret ≠ 0 → out = ctx ∧ live_contexts s1 phase = live_contexts s phase) := by
  unfold shmem_transport_ctx_create at h
  dsimp only at h
  generalize hsg : (if ctx_create_find_slot s.shmem_transport_ofi_contexts 0
        ≥ s.shmem_transport_ofi_contexts.length then
      { s with
        shmem_transport_ofi_contexts :=
          s.shmem_transport_ofi_contexts
            ++ List.replicate shmem_transport_ofi_grow_size none }
    else s) = sg at h
  obtain ⟨hg, hnull, _, ⟨lg, hlg⟩⟩ := ctx_create_grow_spec s phase hinv sg hsg.symm
  have hlg_eq : sg.shmem_transport_ofi_contexts =
      (if ctx_create_find_slot s.shmem_transport_ofi_contexts 0
          ≥ s.shmem_transport_ofi_contexts.length then
        s.shmem_transport_ofi_contexts ++ List.replicate shmem_transport_ofi_grow_size none
      else s.shmem_transport_ofi_contexts) := by
    rw [← hsg]
    split <;> rfl
  have hlive_g : live_contexts sg phase = live_contexts s phase := by
    have hdef_g : sg.shmem_transport_ctx_default = s.shmem_transport_ctx_default := by
      rw [hlg]
    unfold live_contexts
    rw [hlg_eq, hdef_g]
    by_cases hge : ctx_create_find_slot s.shmem_transport_ofi_contexts 0
        ≥ s.shmem_transport_ofi_contexts.length
    · rw [if_pos hge, reduceOption_append_nulls]
    · rw [if_neg hge]
  generalize hid : ctx_create_find_slot s.shmem_transport_ofi_contexts 0 = id at h hnull hlg_eq ⊢
  split at h
  · cases h
  rename_i ret1 c1 sa hinit
  obtain ⟨⟨pool, kvs, rr, values, hsa⟩, hc1id, _, hcase⟩ :=
    ctx_init_spec sg _ (id : Int) gettid prov ret1 c1 sa _ hg.pool hinit
  have hsa_flag : sa.OFI_STX_DISABLE_PRIVATE = sg.OFI_STX_DISABLE_PRIVATE := by rw [hsa]
  have hsa_reg : sa.shmem_transport_ofi_contexts = sg.shmem_transport_ofi_contexts := by
    rw [hsa]
  have hsa_def : sa.shmem_transport_ctx_default = sg.shmem_transport_ctx_default := by
    rw [hsa]
  split at h
  · rename_i hret
    split at h
    · cases h
    rename_i sb hdestroy
    injection h with h
    injection h with hr h
    injection h with ho hs
    subst hr; subst ho; subst hs
    obtain ⟨sc, hstx, hfin⟩ := ctx_destroy_spec sa c1 close sb hdestroy
    have hnone : ∀ c, sg.shmem_transport_ofi_contexts[(id : Int).toNat]? ≠ some (some c) := by
      intro c hc
      rw [Int.toNat_ofNat, hnull] at hc
      cases hc
    have hsb : ∃ pool kvs, sb = { sa with
        shmem_transport_ofi_stx_pool := pool
        shmem_transport_ofi_stx_kvs := kvs } ∧
        PoolInv sb ((live_contexts sg phase).map (ctx_binding sg)) := by
      rcases hcase with ⟨_, hidx, hsame⟩ | hpool
      · have hunb : c1.stx_idx < 0 := by
          rw [hidx]
          show (-1 : Int) < 0
          omega
        rw [ctx_destroy_stx_unbound sa c1 hunb] at hstx
        injection hstx with hstx
        subst hstx
        subst hsame
        rcases hfin with ⟨_, hfin⟩ | ⟨hdef, _⟩
        · rw [hc1id, registry_set_none_of_null _ _ hnone] at hfin
          subst hfin
          exact ⟨_, _, rfl, hg.pool⟩
        · rw [hc1id] at hdef
          have : (0 : Int) ≤ (id : Int) := Int.ofNat_nonneg id
          simp only [SHMEM_TRANSPORT_CTX_DEFAULT_ID] at hdef
          omega
      · obtain ⟨⟨pool2, kvs2, hsc⟩, hrel⟩ := hpool.release c1 sc rfl hstx
        rcases hfin with ⟨_, hfin⟩ | ⟨hdef, _⟩
        · have hsc_reg : sc.shmem_transport_ofi_contexts
              = sg.shmem_transport_ofi_contexts := by rw [hsc, hsa]
          rw [hc1id, hsc_reg, registry_set_none_of_null _ _ hnone, ← hsc_reg] at hfin
          subst hfin
          refine ⟨pool2, kvs2, ?_, ?_⟩
          · rw [hsc]
          · exact hrel
        · rw [hc1id] at hdef
          have : (0 : Int) ≤ (id : Int) := Int.ofNat_nonneg id
          simp only [SHMEM_TRANSPORT_CTX_DEFAULT_ID] at hdef
          omega
    obtain ⟨pool2, kvs2, hsb_eq, hsb_inv⟩ := hsb
    have hsb_reg : sb.shmem_transport_ofi_contexts = sg.shmem_transport_ofi_contexts := by
      rw [hsb_eq, hsa]
    have hsb_def : sb.shmem_transport_ctx_default = sg.shmem_transport_ctx_default := by
      rw [hsb_eq, hsa]
    have hsb_flag : sb.OFI_STX_DISABLE_PRIVATE = sg.OFI_STX_DISABLE_PRIVATE := by
      rw [hsb_eq, hsa]
    have hlive_b : live_contexts sb phase = live_contexts sg phase := by
      unfold live_contexts
      rw [hsb_reg, hsb_def]
    refine ⟨?_, fun hz => absurd hz hret, fun _ => ⟨rfl, by rw [hlive_b, hlive_g]⟩⟩
    refine
      { pool := by
          rw [hlive_b, ctx_bindings_of_same_flag sg sb _ hsb_flag]
          exact hsb_inv
        registry := fun i c hc => hg.registry i c (by rw [← hsb_reg]; exact hc)
        default_id := fun hp => by rw [hsb_def]; exact hg.default_id hp
        default_opt := by rw [hsb_def]; exact hg.default_opt }
  · rename_i hret
    have hret0 : ret1 = 0 := by
      by_contra hc
      exact hret hc
    injection h with h
    injection h with hr h
    injection h with ho hs
    subst hr; subst ho; subst hs
    have hpool : PoolInv sa (ctx_binding sa c1 :: (live_contexts sg phase).map (ctx_binding sg)) := by
      rcases hcase with ⟨hne, _, _⟩ | hpool
      · exact absurd hret0 hne
      · exact hpool
    have hperm_reg : ((sa.shmem_transport_ofi_contexts.set id (some c1)).reduceOption).Perm
        (c1 :: sg.shmem_transport_ofi_contexts.reduceOption) := by
      rw [hsa_reg]
      exact reduceOption_set_some _ _ _ hnull
    have hperm : (live_contexts
        { sa with
          shmem_transport_ofi_contexts := sa.shmem_transport_ofi_contexts.set id (some c1) }
        phase).Perm (c1 :: live_contexts sg phase) := by
      unfold live_contexts
      simp only
      rw [hsa_def]
      exact (List.Perm.append_left _ hperm_reg).trans List.perm_middle
    refine ⟨?_, fun _ => ⟨c1, rfl, hc1id, ?_, ?_, ?_⟩, fun hne => absurd hret0 hne⟩
    · refine
        { pool := ?_
          registry := ?_
          default_id := fun hp => by
            show sa.shmem_transport_ctx_default.id = _
            rw [hsa_def]; exact hg.default_id hp
          default_opt := by
            show sa.shmem_transport_ctx_default.options.SHMEM_CTX_PRIVATE = false
            rw [hsa_def]; exact hg.default_opt }
      · have hflag2 : TransportState.OFI_STX_DISABLE_PRIVATE
            { sa with
              shmem_transport_ofi_contexts :=
                sa.shmem_transport_ofi_contexts.set id (some c1) }
            = sa.OFI_STX_DISABLE_PRIVATE := rfl
        have hp2 : PoolInv sa ((live_contexts
            { sa with
              shmem_transport_ofi_contexts :=
                sa.shmem_transport_ofi_contexts.set id (some c1) } phase).map
              (ctx_binding sa)) := by
          refine PoolInv.perm ?_ (hperm.map _).symm
          rw [List.map_cons, ctx_bindings_of_same_flag sg sa _ hsa_flag]
          exact hpool
        rw [ctx_bindings_of_same_flag sa _ _ hflag2]
        exact hp2.of_same_pool rfl rfl rfl rfl
      · intro i c hc
        simp only at hc
        rw [hsa_reg, List.getElem?_set] at hc
        by_cases hi : id = i
        · rw [if_pos hi] at hc
          split at hc
          · injection hc with hc
            injection hc with hc
            rw [← hc, hc1id, hi]
          · cases hc
        · rw [if_neg hi] at hc
          exact hg.registry i c hc
    · show sa.shmem_transport_ofi_contexts.set id (some c1) = _
      rw [hsa_reg, hlg_eq]
    · show (sa.shmem_transport_ofi_contexts.set id (some c1))[id]? = _
      rw [hsa_reg]
      obtain ⟨hlt, _⟩ := List.getElem?_eq_some_iff.mp hnull
      rw [List.getElem?_set_self hlt]
    · rw [← hlive_g]
      exact hperm

/-- One `shmem_transport_ctx_destroy` of a context of the registry keeps the
layer invariant: the slot of the context becomes NULL and the context is no
longer live. -/
theorem ctx_destroy_registry_spec (s : TransportState) (phase : default_ctx_phase) (i : Nat)
    (ctx : shmem_transport_ctx_t) (close : ctx_close_results) (s1 : TransportState)
    (hinv : TransportInv s phase)
    (hlive : s.shmem_transport_ofi_contexts[i]? = some (some ctx))
    (h : shmem_transport_ctx_destroy s ctx close = .ok s1) :
    TransportInv s1 phase ∧
    s1.shmem_transport_ofi_contexts = s.shmem_transport_ofi_contexts.set i none ∧
    (live_contexts s phase).Perm (ctx :: live_contexts s1 phase) := by
  have hid := hinv.registry i ctx hlive
  obtain ⟨s2, hstx, hfin⟩ := ctx_destroy_spec s ctx close s1 h
  have hperm_reg := reduceOption_set_none _ _ _ hlive
  have hperm : (live_contexts s phase).Perm
      (ctx :: ((if phase = .live then [s.shmem_transport_ctx_default] else [])
        ++ (s.shmem_transport_ofi_contexts.set i none).reduceOption)) := by
    unfold live_contexts
    exact (List.Perm.append_left _ hperm_reg).trans List.perm_middle
  obtain ⟨⟨pool, kvs, hs2⟩, hrel⟩ :=
    (hinv.pool.perm (hperm.map (ctx_binding s))).release ctx s2 rfl hstx
  rcases hfin with ⟨_, hfin⟩ | ⟨hdef, _⟩
  · have hs2_reg : s2.shmem_transport_ofi_contexts = s.shmem_transport_ofi_contexts := by
      rw [hs2]
    rw [hid, Int.toNat_ofNat, hs2_reg] at hfin
    have hs1_def : s1.shmem_transport_ctx_default = s.shmem_transport_ctx_default := by
      rw [hfin, hs2]
    have hs1_reg : s1.shmem_transport_ofi_contexts
        = s.shmem_transport_ofi_contexts.set i none := by rw [hfin]
    have hs1_flag : s1.OFI_STX_DISABLE_PRIVATE = s.OFI_STX_DISABLE_PRIVATE := by
      rw [hfin, hs2]
    have hlive1 : live_contexts s1 phase
        = (if phase = .live then [s.shmem_transport_ctx_default] else [])
          ++ (s.shmem_transport_ofi_contexts.set i none).reduceOption := by
      unfold live_contexts
      rw [hs1_def, hs1_reg]
    refine ⟨?_, hs1_reg, by rw [hlive1]; exact hperm⟩
    refine
      { pool := ?_
        registry := ?_
        default_id := fun hp => by rw [hs1_def]; exact hinv.default_id hp
        default_opt := by rw [hs1_def]; exact hinv.default_opt }
    · rw [hlive1, ctx_bindings_of_same_flag s s1 _ hs1_flag]
      refine hrel.of_same_pool ?_ ?_ ?_ ?_ <;> rw [hfin]
    · intro j c hc
      rw [hs1_reg, List.getElem?_set] at hc
      by_cases hj : i = j
      · rw [if_pos hj] at hc
        split at hc <;> cases hc
      · rw [if_neg hj] at hc
        exact hinv.registry j c hc
  · rw [hid] at hdef
    have : (0 : Int) ≤ (i : Int) := Int.ofNat_nonneg i
    simp only [SHMEM_TRANSPORT_CTX_DEFAULT_ID] at hdef
    omega

/-- One `shmem_transport_ctx_destroy` of the live default context keeps the
layer invariant: the registry is left alone and the default context is no
longer live. -/
theorem ctx_destroy_default_spec (s : TransportState) (close : ctx_close_results)
    (s1 : TransportState) (hinv : TransportInv s .live)
    (h : shmem_transport_ctx_destroy s s.shmem_transport_ctx_default close = .ok s1) :
    TransportInv s1 .destroyed ∧
    s1.shmem_transport_ofi_contexts = s.shmem_transport_ofi_contexts ∧
    live_contexts s .live = s.shmem_transport_ctx_default :: live_contexts s1 .destroyed := by
  have hid := hinv.default_id rfl
  obtain ⟨s2, hstx, hfin⟩ := ctx_destroy_spec s _ close s1 h
  have hlive0 : live_contexts s .live
      = s.shmem_transport_ctx_default :: s.shmem_transport_ofi_contexts.reduceOption := by
    simp [live_contexts]
  have hpool0 := hinv.pool
  rw [hlive0, List.map_cons] at hpool0
  obtain ⟨⟨pool, kvs, hs2⟩, hrel⟩ := hpool0.release _ s2 rfl hstx
  rcases hfin with ⟨hge, _⟩ | ⟨_, hfin⟩
  · rw [hid] at hge
    simp only [SHMEM_TRANSPORT_CTX_DEFAULT_ID] at hge
    omega
  · subst hfin
    have hs1_reg : s1.shmem_transport_ofi_contexts = s.shmem_transport_ofi_contexts := by
      rw [hs2]
    have hs1_def : s1.shmem_transport_ctx_default = s.shmem_transport_ctx_default := by
      rw [hs2]
    have hs1_flag : s1.OFI_STX_DISABLE_PRIVATE = s.OFI_STX_DISABLE_PRIVATE := by
      rw [hs2]
    have hlive1 : live_contexts s1 .destroyed = s.shmem_transport_ofi_contexts.reduceOption := by
      simp [live_contexts, hs1_reg]
    refine ⟨?_, hs1_reg, by rw [hlive0, hlive1]⟩
    refine
      { pool := by
          rw [hlive1, ctx_bindings_of_same_flag s s1 _ hs1_flag]
          exact hrel
        registry := fun j c hc => hinv.registry j c (by rw [← hs1_reg]; exact hc)
        default_id := fun hp => by cases hp
        default_opt := by rw [hs1_def]; exact hinv.default_opt }

/-- The set-up of the default context as in `shmem_transport_startup` keeps the
layer invariant, and makes the default context the one more live context. -/
theorem ctx_startup_spec (s : TransportState) (gettid : shmem_internal_tid)
    (prov : ctx_provider_results) (ctx : shmem_transport_ctx_t) (s1 : TransportState)
    (hinv : TransportInv s .absent)
    (h : shmem_transport_ofi_ctx_init s s.shmem_transport_ctx_default
      SHMEM_TRANSPORT_CTX_DEFAULT_ID gettid prov = .ok (0, ctx, s1)) :
    TransportInv { s1 with shmem_transport_ctx_default := ctx } .live ∧
    live_contexts { s1 with shmem_transport_ctx_default := ctx } .live
      = ctx :: live_contexts s .absent := by
  obtain ⟨⟨pool, kvs, rr, values, hs1⟩, hcid, hopt, hcase⟩ :=
    ctx_init_spec s _ _ gettid prov 0 ctx s1 _ hinv.pool h
  have hpool : PoolInv s1 (ctx_binding s1 ctx :: (live_contexts s .absent).map (ctx_binding s)) := by
    rcases hcase with ⟨hne, _, _⟩ | hpool
    · exact absurd rfl hne
    · exact hpool
  have hs1_reg : s1.shmem_transport_ofi_contexts = s.shmem_transport_ofi_contexts := by
    rw [hs1]
  have hs1_flag : s1.OFI_STX_DISABLE_PRIVATE = s.OFI_STX_DISABLE_PRIVATE := by
    rw [hs1]
  have hlive1 : live_contexts { s1 with shmem_transport_ctx_default := ctx } .live
      = ctx :: live_contexts s .absent := by
    simp [live_contexts, hs1_reg]
  have hflag2 : TransportState.OFI_STX_DISABLE_PRIVATE
      { s1 with shmem_transport_ctx_default := ctx } = s1.OFI_STX_DISABLE_PRIVATE := rfl
  refine ⟨?_, hlive1⟩
  refine
    { pool := ?_
      registry := fun j c hc => hinv.registry j c (by rw [← hs1_reg]; exact hc)
      default_id := fun _ => hcid
      default_opt := hopt hinv.default_opt }
  rw [hlive1, List.map_cons, ctx_binding_of_same_flag s1 _ ctx hflag2,
    ctx_bindings_of_same_flag s1 _ _ hflag2, ctx_bindings_of_same_flag s s1 _ hs1_flag]
  exact hpool.of_same_pool rfl rfl rfl rfl

/-- Every state a run of the context layer reaches satisfies the layer
invariant. -/
theorem TransportReachable.layer_inv {s : TransportState} {phase : default_ctx_phase}
    (h : TransportReachable s phase) : TransportInv s phase := by
  induction h with
  | init s hmax hpool hkvs hrr hreg hdef =>
    have hlive : live_contexts s .absent = [] := by simp [live_contexts, hreg]
    exact
      { pool := by rw [hlive]; exact PoolInv.initial s hmax hpool hkvs hrr
        registry := fun i c hc => by rw [hreg] at hc; simp at hc
        default_id := fun hp => by cases hp
        default_opt := by rw [hdef] }
  | startup s gettid prov ctx s1 _ h ih => exact (ctx_startup_spec s gettid prov ctx s1 ih h).1
  | create s phase options ctx gettid prov close ret out s1 _ h ih =>
    exact (ctx_create_spec s phase options ctx gettid prov close ret out s1 ih h).1
  | destroy s phase i ctx close s1 _ hlive h ih =>
    exact (ctx_destroy_registry_spec s phase i ctx close s1 ih hlive h).1
  | destroy_default s close s1 _ h ih => exact (ctx_destroy_default_spec s close s1 ih h).1

/-- The STX release of a bound context returns: the error of the non-private
branch cannot occur under the pool invariant. -/
theorem ctx_destroy_stx_returns {s : TransportState} {L : List stx_binding} {b : stx_binding}
    (h : PoolInv s (b :: L)) (ctx : shmem_transport_ctx_t) (hb : ctx_binding s ctx = b) :
    ∃ s1, shmem_transport_ctx_destroy_stx s ctx = .ok s1 := by
  have hbnd := h.bound b (List.mem_cons_self _ _)
  have hidx : b.stx_idx = ctx.stx_idx := by rw [← hb]; rfl
  have hprv : b.is_private = shmem_transport_ofi_is_private s ctx.options := by rw [← hb]; rfl
  rw [hidx] at hbnd
  obtain ⟨h0, h1⟩ := hbnd
  have hlen := h.len
  have hin : ctx.stx_idx.toNat < s.shmem_transport_ofi_stx_pool.length := by omega
  unfold shmem_transport_ctx_destroy_stx
  rw [if_pos (by omega : ctx.stx_idx ≥ 0)]
  by_cases hp : shmem_transport_ofi_is_private s ctx.options = true
  · rw [if_pos hp]
    split
    · dsimp only
      split <;> exact ⟨_, rfl⟩
    · exact ⟨_, rfl⟩
  · rw [if_neg hp]
    dsimp only
    have hsh := h.shared b (List.mem_cons_self _ _) (by rw [hprv]; simpa using hp)
    rw [hidx] at hsh
    have hget : (stx_pool_get (stx_pool_decr s.shmem_transport_ofi_stx_pool ctx.stx_idx)
        ctx.stx_idx).is_private = false := by
      unfold stx_pool_decr
      rw [stx_pool_get_set_same _ _ _ hin]
      exact hsh
    rw [hget]
    exact ⟨_, rfl⟩

/-- When the closes succeed and the STX release returns,
`shmem_transport_ctx_destroy` returns for a context whose id is an index or
`SHMEM_TRANSPORT_CTX_DEFAULT_ID`. -/
theorem ctx_destroy_returns (s : TransportState) (ctx : shmem_transport_ctx_t)
    (hstx : ∃ s1, shmem_transport_ctx_destroy_stx s ctx = .ok s1)
    (hid : 0 ≤ ctx.id ∨ ctx.id = SHMEM_TRANSPORT_CTX_DEFAULT_ID) :
    ∃ s2, shmem_transport_ctx_destroy s ctx closes_ok = .ok s2 := by
  obtain ⟨s1, hs1⟩ := hstx
  unfold shmem_transport_ctx_destroy
  simp only [closes_ok, ne_eq, not_true_eq_false, decide_False, Bool.and_false,
    Bool.false_eq_true, if_false, hs1]
  rcases hid with hid | hid
  · rw [if_pos hid]
    exact ⟨_, rfl⟩
  · by_cases hge : ctx.id ≥ 0
    · rw [if_pos hge]
      exact ⟨_, rfl⟩
    · rw [if_neg hge, if_neg (by simpa using hid)]
      exact ⟨_, rfl⟩

/-- In a state of a run, destroying a context of the registry returns when the
closes succeed. -/
theorem ctx_destroy_registry_returns (s : TransportState) (phase : default_ctx_phase)
    (i : Nat) (ctx : shmem_transport_ctx_t) (hinv : TransportInv s phase)
    (hlive : s.shmem_transport_ofi_contexts[i]? = some (some ctx)) :
    ∃ s1, shmem_transport_ctx_destroy s ctx closes_ok = .ok s1 := by
  have hid := hinv.registry i ctx hlive
  have hperm_reg := reduceOption_set_none _ _ _ hlive
  have hperm : (live_contexts s phase).Perm
      (ctx :: ((if phase = .live then [s.shmem_transport_ctx_default] else [])
        ++ (s.shmem_transport_ofi_contexts.set i none).reduceOption)) := by
    unfold live_contexts
    exact (List.Perm.append_left _ hperm_reg).trans List.perm_middle
  have hpool := hinv.pool.perm (hperm.map (ctx_binding s))
  rw [List.map_cons] at hpool
  exact ctx_destroy_returns s ctx (ctx_destroy_stx_returns hpool ctx rfl)
    (Or.inl (by rw [hid]; exact Int.ofNat_nonneg i))

/-- The scan for an unused slot finds the first slot with `ref_cnt = 0`, when
that slot is not private. -/
theorem stx_search_unused_loop_finds (pool : List shmem_transport_ofi_stx_t) :
    ∀ (fuel : Nat) (i k : Int), i ≤ k → k < i + fuel →
      (stx_pool_get pool k).ref_cnt = 0 → (stx_pool_get pool k).is_private = false →
      (∀ j : Int, i ≤ j → j < k → (stx_pool_get pool j).ref_cnt ≠ 0) →
      stx_search_unused_loop pool fuel i = .ok k
  | 0, i, k, h1, h2, _, _, _ => by
    simp only [Nat.cast_zero, add_zero] at h2
    omega
  | fuel + 1, i, k, h1, h2, hz, hp, hfirst => by
    unfold stx_search_unused_loop
    by_cases hik : i = k
    · subst hik
      rw [if_pos hz, hp]
      rfl
    · rw [if_neg (hfirst i (le_refl _) (by omega))]
      exact stx_search_unused_loop_finds pool fuel (i + 1) k (by omega)
        (by push_cast at h2; omega) hz hp
        (fun j hj1 hj2 => hfirst j (by omega) hj2)

/-- The scan for an unused slot returns −1 when every slot scanned is in
use. -/
theorem stx_search_unused_loop_none (pool : List shmem_transport_ofi_stx_t) :
    ∀ (fuel : Nat) (i : Int),
      (∀ j : Int, i ≤ j → j < i + fuel → (stx_pool_get pool j).ref_cnt ≠ 0) →
      stx_search_unused_loop pool fuel i = .ok (-1)
  | 0, i, _ => rfl
  | fuel + 1, i, h => by
    unfold stx_search_unused_loop
    rw [if_neg (h i (le_refl _) (by push_cast; omega))]
    exact stx_search_unused_loop_none pool fuel (i + 1)
      (fun j hj1 hj2 => h j (by omega) (by push_cast; omega))

/-- The round-robin scan finds a slot when one of the slots it visits can be
shared. -/
theorem stx_search_shared_rr_loop_finds (pool : List shmem_transport_ofi_stx_t)
    (stx_max threshold : Int) (hmax : 1 ≤ stx_max) :
    ∀ (fuel : Nat) (i : Int), 0 ≤ i → i < stx_max →
      (∃ k : Nat, k < fuel ∧
        stx_shareable (stx_pool_get pool ((i + k) % stx_max)) threshold = true) →
      ∃ r, stx_search_shared_rr_loop pool stx_max threshold fuel i = some r
  | 0, i, _, _, ⟨k, hk, _⟩ => by omega
  | fuel + 1, i, h0, h1, ⟨k, hk, hsh⟩ => by
    unfold stx_search_shared_rr_loop
    by_cases hs : stx_shareable (stx_pool_get pool i) threshold = true
    · rw [if_pos hs]
      exact ⟨_, rfl⟩
    · rw [if_neg hs]
      have hnext0 : 0 ≤ (i + 1).tmod stx_max := by
        rw [Int.tmod_eq_emod (by omega) (by omega)]
        exact Int.emod_nonneg _ (by omega)
      have hnext1 : (i + 1).tmod stx_max < stx_max := by
        rw [Int.tmod_eq_emod (by omega) (by omega)]
        exact Int.emod_lt_of_pos _ (by omega)
      apply stx_search_shared_rr_loop_finds pool stx_max threshold hmax fuel _ hnext0 hnext1
      cases k with
      | zero =>
        simp only [Nat.cast_zero, add_zero] at hsh
        rw [Int.emod_eq_of_lt h0 h1] at hsh
        exact absurd hsh hs
      | succ k =>
        refine ⟨k, by omega, ?_⟩
        rw [Int.tmod_eq_emod (by omega) (by omega)]
        have : ((i + 1) % stx_max + (k : Int)) % stx_max = (i + ((k + 1 : Nat) : Int)) % stx_max := by
          rw [Int.emod_add_emod]
          congr 1
          push_cast
          ring
        rw [this]
        exact hsh

/-- With the round-robin allocator `shmem_transport_ofi_stx_search_shared`
returns. -/
theorem stx_search_shared_rr_returns (s : TransportState) (threshold : Int)
    (hall : s.shmem_transport_ofi_stx_allocator = .ROUNDROBIN) :
    ∃ idx s1, shmem_transport_ofi_stx_search_shared s threshold = .ok (idx, s1) := by
  unfold shmem_transport_ofi_stx_search_shared
  rw [hall]
  dsimp only
  split <;> exact ⟨_, _, rfl⟩

/-- With the round-robin allocator `shmem_transport_ofi_stx_search_shared`
finds a slot when some slot of the pool can be shared. -/
theorem stx_search_shared_rr_finds (s : TransportState) (threshold : Int)
    (hall : s.shmem_transport_ofi_stx_allocator = .ROUNDROBIN)
    (hmax : 1 ≤ s.shmem_transport_ofi_stx_max)
    (hrr : 0 ≤ s.rr_start_idx ∧ s.rr_start_idx < s.shmem_transport_ofi_stx_max)
    (j : Int) (hj0 : 0 ≤ j) (hj1 : j < s.shmem_transport_ofi_stx_max)
    (hsh : stx_shareable (stx_pool_get s.shmem_transport_ofi_stx_pool j) threshold = true) :
    ∃ idx s1, shmem_transport_ofi_stx_search_shared s threshold = .ok (idx, s1) ∧ 0 ≤ idx := by
  have hk0 : 0 ≤ (j - s.rr_start_idx) % s.shmem_transport_ofi_stx_max :=
    Int.emod_nonneg _ (by omega)
  have hk1 : (j - s.rr_start_idx) % s.shmem_transport_ofi_stx_max
      < s.shmem_transport_ofi_stx_max := Int.emod_lt_of_pos _ (by omega)
  have hsum : (s.rr_start_idx
      + (((j - s.rr_start_idx) % s.shmem_transport_ofi_stx_max).toNat : Int))
        % s.shmem_transport_ofi_stx_max = j := by
    rw [Int.toNat_of_nonneg hk0, Int.add_emod_emod]
    have : s.rr_start_idx + (j - s.rr_start_idx) = j := by ring
    rw [this]
    exact Int.emod_eq_of_lt hj0 hj1
  obtain ⟨r, hr⟩ := stx_search_shared_rr_loop_finds s.shmem_transport_ofi_stx_pool
    s.shmem_transport_ofi_stx_max threshold hmax s.shmem_transport_ofi_stx_max.toNat
    s.rr_start_idx hrr.1 hrr.2
    ⟨((j - s.rr_start_idx) % s.shmem_transport_ofi_stx_max).toNat, by omega,
      by rw [hsum]; exact hsh⟩
  obtain ⟨idx, rr⟩ := r
  obtain ⟨h0, _, _⟩ := stx_search_shared_rr_loop_spec _ _ _ hmax _ _ _ _ hrr.1 hr
  unfold shmem_transport_ofi_stx_search_shared
  rw [hall]
  dsimp only
  rw [hr]
  exact ⟨idx, _, rfl, h0⟩

/-- The private path of `shmem_transport_ofi_stx_allocate` when the owner
table has an entry for the thread of the context. -/
theorem stx_allocate_private_hit (s : TransportState) (ctx : shmem_transport_ctx_t)
    (e : shmem_transport_ofi_stx_kvs_t)
    (hp : shmem_transport_ofi_is_private s ctx.options = true)
    (hfind : s.shmem_transport_ofi_stx_kvs.find? (fun f => decide (f.tid = ctx.tid)) = some e) :
    shmem_transport_ofi_stx_allocate s ctx =
      .ok ({ ctx with stx_idx := e.stx_idx },
        { s with
          shmem_transport_ofi_stx_pool :=
            stx_pool_incr s.shmem_transport_ofi_stx_pool e.stx_idx }) := by
  unfold shmem_transport_ofi_stx_allocate
  rw [if_pos hp, hfind]

/-- The private path of `shmem_transport_ofi_stx_allocate` when the owner
table has no entry for the thread and `i` is the first slot with
`ref_cnt = 0`. -/
theorem stx_allocate_private_unused (s : TransportState) (ctx : shmem_transport_ctx_t)
    (i : Int)
    (hp : shmem_transport_ofi_is_private s ctx.options = true)
    (hmiss : s.shmem_transport_ofi_stx_kvs.find? (fun f => decide (f.tid = ctx.tid)) = none)
    (h0 : 0 ≤ i) (h1 : i < s.shmem_transport_ofi_stx_max)
    (hz : (stx_pool_get s.shmem_transport_ofi_stx_pool i).ref_cnt = 0)
    (hnp : (stx_pool_get s.shmem_transport_ofi_stx_pool i).is_private = false)
    (hfirst : ∀ j : Int, 0 ≤ j → j < i →
      (stx_pool_get s.shmem_transport_ofi_stx_pool j).ref_cnt ≠ 0) :
    shmem_transport_ofi_stx_allocate s ctx =
      .ok ({ ctx with stx_idx := i },
        { s with
          shmem_transport_ofi_stx_pool :=
            stx_pool_set_private (stx_pool_incr s.shmem_transport_ofi_stx_pool i) i true
          shmem_transport_ofi_stx_kvs :=
            s.shmem_transport_ofi_stx_kvs ++ [{ stx_idx := i, tid := ctx.tid }] }) := by
  have hun : shmem_transport_ofi_stx_search_unused s = .ok i := by
    unfold shmem_transport_ofi_stx_search_unused
    apply stx_search_unused_loop_finds _ _ 0 i h0 _ hz hnp hfirst
    have := Int.toNat_of_nonneg (by omega : 0 ≤ s.shmem_transport_ofi_stx_max)
    omega
  unfold shmem_transport_ofi_stx_allocate
  rw [if_pos hp, hmiss]
  dsimp only
  rw [hun]
  dsimp only
  rw [if_neg (by omega : ¬ i < 0)]

/-- The private path of `shmem_transport_ofi_stx_allocate` when the owner
table has no entry for the thread and no slot has `ref_cnt = 0`: a returning
call binds the context to a slot that was in use and not private, and removes
`SHMEM_CTX_PRIVATE` from its options; the owner table is left alone. -/
theorem stx_allocate_private_full (s : TransportState) (ctx ctx1 : shmem_transport_ctx_t)
    (s1 : TransportState)
    (hlen : s.shmem_transport_ofi_stx_pool.length = s.shmem_transport_ofi_stx_max.toNat)
    (hmax : 1 ≤ s.shmem_transport_ofi_stx_max)
    (hrr : 0 ≤ s.rr_start_idx ∧ s.rr_start_idx < s.shmem_transport_ofi_stx_max)
    (hp : shmem_transport_ofi_is_private s ctx.options = true)
    (hmiss : s.shmem_transport_ofi_stx_kvs.find? (fun f => decide (f.tid = ctx.tid)) = none)
    (hfull : ∀ j : Int, 0 ≤ j → j < s.shmem_transport_ofi_stx_max →
      (stx_pool_get s.shmem_transport_ofi_stx_pool j).ref_cnt ≠ 0)
    (h : shmem_transport_ofi_stx_allocate s ctx = .ok (ctx1, s1)) :
    ∃ idx : Int,
      ctx1 = { ctx with
        stx_idx := idx
        options := { ctx.options with SHMEM_CTX_PRIVATE := false } } ∧
      0 ≤ idx ∧ idx < s.shmem_transport_ofi_stx_max ∧
      (stx_pool_get s.shmem_transport_ofi_stx_pool idx).is_private = false ∧
      0 < (stx_pool_get s.shmem_transport_ofi_stx_pool idx).ref_cnt ∧
      s1.shmem_transport_ofi_stx_pool = stx_pool_incr s.shmem_transport_ofi_stx_pool idx ∧
      s1.shmem_transport_ofi_stx_kvs = s.shmem_transport_ofi_stx_kvs := by
  have hun : shmem_transport_ofi_stx_search_unused s = .ok (-1) := by
    unfold shmem_transport_ofi_stx_search_unused
    apply stx_search_unused_loop_none
    intro j hj0 hj1
    have := Int.toNat_of_nonneg (by omega : 0 ≤ s.shmem_transport_ofi_stx_max)
    exact hfull j hj0 (by omega)
  unfold shmem_transport_ofi_stx_allocate at h
  rw [if_pos hp, hmiss] at h
  dsimp only at h
  rw [hun] at h
  dsimp only at h
  rw [if_pos (by omega : (-1 : Int) < 0)] at h
  cases hsh1 : shmem_transport_ofi_stx_search_shared s s.shmem_transport_ofi_stx_threshold with
  | error e => rw [hsh1] at h; cases h
  | ok r1 =>
    obtain ⟨idx1, sa⟩ := r1
    rw [hsh1] at h
    dsimp only at h
    obtain ⟨⟨rr1, v1, hrr1, hsa⟩, hidx1⟩ :=
      stx_search_shared_spec s _ idx1 sa hlen hmax hrr hsh1
    have key : ∀ (idx2 : Int) (sb : TransportState),
        (∃ rr values, sb = { s with rr_start_idx := rr, rand_r_values := values }) →
        (idx2 = -1 ∨ (0 ≤ idx2 ∧ idx2 < s.shmem_transport_ofi_stx_max ∧
          ∃ t, stx_shareable (stx_pool_get s.shmem_transport_ofi_stx_pool idx2) t = true)) →
        (if idx2 ≥ 0 then
          (Except.ok ({ ctx with
               stx_idx := idx2
               options := { ctx.options with SHMEM_CTX_PRIVATE := false } },
            { sb with
              shmem_transport_ofi_stx_pool :=
                stx_pool_incr sb.shmem_transport_ofi_stx_pool idx2 }) :
            Except String (shmem_transport_ctx_t × TransportState))
        else .error "assertion failed: stx_idx >= 0") = .ok (ctx1, s1) →
        ∃ idx : Int,
          ctx1 = { ctx with
            stx_idx := idx
            options := { ctx.options with SHMEM_CTX_PRIVATE := false } } ∧
          0 ≤ idx ∧ idx < s.shmem_transport_ofi_stx_max ∧
          (stx_pool_get s.shmem_transport_ofi_stx_pool idx).is_private = false ∧
          0 < (stx_pool_get s.shmem_transport_ofi_stx_pool idx).ref_cnt ∧
          s1.shmem_transport_ofi_stx_pool
            = stx_pool_incr s.shmem_transport_ofi_stx_pool idx ∧
          s1.shmem_transport_ofi_stx_kvs = s.shmem_transport_ofi_stx_kvs := by
      intro idx2 sb ⟨rr, values, hsb⟩ hidx2 hres
      by_cases hge : idx2 ≥ 0
      · rw [if_pos hge] at hres
        injection hres with hres
        injection hres with hc hs
        subst hc; subst hs
        rcases hidx2 with hm | ⟨i0, i1, t, ht⟩
        · omega
        · subst hsb
          obtain ⟨_, hpos, hnp⟩ := stx_shareable_in_pool _ _ _ ht
          exact ⟨idx2, rfl, i0, i1, hnp, hpos, rfl, rfl⟩
      · rw [if_neg hge] at hres
        cases hres
    by_cases hneg1 : idx1 < 0
    · rw [if_pos hneg1] at h
      cases hsh2 : shmem_transport_ofi_stx_search_shared sa (-1) with
      | error e => rw [hsh2] at h; cases h
      | ok r2 =>
        obtain ⟨idx2, sb⟩ := r2
        rw [hsh2] at h
        dsimp only at h
        have hlen_a : sa.shmem_transport_ofi_stx_pool.length
            = sa.shmem_transport_ofi_stx_max.toNat := by rw [hsa]; exact hlen
        have hmax_a : 1 ≤ sa.shmem_transport_ofi_stx_max := by rw [hsa]; exact hmax
        have hrr_a : 0 ≤ sa.rr_start_idx
            ∧ sa.rr_start_idx < sa.shmem_transport_ofi_stx_max := by
          rw [hsa]; exact hrr1
        obtain ⟨⟨rr2, v2, hrr2, hsb⟩, hidx2⟩ :=
          stx_search_shared_spec sa _ idx2 sb hlen_a hmax_a hrr_a hsh2
        refine key idx2 sb ⟨rr2, v2, by rw [hsb, hsa]⟩ ?_ h
        rcases hidx2 with hm | ⟨i0, i1, i2⟩
        · exact Or.inl hm
        · rw [hsa] at i1 i2
          exact Or.inr ⟨i0, i1, _, i2⟩
    · rw [if_neg hneg1] at h
      dsimp only at h
      refine key idx1 sa ⟨rr1, v1, hsa⟩ ?_ h
      rcases hidx1 with hm | ⟨i0, i1, i2⟩
      · exact Or.inl hm
      · exact Or.inr ⟨i0, i1, _, i2⟩

/-- The private path of `shmem_transport_ofi_stx_allocate` returns, with the
round-robin allocator, when the owner table has no entry for the thread, no
slot has `ref_cnt = 0` and some slot is in use and not private. -/
theorem stx_allocate_private_full_returns (s : TransportState) (ctx : shmem_transport_ctx_t)
    (hlen : s.shmem_transport_ofi_stx_pool.length = s.shmem_transport_ofi_stx_max.toNat)
    (hmax : 1 ≤ s.shmem_transport_ofi_stx_max)
    (hrr : 0 ≤ s.rr_start_idx ∧ s.rr_start_idx < s.shmem_transport_ofi_stx_max)
    (hall : s.shmem_transport_ofi_stx_allocator = .ROUNDROBIN)
    (hp : shmem_transport_ofi_is_private s ctx.options = true)
    (hmiss : s.shmem_transport_ofi_stx_kvs.find? (fun f => decide (f.tid = ctx.tid)) = none)
    (hfull : ∀ j : Int, 0 ≤ j → j < s.shmem_transport_ofi_stx_max →
      (stx_pool_get s.shmem_transport_ofi_stx_pool j).ref_cnt ≠ 0)
    (j : Int) (hj0 : 0 ≤ j) (hj1 : j < s.shmem_transport_ofi_stx_max)
    (hju : 0 < (stx_pool_get s.shmem_transport_ofi_stx_pool j).ref_cnt)
    (hjp : (stx_pool_get s.shmem_transport_ofi_stx_pool j).is_private = false) :
    ∃ ctx1 s1, shmem_transport_ofi_stx_allocate s ctx = .ok (ctx1, s1) := by
  have hun : shmem_transport_ofi_stx_search_unused s = .ok (-1) := by
    unfold shmem_transport_ofi_stx_search_unused
    apply stx_search_unused_loop_none
    intro k hk0 hk1
    have := Int.toNat_of_nonneg (by omega : 0 ≤ s.shmem_transport_ofi_stx_max)
    exact hfull k hk0 (by omega)
  have hshare : stx_shareable (stx_pool_get s.shmem_transport_ofi_stx_pool j) (-1) = true := by
    unfold stx_shareable
    simp [hju, hjp]
  obtain ⟨idx1, sa, hsh1⟩ :=
    stx_search_shared_rr_returns s s.shmem_transport_ofi_stx_threshold hall
  obtain ⟨⟨rr1, v1, hrr1, hsa⟩, hidx1⟩ :=
    stx_search_shared_spec s _ idx1 sa hlen hmax hrr hsh1
  unfold shmem_transport_ofi_stx_allocate
  rw [if_pos hp, hmiss]
  dsimp only
  rw [hun]
  dsimp only
  rw [if_pos (by omega : (-1 : Int) < 0), hsh1]
  dsimp only
  by_cases hneg1 : idx1 < 0
  · rw [if_pos hneg1]
    obtain ⟨idx2, sb, hsh2, hge2⟩ := stx_search_shared_rr_finds sa (-1)
      (by rw [hsa]; exact hall) (by rw [hsa]; exact hmax) (by rw [hsa]; exact hrr1)
      j hj0 (by rw [hsa]; exact hj1) (by rw [hsa]; exact hshare)
    rw [hsh2]
    dsimp only
    rw [if_pos hge2]
    exact ⟨_, _, rfl⟩
  · rw [if_neg hneg1]
    dsimp only
    rw [if_pos (by omega : idx1 ≥ 0)]
    exact ⟨_, _, rfl⟩

/-- While the default context is live its slot is in use and not private. -/
theorem TransportInv.default_slot {s : TransportState} (h : TransportInv s .live) :
    0 ≤ s.shmem_transport_ctx_default.stx_idx ∧
    s.shmem_transport_ctx_default.stx_idx < s.shmem_transport_ofi_stx_max ∧
    0 < (stx_pool_get s.shmem_transport_ofi_stx_pool
      s.shmem_transport_ctx_default.stx_idx).ref_cnt ∧
    (stx_pool_get s.shmem_transport_ofi_stx_pool
      s.shmem_transport_ctx_default.stx_idx).is_private = false := by
  have hmem : ctx_binding s s.shmem_transport_ctx_default
      ∈ (live_contexts s .live).map (ctx_binding s) := by
    apply List.mem_map_of_mem
    simp [live_contexts]
  have hnp : (ctx_binding s s.shmem_transport_ctx_default).is_private = false := by
    simp [ctx_binding, shmem_transport_ofi_is_private, h.default_opt]
  obtain ⟨b0, b1⟩ := h.pool.bound _ hmem
  have hsh := h.pool.shared _ hmem hnp
  have hlen := h.pool.len
  have hb0 : 0 ≤ s.shmem_transport_ctx_default.stx_idx := b0
  have hb1 : s.shmem_transport_ctx_default.stx_idx < s.shmem_transport_ofi_stx_max := b1
  refine ⟨b0, b1, ?_, hsh⟩
  have hin : s.shmem_transport_ctx_default.stx_idx.toNat
      < s.shmem_transport_ofi_stx_pool.length := by omega
  have hrefs := h.pool.refs _ hin
  rw [Int.toNat_of_nonneg hb0] at hrefs
  rw [hrefs]
  have hpos : 0 < ((live_contexts s .live).map (ctx_binding s)).countP
      (fun b => decide (b.stx_idx = s.shmem_transport_ctx_default.stx_idx)) :=
    List.countP_pos_iff.mpr ⟨_, hmem, by simp [ctx_binding]⟩
  exact_mod_cast hpos

/-- The slot a `ref_cnt++` was applied to. -/
theorem stx_pool_get_incr_same (pool : List shmem_transport_ofi_stx_t) (i : Int)
    (h : i.toNat < pool.length) :
    stx_pool_get (stx_pool_incr pool i) i =
      { stx_pool_get pool i with ref_cnt := (stx_pool_get pool i).ref_cnt + 1 } := by
  unfold stx_pool_incr
  exact stx_pool_get_set_same _ _ _ h

/-- In a registry whose contexts carry their index as id, the contexts have
pairwise distinct ids, none below the index of the first slot. -/
theorem registry_ids_nodup :
    ∀ (l : List (Option shmem_transport_ctx_t)) (k : Nat),
      (∀ (i : Nat) (c : shmem_transport_ctx_t), l[i]? = some (some c) →
        c.id = ((k + i : Nat) : Int)) →
      (l.reduceOption.map (fun c => c.id)).Nodup ∧
        ∀ c ∈ l.reduceOption, (k : Int) ≤ c.id
  | [], k, _ => by simp
  | a :: rest, k, h => by
    have hrest : ∀ (i : Nat) (c : shmem_transport_ctx_t), rest[i]? = some (some c) →
        c.id = ((k + 1 + i : Nat) : Int) := by
      intro i c hc
      have := h (i + 1) c (by rw [List.getElem?_cons_succ]; exact hc)
      rw [this]
      congr 1
      omega
    obtain ⟨ih1, ih2⟩ := registry_ids_nodup rest (k + 1) hrest
    cases a with
    | none =>
      rw [List.reduceOption_cons_of_none]
      refine ⟨ih1, fun c hc => ?_⟩
      have := ih2 c hc
      push_cast at this
      omega
    | some d =>
      have hd : d.id = (k : Int) := by
        have := h 0 d (by simp)
        rw [this]
        simp
      rw [List.reduceOption_cons_of_some, List.map_cons, List.nodup_cons]
      refine ⟨⟨?_, ih1⟩, ?_⟩
      · intro hmem
        obtain ⟨c, hc, hcid⟩ := List.mem_map.mp hmem
        have := ih2 c hc
        push_cast at this
        omega
      · intro c hc
        rcases List.mem_cons.mp hc with rfl | hc
        · omega
        · have := ih2 c hc
          push_cast at this
          omega

/-- The scan for an unused slot returns when no slot with `ref_cnt = 0` is
private. -/
theorem stx_search_unused_loop_returns (pool : List shmem_transport_ofi_stx_t) :
    ∀ (fuel : Nat) (i : Int),
      (∀ j : Int, i ≤ j → j < i + fuel → (stx_pool_get pool j).ref_cnt = 0 →
        (stx_pool_get pool j).is_private = false) →
      ∃ idx, stx_search_unused_loop pool fuel i = .ok idx
  | 0, i, _ => ⟨_, rfl⟩
  | fuel + 1, i, h => by
    unfold stx_search_unused_loop
    by_cases hz : (stx_pool_get pool i).ref_cnt = 0
    · rw [if_pos hz, h i (le_refl _) (by push_cast; omega) hz]
      exact ⟨_, rfl⟩
    · rw [if_neg hz]
      exact stx_search_unused_loop_returns pool fuel (i + 1)
        (fun j hj1 hj2 => h j (by omega) (by push_cast; omega))

/-- Under the pool invariant `shmem_transport_ofi_stx_search_unused` returns
(its assertion holds). -/
theorem stx_search_unused_returns {s : TransportState} {L : List stx_binding}
    (hinv : PoolInv s L) : ∃ idx, shmem_transport_ofi_stx_search_unused s = .ok idx := by
  unfold shmem_transport_ofi_stx_search_unused
  apply stx_search_unused_loop_returns
  intro j hj0 hj1 hz
  have := Int.toNat_of_nonneg (by have := hinv.max_pos; omega :
    0 ≤ s.shmem_transport_ofi_stx_max)
  exact (hinv.slot j hj0 (by omega)).2.2 hz

/-- With the round-robin allocator, under the pool invariant and with some
slot in use and not private, `shmem_transport_ofi_stx_allocate` returns. -/
theorem stx_allocate_returns {s : TransportState} {L : List stx_binding}
    (hinv : PoolInv s L) (ctx : shmem_transport_ctx_t)
    (hall : s.shmem_transport_ofi_stx_allocator = .ROUNDROBIN)
    (j : Int) (hj0 : 0 ≤ j) (hj1 : j < s.shmem_transport_ofi_stx_max)
    (hju : 0 < (stx_pool_get s.shmem_transport_ofi_stx_pool j).ref_cnt)
    (hjp : (stx_pool_get s.shmem_transport_ofi_stx_pool j).is_private = false) :
    ∃ ctx1 s1, shmem_transport_ofi_stx_allocate s ctx = .ok (ctx1, s1) := by
  have hlen := hinv.len
  have hmax := hinv.max_pos
  have hrr := hinv.cursor
  have hshare : stx_shareable (stx_pool_get s.shmem_transport_ofi_stx_pool j) (-1) = true := by
    unfold stx_shareable
    simp [hju, hjp]
  obtain ⟨idx1, sa, hsh1⟩ :=
    stx_search_shared_rr_returns s s.shmem_transport_ofi_stx_threshold hall
  obtain ⟨⟨rr1, v1, hrr1, hsa⟩, _⟩ := stx_search_shared_spec s _ idx1 sa hlen hmax hrr hsh1
  obtain ⟨idx3, sb, hsh3, hge3⟩ := stx_search_shared_rr_finds sa (-1)
    (by rw [hsa]; exact hall) (by rw [hsa]; exact hmax) (by rw [hsa]; exact hrr1)
    j hj0 (by rw [hsa]; exact hj1) (by rw [hsa]; exact hshare)
  obtain ⟨iu, hun⟩ := stx_search_unused_returns hinv
  have hun_a : shmem_transport_ofi_stx_search_unused sa = .ok iu := by
    rw [← hun, hsa]
    rfl
  unfold shmem_transport_ofi_stx_allocate
  by_cases hp : shmem_transport_ofi_is_private s ctx.options = true
  · rw [if_pos hp]
    cases hfind : s.shmem_transport_ofi_stx_kvs.find? (fun e => decide (e.tid = ctx.tid)) with
    | some f => exact ⟨_, _, rfl⟩
    | none =>
      dsimp only
      rw [hun]
      dsimp only
      by_cases hneg : iu < 0
      · rw [if_pos hneg, hsh1]
        dsimp only
        by_cases hneg1 : idx1 < 0
        · rw [if_pos hneg1, hsh3]
          dsimp only
          rw [if_pos hge3]
          exact ⟨_, _, rfl⟩
        · rw [if_neg hneg1]
          dsimp only
          rw [if_pos (by omega : idx1 ≥ 0)]
          exact ⟨_, _, rfl⟩
      · rw [if_neg hneg]
        exact ⟨_, _, rfl⟩
  · rw [if_neg hp, hsh1]
    dsimp only
    by_cases hneg1 : idx1 < 0
    · rw [if_pos hneg1, hun_a]
      dsimp only
      by_cases hneg2 : iu < 0
      · rw [if_pos hneg2, hsh3]
        dsimp only
        rw [if_pos hge3]
        exact ⟨_, _, rfl⟩
      · rw [if_neg hneg2]
        dsimp only
        rw [if_pos (by omega : iu ≥ 0)]
        exact ⟨_, _, rfl⟩
    · rw [if_neg hneg1]
      dsimp only
      rw [if_neg hneg1]
      dsimp only
      rw [if_pos (by omega : idx1 ≥ 0)]
      exact ⟨_, _, rfl⟩

/-- When the provider calls succeed and the allocation of an STX returns,
`shmem_transport_ofi_ctx_init` returns 0. -/
theorem ctx_init_returns (s : TransportState) (ctx : shmem_transport_ctx_t) (id : Int)
    (gettid : shmem_internal_tid)
    (halloc : ∀ c : shmem_transport_ctx_t,
      ∃ c1 s1, shmem_transport_ofi_stx_allocate s c = .ok (c1, s1)) :
    ∃ c1 s1, shmem_transport_ofi_ctx_init s ctx id gettid provider_calls_ok
      = .ok (0, c1, s1) := by
  unfold shmem_transport_ofi_ctx_init
  simp only [provider_calls_ok, ne_eq, not_true_eq_false, if_false]
  generalize (if (s.shmem_internal_thread_level.above_funneled
        && shmem_transport_ofi_is_private s ctx.options) = true then
      ({ id := id, options := ctx.options, stx_idx := ctx.stx_idx, tid := gettid, ep := true,
         put_cntr := true, get_cntr := true, cq := true,
         bounce_buffers := ctx.bounce_buffers } : shmem_transport_ctx_t)
    else
      { id := id, options := ctx.options, stx_idx := ctx.stx_idx, tid := ctx.tid, ep := true,
        put_cntr := true, get_cntr := true, cq := true,
        bounce_buffers := ctx.bounce_buffers }) = cX
  obtain ⟨c1, s1, h1⟩ := halloc cX
  rw [h1]
  dsimp only
  split <;> exact ⟨_, _, rfl⟩

/-- The round-robin scan finds nothing when no slot can be shared. -/
theorem stx_search_shared_rr_loop_none (pool : List shmem_transport_ofi_stx_t)
    (stx_max threshold : Int)
    (h : ∀ j : Int, stx_shareable (stx_pool_get pool j) threshold = false) :
    ∀ (fuel : Nat) (i : Int), stx_search_shared_rr_loop pool stx_max threshold fuel i = none
  | 0, _ => rfl
  | fuel + 1, i => by
    unfold stx_search_shared_rr_loop
    rw [h i]
    exact stx_search_shared_rr_loop_none pool stx_max threshold h fuel _

/-- `shmem_transport_ofi_stx_search_shared` returns −1 and changes nothing
when no slot can be shared. -/
theorem stx_search_shared_none (s : TransportState) (threshold : Int)
    (h : ∀ j : Int,
      stx_shareable (stx_pool_get s.shmem_transport_ofi_stx_pool j) threshold = false) :
    shmem_transport_ofi_stx_search_shared s threshold = .ok (-1, s) := by
  unfold shmem_transport_ofi_stx_search_shared
  cases hall : s.shmem_transport_ofi_stx_allocator with
  | ROUNDROBIN =>
    dsimp only
    rw [stx_search_shared_rr_loop_none _ _ _ h]
  | RANDOM =>
    dsimp only
    have hany : (List.range s.shmem_transport_ofi_stx_max.toNat).any
        (fun i => stx_shareable (stx_pool_get s.shmem_transport_ofi_stx_pool (i : Int))
          threshold) = false := by
      rw [List.any_eq_false]
      intro i _
      rw [h]
      exact Bool.false_ne_true
    rw [hany]
    rfl

/-- With no context bound, the pool invariant leaves every slot at
`ref_cnt = 0`, not private, and the owner table empty. -/
theorem PoolInv.empty_pool {s : TransportState} (h : PoolInv s []) :
    (∀ j : Int, stx_pool_get s.shmem_transport_ofi_stx_pool j
      = { ref_cnt := 0, is_private := false }) ∧
    s.shmem_transport_ofi_stx_kvs = [] := by
  have hslot : ∀ i : Nat, i < s.shmem_transport_ofi_stx_pool.length →
      stx_pool_get s.shmem_transport_ofi_stx_pool (i : Int)
        = { ref_cnt := 0, is_private := false } := by
    intro i hi
    have hr := h.refs i hi
    simp only [List.countP_nil, Nat.cast_zero] at hr
    have hp := h.priv i hi
    rw [hr] at hp
    have hnp : (stx_pool_get s.shmem_transport_ofi_stx_pool (i : Int)).is_private = false := by
      by_contra hc
      have := hp (by simpa using hc)
      omega
    cases hs : stx_pool_get s.shmem_transport_ofi_stx_pool (i : Int) with
    | mk r p =>
      rw [hs] at hr hnp
      simp only at hr hnp
      rw [hr, hnp]
  have hlen := h.len
  have hmax := h.max_pos
  constructor
  · intro j
    by_cases hj : j.toNat < s.shmem_transport_ofi_stx_pool.length
    · have := hslot j.toNat hj
      have hjj : stx_pool_get s.shmem_transport_ofi_stx_pool ((j.toNat : Nat) : Int)
          = stx_pool_get s.shmem_transport_ofi_stx_pool j := by
        unfold stx_pool_get
        rw [Int.toNat_ofNat]
      rw [← hjj]
      exact this
    · unfold stx_pool_get
      rw [List.getD_eq_getElem?_getD, List.getElem?_eq_none (by omega)]
      rfl
  · cases hk : s.shmem_transport_ofi_stx_kvs with
    | nil => rfl
    | cons e rest =>
      obtain ⟨e0, e1, e2⟩ := h.kvs_ok e (by rw [hk]; exact List.mem_cons_self _ _)
      have hin : e.stx_idx.toNat < s.shmem_transport_ofi_stx_pool.length := by omega
      have := hslot e.stx_idx.toNat hin
      rw [Int.toNat_of_nonneg e0] at this
      rw [this] at e2
      cases e2

/-- On a pool with no slot in use and an empty owner table
`shmem_transport_ofi_stx_allocate` returns, with either allocator. -/
theorem stx_allocate_returns_initial (s : TransportState) (ctx : shmem_transport_ctx_t)
    (hmax : 1 ≤ s.shmem_transport_ofi_stx_max)
    (hget : ∀ j : Int, stx_pool_get s.shmem_transport_ofi_stx_pool j
      = { ref_cnt := 0, is_private := false })
    (hkvs : s.shmem_transport_ofi_stx_kvs = []) :
    ∃ ctx1 s1, shmem_transport_ofi_stx_allocate s ctx = .ok (ctx1, s1) := by
  have hnone : ∀ (t j : Int),
      stx_shareable (stx_pool_get s.shmem_transport_ofi_stx_pool j) t = false := by
    intro t j
    rw [hget]
    simp [stx_shareable]
  have hun : shmem_transport_ofi_stx_search_unused s = .ok 0 := by
    unfold shmem_transport_ofi_stx_search_unused
    apply stx_search_unused_loop_finds _ _ 0 0 (le_refl _) _ (by rw [hget]) (by rw [hget])
      (fun j h0 h1 => by omega)
    have := Int.toNat_of_nonneg (by omega : 0 ≤ s.shmem_transport_ofi_stx_max)
    omega
  unfold shmem_transport_ofi_stx_allocate
  by_cases hp : shmem_transport_ofi_is_private s ctx.options = true
  · rw [if_pos hp, hkvs]
    simp only [List.find?_nil]
    rw [hun]
    dsimp only
    rw [if_neg (by omega : ¬ (0 : Int) < 0)]
    exact ⟨_, _, rfl⟩
  · rw [if_neg hp, stx_search_shared_none s _ (hnone _)]
    dsimp only
    rw [if_pos (by omega : (-1 : Int) < 0), hun]
    dsimp only
    rw [if_neg (by omega : ¬ (0 : Int) < 0)]
    dsimp only
    rw [if_pos (by omega : (0 : Int) ≥ 0)]
    exact ⟨_, _, rfl⟩

/-- With no context bound yet, the set-up of the default context returns 0
when the provider calls succeed. -/
theorem ctx_startup_returns (s : TransportState) (gettid : shmem_internal_tid)
    (h : PoolInv s []) :
    ∃ ctx s1, shmem_transport_ofi_ctx_init s s.shmem_transport_ctx_default
      SHMEM_TRANSPORT_CTX_DEFAULT_ID gettid provider_calls_ok = .ok (0, ctx, s1) :=
  ctx_init_returns s _ _ gettid
    (fun c => stx_allocate_returns_initial s c h.max_pos h.empty_pool.1 h.empty_pool.2)

/-- While the default context is live, with the round-robin allocator and
provider calls that succeed, `shmem_transport_ctx_create` returns 0 and hands
out a context. -/
theorem ctx_create_returns (s : TransportState) (options : ctx_options)
    (ctxp : Option shmem_transport_ctx_t) (gettid : shmem_internal_tid)
    (close : ctx_close_results) (hinv : TransportInv s .live)
    (hall : s.shmem_transport_ofi_stx_allocator = .ROUNDROBIN) :
    ∃ c s1, shmem_transport_ctx_create s options ctxp gettid provider_calls_ok close
      = .ok (0, some c, s1) := by
  unfold shmem_transport_ctx_create
  dsimp only
  generalize hsg : (if ctx_create_find_slot s.shmem_transport_ofi_contexts 0
        ≥ s.shmem_transport_ofi_contexts.length then
      { s with
        shmem_transport_ofi_contexts :=
          s.shmem_transport_ofi_contexts
            ++ List.replicate shmem_transport_ofi_grow_size none }
    else s) = sg
  obtain ⟨hg, _, _, ⟨lg, hlg⟩⟩ := ctx_create_grow_spec s .live hinv sg hsg.symm
  obtain ⟨d0, d1, d2, d3⟩ := hg.default_slot
  have hall_g : sg.shmem_transport_ofi_stx_allocator = .ROUNDROBIN := by
    rw [hlg]; exact hall
  obtain ⟨c1, s1, h1⟩ := ctx_init_returns sg
    { shmem_transport_ctx_t.zeroed with stx_idx := -1, options := options }
    (ctx_create_find_slot s.shmem_transport_ofi_contexts 0 : Nat) gettid
    (fun c => stx_allocate_returns hg.pool c hall_g _ d0 d1 d2 d3)
  rw [h1]
  exact ⟨_, _, rfl⟩

/-- The pool set-up and the set-up of the default context, as
`shmem_transport_startup` makes them on the globals `shmem_transport_init`
leaves, lead to a state of a run in which the default context is live, is the
only live context, and the sum of `ref_cnt` is 1. -/
theorem startup_contexts_reachable (level : shmem_thread_level) (disable_private : Bool)
    (allocator : stx_allocator_t) (stx_max stx_threshold : Int) (rand_r_values : List Nat)
    (bounce_buffer_size : Nat) (max_bounce_buffers : Int) (gettid : shmem_internal_tid)
    (prov : ctx_provider_results) (s1 : TransportState) (hmax : 1 ≤ stx_max)
    (h : shmem_transport_startup_contexts
      (TransportState.at_startup level disable_private allocator stx_max stx_threshold
        rand_r_values bounce_buffer_size max_bounce_buffers) gettid prov = .ok (0, s1)) :
    TransportReachable s1 .live ∧
    live_contexts s1 .live = [s1.shmem_transport_ctx_default] ∧
    stx_ref_cnt_sum s1 = 1 := by
  unfold shmem_transport_startup_contexts at h
  dsimp only at h
  generalize hs0 : ({ TransportState.at_startup level disable_private allocator stx_max
      stx_threshold rand_r_values bounce_buffer_size max_bounce_buffers with
      shmem_transport_ofi_stx_pool :=
        List.replicate (TransportState.at_startup level disable_private allocator stx_max
          stx_threshold rand_r_values bounce_buffer_size
          max_bounce_buffers).shmem_transport_ofi_stx_max.toNat
          { ref_cnt := 0, is_private := false } } : TransportState) = s0 at h
  have hrun0 : TransportReachable s0 .absent := by
    rw [← hs0]
    exact TransportReachable.init _ hmax rfl rfl rfl rfl rfl
  have hdef0 : s0.shmem_transport_ctx_default =
      (TransportState.at_startup level disable_private allocator stx_max stx_threshold
        rand_r_values bounce_buffer_size max_bounce_buffers).shmem_transport_ctx_default := by
    rw [← hs0]
  have hreg0 : s0.shmem_transport_ofi_contexts = [] := by
    rw [← hs0]
    rfl
  rw [← hdef0] at h
  split at h
  · cases h
  · rename_i ret ctx s2 hinit
    injection h with h
    injection h with hret hs
    subst hret
    subst hs
    have hrun := TransportReachable.startup s0 gettid prov ctx s2 hrun0 hinit
    obtain ⟨hinv, hlive⟩ := ctx_startup_spec s0 gettid prov ctx s2 hrun0.layer_inv hinit
    have hlive0 : live_contexts s0 .absent = [] := by simp [live_contexts, hreg0]
    rw [hlive0] at hlive
    refine ⟨hrun, hlive, ?_⟩
    rw [hinv.pool.total, hlive]
    rfl

/-- C15: in every state of a run of the context layer the sum of `ref_cnt`
over the STX slots is the number of live contexts (the default context
counted while it is live).  On a registry without contexts the set-up of the
default context returns 0 when the provider calls succeed, and whenever it
returns 0 the sum is 1 afterwards.  A `shmem_transport_ctx_create` that
returns 0 followed by `shmem_transport_ctx_destroy` of the new context gives
back the sum there was before the two calls, that destroy returning when its
closes succeed; and while the default context is live such a create does
return 0, with the round-robin allocator and provider calls that succeed. -/
theorem C15_ref_cnt_sum_live_contexts (s : TransportState) (phase : default_ctx_phase)
    (h : TransportReachable s phase) :
    stx_ref_cnt_sum s = (live_contexts s phase).length ∧
    (phase = .absent → s.shmem_transport_ofi_contexts.reduceOption = [] →
      (∀ gettid : shmem_internal_tid,
        ∃ ctx s1, shmem_transport_ofi_ctx_init s s.shmem_transport_ctx_default
          SHMEM_TRANSPORT_CTX_DEFAULT_ID gettid provider_calls_ok = .ok (0, ctx, s1)) ∧
      ∀ (gettid : shmem_internal_tid) (prov : ctx_provider_results)
          (ctx : shmem_transport_ctx_t) (s1 : TransportState),
        shmem_transport_ofi_ctx_init s s.shmem_transport_ctx_default
          SHMEM_TRANSPORT_CTX_DEFAULT_ID gettid prov = .ok (0, ctx, s1) →
        stx_ref_cnt_sum { s1 with shmem_transport_ctx_default := ctx } = 1) ∧
    (∀ (options : ctx_options) (ctxp : Option shmem_transport_ctx_t)
        (gettid : shmem_internal_tid) (prov : ctx_provider_results)
        (close : ctx_close_results) (c : shmem_transport_ctx_t) (s1 : TransportState),
      shmem_transport_ctx_create s options ctxp gettid prov close = .ok (0, some c, s1) →
      (∃ s2, shmem_transport_ctx_destroy s1 c closes_ok = .ok s2) ∧
      ∀ (close2 : ctx_close_results) (s2 : TransportState),
        shmem_transport_ctx_destroy s1 c close2 = .ok s2 →
        stx_ref_cnt_sum s2 = stx_ref_cnt_sum s) ∧
    (phase = .live → s.shmem_transport_ofi_stx_allocator = .ROUNDROBIN →
      ∀ (options : ctx_options) (ctxp : Option shmem_transport_ctx_t)
        (gettid : shmem_internal_tid) (close : ctx_close_results),
      ∃ c s1, shmem_transport_ctx_create s options ctxp gettid provider_calls_ok close
        = .ok (0, some c, s1)) := by
  have hinv := h.layer_inv
  have hsum : ∀ (t : TransportState) (p : default_ctx_phase), TransportInv t p →
      stx_ref_cnt_sum t = (live_contexts t p).length := by
    intro t p ht
    rw [ht.pool.total, List.length_map]
  refine ⟨hsum s phase hinv, ?_, ?_, ?_⟩
  · intro hphase hempty
    subst hphase
    have hlive : live_contexts s .absent = [] := by simp [live_contexts, hempty]
    have hpool := hinv.pool
    rw [hlive, List.map_nil] at hpool
    refine ⟨fun gettid => ctx_startup_returns s gettid hpool, ?_⟩
    intro gettid prov ctx s1 hinit
    obtain ⟨hinv1, hlive1⟩ := ctx_startup_spec s gettid prov ctx s1 hinv hinit
    rw [hsum _ _ hinv1, hlive1, hlive]
    rfl
  · intro options ctxp gettid prov close c s1 hcreate
    obtain ⟨hinv1, hok, _⟩ :=
      ctx_create_spec s phase options ctxp gettid prov close 0 (some c) s1 hinv hcreate
    obtain ⟨c1, hc1, _, _, hreg, hperm⟩ := hok rfl
    injection hc1 with hc1
    subst hc1
    refine ⟨ctx_destroy_registry_returns s1 phase _ c hinv1 hreg, ?_⟩
    intro close2 s2 hdestroy
    obtain ⟨hinv2, _, hperm2⟩ :=
      ctx_destroy_registry_spec s1 phase _ c close2 s2 hinv1 hreg hdestroy
    have h1 := hperm.length_eq
    have h2 := hperm2.length_eq
    rw [hsum _ _ hinv2, hsum _ _ hinv]
    simp only [List.length_cons] at h1 h2
    omega
  · intro hphase hall options ctxp gettid close
    subst hphase
    exact ctx_create_returns s options ctxp gettid close hinv hall

theorem C15_ref_cnt_sum_live_contexts_witness :
    stx_ref_cnt_sum pool_of_two = 0 ∧
    stx_ref_cnt_sum pool_of_two_started = 1 ∧
    stx_ref_cnt_sum
        { pool_of_two with shmem_transport_ofi_contexts := List.replicate 128 none }
      = stx_ref_cnt_sum pool_of_two :=
  have hrun : TransportReachable pool_of_two .absent :=
    TransportReachable.init pool_of_two (by decide) (by decide) rfl rfl rfl rfl
  have hc := C15_ref_cnt_sum_live_contexts pool_of_two .absent hrun
  ⟨hc.1,
    (hc.2.1 rfl rfl).2 { tid_t := 0, val := 0 } provider_calls_ok default_ctx_set_up
      { pool_of_two with
        shmem_transport_ofi_stx_pool :=
          [{ ref_cnt := 1, is_private := false }, { ref_cnt := 0, is_private := false }] }
      (by decide),
    (hc.2.2.1 options_private none { tid_t := 0, val := 7 } provider_calls_ok closes_ok
      (private_ctx_created 0 0 7)
      { pool_of_two with
        shmem_transport_ofi_stx_pool :=
          [{ ref_cnt := 1, is_private := true }, { ref_cnt := 0, is_private := false }]
        shmem_transport_ofi_stx_kvs := [{ stx_idx := 0, tid := { tid_t := 0, val := 7 } }]
        shmem_transport_ofi_contexts :=
          (List.replicate 128 none).set 0 (some (private_ctx_created 0 0 7)) }
      (by decide)).2 closes_ok
      { pool_of_two with shmem_transport_ofi_contexts := List.replicate 128 none }
      (by decide)⟩

/-- C16: the private path of `shmem_transport_ofi_stx_allocate`, in a state of
a run, for a context that asks for `SHMEM_CTX_PRIVATE` while private contexts
are enabled.  (1) If the owner table has an entry for the thread of the
context, the context is bound to the slot of that entry and the `ref_cnt` of
the slot goes up by one.  (2) Otherwise, if `i` is the first slot with
`ref_cnt = 0`, the context is bound to `i`, the slot becomes `ref_cnt = 1`,
`is_private = true`, and the entry (thread, `i`) is appended to the owner
table.  (3) Otherwise a returning call binds the context to a slot that was in
use and not private, incrementing it, and removes `SHMEM_CTX_PRIVATE` from the
options; the call returns when the default context is live and the allocator
is the round-robin one.  (4) With `stx_max = 1` and the default context live,
a returning call binds the context to slot 0, not private, with
`SHMEM_CTX_PRIVATE` removed, and the call returns with the round-robin
allocator.  (5) When (2) applies, a second private context of the same thread
is bound to the same slot `i`, which then has `ref_cnt = 2` and
`is_private = true`. -/
theorem C16_stx_allocate_private_path (s : TransportState) (phase : default_ctx_phase)
    (ctx : shmem_transport_ctx_t) (h : TransportReachable s phase)
    (hp : shmem_transport_ofi_is_private s ctx.options = true) :
    (∀ e : shmem_transport_ofi_stx_kvs_t,
      s.shmem_transport_ofi_stx_kvs.find? (fun f => decide (f.tid = ctx.tid)) = some e →
      shmem_transport_ofi_stx_allocate s ctx =
        .ok ({ ctx with stx_idx := e.stx_idx },
          { s with
            shmem_transport_ofi_stx_pool :=
              stx_pool_incr s.shmem_transport_ofi_stx_pool e.stx_idx }) ∧
      (stx_pool_get (stx_pool_incr s.shmem_transport_ofi_stx_pool e.stx_idx) e.stx_idx).ref_cnt
        = (stx_pool_get s.shmem_transport_ofi_stx_pool e.stx_idx).ref_cnt + 1) ∧
    (s.shmem_transport_ofi_stx_kvs.find? (fun f => decide (f.tid = ctx.tid)) = none →
      ∀ i : Int, 0 ≤ i → i < s.shmem_transport_ofi_stx_max →
      (stx_pool_get s.shmem_transport_ofi_stx_pool i).ref_cnt = 0 →
      (∀ j : Int, 0 ≤ j → j < i →
        (stx_pool_get s.shmem_transport_ofi_stx_pool j).ref_cnt ≠ 0) →
      shmem_transport_ofi_stx_allocate s ctx =
        .ok ({ ctx with stx_idx := i },
          { s with
            shmem_transport_ofi_stx_pool :=
              stx_pool_set_private (stx_pool_incr s.shmem_transport_ofi_stx_pool i) i true
            shmem_transport_ofi_stx_kvs :=
              s.shmem_transport_ofi_stx_kvs ++ [{ stx_idx := i, tid := ctx.tid }] }) ∧
      stx_pool_get
        (stx_pool_set_private (stx_pool_incr s.shmem_transport_ofi_stx_pool i) i true) i
        = { ref_cnt := 1, is_private := true } ∧
      ∀ ctx2 : shmem_transport_ctx_t,
        shmem_transport_ofi_is_private s ctx2.options = true → ctx2.tid = ctx.tid →
        ∃ s2, shmem_transport_ofi_stx_allocate
            { s with
              shmem_transport_ofi_stx_pool :=
                stx_pool_set_private (stx_pool_incr s.shmem_transport_ofi_stx_pool i) i true
              shmem_transport_ofi_stx_kvs :=
                s.shmem_transport_ofi_stx_kvs ++ [{ stx_idx := i, tid := ctx.tid }] } ctx2
            = .ok ({ ctx2 with stx_idx := i }, s2) ∧
          stx_pool_get s2.shmem_transport_ofi_stx_pool i
            = { ref_cnt := 2, is_private := true }) ∧
    (s.shmem_transport_ofi_stx_kvs.find? (fun f => decide (f.tid = ctx.tid)) = none →
      (∀ j : Int, 0 ≤ j → j < s.shmem_transport_ofi_stx_max →
        (stx_pool_get s.shmem_transport_ofi_stx_pool j).ref_cnt ≠ 0) →
      (∀ (ctx1 : shmem_transport_ctx_t) (s1 : TransportState),
        shmem_transport_ofi_stx_allocate s ctx = .ok (ctx1, s1) →
        ∃ idx : Int,
          ctx1 = { ctx with
            stx_idx := idx
            options := { ctx.options with SHMEM_CTX_PRIVATE := false } } ∧
          0 ≤ idx ∧ idx < s.shmem_transport_ofi_stx_max ∧
          (stx_pool_get s.shmem_transport_ofi_stx_pool idx).is_private = false ∧
          0 < (stx_pool_get s.shmem_transport_ofi_stx_pool idx).ref_cnt ∧
          s1.shmem_transport_ofi_stx_pool
            = stx_pool_incr s.shmem_transport_ofi_stx_pool idx ∧
          s1.shmem_transport_ofi_stx_kvs = s.shmem_transport_ofi_stx_kvs) ∧
      (phase = .live → s.shmem_transport_ofi_stx_allocator = .ROUNDROBIN →
        ∃ ctx1 s1, shmem_transport_ofi_stx_allocate s ctx = .ok (ctx1, s1))) ∧
    (s.shmem_transport_ofi_stx_max = 1 → phase = .live →
      (∀ (ctx1 : shmem_transport_ctx_t) (s1 : TransportState),
        shmem_transport_ofi_stx_allocate s ctx = .ok (ctx1, s1) →
        ctx1 = { ctx with
          stx_idx := 0
          options := { ctx.options with SHMEM_CTX_PRIVATE := false } } ∧
        (stx_pool_get s.shmem_transport_ofi_stx_pool 0).is_private = false ∧
        s1.shmem_transport_ofi_stx_pool = stx_pool_incr s.shmem_transport_ofi_stx_pool 0 ∧
        s1.shmem_transport_ofi_stx_kvs = s.shmem_transport_ofi_stx_kvs) ∧
      (s.shmem_transport_ofi_stx_allocator = .ROUNDROBIN →
        ∃ ctx1 s1, shmem_transport_ofi_stx_allocate s ctx = .ok (ctx1, s1))) := by
  have hinv := h.layer_inv
  have hpool := hinv.pool
  have hlen := hpool.len
  have hmax := hpool.max_pos
  have hrr := hpool.cursor
  have hfull_ret : s.shmem_transport_ofi_stx_kvs.find? (fun f => decide (f.tid = ctx.tid)) = none →
      (∀ j : Int, 0 ≤ j → j < s.shmem_transport_ofi_stx_max →
        (stx_pool_get s.shmem_transport_ofi_stx_pool j).ref_cnt ≠ 0) →
      phase = .live → s.shmem_transport_ofi_stx_allocator = .ROUNDROBIN →
      ∃ ctx1 s1, shmem_transport_ofi_stx_allocate s ctx = .ok (ctx1, s1) := by
    intro hmiss hfull hphase hall
    subst hphase
    obtain ⟨d0, d1, d2, d3⟩ := hinv.default_slot
    exact stx_allocate_private_full_returns s ctx hlen hmax hrr hall hp hmiss hfull _ d0 d1 d2 d3
  refine ⟨?_, ?_, ?_, ?_⟩
  · intro e hfind
    refine ⟨stx_allocate_private_hit s ctx e hp hfind, ?_⟩
    obtain ⟨e0, e1, _⟩ := hpool.kvs_ok e (List.mem_of_find?_eq_some hfind)
    rw [stx_pool_get_incr_same _ _ (by omega)]
  · intro hmiss i h0 h1 hz hfirst
    have hnp := (hpool.slot i h0 h1).2.2 hz
    have hin : i.toNat < s.shmem_transport_ofi_stx_pool.length := by omega
    have hin2 : i.toNat < (stx_pool_incr s.shmem_transport_ofi_stx_pool i).length := by
      rw [stx_pool_incr_length]; exact hin
    have hslot : stx_pool_get
        (stx_pool_set_private (stx_pool_incr s.shmem_transport_ofi_stx_pool i) i true) i
        = { ref_cnt := 1, is_private := true } := by
      unfold stx_pool_set_private
      rw [stx_pool_get_set_same _ _ _ hin2, stx_pool_get_incr_same _ _ hin, hz]
      rfl
    refine ⟨stx_allocate_private_unused s ctx i hp hmiss h0 h1 hz hnp hfirst, hslot, ?_⟩
    intro ctx2 hp2 htid
    have hfind2 : (s.shmem_transport_ofi_stx_kvs ++
        [({ stx_idx := i, tid := ctx.tid } : shmem_transport_ofi_stx_kvs_t)]).find?
          (fun f => decide (f.tid = ctx2.tid)) = some { stx_idx := i, tid := ctx.tid } := by
      rw [List.find?_append, htid, hmiss]
      simp
    refine ⟨_, stx_allocate_private_hit
      { s with
        shmem_transport_ofi_stx_pool :=
          stx_pool_set_private (stx_pool_incr s.shmem_transport_ofi_stx_pool i) i true
        shmem_transport_ofi_stx_kvs :=
          s.shmem_transport_ofi_stx_kvs ++ [{ stx_idx := i, tid := ctx.tid }] }
      ctx2 _ hp2 hfind2, ?_⟩
    have hin3 : i.toNat < (stx_pool_set_private
        (stx_pool_incr s.shmem_transport_ofi_stx_pool i) i true).length := by
      rw [stx_pool_set_private_length]; exact hin2
    show stx_pool_get (stx_pool_incr _ i) i = _
    rw [stx_pool_get_incr_same _ _ hin3, hslot]
    rfl
  · intro hmiss hfull
    exact ⟨fun ctx1 s1 hres =>
        stx_allocate_private_full s ctx ctx1 s1 hlen hmax hrr hp hmiss hfull hres,
      hfull_ret hmiss hfull⟩
  · intro hone hphase
    subst hphase
    obtain ⟨d0, d1, d2, d3⟩ := hinv.default_slot
    have hd : s.shmem_transport_ctx_default.stx_idx = 0 := by omega
    rw [hd] at d2 d3
    have hmiss : s.shmem_transport_ofi_stx_kvs.find? (fun f => decide (f.tid = ctx.tid))
        = none := by
      rw [List.find?_eq_none]
      intro e he
      obtain ⟨e0, e1, e2⟩ := hpool.kvs_ok e he
      have : e.stx_idx = 0 := by omega
      rw [this, d3] at e2
      cases e2
    have hfull : ∀ j : Int, 0 ≤ j → j < s.shmem_transport_ofi_stx_max →
        (stx_pool_get s.shmem_transport_ofi_stx_pool j).ref_cnt ≠ 0 := by
      intro j hj0 hj1
      have : j = 0 := by omega
      rw [this]
      omega
    refine ⟨?_, hfull_ret hmiss hfull rfl⟩
    intro ctx1 s1 hres
    obtain ⟨idx, hc, i0, i1, _, _, hpl, hkv⟩ :=
      stx_allocate_private_full s ctx ctx1 s1 hlen hmax hrr hp hmiss hfull hres
    have hidx : idx = 0 := by omega
    subst hidx
    exact ⟨hc, d3, hpl, hkv⟩

theorem C16_stx_allocate_private_path_witness :
    TransportReachable pool_of_two_started .live ∧
    shmem_transport_ofi_stx_allocate pool_of_two_started (private_ctx_of 7) =
      .ok ({ private_ctx_of 7 with stx_idx := 1 },
        { pool_of_two_started with
          shmem_transport_ofi_stx_pool :=
            [{ ref_cnt := 1, is_private := false }, { ref_cnt := 1, is_private := true }]
          shmem_transport_ofi_stx_kvs :=
            [{ stx_idx := 1, tid := { tid_t := 0, val := 7 } }] }) ∧
    (∃ s2, shmem_transport_ofi_stx_allocate
        { pool_of_two_started with
          shmem_transport_ofi_stx_pool :=
            [{ ref_cnt := 1, is_private := false }, { ref_cnt := 1, is_private := true }]
          shmem_transport_ofi_stx_kvs :=
            [{ stx_idx := 1, tid := { tid_t := 0, val := 7 } }] }
        (private_ctx_of 7) = .ok ({ private_ctx_of 7 with stx_idx := 1 }, s2) ∧
      stx_pool_get s2.shmem_transport_ofi_stx_pool 1
        = { ref_cnt := 2, is_private := true }) :=
  have hrun : TransportReachable pool_of_two_started .live :=
    TransportReachable.startup pool_of_two { tid_t := 0, val := 0 } provider_calls_ok
      default_ctx_set_up
      { pool_of_two with
        shmem_transport_ofi_stx_pool :=
          [{ ref_cnt := 1, is_private := false }, { ref_cnt := 0, is_private := false }] }
      (TransportReachable.init pool_of_two (by decide) (by decide) rfl rfl rfl rfl)
      (by decide)
  have hc := (C16_stx_allocate_private_path pool_of_two_started .live (private_ctx_of 7)
    hrun (by decide)).2.1 rfl 1 (by decide) (by decide) (by decide)
    (fun j h0 h1 => by
      have hj : j = 0 := by omega
      subst hj
      decide)
  ⟨hrun, hc.1, hc.2.2 (private_ctx_of 7) (by decide) rfl⟩

/-- C20: in a state of a run, a `shmem_transport_ctx_create` that returns 0
has given the new context the index `id` at which the scan of the registry
stopped: every slot before `id` holds a context; `id` is the index of a NULL
slot of the registry, or the length of the registry, in which case the
registry was first grown by `shmem_transport_ofi_grow_size = 128` NULL slots;
the new context is stored at `id` and its id is `id`.  Such a create does
return 0 while the default context is live, with the round-robin allocator and
provider calls that succeed.  And in every state of a run each slot of the
registry that holds a context holds one whose id is the index of the slot, the
contexts of the registry have pairwise distinct ids, none negative, and the
default context, once set up, has the id `SHMEM_TRANSPORT_CTX_DEFAULT_ID`,
which is negative. -/
theorem C20_ctx_create_registry (s : TransportState) (phase : default_ctx_phase)
    (h : TransportReachable s phase) :
    (∀ (options : ctx_options) (ctxp : Option shmem_transport_ctx_t)
        (gettid : shmem_internal_tid) (prov : ctx_provider_results)
        (close : ctx_close_results) (out : Option shmem_transport_ctx_t)
        (s1 : TransportState),
      shmem_transport_ctx_create s options ctxp gettid prov close = .ok (0, out, s1) →
      ∃ (id : Nat) (c : shmem_transport_ctx_t),
        out = some c ∧
        (∀ j : Nat, j < id → ∃ d, s.shmem_transport_ofi_contexts[j]? = some (some d)) ∧
        ((s.shmem_transport_ofi_contexts[id]? = some none ∧
            s1.shmem_transport_ofi_contexts
              = s.shmem_transport_ofi_contexts.set id (some c)) ∨
          (id = s.shmem_transport_ofi_contexts.length ∧
            s1.shmem_transport_ofi_contexts
              = (s.shmem_transport_ofi_contexts ++ List.replicate 128 none).set id
                  (some c))) ∧
        s1.shmem_transport_ofi_contexts[id]? = some (some c) ∧
        c.id = (id : Int)) ∧
    (phase = .live → s.shmem_transport_ofi_stx_allocator = .ROUNDROBIN →
      ∀ (options : ctx_options) (ctxp : Option shmem_transport_ctx_t)
        (gettid : shmem_internal_tid) (close : ctx_close_results),
      ∃ c s1, shmem_transport_ctx_create s options ctxp gettid provider_calls_ok close
        = .ok (0, some c, s1)) ∧
    (∀ (i : Nat) (c : shmem_transport_ctx_t),
      s.shmem_transport_ofi_contexts[i]? = some (some c) → c.id = (i : Int)) ∧
    (s.shmem_transport_ofi_contexts.reduceOption.map (fun c => c.id)).Nodup ∧
    (∀ c ∈ s.shmem_transport_ofi_contexts.reduceOption, 0 ≤ c.id) ∧
    (phase = .live →
      s.shmem_transport_ctx_default.id = SHMEM_TRANSPORT_CTX_DEFAULT_ID ∧
      SHMEM_TRANSPORT_CTX_DEFAULT_ID < 0) := by
  have hinv := h.layer_inv
  have hids := registry_ids_nodup s.shmem_transport_ofi_contexts 0
    (fun i c hc => by rw [hinv.registry i c hc]; simp)
  refine ⟨?_, ?_, hinv.registry, hids.1, fun c hc => by simpa using hids.2 c hc,
    fun hp => ⟨hinv.default_id hp, by decide⟩⟩
  swap
  · intro hphase hall options ctxp gettid close
    subst hphase
    exact ctx_create_returns s options ctxp gettid close hinv hall
  intro options ctxp gettid prov close out s1 hcreate
  obtain ⟨_, hok, _⟩ :=
    ctx_create_spec s phase options ctxp gettid prov close 0 out s1 hinv hcreate
  obtain ⟨c, hout, hcid, hreg, hat, _⟩ := hok rfl
  obtain ⟨_, h2, h3, h4⟩ := ctx_create_find_slot_spec s.shmem_transport_ofi_contexts 0
  simp only [Nat.zero_add, Nat.sub_zero] at h2 h3 h4
  refine ⟨ctx_create_find_slot s.shmem_transport_ofi_contexts 0, c, hout, h4, ?_, hat, hcid⟩
  by_cases hge : ctx_create_find_slot s.shmem_transport_ofi_contexts 0
      ≥ s.shmem_transport_ofi_contexts.length
  · rw [if_pos hge] at hreg
    exact Or.inr ⟨by omega, hreg⟩
  · rw [if_neg hge] at hreg
    exact Or.inl ⟨h3 (by omega), hreg⟩

set_option maxRecDepth 16384

theorem C20_ctx_create_registry_witness :
    TransportReachable
      { pool_of_two_started with
        shmem_transport_ofi_stx_pool :=
          [{ ref_cnt := 1, is_private := false }, { ref_cnt := 1, is_private := true }]
        shmem_transport_ofi_stx_kvs := [{ stx_idx := 1, tid := { tid_t := 0, val := 7 } }]
        shmem_transport_ofi_contexts :=
          (List.replicate 128 none).set 0 (some (private_ctx_created 0 1 7)) } .live ∧
    (private_ctx_created 0 1 7).id = 0 ∧
    default_ctx_set_up.id = SHMEM_TRANSPORT_CTX_DEFAULT_ID ∧
    SHMEM_TRANSPORT_CTX_DEFAULT_ID < 0 ∧
    ∃ (id : Nat) (c : shmem_transport_ctx_t),
      some (private_ctx_created 1 1 7) = some c ∧
      (∀ j : Nat, j < id →
        ∃ d, ((List.replicate 128 none).set 0 (some (private_ctx_created 0 1 7)))[j]?
          = some (some d)) ∧
      c.id = (id : Int) :=
  have hstart : TransportReachable pool_of_two_started .live :=
    TransportReachable.startup pool_of_two { tid_t := 0, val := 0 } provider_calls_ok
      default_ctx_set_up
      { pool_of_two with
        shmem_transport_ofi_stx_pool :=
          [{ ref_cnt := 1, is_private := false }, { ref_cnt := 0, is_private := false }] }
      (TransportReachable.init pool_of_two (by decide) (by decide) rfl rfl rfl rfl)
      (by decide)
  have hrun : TransportReachable
      { pool_of_two_started with
        shmem_transport_ofi_stx_pool :=
          [{ ref_cnt := 1, is_private := false }, { ref_cnt := 1, is_private := true }]
        shmem_transport_ofi_stx_kvs := [{ stx_idx := 1, tid := { tid_t := 0, val := 7 } }]
        shmem_transport_ofi_contexts :=
          (List.replicate 128 none).set 0 (some (private_ctx_created 0 1 7)) } .live :=
    TransportReachable.create pool_of_two_started .live options_private none
      { tid_t := 0, val := 7 } provider_calls_ok closes_ok 0
      (some (private_ctx_created 0 1 7)) _ hstart (by decide)
  have hc := C20_ctx_create_registry _ .live hrun
  have hnew := hc.1 options_private none { tid_t := 0, val := 7 } provider_calls_ok closes_ok
    (some (private_ctx_created 1 1 7))
    { pool_of_two_started with
      shmem_transport_ofi_stx_pool :=
        [{ ref_cnt := 1, is_private := false }, { ref_cnt := 2, is_private := true }]
      shmem_transport_ofi_stx_kvs := [{ stx_idx := 1, tid := { tid_t := 0, val := 7 } }]
      shmem_transport_ofi_contexts :=
        ((List.replicate 128 none).set 0 (some (private_ctx_created 0 1 7))).set 1
          (some (private_ctx_created 1 1 7)) }
    (by decide)
  ⟨hrun, hc.2.2.1 0 (private_ctx_created 0 1 7) (by decide), (hc.2.2.2.2.2 rfl).1,
    (hc.2.2.2.2.2 rfl).2,
    match hnew with
    | ⟨id, c, hout, hbefore, _, _, hid⟩ => ⟨id, c, hout, hbefore, hid⟩⟩

/-- What `shmem_internal_teams_init` makes of the world team: the fields of
the claim are set, `my_pe` is left as it was. -/
theorem teams_init_world_fields (s s1 : TeamsState) (pool_allocated : Bool) (ret : Int)
    (h : shmem_internal_teams_init s pool_allocated = .ok (ret, s1)) :
    s1.shmem_internal_team_world.start = 0 ∧
    s1.shmem_internal_team_world.stride = 1 ∧
    s1.shmem_internal_team_world.size = s.shmem_internal_num_pes ∧
    s1.shmem_internal_team_world.psync_idx = 0 ∧
    s1.shmem_internal_team_world.my_pe = s.shmem_internal_team_world.my_pe := by
  unfold shmem_internal_teams_init at h
  dsimp only at h
  split at h
  · injection h with h
    injection h with _ hs
    subst hs
    exact ⟨rfl, rfl, rfl, rfl, rfl⟩
  split at h
  · cases h
  · injection h with h
    injection h with _ hs
    subst hs
    exact ⟨rfl, rfl, rfl, rfl, rfl⟩

/-- After `shmem_internal_teams_init` at program start,
`shmem_internal_team_my_pe` of the world team is 0 on every PE: the world
team is a zero-filled static and init never writes its `my_pe`. -/
theorem teams_init_world_my_pe (num_pes my_pe teams_max : Int) (s1 : TeamsState) (ret : Int)
    (pool_allocated : Bool)
    (h : shmem_internal_teams_init (TeamsState.boot num_pes my_pe teams_max) pool_allocated
      = .ok (ret, s1)) :
    shmem_internal_team_my_pe (some s1.shmem_internal_team_world) = 0 := by
  have := (teams_init_world_fields _ _ _ _ h).2.2.2.2
  show s1.shmem_internal_team_world.my_pe = 0
  rw [this]
  rfl

/-- C30, the code at the failing input: in a job of four PEs, on the PE with
world rank 2, `shmem_internal_teams_init` returns 0 and leaves the world team
with start 0, stride 1, size 4 and pSync index 0, but
`shmem_internal_team_my_pe` of the world team returns 0, not 2. -/
theorem C30_world_my_pe_not_set :
    shmem_internal_teams_init (TeamsState.boot 4 2 16) true
      = .ok (0, TeamsState.after_init 4 2 16) ∧
    (TeamsState.after_init 4 2 16).shmem_internal_my_pe = 2 ∧
    (TeamsState.after_init 4 2 16).shmem_internal_team_world.start = 0 ∧
    (TeamsState.after_init 4 2 16).shmem_internal_team_world.stride = 1 ∧
    (TeamsState.after_init 4 2 16).shmem_internal_team_world.size = 4 ∧
    (TeamsState.after_init 4 2 16).shmem_internal_team_world.psync_idx = 0 ∧
    shmem_internal_team_my_pe (some (TeamsState.after_init 4 2 16).shmem_internal_team_world)
      = 0 := by
  decide

/-- The part of C29 that holds: in every state of a run a strided split hands
out a pSync index between 1 and 63, so with `TEAMS_MAX = 64` the index is below
`TEAMS_MAX`. -/
theorem split_strided_psync_idx_range (s : TeamsState) (hs : TeamsState.Reachable s)
    (peers : List Nat) (parent_team : shmem_internal_team_t)
    (PE_start PE_stride PE_size : Int) (config : Option Int) (config_mask : Int)
    (new_team : Option shmem_internal_team_t) (t : shmem_internal_team_t) (s1 : TeamsState)
    (h : shmem_internal_team_split_strided s peers parent_team PE_start PE_stride PE_size
      config config_mask new_team = .ok (0, some t, s1)) :
    1 ≤ t.psync_idx ∧ t.psync_idx < 64 := by
  obtain ⟨k, hk, hidx, hbit, _⟩ := split_strided_returns_team s peers parent_team PE_start
    PE_stride PE_size config config_mask new_team t s1 h
  have h0 := reachable_world_slot_reserved s hs
  have hk0 : k ≠ 0 := by
    intro hz
    rw [hz, testBit_op_to_all_BAND, h0] at hbit
    simp at hbit
  rw [hidx]
  omega

/-- C29, the code at the failing input: with `TEAMS_MAX = 2` in a job of four
PEs, on PE 0, after `shmem_internal_teams_init` two successive strided splits
of the world team over all four PEs both return 0; the first hands out the
team with pSync index 1, the second the team with pSync index 2, which is not
below `TEAMS_MAX`: its second slot, number `TEAMS_MAX + 2 = 4`, lies past the
last of the `2 * TEAMS_MAX = 4` slots of the pool, and its first slot, number
2, is the second slot of the world team. -/
theorem C29_psync_idx_beyond_teams_max :
    shmem_internal_teams_init (TeamsState.boot 4 0 2) true
      = .ok (0, TeamsState.after_init 4 0 2) ∧
    shmem_internal_team_split_strided (TeamsState.after_init 4 0 2)
        [word_after_init, word_after_init, word_after_init] world_of_four 0 1 4 none 0 none
      = .ok (0,
          some { team_id := 2, psync_idx := 1, start := 0, stride := 1, size := 4,
                 my_pe := 0, config := 0, config_mask := 0 },
          { TeamsState.after_init 4 0 2 with
            num_teams := 2, shmem_internal_psync_pool_reserved := 2 ^ 64 - 4 }) ∧
    shmem_internal_team_split_strided
        { TeamsState.after_init 4 0 2 with
          num_teams := 2, shmem_internal_psync_pool_reserved := 2 ^ 64 - 4 }
        [2 ^ 64 - 4, 2 ^ 64 - 4, 2 ^ 64 - 4] world_of_four 0 1 4 none 0 none
      = .ok (0,
          some { team_id := 3, psync_idx := 2, start := 0, stride := 1, size := 4,
                 my_pe := 0, config := 0, config_mask := 0 },
          { TeamsState.after_init 4 0 2 with
            num_teams := 3, shmem_internal_psync_pool_reserved := 2 ^ 64 - 8 }) ∧
    (TeamsState.after_init 4 0 2).TEAMS_MAX = 2 ∧
    ¬ ((2 : Int) < (TeamsState.after_init 4 0 2).TEAMS_MAX) ∧
    psync_slot_group1 (TeamsState.after_init 4 0 2).TEAMS_MAX 2
      = psync_pool_slots (TeamsState.after_init 4 0 2).TEAMS_MAX ∧
    psync_slot_group0 2
      = psync_slot_group1 (TeamsState.after_init 4 0 2).TEAMS_MAX
          (TeamsState.after_init 4 0 2).shmem_internal_team_world.psync_idx := by
  decide

/-- `shmem_transport_ofi_stx_search_shared` changes the cursor and the pending
`rand_r` values only. -/
theorem stx_search_shared_changes (s : TransportState) (threshold idx : Int)
    (s1 : TransportState)
    (h : shmem_transport_ofi_stx_search_shared s threshold = .ok (idx, s1)) :
    ∃ rr values, s1 = { s with rr_start_idx := rr, rand_r_values := values } := by
  unfold shmem_transport_ofi_stx_search_shared at h
  split at h
  · split at h
    · injection h with h
      injection h with _ hs
      exact ⟨_, s.rand_r_values, hs.symm⟩
    · injection h with h
      injection h with _ hs
      exact ⟨s.rr_start_idx, s.rand_r_values, hs.symm⟩
  · split at h
    · split at h
      · injection h with h
        injection h with _ hs
        exact ⟨s.rr_start_idx, _, hs.symm⟩
      · cases h
    · injection h with h
      injection h with _ hs
      exact ⟨s.rr_start_idx, s.rand_r_values, hs.symm⟩

/-- `shmem_transport_ofi_stx_allocate` leaves the bounce-buffer settings of the
transport and the `SHMEMX_CTX_BOUNCE_BUFFER` flag of the context alone. -/
theorem stx_allocate_keeps_bounce (s : TransportState) (ctx ctx1 : shmem_transport_ctx_t)
    (s1 : TransportState)
    (h : shmem_transport_ofi_stx_allocate s ctx = .ok (ctx1, s1)) :
    s1.shmem_transport_ofi_bounce_buffer_size = s.shmem_transport_ofi_bounce_buffer_size ∧
    s1.shmem_transport_ofi_max_bounce_buffers = s.shmem_transport_ofi_max_bounce_buffers ∧
    ctx1.options.SHMEMX_CTX_BOUNCE_BUFFER = ctx.options.SHMEMX_CTX_BOUNCE_BUFFER ∧
    ctx1.bounce_buffers = ctx.bounce_buffers := by
  unfold shmem_transport_ofi_stx_allocate at h
  split at h
  · split at h
    · injection h with h
      injection h with hc hs
      subst hc; subst hs
      exact ⟨rfl, rfl, rfl, rfl⟩
    · split at h
      · cases h
      rename_i unused_idx hun
      split at h
      · split at h
        · cases h
        rename_i idx1 sa hsh1
        obtain ⟨rr1, v1, hsa⟩ := stx_search_shared_changes _ _ _ _ hsh1
        dsimp only at h
        split at h
        · cases h
        rename_i idx2 sb hsh2
        have hsb : ∃ rr values, sb = { s with rr_start_idx := rr, rand_r_values := values } := by
          split at hsh2
          · obtain ⟨rr2, v2, hsb⟩ := stx_search_shared_changes _ _ _ _ hsh2
            exact ⟨rr2, v2, by rw [hsb, hsa]⟩
          · injection hsh2 with hsh2
            injection hsh2 with _ hs
            exact ⟨rr1, v1, by rw [← hs, hsa]⟩
        obtain ⟨rr, values, hsb⟩ := hsb
        split at h
        · injection h with h
          injection h with hc hs
          subst hc; subst hs; subst hsb
          exact ⟨rfl, rfl, rfl, rfl⟩
        · cases h
      · injection h with h
        injection h with hc hs
        subst hc; subst hs
        exact ⟨rfl, rfl, rfl, rfl⟩
  · split at h
    · cases h
    rename_i idx1 sa hsh1
    obtain ⟨rr1, v1, hsa⟩ := stx_search_shared_changes _ _ _ _ hsh1
    split at h
    · cases h
    rename_i idx2 hun
    split at h
    · cases h
    rename_i idx3 sb hsh2
    have hsb : ∃ rr values, sb = { s with rr_start_idx := rr, rand_r_values := values } := by
      split at hsh2
      · obtain ⟨rr2, v2, hsb⟩ := stx_search_shared_changes _ _ _ _ hsh2
        exact ⟨rr2, v2, by rw [hsb, hsa]⟩
      · injection hsh2 with hsh2
        injection hsh2 with _ hs
        exact ⟨rr1, v1, by rw [← hs, hsa]⟩
    obtain ⟨rr, values, hsb⟩ := hsb
    split at h
    · injection h with h
      injection h with hc hs
      subst hc; subst hs; subst hsb
      exact ⟨rfl, rfl, rfl, rfl⟩
    · cases h

/-- A context that `shmem_transport_ofi_ctx_init` has set up (return value 0)
has the `SHMEMX_CTX_BOUNCE_BUFFER` option and a bounce-buffer free list
together or not at all, and has them exactly when the option was requested
and the transport's bounce-buffer size and maximum count are both above 0. -/
theorem ctx_init_bounce (s : TransportState) (ctx : shmem_transport_ctx_t) (id : Int)
    (gettid : shmem_internal_tid) (prov : ctx_provider_results)
    (c1 : shmem_transport_ctx_t) (s1 : TransportState)
    (h : shmem_transport_ofi_ctx_init s ctx id gettid prov = .ok (0, c1, s1)) :
    c1.options.SHMEMX_CTX_BOUNCE_BUFFER = c1.bounce_buffers ∧
    (c1.bounce_buffers = true ↔
      (ctx.options.SHMEMX_CTX_BOUNCE_BUFFER = true ∧
        0 < s.shmem_transport_ofi_bounce_buffer_size ∧
        0 < s.shmem_transport_ofi_max_bounce_buffers)) ∧
    s1.shmem_transport_ofi_bounce_buffer_size = s.shmem_transport_ofi_bounce_buffer_size ∧
    s1.shmem_transport_ofi_max_bounce_buffers = s.shmem_transport_ofi_max_bounce_buffers := by
  unfold shmem_transport_ofi_ctx_init at h
  dsimp only at h
  split at h
  · rename_i hne
    injection h with h
    injection h with hr _
    exact absurd hr hne
  split at h
  · rename_i hne
    injection h with h
    injection h with hr _
    exact absurd hr hne
  split at h
  · rename_i hne
    injection h with h
    injection h with hr _
    exact absurd hr hne
  split at h
  · rename_i hne
    injection h with h
    injection h with hr _
    exact absurd hr hne
  generalize hcX : (if (s.shmem_internal_thread_level.above_funneled
        && shmem_transport_ofi_is_private s ctx.options) = true then
      ({ id := id, options := ctx.options, stx_idx := ctx.stx_idx, tid := gettid, ep := true,
         put_cntr := true, get_cntr := true, cq := true,
         bounce_buffers := ctx.bounce_buffers } : shmem_transport_ctx_t)
    else
      { id := id, options := ctx.options, stx_idx := ctx.stx_idx, tid := ctx.tid, ep := true,
        put_cntr := true, get_cntr := true, cq := true,
        bounce_buffers := ctx.bounce_buffers }) = cX at h
  have hXopt : cX.options = ctx.options := by
    rw [← hcX]; split <;> rfl
  split at h
  · cases h
  rename_i c2 s2 halloc
  obtain ⟨hb1, hb2, hb3, _⟩ := stx_allocate_keeps_bounce s cX c2 s2 halloc
  rw [hXopt] at hb3
  split at h
  · rename_i hne
    injection h with h
    injection h with hr _
    exact absurd hr hne
  split at h
  · rename_i hcond
    injection h with h
    injection h with _ h
    injection h with hc hs
    subst hc; subst hs
    simp only [Bool.and_eq_true, decide_eq_true_eq] at hcond
    rw [hb1, hb2, hb3] at hcond
    refine ⟨?_, ?_, hb1, hb2⟩
    · show c2.options.SHMEMX_CTX_BOUNCE_BUFFER = true
      rw [hb3]; exact hcond.1.1
    constructor
    · intro _
      exact ⟨hcond.1.1, hcond.1.2, hcond.2⟩
    · intro _
      rfl
  · rename_i hcond
    injection h with h
    injection h with _ h
    injection h with hc hs
    subst hc; subst hs
    simp only [Bool.and_eq_true, decide_eq_true_eq] at hcond
    rw [hb1, hb2, hb3] at hcond
    refine ⟨rfl, ?_, hb1, hb2⟩
    constructor
    · intro hf
      cases hf
    · intro hall
      exact absurd ⟨⟨hall.1, hall.2.1⟩, hall.2.2⟩ hcond

/-- The STX release of `shmem_transport_ctx_destroy` leaves the bounce-buffer
settings alone. -/
theorem ctx_destroy_stx_keeps_bounce (s : TransportState) (ctx : shmem_transport_ctx_t)
    (s1 : TransportState) (h : shmem_transport_ctx_destroy_stx s ctx = .ok s1) :
    s1.shmem_transport_ofi_bounce_buffer_size = s.shmem_transport_ofi_bounce_buffer_size ∧
    s1.shmem_transport_ofi_max_bounce_buffers = s.shmem_transport_ofi_max_bounce_buffers := by
  unfold shmem_transport_ctx_destroy_stx at h
  split at h
  · split at h
    · split at h
      · dsimp only at h
        split at h
        · injection h with h; subst h; exact ⟨rfl, rfl⟩
        · injection h with h; subst h; exact ⟨rfl, rfl⟩
      · injection h with h; subst h; exact ⟨rfl, rfl⟩
    · dsimp only at h
      split at h
      · cases h
      · injection h with h; subst h; exact ⟨rfl, rfl⟩
  · injection h with h; subst h; exact ⟨rfl, rfl⟩

/-- `shmem_transport_ctx_destroy` leaves the bounce-buffer settings alone. -/
theorem ctx_destroy_keeps_bounce (s : TransportState) (ctx : shmem_transport_ctx_t)
    (close : ctx_close_results) (s1 : TransportState)
    (h : shmem_transport_ctx_destroy s ctx close = .ok s1) :
    s1.shmem_transport_ofi_bounce_buffer_size = s.shmem_transport_ofi_bounce_buffer_size ∧
    s1.shmem_transport_ofi_max_bounce_buffers = s.shmem_transport_ofi_max_bounce_buffers := by
  obtain ⟨s2, h2, hcase⟩ := ctx_destroy_spec s ctx close s1 h
  obtain ⟨ha, hb⟩ := ctx_destroy_stx_keeps_bounce s ctx s2 h2
  rcases hcase with ⟨_, hs⟩ | ⟨_, hs⟩
  · subst hs; exact ⟨ha, hb⟩
  · subst hs; exact ⟨ha, hb⟩

/-- `shmem_transport_ctx_create` leaves the bounce-buffer settings alone, and a
context it hands out has the `SHMEMX_CTX_BOUNCE_BUFFER` option and a
bounce-buffer free list together, exactly when the option was asked for and
both settings are above 0. -/
theorem ctx_create_bounce (s : TransportState) (options : ctx_options)
    (ctx : Option shmem_transport_ctx_t) (gettid : shmem_internal_tid)
    (prov : ctx_provider_results) (close : ctx_close_results)
    (ret : Int) (out : Option shmem_transport_ctx_t) (s1 : TransportState)
    (h : shmem_transport_ctx_create s options ctx gettid prov close = .ok (ret, out, s1)) :
    s1.shmem_transport_ofi_bounce_buffer_size = s.shmem_transport_ofi_bounce_buffer_size ∧
    s1.shmem_transport_ofi_max_bounce_buffers = s.shmem_transport_ofi_max_bounce_buffers ∧
    (ret = 0 → ∃ c, out = some c ∧
      c.options.SHMEMX_CTX_BOUNCE_BUFFER = c.bounce_buffers ∧
      (c.bounce_buffers = true ↔
        (options.SHMEMX_CTX_BOUNCE_BUFFER = true ∧
          0 < s.shmem_transport_ofi_bounce_buffer_size ∧
          0 < s.shmem_transport_ofi_max_bounce_buffers))) := by
  unfold shmem_transport_ctx_create at h
  dsimp only at h
  generalize hsg : (if ctx_create_find_slot s.shmem_transport_ofi_contexts 0
        ≥ s.shmem_transport_ofi_contexts.length then
      { s with
        shmem_transport_ofi_contexts :=
          s.shmem_transport_ofi_contexts ++ List.replicate shmem_transport_ofi_grow_size none }
    else s) = sg at h
  have hg1 : sg.shmem_transport_ofi_bounce_buffer_size
      = s.shmem_transport_ofi_bounce_buffer_size := by
    rw [← hsg]; split <;> rfl
  have hg2 : sg.shmem_transport_ofi_max_bounce_buffers
      = s.shmem_transport_ofi_max_bounce_buffers := by
    rw [← hsg]; split <;> rfl
  split at h
  · cases h
  rename_i r c2 s2 hinit
  split at h
  · rename_i hne
    split at h
    · cases h
    rename_i s3 hd
    injection h with h
    injection h with hr h
    injection h with _ hs
    subst hs
    have hz : s2 = sg ∨ (s2.shmem_transport_ofi_bounce_buffer_size
          = sg.shmem_transport_ofi_bounce_buffer_size ∧
        s2.shmem_transport_ofi_max_bounce_buffers
          = sg.shmem_transport_ofi_max_bounce_buffers) := by
      unfold shmem_transport_ofi_ctx_init at hinit
      dsimp only at hinit
      split at hinit
      · injection hinit with hinit
        injection hinit with _ hinit
        injection hinit with _ hs
        exact Or.inl hs.symm
      split at hinit
      · injection hinit with hinit
        injection hinit with _ hinit
        injection hinit with _ hs
        exact Or.inl hs.symm
      split at hinit
      · injection hinit with hinit
        injection hinit with _ hinit
        injection hinit with _ hs
        exact Or.inl hs.symm
      split at hinit
      · injection hinit with hinit
        injection hinit with _ hinit
        injection hinit with _ hs
        exact Or.inl hs.symm
      split at hinit
      · cases hinit
      rename_i c3 s4 halloc
      obtain ⟨hb1, hb2, _, _⟩ := stx_allocate_keeps_bounce _ _ _ _ halloc
      split at hinit
      · injection hinit with hinit
        injection hinit with _ hinit
        injection hinit with _ hs
        subst hs
        exact Or.inr ⟨hb1, hb2⟩
      split at hinit
      · injection hinit with hinit
        injection hinit with _ hinit
        injection hinit with _ hs
        subst hs
        exact Or.inr ⟨hb1, hb2⟩
      · injection hinit with hinit
        injection hinit with _ hinit
        injection hinit with _ hs
        subst hs
        exact Or.inr ⟨hb1, hb2⟩
    obtain ⟨hd1, hd2⟩ := ctx_destroy_keeps_bounce s2 c2 close s3 hd
    have h21 : s2.shmem_transport_ofi_bounce_buffer_size
        = sg.shmem_transport_ofi_bounce_buffer_size := by
      rcases hz with hz | hz
      · rw [hz]
      · exact hz.1
    have h22 : s2.shmem_transport_ofi_max_bounce_buffers
        = sg.shmem_transport_ofi_max_bounce_buffers := by
      rcases hz with hz | hz
      · rw [hz]
      · exact hz.2
    refine ⟨by rw [hd1, h21, hg1], by rw [hd2, h22, hg2], ?_⟩
    intro h0
    exact absurd (hr ▸ h0) hne
  · rename_i hz
    have hr0 : r = 0 := by
      by_contra hc
      exact hz hc
    subst hr0
    injection h with h
    injection h with _ h
    injection h with hout hs
    subst hs
    obtain ⟨hA, hB, hC, hD⟩ := ctx_init_bounce sg _ _ gettid prov c2 s2 hinit
    refine ⟨by show s2.shmem_transport_ofi_bounce_buffer_size = _; rw [hC, hg1],
      by show s2.shmem_transport_ofi_max_bounce_buffers = _; rw [hD, hg2], ?_⟩
    intro _
    refine ⟨c2, hout.symm, hA, ?_⟩
    rw [hB, hg1, hg2]

/-- The globals `shmem_transport_init` leaves when the fabric query and the
allocation of the fabric resources succeed, whichever of its later steps it
returns from. -/
theorem transport_init_state (s : TransportState) (p : transport_params)
    (mode_FI_CONTEXT : Bool) (r1 r2 r3 : Int) :
    ∃ ret, shmem_transport_init s p 0 0 mode_FI_CONTEXT r1 r2 r3 = (ret,
      { s with
        shmem_transport_ofi_stx_max :=
          if (s.shmem_internal_thread_level = .SHMEM_THREAD_SINGLE
                ∨ s.shmem_internal_thread_level = .SHMEM_THREAD_FUNNELED)
              ∧ p.OFI_STX_MAX > 1 then 1 else p.OFI_STX_MAX
        shmem_transport_ofi_stx_threshold := p.OFI_STX_THRESHOLD
        shmem_transport_ofi_stx_allocator :=
          if p.OFI_STX_ALLOCATOR = "random" then .RANDOM else .ROUNDROBIN
        shmem_transport_ofi_bounce_buffer_size := if mode_FI_CONTEXT then 0 else p.BOUNCE_SIZE
        shmem_transport_ofi_max_bounce_buffers :=
          if mode_FI_CONTEXT then 0 else p.MAX_BOUNCE_BUFFERS
        shmem_transport_ctx_default :=
          { s.shmem_transport_ctx_default with
            options := { SHMEM_CTX_PRIVATE := false, SHMEMX_CTX_BOUNCE_BUFFER := true,
                         other := 0 } } }) := by
  have hshape : ∀ x : TransportState, ∃ ret,
      (if r1 ≠ 0 then (r1, x) else if r2 ≠ 0 then (r2, x) else if r3 ≠ 0 then (r3, x)
        else ((0 : Int), x)) = (ret, x) := by
    intro x
    by_cases h1 : r1 ≠ 0
    · exact ⟨r1, by rw [if_pos h1]⟩
    by_cases h2 : r2 ≠ 0
    · exact ⟨r2, by rw [if_neg h1, if_pos h2]⟩
    by_cases h3 : r3 ≠ 0
    · exact ⟨r3, by rw [if_neg h1, if_neg h2, if_pos h3]⟩
    · exact ⟨0, by rw [if_neg h1, if_neg h2, if_neg h3]⟩
  unfold shmem_transport_init
  rw [if_neg (by simp), if_neg (by simp)]
  dsimp only
  by_cases hf : (s.shmem_internal_thread_level = .SHMEM_THREAD_SINGLE
                ∨ s.shmem_internal_thread_level = .SHMEM_THREAD_FUNNELED)
              ∧ p.OFI_STX_MAX > 1
  · simp only [if_pos hf]
    by_cases ha : p.OFI_STX_ALLOCATOR = "round-robin"
    · have hb : ¬ p.OFI_STX_ALLOCATOR = "random" := by rw [ha]; decide
      simp only [if_pos ha, if_neg hb]
      cases mode_FI_CONTEXT <;> exact hshape _
    · by_cases hb : p.OFI_STX_ALLOCATOR = "random"
      · simp only [if_neg ha, if_pos hb]
        cases mode_FI_CONTEXT <;> exact hshape _
      · simp only [if_neg ha, if_neg hb]
        cases mode_FI_CONTEXT <;> exact hshape _
  · simp only [if_neg hf]
    by_cases ha : p.OFI_STX_ALLOCATOR = "round-robin"
    · have hb : ¬ p.OFI_STX_ALLOCATOR = "random" := by rw [ha]; decide
      simp only [if_pos ha, if_neg hb]
      cases mode_FI_CONTEXT <;> exact hshape _
    · by_cases hb : p.OFI_STX_ALLOCATOR = "random"
      · simp only [if_neg ha, if_pos hb]
        cases mode_FI_CONTEXT <;> exact hshape _
      · simp only [if_neg ha, if_neg hb]
        cases mode_FI_CONTEXT <;> exact hshape _

/-- With `FI_CONTEXT` in the provider's mode, `shmem_transport_init` sets the
bounce-buffer size and the maximum count of bounce buffers to 0, whatever
`BOUNCE_SIZE` and `MAX_BOUNCE_BUFFERS` say. -/
theorem transport_init_fi_context (s : TransportState) (p : transport_params)
    (target_ep_init_ret publish_mr_info_ret publish_av_info_ret : Int) :
    (shmem_transport_init s p 0 0 true target_ep_init_ret publish_mr_info_ret
        publish_av_info_ret).2.shmem_transport_ofi_bounce_buffer_size = 0 ∧
    (shmem_transport_init s p 0 0 true target_ep_init_ret publish_mr_info_ret
        publish_av_info_ret).2.shmem_transport_ofi_max_bounce_buffers = 0 := by
  obtain ⟨ret, h⟩ := transport_init_state s p true target_ep_init_ret publish_mr_info_ret
    publish_av_info_ret
  rw [h]
  exact ⟨rfl, rfl⟩

/-- Without `FI_CONTEXT`, `shmem_transport_init` takes the bounce-buffer
settings from `BOUNCE_SIZE` and `MAX_BOUNCE_BUFFERS`. -/
theorem transport_init_bounce_params (s : TransportState) (p : transport_params)
    (target_ep_init_ret publish_mr_info_ret publish_av_info_ret : Int) :
    (shmem_transport_init s p 0 0 false target_ep_init_ret publish_mr_info_ret
        publish_av_info_ret).2.shmem_transport_ofi_bounce_buffer_size = p.BOUNCE_SIZE ∧
    (shmem_transport_init s p 0 0 false target_ep_init_ret publish_mr_info_ret
        publish_av_info_ret).2.shmem_transport_ofi_max_bounce_buffers = p.MAX_BOUNCE_BUFFERS := by
  obtain ⟨ret, h⟩ := transport_init_state s p false target_ep_init_ret publish_mr_info_ret
    publish_av_info_ret
  rw [h]
  exact ⟨rfl, rfl⟩

/-- In every state of a run, each live context has the
`SHMEMX_CTX_BOUNCE_BUFFER` option and a bounce-buffer free list together, and
has them only if both bounce-buffer settings are above 0. -/
theorem reachable_bounce_consistent {s : TransportState} {phase : default_ctx_phase}
    (h : TransportReachable s phase) :
    ∀ c ∈ live_contexts s phase,
      c.options.SHMEMX_CTX_BOUNCE_BUFFER = c.bounce_buffers ∧
      (c.bounce_buffers = true →
        0 < s.shmem_transport_ofi_bounce_buffer_size ∧
        0 < s.shmem_transport_ofi_max_bounce_buffers) := by
  induction h with
  | init s hmax hpool hkvs hrr hreg hdef =>
    intro c hc
    simp [live_contexts, hreg] at hc
  | startup s gettid prov ctx s1 hs h ih =>
    obtain ⟨_, hlive⟩ := ctx_startup_spec s gettid prov ctx s1 hs.layer_inv h
    obtain ⟨hA, hB, hC, hD⟩ := ctx_init_bounce s _ _ gettid prov ctx s1 h
    intro c hc
    rw [hlive] at hc
    show _ ∧ (_ → 0 < s1.shmem_transport_ofi_bounce_buffer_size ∧
      0 < s1.shmem_transport_ofi_max_bounce_buffers)
    rw [hC, hD]
    rcases List.mem_cons.mp hc with hc | hc
    · subst hc
      exact ⟨hA, fun hb => (hB.mp hb).2⟩
    · exact ih c hc
  | create s phase options ctx gettid prov close ret out s1 hs h ih =>
    obtain ⟨_, hok, hfail⟩ := ctx_create_spec s phase options ctx gettid prov close ret out s1
      hs.layer_inv h
    obtain ⟨hC, hD, hnew⟩ := ctx_create_bounce s options ctx gettid prov close ret out s1 h
    intro c hc
    rw [hC, hD]
    by_cases hr : ret = 0
    · obtain ⟨c1, hout, _, _, _, hperm⟩ := hok hr
      obtain ⟨c2, hout2, hA, hB⟩ := hnew hr
      have hcc : c2 = c1 := by
        rw [hout] at hout2
        injection hout2 with hcc
        exact hcc.symm
      subst hcc
      rcases List.mem_cons.mp (hperm.subset hc) with hc | hc
      · subst hc
        exact ⟨hA, fun hb => (hB.mp hb).2⟩
      · exact ih c hc
    · rw [(hfail hr).2] at hc
      exact ih c hc
  | destroy s phase i ctx close s1 hs hlive h ih =>
    obtain ⟨_, _, hperm⟩ := ctx_destroy_registry_spec s phase i ctx close s1 hs.layer_inv hlive h
    obtain ⟨hC, hD⟩ := ctx_destroy_keeps_bounce s ctx close s1 h
    intro c hc
    rw [hC, hD]
    exact ih c (hperm.symm.subset (List.mem_cons_of_mem _ hc))
  | destroy_default s close s1 hs h ih =>
    obtain ⟨_, _, hl⟩ := ctx_destroy_default_spec s close s1 hs.layer_inv h
    obtain ⟨hC, hD⟩ := ctx_destroy_keeps_bounce s _ close s1 h
    intro c hc
    rw [hC, hD]
    exact ih c (by rw [hl]; exact List.mem_cons_of_mem _ hc)

/-- Claim C21.  A context that `shmem_transport_ofi_ctx_init` has set up keeps
the `SHMEMX_CTX_BOUNCE_BUFFER` option and has a bounce-buffer free list
exactly when the option was requested and the transport's bounce-buffer size
and maximum bounce-buffer count are both above 0, and it never has one of the
two without the other.  With `FI_CONTEXT` in the provider's mode
`shmem_transport_init` sets both settings to 0; and in every state of a run
whose two settings are 0, every live context has the option stripped and no
free list. -/
theorem C21_bounce_buffer_option (s : TransportState) (ctx : shmem_transport_ctx_t) (id : Int)
    (gettid : shmem_internal_tid) (prov : ctx_provider_results)
    (c1 : shmem_transport_ctx_t) (s1 : TransportState)
    (h : shmem_transport_ofi_ctx_init s ctx id gettid prov = .ok (0, c1, s1)) :
    ((c1.options.SHMEMX_CTX_BOUNCE_BUFFER = true ∧ c1.bounce_buffers = true) ↔
      (ctx.options.SHMEMX_CTX_BOUNCE_BUFFER = true ∧
        0 < s.shmem_transport_ofi_bounce_buffer_size ∧
        0 < s.shmem_transport_ofi_max_bounce_buffers)) ∧
    c1.options.SHMEMX_CTX_BOUNCE_BUFFER = c1.bounce_buffers ∧
    (∀ (s0 : TransportState) (p : transport_params) (r1 r2 r3 : Int),
      (shmem_transport_init s0 p 0 0 true r1 r2 r3).2.shmem_transport_ofi_bounce_buffer_size = 0 ∧
      (shmem_transport_init s0 p 0 0 true r1 r2 r3).2.shmem_transport_ofi_max_bounce_buffers = 0) ∧
    (∀ (sr : TransportState) (phase : default_ctx_phase), TransportReachable sr phase →
      sr.shmem_transport_ofi_bounce_buffer_size = 0 →
      sr.shmem_transport_ofi_max_bounce_buffers = 0 →
      ∀ c ∈ live_contexts sr phase,
        c.options.SHMEMX_CTX_BOUNCE_BUFFER = false ∧ c.bounce_buffers = false) := by
  obtain ⟨hA, hB, _, _⟩ := ctx_init_bounce s ctx id gettid prov c1 s1 h
  refine ⟨?_, hA, ?_, ?_⟩
  · rw [← hB]
    constructor
    · intro hboth
      exact hboth.2
    · intro hb
      exact ⟨hA.trans hb, hb⟩
  · intro s0 p r1 r2 r3
    exact transport_init_fi_context s0 p r1 r2 r3
  · intro sr phase hrun hz1 hz2 c hc
    obtain ⟨hX, hY⟩ := reachable_bounce_consistent hrun c hc
    have hoff : c.bounce_buffers = false := by
      cases hb : c.bounce_buffers
      · rfl
      · have := (hY hb).1
        omega
    exact ⟨hX.trans hoff, hoff⟩

/-- Witness for claim C21: on the pool of two slots with buffers of 2048 bytes
and at most 128 of them, the set-up of the default context keeps the option
and makes the free list; and when `shmem_transport_init` runs with
`FI_CONTEXT` in the provider's mode (same `BOUNCE_SIZE` and
`MAX_BOUNCE_BUFFERS`), the default context that `shmem_transport_startup` sets
up has the option stripped and no free list. -/
theorem C21_bounce_buffer_option_witness :
    shmem_transport_ofi_ctx_init pool_of_two_bouncing
        pool_of_two_bouncing.shmem_transport_ctx_default SHMEM_TRANSPORT_CTX_DEFAULT_ID
        { tid_t := 0, val := 0 } provider_calls_ok
      = .ok (0, default_ctx_bouncing,
          { pool_of_two_bouncing with
            shmem_transport_ofi_stx_pool :=
              [{ ref_cnt := 1, is_private := false }, { ref_cnt := 0, is_private := false }] }) ∧
    default_ctx_bouncing.options.SHMEMX_CTX_BOUNCE_BUFFER = true ∧
    default_ctx_bouncing.bounce_buffers = true ∧
    shmem_transport_init (TransportState.zeroed .SHMEM_THREAD_MULTIPLE) (params_with_stx_max 2)
        0 0 true 0 0 0
      = (0, TransportState.at_startup .SHMEM_THREAD_MULTIPLE false .ROUNDROBIN 2 1 [] 0 0) ∧
    shmem_transport_startup_contexts
        (TransportState.at_startup .SHMEM_THREAD_MULTIPLE false .ROUNDROBIN 2 1 [] 0 0)
        { tid_t := 0, val := 0 } provider_calls_ok
      = .ok (0, pool_of_two_started) ∧
    pool_of_two_started.shmem_transport_ctx_default.options.SHMEMX_CTX_BOUNCE_BUFFER = false ∧
    pool_of_two_started.shmem_transport_ctx_default.bounce_buffers = false :=
  have hinit : shmem_transport_ofi_ctx_init pool_of_two_bouncing
        pool_of_two_bouncing.shmem_transport_ctx_default SHMEM_TRANSPORT_CTX_DEFAULT_ID
        { tid_t := 0, val := 0 } provider_calls_ok
      = .ok (0, default_ctx_bouncing,
          { pool_of_two_bouncing with
            shmem_transport_ofi_stx_pool :=
              [{ ref_cnt := 1, is_private := false }, { ref_cnt := 0, is_private := false }] }) := by
    decide
  have hrun : TransportReachable pool_of_two_started .live :=
    TransportReachable.startup pool_of_two { tid_t := 0, val := 0 } provider_calls_ok
      default_ctx_set_up
      { pool_of_two with
        shmem_transport_ofi_stx_pool :=
          [{ ref_cnt := 1, is_private := false }, { ref_cnt := 0, is_private := false }] }
      (TransportReachable.init pool_of_two (by decide) (by decide) rfl rfl rfl rfl)
      (by decide)
  have hc := C21_bounce_buffer_option pool_of_two_bouncing
    pool_of_two_bouncing.shmem_transport_ctx_default SHMEM_TRANSPORT_CTX_DEFAULT_ID
    { tid_t := 0, val := 0 } provider_calls_ok default_ctx_bouncing _ hinit
  have hoff := hc.2.2.2 pool_of_two_started .live hrun rfl rfl
    pool_of_two_started.shmem_transport_ctx_default (by decide)
  ⟨hinit, (hc.1.mpr ⟨rfl, by decide, by decide⟩).1, (hc.1.mpr ⟨rfl, by decide, by decide⟩).2,
    by decide, by decide, hoff.1, hoff.2⟩

/-- At thread level `SHMEM_THREAD_SINGLE` or `SHMEM_THREAD_FUNNELED`,
`shmem_transport_init` leaves `shmem_transport_ofi_stx_max` at 1 for every
`OFI_STX_MAX` of at least 1. -/
theorem transport_init_stx_max_single (s : TransportState) (p : transport_params)
    (mode_FI_CONTEXT : Bool) (r1 r2 r3 : Int)
    (hlevel : s.shmem_internal_thread_level = .SHMEM_THREAD_SINGLE
      ∨ s.shmem_internal_thread_level = .SHMEM_THREAD_FUNNELED)
    (hmax : 1 ≤ p.OFI_STX_MAX) :
    (shmem_transport_init s p 0 0 mode_FI_CONTEXT r1 r2 r3).2.shmem_transport_ofi_stx_max
      = 1 := by
  obtain ⟨ret, h⟩ := transport_init_state s p mode_FI_CONTEXT r1 r2 r3
  rw [h]
  show (if (s.shmem_internal_thread_level = .SHMEM_THREAD_SINGLE
        ∨ s.shmem_internal_thread_level = .SHMEM_THREAD_FUNNELED) ∧ p.OFI_STX_MAX > 1
      then (1 : Int) else p.OFI_STX_MAX) = 1
  by_cases h1 : p.OFI_STX_MAX > 1
  · rw [if_pos ⟨hlevel, h1⟩]
  · rw [if_neg (fun hc => h1 hc.2)]
    omega

/-- An `OFI_STX_MAX` of at most 1 is taken as it is by `shmem_transport_init`,
at every thread level. -/
theorem transport_init_stx_max_small (s : TransportState) (p : transport_params)
    (mode_FI_CONTEXT : Bool) (r1 r2 r3 : Int) (hmax : p.OFI_STX_MAX ≤ 1) :
    (shmem_transport_init s p 0 0 mode_FI_CONTEXT r1 r2 r3).2.shmem_transport_ofi_stx_max
      = p.OFI_STX_MAX := by
  obtain ⟨ret, h⟩ := transport_init_state s p mode_FI_CONTEXT r1 r2 r3
  rw [h]
  show (if (s.shmem_internal_thread_level = .SHMEM_THREAD_SINGLE
        ∨ s.shmem_internal_thread_level = .SHMEM_THREAD_FUNNELED) ∧ p.OFI_STX_MAX > 1
      then (1 : Int) else p.OFI_STX_MAX) = p.OFI_STX_MAX
  rw [if_neg (fun hc => by omega)]

/-- Claim C22.  At thread level `SHMEM_THREAD_SINGLE` with `OFI_STX_MAX = 0`,
`shmem_transport_init` returns 0 and leaves `shmem_transport_ofi_stx_max` at 0,
not 1; at `SHMEM_THREAD_FUNNELED` with `OFI_STX_MAX = -3` it leaves -3.  With
the value 0 the pool of `shmem_transport_startup` is empty and the set-up of
the default context stops at the assertion `stx_idx >= 0`.  The auto-mode
block of `shmem_transport_startup`, by contrast, raises a share of 0 to 1. -/
theorem C22_stx_max_not_forced :
    (shmem_transport_init (TransportState.zeroed .SHMEM_THREAD_SINGLE)
      (params_with_stx_max 0) 0 0 false 0 0 0).1 = 0 ∧
    (shmem_transport_init (TransportState.zeroed .SHMEM_THREAD_SINGLE)
      (params_with_stx_max 0) 0 0 false 0 0 0).2.shmem_transport_ofi_stx_max = 0 ∧
    (shmem_transport_init (TransportState.zeroed .SHMEM_THREAD_FUNNELED)
      (params_with_stx_max (-3)) 0 0 false 0 0 0).2.shmem_transport_ofi_stx_max = -3 ∧
    (shmem_transport_init (TransportState.zeroed .SHMEM_THREAD_SINGLE)
      (params_with_stx_max 5) 0 0 false 0 0 0).2.shmem_transport_ofi_stx_max = 1 ∧
    shmem_transport_startup_contexts
      (shmem_transport_init (TransportState.zeroed .SHMEM_THREAD_SINGLE)
        (params_with_stx_max 0) 0 0 false 0 0 0).2 { tid_t := 0, val := 0 } provider_calls_ok
      = .error "assertion failed: stx_idx >= 0" ∧
    shmem_transport_startup_stx_max { params_with_stx_max 0 with OFI_STX_AUTO := true }
      0 0 1 0 1 = .ok 1 := by
  decide

/-- The truncating quotient and remainder of C for a negative dividend and a
positive divisor are at most 0. -/
theorem tdiv_tmod_nonpos (a b : Int) (ha : a < 0) (hb : 1 ≤ b) :
    a.tdiv b ≤ 0 ∧ a.tmod b ≤ 0 := by
  have h1 := Int.tdiv_add_tmod a b
  have h2 := Int.tdiv_add_tmod (-a) b
  rw [Int.neg_tdiv, mul_neg] at h2
  have h3 : 0 ≤ (-a).tmod b := Int.tmod_nonneg _ (by omega)
  have h5 : 0 ≤ (-a).tdiv b := Int.tdiv_nonneg (by omega) (by omega)
  rw [Int.neg_tdiv] at h5
  constructor
  · omega
  · omega

/-- The number of ranks below `m` among the first `n`. -/
theorem sum_range_indicator (q : Int) (m n : Nat) (h : m ≤ n) :
    ((List.range n).map (fun r : Nat => q + if (r : Int) < (m : Int) then 1 else 0)).sum
      = n * q + m := by
  have hgen : ∀ k : Nat,
      ((List.range k).map (fun r : Nat => q + if (r : Int) < (m : Int) then 1 else 0)).sum
        = k * q + min k m := by
    intro k
    induction k with
    | zero => simp
    | succ k ih =>
      rw [List.sum_range_succ, ih]
      by_cases hk : (k : Int) < (m : Int)
      · rw [if_pos hk]
        have : min (k + 1) m = min k m + 1 := by omega
        rw [this]
        push_cast
        ring
      · rw [if_neg hk]
        have : min (k + 1) m = min k m := by omega
        rw [this]
        push_cast
        ring
  rw [hgen n, min_eq_right h]

/-- The arithmetic of the auto-mode block of `shmem_transport_startup`, with
the truncating division of C, against floor division: for `L ≥ 1` node-local
PEs and a PE number in range the two agree, for every count `T`. -/
theorem startup_stx_max_arith (T L my_pe num_pes : Int) (hL : 1 ≤ L) (h0 : 0 ≤ my_pe)
    (h1 : my_pe < num_pes) :
    (if (if T.tmod L > 0 ∧ (my_pe.tmod num_pes).tmod L < T.tmod L then T.tdiv L + 1
          else T.tdiv L) ≤ 0 then 1
      else (if T.tmod L > 0 ∧ (my_pe.tmod num_pes).tmod L < T.tmod L then T.tdiv L + 1
          else T.tdiv L))
      = max 1 (T / L + if my_pe % L < T % L then 1 else 0) := by
  have hnode : (my_pe.tmod num_pes).tmod L = my_pe % L := by
    rw [Int.tmod_eq_emod h0 (by omega), Int.emod_eq_of_lt h0 h1,
      Int.tmod_eq_emod h0 (by omega)]
  rw [hnode]
  have hr0 : 0 ≤ my_pe % L := Int.emod_nonneg _ (by omega)
  by_cases hT : 0 ≤ T
  · rw [Int.tmod_eq_emod hT (by omega), Int.tdiv_eq_ediv hT (by omega)]
    have hq : 0 ≤ T / L := Int.ediv_nonneg hT (by omega)
    by_cases hlt : my_pe % L < T % L
    · have hc : T % L > 0 ∧ my_pe % L < T % L := ⟨by omega, hlt⟩
      simp only [if_pos hc, if_pos hlt]
      rw [max_def]
      split_ifs <;> omega
    · have hc : ¬ (T % L > 0 ∧ my_pe % L < T % L) := fun hc => hlt hc.2
      simp only [if_neg hc, if_neg hlt]
      rw [max_def]
      split_ifs <;> omega
  · obtain ⟨hd, hm⟩ := tdiv_tmod_nonpos T L (by omega) hL
    have hc : ¬ (T.tmod L > 0 ∧ my_pe % L < T.tmod L) := fun hc => by omega
    simp only [if_neg hc, if_pos hd]
    have hneg : T / L < 0 := Int.ediv_neg' (by omega) (by omega)
    rw [max_def]
    split_ifs <;> omega

/-- In auto mode `shmem_transport_startup` takes `OFI_STX_NODE_MAX` as the
count of transmit contexts when the parameter was given, the provider's
`tx_ctx_cnt` otherwise, and returns the share of the PE; it does not stop. -/
theorem startup_stx_max_auto (p : transport_params) (stx_max tx_ctx_cnt L my_pe num_pes : Int)
    (hauto : p.OFI_STX_AUTO = true) (hL : 1 ≤ L) (h0 : 0 ≤ my_pe) (h1 : my_pe < num_pes) :
    shmem_transport_startup_stx_max p stx_max tx_ctx_cnt L my_pe num_pes
      = .ok (max 1
          ((if p.OFI_STX_NODE_MAX_provided then p.OFI_STX_NODE_MAX else tx_ctx_cnt) / L
            + if my_pe % L
                < (if p.OFI_STX_NODE_MAX_provided then p.OFI_STX_NODE_MAX else tx_ctx_cnt) % L
              then 1 else 0)) := by
  unfold shmem_transport_startup_stx_max
  rw [if_pos hauto]
  cases hp : p.OFI_STX_NODE_MAX_provided
  · simp only [Bool.false_eq_true, if_false]
    rw [startup_stx_max_arith tx_ctx_cnt L my_pe num_pes hL h0 h1]
  · simp only [if_true]
    rw [if_pos (by decide)]
    simp only
    rw [startup_stx_max_arith p.OFI_STX_NODE_MAX L my_pe num_pes hL h0 h1]

/-- Outside auto mode `shmem_transport_startup` keeps the value that
`shmem_transport_init` left. -/
theorem startup_stx_max_fixed (p : transport_params) (stx_max tx_ctx_cnt L my_pe num_pes : Int)
    (hauto : p.OFI_STX_AUTO = false) :
    shmem_transport_startup_stx_max p stx_max tx_ctx_cnt L my_pe num_pes = .ok stx_max := by
  unfold shmem_transport_startup_stx_max
  rw [if_neg (by rw [hauto]; decide)]

/-- Claim C23.  In auto mode, with `T` the count of transmit contexts in use
(`OFI_STX_NODE_MAX` when given, else the provider's `tx_ctx_cnt`) and `L ≥ 1`
node-local PEs, a PE of local rank `r = my_pe mod L` gets
`max(1, floor(T / L) + (1 if r < T mod L else 0))`; for `T ≥ L` the values of
the local ranks `0 .. L-1` sum to `T`, never grow with the rank, and differ
by at most 1. -/
theorem C23_auto_stx_max (p : transport_params) (stx_max tx_ctx_cnt L num_pes : Int)
    (hauto : p.OFI_STX_AUTO = true) (hL : 1 ≤ L) :
    (∀ my_pe : Int, 0 ≤ my_pe → my_pe < num_pes →
      shmem_transport_startup_stx_max p stx_max tx_ctx_cnt L my_pe num_pes
        = .ok (max 1
            ((if p.OFI_STX_NODE_MAX_provided then p.OFI_STX_NODE_MAX else tx_ctx_cnt) / L
              + if my_pe % L
                  < (if p.OFI_STX_NODE_MAX_provided then p.OFI_STX_NODE_MAX else tx_ctx_cnt) % L
                then 1 else 0))) ∧
    (L ≤ (if p.OFI_STX_NODE_MAX_provided then p.OFI_STX_NODE_MAX else tx_ctx_cnt) →
      ∃ v : Int → Int,
        (∀ my_pe : Int, 0 ≤ my_pe → my_pe < num_pes →
          shmem_transport_startup_stx_max p stx_max tx_ctx_cnt L my_pe num_pes
            = .ok (v (my_pe % L))) ∧
        ((List.range L.toNat).map (fun r : Nat => v (r : Int))).sum
          = (if p.OFI_STX_NODE_MAX_provided then p.OFI_STX_NODE_MAX else tx_ctx_cnt) ∧
        (∀ r r1 : Int, 0 ≤ r → r ≤ r1 → r1 < L → v r1 ≤ v r ∧ v r ≤ v r1 + 1)) := by
  generalize hT : (if p.OFI_STX_NODE_MAX_provided then p.OFI_STX_NODE_MAX else tx_ctx_cnt) = T
  have hval : ∀ my_pe : Int, 0 ≤ my_pe → my_pe < num_pes →
      shmem_transport_startup_stx_max p stx_max tx_ctx_cnt L my_pe num_pes
        = .ok (max 1 (T / L + if my_pe % L < T % L then 1 else 0)) := by
    intro my_pe h0 h1
    rw [startup_stx_max_auto p stx_max tx_ctx_cnt L my_pe num_pes hauto hL h0 h1, hT]
  refine ⟨hval, ?_⟩
  intro hTL
  have hq : 1 ≤ T / L := by
    have := Int.ediv_le_ediv (by omega : (0 : Int) < L) hTL
    rwa [Int.ediv_self (by omega)] at this
  have hm0 : 0 ≤ T % L := Int.emod_nonneg _ (by omega)
  have hm1 : T % L < L := Int.emod_lt_of_pos _ (by omega)
  refine ⟨fun r => T / L + if r < T % L then 1 else 0, ?_, ?_, ?_⟩
  · intro my_pe h0 h1
    rw [hval my_pe h0 h1]
    congr 1
    by_cases hlt : my_pe % L < T % L
    · simp only [if_pos hlt]; omega
    · simp only [if_neg hlt]; omega
  · have hsum := sum_range_indicator (T / L) (T % L).toNat L.toNat (by omega)
    have hcast : (((T % L).toNat : Nat) : Int) = T % L := Int.toNat_of_nonneg hm0
    have hcastL : ((L.toNat : Nat) : Int) = L := Int.toNat_of_nonneg (by omega)
    rw [hcast, hcastL] at hsum
    simp only at hsum ⊢
    rw [hsum]
    have := Int.ediv_add_emod T L
    linarith
  · intro r r1 hr0 hrr hr1
    simp only
    by_cases ha : r < T % L
    · by_cases hb : r1 < T % L
      · rw [if_pos ha, if_pos hb]; omega
      · rw [if_pos ha, if_neg hb]; omega
    · have hb : ¬ r1 < T % L := by omega
      rw [if_neg ha, if_neg hb]; omega

/-- Witness for claim C23: 10 transmit contexts for 4 node-local PEs give the
local ranks 0, 1, 2, 3 the values 3, 3, 2, 2. -/
theorem C23_auto_stx_max_witness :
    (∀ my_pe : Int, 0 ≤ my_pe → my_pe < 8 →
      shmem_transport_startup_stx_max
          { params_with_stx_max 1 with OFI_STX_AUTO := true } 1 10 4 my_pe 8
        = .ok (max 1 (10 / 4 + if my_pe % 4 < 10 % 4 then 1 else 0))) ∧
    (∃ v : Int → Int,
      (∀ my_pe : Int, 0 ≤ my_pe → my_pe < 8 →
        shmem_transport_startup_stx_max
            { params_with_stx_max 1 with OFI_STX_AUTO := true } 1 10 4 my_pe 8
          = .ok (v (my_pe % 4))) ∧
      ((List.range 4).map (fun r : Nat => v (r : Int))).sum = 10 ∧
      (∀ r r1 : Int, 0 ≤ r → r ≤ r1 → r1 < 4 → v r1 ≤ v r ∧ v r ≤ v r1 + 1)) ∧
    shmem_transport_startup_stx_max
        { params_with_stx_max 1 with OFI_STX_AUTO := true } 1 10 4 5 8 = .ok 3 ∧
    shmem_transport_startup_stx_max
        { params_with_stx_max 1 with OFI_STX_AUTO := true } 1 10 4 6 8 = .ok 2 :=
  ⟨(C23_auto_stx_max { params_with_stx_max 1 with OFI_STX_AUTO := true } 1 10 4 8 rfl
      (by decide)).1,
    (C23_auto_stx_max { params_with_stx_max 1 with OFI_STX_AUTO := true } 1 10 4 8 rfl
      (by decide)).2 (by decide), by decide, by decide⟩

/-- The slot test of both allocators, spelled out: in use, not private, and
within the threshold unless the threshold is −1. -/
theorem stx_shareable_iff (slot : shmem_transport_ofi_stx_t) (threshold : Int) :
    stx_shareable slot threshold = true ↔
      (0 < slot.ref_cnt ∧ slot.is_private = false ∧
        (slot.ref_cnt ≤ threshold ∨ threshold = -1)) := by
  unfold stx_shareable
  simp only [Bool.and_eq_true, Bool.or_eq_true, decide_eq_true_eq, Bool.not_eq_true', gt_iff_lt]
  tauto

/-- A slot the round-robin scan returns passes the slot test. -/
theorem stx_search_shared_rr_loop_hit (pool : List shmem_transport_ofi_stx_t)
    (stx_max threshold : Int) :
    ∀ (fuel : Nat) (i idx rr : Int),
      stx_search_shared_rr_loop pool stx_max threshold fuel i = some (idx, rr) →
      stx_shareable (stx_pool_get pool idx) threshold = true
  | 0, i, idx, rr, h => by
    unfold stx_search_shared_rr_loop at h
    cases h
  | fuel + 1, i, idx, rr, h => by
    unfold stx_search_shared_rr_loop at h
    by_cases hs : stx_shareable (stx_pool_get pool i) threshold = true
    · rw [if_pos hs] at h
      injection h with h
      injection h with h1 _
      rw [← h1]
      exact hs
    · rw [if_neg hs] at h
      exact stx_search_shared_rr_loop_hit pool stx_max threshold fuel _ idx rr h

/-- The round-robin scan from the cursor `i` returns the first slot in cyclic
order that passes the slot test, with the cursor one past it. -/
theorem stx_search_shared_rr_loop_first (pool : List shmem_transport_ofi_stx_t)
    (stx_max threshold : Int) (hmax : 1 ≤ stx_max) :
    ∀ (fuel : Nat) (i idx rr : Int), 0 ≤ i → i < stx_max →
      stx_search_shared_rr_loop pool stx_max threshold fuel i = some (idx, rr) →
      ∃ k : Nat, k < fuel ∧ idx = (i + k) % stx_max ∧
        stx_shareable (stx_pool_get pool idx) threshold = true ∧
        (∀ k1 : Nat, k1 < k →
          stx_shareable (stx_pool_get pool ((i + k1) % stx_max)) threshold = false) ∧
        rr = (idx + 1) % stx_max
  | 0, i, idx, rr, _, _, h => by
    unfold stx_search_shared_rr_loop at h
    cases h
  | fuel + 1, i, idx, rr, h0, h1, h => by
    unfold stx_search_shared_rr_loop at h
    have hnext : (i + 1).tmod stx_max = (i + 1) % stx_max :=
      Int.tmod_eq_emod (by omega) (by omega)
    by_cases hs : stx_shareable (stx_pool_get pool i) threshold = true
    · rw [if_pos hs] at h
      injection h with h
      injection h with hi hr
      subst hi
      refine ⟨0, by omega, ?_, hs, fun k1 hk1 => by omega, ?_⟩
      · simp only [Nat.cast_zero, add_zero]
        exact (Int.emod_eq_of_lt h0 h1).symm
      · rw [← hr, hnext]
    · rw [if_neg hs, hnext] at h
      obtain ⟨k, hk, hidx, hsh, hfirst, hrr⟩ :=
        stx_search_shared_rr_loop_first pool stx_max threshold hmax fuel _ idx rr
          (Int.emod_nonneg _ (by omega)) (Int.emod_lt_of_pos _ (by omega)) h
      refine ⟨k + 1, by omega, ?_, hsh, ?_, hrr⟩
      · rw [hidx, Int.emod_add_emod]
        congr 1
        push_cast
        ring
      · intro k1 hk1
        cases k1 with
        | zero =>
          simp only [Nat.cast_zero, add_zero]
          rw [Int.emod_eq_of_lt h0 h1]
          simpa using hs
        | succ k2 =>
          have := hfirst k2 (by omega)
          rw [Int.emod_add_emod] at this
          rw [← this]
          congr 3
          push_cast
          ring

/-- The round-robin scan misses only when none of the slots it visits
passes the slot test. -/
theorem stx_search_shared_rr_loop_miss (pool : List shmem_transport_ofi_stx_t)
    (stx_max threshold : Int) (hmax : 1 ≤ stx_max) :
    ∀ (fuel : Nat) (i : Int), 0 ≤ i → i < stx_max →
      stx_search_shared_rr_loop pool stx_max threshold fuel i = none →
      ∀ k : Nat, k < fuel →
        stx_shareable (stx_pool_get pool ((i + k) % stx_max)) threshold = false
  | 0, i, _, _, _ => fun k hk => by omega
  | fuel + 1, i, h0, h1, h => by
    unfold stx_search_shared_rr_loop at h
    have hnext : (i + 1).tmod stx_max = (i + 1) % stx_max :=
      Int.tmod_eq_emod (by omega) (by omega)
    by_cases hs : stx_shareable (stx_pool_get pool i) threshold = true
    · rw [if_pos hs] at h
      cases h
    · rw [if_neg hs, hnext] at h
      have ih := stx_search_shared_rr_loop_miss pool stx_max threshold hmax fuel _
        (Int.emod_nonneg _ (by omega)) (Int.emod_lt_of_pos _ (by omega)) h
      intro k hk
      cases k with
      | zero =>
        simp only [Nat.cast_zero, add_zero]
        rw [Int.emod_eq_of_lt h0 h1]
        simpa using hs
      | succ k2 =>
        have := ih k2 (by omega)
        rw [Int.emod_add_emod] at this
        rw [← this]
        congr 3
        push_cast
        ring

/-- Every slot index is met within `stx_max` steps of the cyclic order from
any cursor. -/
theorem cyclic_order_covers (stx_max rr j : Int) (hmax : 1 ≤ stx_max) (hj0 : 0 ≤ j)
    (hj1 : j < stx_max) :
    ∃ k : Nat, k < stx_max.toNat ∧ (rr + k) % stx_max = j := by
  refine ⟨((j - rr) % stx_max).toNat, ?_, ?_⟩
  · have h0 := Int.emod_nonneg (j - rr) (by omega : stx_max ≠ 0)
    have h1 := Int.emod_lt_of_pos (j - rr) (by omega : 0 < stx_max)
    omega
  · have h0 := Int.emod_nonneg (j - rr) (by omega : stx_max ≠ 0)
    rw [Int.toNat_of_nonneg h0, Int.add_emod_emod]
    have : rr + (j - rr) = j := by ring
    rw [this]
    exact Int.emod_eq_of_lt hj0 hj1

/-- Claim C26.  Under the round-robin allocator, with the cursor inside a pool
of `stx_max ≥ 1` slots, `shmem_transport_ofi_stx_search_shared(threshold)`
returns, and it returns −1 exactly when no slot is eligible (in use, not
private, within the threshold unless the threshold is −1), leaving the cursor
as it was; otherwise it returns the first eligible slot in cyclic order from
the cursor and sets the cursor to `(index + 1) mod stx_max`. -/
theorem C26_find_shared_round_robin (s : TransportState) (threshold : Int)
    (hall : s.shmem_transport_ofi_stx_allocator = .ROUNDROBIN)
    (hmax : 1 ≤ s.shmem_transport_ofi_stx_max)
    (hrr : 0 ≤ s.rr_start_idx ∧ s.rr_start_idx < s.shmem_transport_ofi_stx_max) :
    (∀ slot : shmem_transport_ofi_stx_t, stx_shareable slot threshold = true ↔
      (0 < slot.ref_cnt ∧ slot.is_private = false ∧
        (slot.ref_cnt ≤ threshold ∨ threshold = -1))) ∧
    ∃ idx s1, shmem_transport_ofi_stx_search_shared s threshold = .ok (idx, s1) ∧
      (idx = -1 ↔ ∀ j : Int, 0 ≤ j → j < s.shmem_transport_ofi_stx_max →
        stx_shareable (stx_pool_get s.shmem_transport_ofi_stx_pool j) threshold = false) ∧
      (idx = -1 → s1 = s) ∧
      (idx ≠ -1 →
        ∃ k : Nat, (k : Int) < s.shmem_transport_ofi_stx_max ∧
          idx = (s.rr_start_idx + k) % s.shmem_transport_ofi_stx_max ∧
          stx_shareable (stx_pool_get s.shmem_transport_ofi_stx_pool idx) threshold = true ∧
          (∀ k1 : Nat, k1 < k →
            stx_shareable (stx_pool_get s.shmem_transport_ofi_stx_pool
              ((s.rr_start_idx + k1) % s.shmem_transport_ofi_stx_max)) threshold = false) ∧
          s1 = { s with rr_start_idx := (idx + 1) % s.shmem_transport_ofi_stx_max }) := by
  refine ⟨fun slot => stx_shareable_iff slot threshold, ?_⟩
  have hdef : shmem_transport_ofi_stx_search_shared s threshold
      = (match stx_search_shared_rr_loop s.shmem_transport_ofi_stx_pool
          s.shmem_transport_ofi_stx_max threshold s.shmem_transport_ofi_stx_max.toNat
          s.rr_start_idx with
        | some (stx_idx, rr) => .ok (stx_idx, { s with rr_start_idx := rr })
        | none => .ok (-1, s)) := by
    unfold shmem_transport_ofi_stx_search_shared
    split
    · rfl
    · rename_i hr
      rw [hall] at hr
      cases hr
  rw [hdef]
  cases hloop : stx_search_shared_rr_loop s.shmem_transport_ofi_stx_pool
      s.shmem_transport_ofi_stx_max threshold s.shmem_transport_ofi_stx_max.toNat
      s.rr_start_idx with
  | none =>
    have hmiss := stx_search_shared_rr_loop_miss _ _ _ hmax _ _ hrr.1 hrr.2 hloop
    refine ⟨-1, s, rfl, ⟨fun _ j hj0 hj1 => ?_, fun _ => rfl⟩, fun _ => rfl,
      fun hne => absurd rfl hne⟩
    obtain ⟨k, hk, hkj⟩ := cyclic_order_covers _ s.rr_start_idx j hmax hj0 hj1
    rw [← hkj]
    exact hmiss k hk
  | some r =>
    obtain ⟨idx, rr⟩ := r
    obtain ⟨k, hk, hidx, hsh, hfirst, hrr1⟩ :=
      stx_search_shared_rr_loop_first _ _ _ hmax _ _ idx rr hrr.1 hrr.2 hloop
    have hidx0 : 0 ≤ idx := by
      rw [hidx]; exact Int.emod_nonneg _ (by omega)
    have hidx1 : idx < s.shmem_transport_ofi_stx_max := by
      rw [hidx]; exact Int.emod_lt_of_pos _ (by omega)
    refine ⟨idx, { s with rr_start_idx := rr }, rfl, ⟨fun hc => by omega, fun hnone => ?_⟩,
      fun hc => by omega, fun _ => ⟨k, by omega, hidx, hsh, hfirst, by rw [hrr1]⟩⟩
    have := hnone idx hidx0 hidx1
    rw [hsh] at this
    cases this

/-- Witness for claim C26: in a pool of two slots with reference counts 2 and
1, threshold 1 and the cursor at 0, the search returns slot 1 and moves the
cursor to 0. -/
theorem C26_find_shared_round_robin_witness :
    shmem_transport_ofi_stx_search_shared
        { pool_of_two with
          shmem_transport_ofi_stx_pool :=
            [{ ref_cnt := 2, is_private := false }, { ref_cnt := 1, is_private := false }] } 1
      = .ok (1, { pool_of_two with
          shmem_transport_ofi_stx_pool :=
            [{ ref_cnt := 2, is_private := false }, { ref_cnt := 1, is_private := false }]
          rr_start_idx := 0 }) ∧
    ∃ idx s1, shmem_transport_ofi_stx_search_shared
        { pool_of_two with
          shmem_transport_ofi_stx_pool :=
            [{ ref_cnt := 2, is_private := false }, { ref_cnt := 1, is_private := false }] } 1
        = .ok (idx, s1) ∧
      (idx = -1 ↔ ∀ j : Int, 0 ≤ j → j < 2 →
        stx_shareable (stx_pool_get
          [{ ref_cnt := 2, is_private := false }, { ref_cnt := 1, is_private := false }] j) 1
          = false) ∧
      (idx = -1 → s1 = { pool_of_two with
          shmem_transport_ofi_stx_pool :=
            [{ ref_cnt := 2, is_private := false }, { ref_cnt := 1, is_private := false }] }) ∧
      (idx ≠ -1 →
        ∃ k : Nat, (k : Int) < 2 ∧
          idx = ((0 : Int) + k) % 2 ∧
          stx_shareable (stx_pool_get
            [{ ref_cnt := 2, is_private := false }, { ref_cnt := 1, is_private := false }] idx) 1
            = true ∧
          (∀ k1 : Nat, k1 < k →
            stx_shareable (stx_pool_get
              [{ ref_cnt := 2, is_private := false }, { ref_cnt := 1, is_private := false }]
              (((0 : Int) + k1) % 2)) 1 = false) ∧
          s1 = { { pool_of_two with
            shmem_transport_ofi_stx_pool :=
              [{ ref_cnt := 2, is_private := false }, { ref_cnt := 1, is_private := false }] }
            with rr_start_idx := (idx + 1) % 2 }) :=
  And.intro (by decide) (C26_find_shared_round_robin
    { pool_of_two with
      shmem_transport_ofi_stx_pool :=
        [{ ref_cnt := 2, is_private := false }, { ref_cnt := 1, is_private := false }] } 1
    rfl (by decide) (by decide)).2

/-- The pool after `ref_cnt++` on slot `i`: slot `i` has one reference more,
nothing else differs. -/
theorem stx_pool_incr_exactly (pool : List shmem_transport_ofi_stx_t) (i j : Int)
    (h0 : 0 ≤ i) (h1 : i.toNat < pool.length) (hj : 0 ≤ j) :
    stx_pool_get (stx_pool_incr pool i) j =
      if j = i then
        { stx_pool_get pool i with ref_cnt := (stx_pool_get pool i).ref_cnt + 1 }
      else stx_pool_get pool j := by
  unfold stx_pool_incr
  exact stx_pool_get_set pool i j _ h0 hj h1

/-- A slot `shmem_transport_ofi_stx_search_shared` returns passes the slot
test, and so lies in the pool. -/
theorem stx_search_shared_hit (s : TransportState) (threshold idx : Int) (s1 : TransportState)
    (h : shmem_transport_ofi_stx_search_shared s threshold = .ok (idx, s1)) (hidx : 0 ≤ idx) :
    stx_shareable (stx_pool_get s.shmem_transport_ofi_stx_pool idx) threshold = true := by
  unfold shmem_transport_ofi_stx_search_shared at h
  split at h
  · split at h
    · rename_i i rr hloop
      injection h with h
      injection h with hi _
      rw [← hi]
      exact stx_search_shared_rr_loop_hit _ _ _ _ _ _ _ hloop
    · injection h with h
      injection h with hi _
      omega
  · split at h
    · split at h
      · rename_i i rest hprobe
        injection h with h
        injection h with hi _
        rw [← hi]
        have hgen : ∀ (values : List Nat) (i : Int) (rest : List Nat),
            stx_search_shared_random_probe s.shmem_transport_ofi_stx_pool
              s.shmem_transport_ofi_stx_max threshold values = .ok (i, rest) →
            stx_shareable (stx_pool_get s.shmem_transport_ofi_stx_pool i) threshold = true := by
          intro values
          induction values with
          | nil =>
            intro i rest hp
            unfold stx_search_shared_random_probe at hp
            cases hp
          | cons u values ih =>
            intro i rest hp
            unfold stx_search_shared_random_probe at hp
            dsimp only at hp
            split at hp
            · rename_i hs
              injection hp with hp
              injection hp with hi _
              rw [← hi]
              exact hs
            · exact ih i rest hp
        exact hgen _ _ _ hprobe
      · cases h
    · injection h with h
      injection h with hi _
      omega

/-- A slot `shmem_transport_ofi_stx_search_unused` returns lies below
`stx_max`. -/
theorem stx_search_unused_hit (s : TransportState) (idx : Int)
    (h : shmem_transport_ofi_stx_search_unused s = .ok idx) (hidx : 0 ≤ idx) :
    idx < s.shmem_transport_ofi_stx_max ∧
    (stx_pool_get s.shmem_transport_ofi_stx_pool idx).ref_cnt = 0 := by
  unfold shmem_transport_ofi_stx_search_unused at h
  rcases stx_search_unused_loop_spec _ _ 0 idx (le_refl _) h with ⟨h1, _⟩ | ⟨_, h2, h3, _, _⟩
  · omega
  · exact ⟨by omega, h3⟩

/-- Claim C24.  For a context that is not private,
`shmem_transport_ofi_stx_allocate` binds the context to the slot that
`shmem_transport_ofi_stx_search_shared(stx_threshold)` returns if there is one,
else to the slot of `shmem_transport_ofi_stx_search_unused()` if there is one,
else to the slot of `shmem_transport_ofi_stx_search_shared(-1)`; the slot it
binds to lies in the pool, gets one reference more, and no other slot and no
entry of the owner table changes.  From a pool of two unused slots with
threshold 1 and the round-robin allocator, four such allocations leave the
reference counts 2 and 2. -/
theorem C24_stx_allocate_shared_path (s : TransportState) (ctx : shmem_transport_ctx_t)
    (hshared : shmem_transport_ofi_is_private s ctx.options = false)
    (hlen : s.shmem_transport_ofi_stx_pool.length = s.shmem_transport_ofi_stx_max.toNat) :
    (∀ (i : Int) (s1 : TransportState),
      shmem_transport_ofi_stx_search_shared s s.shmem_transport_ofi_stx_threshold
        = .ok (i, s1) → 0 ≤ i →
      shmem_transport_ofi_stx_allocate s ctx
        = .ok ({ ctx with stx_idx := i },
            { s1 with
              shmem_transport_ofi_stx_pool := stx_pool_incr s1.shmem_transport_ofi_stx_pool i })) ∧
    (∀ (i : Int) (s1 : TransportState) (j : Int),
      shmem_transport_ofi_stx_search_shared s s.shmem_transport_ofi_stx_threshold
        = .ok (i, s1) → i < 0 →
      shmem_transport_ofi_stx_search_unused s1 = .ok j → 0 ≤ j →
      shmem_transport_ofi_stx_allocate s ctx
        = .ok ({ ctx with stx_idx := j },
            { s1 with
              shmem_transport_ofi_stx_pool := stx_pool_incr s1.shmem_transport_ofi_stx_pool j })) ∧
    (∀ (i : Int) (s1 : TransportState) (j k : Int) (s2 : TransportState),
      shmem_transport_ofi_stx_search_shared s s.shmem_transport_ofi_stx_threshold
        = .ok (i, s1) → i < 0 →
      shmem_transport_ofi_stx_search_unused s1 = .ok j → j < 0 →
      shmem_transport_ofi_stx_search_shared s1 (-1) = .ok (k, s2) → 0 ≤ k →
      shmem_transport_ofi_stx_allocate s ctx
        = .ok ({ ctx with stx_idx := k },
            { s2 with
              shmem_transport_ofi_stx_pool := stx_pool_incr s2.shmem_transport_ofi_stx_pool k })) ∧
    (∀ (ctx1 : shmem_transport_ctx_t) (s1 : TransportState),
      shmem_transport_ofi_stx_allocate s ctx = .ok (ctx1, s1) →
      ctx1 = { ctx with stx_idx := ctx1.stx_idx } ∧
      0 ≤ ctx1.stx_idx ∧ ctx1.stx_idx < s.shmem_transport_ofi_stx_max ∧
      s1.shmem_transport_ofi_stx_kvs = s.shmem_transport_ofi_stx_kvs ∧
      ∀ j : Int, 0 ≤ j →
        stx_pool_get s1.shmem_transport_ofi_stx_pool j =
          if j = ctx1.stx_idx then
            { stx_pool_get s.shmem_transport_ofi_stx_pool j with
              ref_cnt := (stx_pool_get s.shmem_transport_ofi_stx_pool j).ref_cnt + 1 }
          else stx_pool_get s.shmem_transport_ofi_stx_pool j) ∧
    stx_allocate_each pool_of_two [shared_ctx, shared_ctx, shared_ctx, shared_ctx]
      = .ok ([{ shared_ctx with stx_idx := 0 }, { shared_ctx with stx_idx := 0 },
            { shared_ctx with stx_idx := 1 }, { shared_ctx with stx_idx := 1 }],
          { pool_of_two with
            shmem_transport_ofi_stx_pool :=
              [{ ref_cnt := 2, is_private := false }, { ref_cnt := 2, is_private := false }]
            rr_start_idx := 0 }) := by
  have hnp : ¬ shmem_transport_ofi_is_private s ctx.options = true := by
    rw [hshared]; decide
  refine ⟨?_, ?_, ?_, ?_, ?_⟩
  · intro i s1 h1 hi
    unfold shmem_transport_ofi_stx_allocate
    rw [if_neg hnp, h1]
    simp only [if_neg (not_lt.mpr hi), if_pos hi, ge_iff_le]
  · intro i s1 j h1 hi h2 hj
    unfold shmem_transport_ofi_stx_allocate
    rw [if_neg hnp, h1]
    simp only [if_pos hi, h2, if_neg (not_lt.mpr hj), if_pos hj, ge_iff_le]
  · intro i s1 j k s2 h1 hi h2 hj h3 hk
    unfold shmem_transport_ofi_stx_allocate
    rw [if_neg hnp, h1]
    simp only [if_pos hi, h2, if_pos hj, h3, if_pos hk, ge_iff_le]
  · intro ctx1 s1 h
    have hpoollen : ∀ idx : Int, 0 ≤ idx → idx < s.shmem_transport_ofi_stx_max →
        idx.toNat < s.shmem_transport_ofi_stx_pool.length := by
      intro idx h0 h1
      rw [hlen]
      omega
    have hfinish : ∀ (idx : Int) (sx : TransportState),
        (∃ rr values, sx = { s with rr_start_idx := rr, rand_r_values := values }) →
        0 ≤ idx → idx < s.shmem_transport_ofi_stx_max →
        ctx1 = { ctx with stx_idx := idx } →
        s1 = { sx with
          shmem_transport_ofi_stx_pool := stx_pool_incr sx.shmem_transport_ofi_stx_pool idx } →
        ctx1 = { ctx with stx_idx := ctx1.stx_idx } ∧
        0 ≤ ctx1.stx_idx ∧ ctx1.stx_idx < s.shmem_transport_ofi_stx_max ∧
        s1.shmem_transport_ofi_stx_kvs = s.shmem_transport_ofi_stx_kvs ∧
        ∀ j : Int, 0 ≤ j →
          stx_pool_get s1.shmem_transport_ofi_stx_pool j =
            if j = ctx1.stx_idx then
              { stx_pool_get s.shmem_transport_ofi_stx_pool j with
                ref_cnt := (stx_pool_get s.shmem_transport_ofi_stx_pool j).ref_cnt + 1 }
            else stx_pool_get s.shmem_transport_ofi_stx_pool j := by
      intro idx sx hsx h0 h1 hc hs
      obtain ⟨rr, values, hsx⟩ := hsx
      subst hsx
      subst hc
      subst hs
      refine ⟨rfl, h0, h1, rfl, ?_⟩
      intro j hj
      show stx_pool_get (stx_pool_incr s.shmem_transport_ofi_stx_pool idx) j = _
      rw [stx_pool_incr_exactly _ idx j h0 (hpoollen idx h0 h1) hj]
      by_cases hji : j = idx
      · rw [if_pos hji, if_pos hji, hji]
      · rw [if_neg hji, if_neg hji]
    unfold shmem_transport_ofi_stx_allocate at h
    rw [if_neg hnp] at h
    split at h
    · cases h
    rename_i i sa hsh1
    have hsa := stx_search_shared_changes _ _ _ _ hsh1
    split at h
    · cases h
    rename_i j hun
    split at h
    · cases h
    rename_i k sb hsh2
    split at h
    · rename_i hk
      injection h with h
      injection h with hc hs
      by_cases hi : i < 0
      · rw [if_pos hi] at hun
        by_cases hj : j < 0
        · rw [if_pos hj] at hsh2
          have hsb := stx_search_shared_changes _ _ _ _ hsh2
          have hsbs : ∃ rr values, sb = { s with rr_start_idx := rr, rand_r_values := values } := by
            obtain ⟨r1, v1, e1⟩ := hsa
            obtain ⟨r2, v2, e2⟩ := hsb
            exact ⟨r2, v2, by rw [e2, e1]⟩
          have hin := stx_search_shared_hit _ _ _ _ hsh2 hk
          have hpool : sa.shmem_transport_ofi_stx_pool = s.shmem_transport_ofi_stx_pool := by
            obtain ⟨r1, v1, e1⟩ := hsa
            rw [e1]
          rw [hpool] at hin
          have hlt := (stx_shareable_in_pool _ _ _ hin).1
          exact hfinish k sb hsbs hk (by rw [hlen] at hlt; omega) hc.symm hs.symm
        · rw [if_neg hj] at hsh2
          injection hsh2 with hsh2
          injection hsh2 with hkj hsab
          have hj0 : 0 ≤ j := not_lt.mp hj
          have hjmax := (stx_search_unused_hit sa j hun hj0).1
          have hmaxeq : sa.shmem_transport_ofi_stx_max = s.shmem_transport_ofi_stx_max := by
            obtain ⟨r1, v1, e1⟩ := hsa
            rw [e1]
          rw [hmaxeq] at hjmax
          exact hfinish k sb (by rw [← hsab]; exact hsa) hk (by omega) hc.symm hs.symm
      · rw [if_neg hi] at hun
        injection hun with hun
        have hj0 : ¬ j < 0 := by omega
        rw [if_neg hj0] at hsh2
        injection hsh2 with hsh2
        injection hsh2 with hkj hsab
        have hin := stx_search_shared_hit _ _ _ _ hsh1 (not_lt.mp hi)
        have hlt := (stx_shareable_in_pool _ _ _ hin).1
        exact hfinish k sb (by rw [← hsab]; exact hsa) hk (by rw [hlen] at hlt; omega)
          hc.symm hs.symm
    · cases h
  · decide

/-- Witness for claim C24: on the pool of two unused slots the search for a
shared slot misses, the search for an unused slot returns slot 0, and the
context is bound to slot 0. -/
theorem C24_stx_allocate_shared_path_witness :
    shmem_transport_ofi_stx_search_shared pool_of_two 1 = .ok (-1, pool_of_two) ∧
    shmem_transport_ofi_stx_search_unused pool_of_two = .ok 0 ∧
    shmem_transport_ofi_stx_allocate pool_of_two shared_ctx
      = .ok ({ shared_ctx with stx_idx := 0 },
          { pool_of_two with
            shmem_transport_ofi_stx_pool :=
              stx_pool_incr pool_of_two.shmem_transport_ofi_stx_pool 0 }) :=
  ⟨by decide, by decide,
    (C24_stx_allocate_shared_path pool_of_two shared_ctx (by decide) (by decide)).2.1
      (-1) pool_of_two 0 (by decide) (by decide) (by decide) (by decide)⟩

/-- The random probe ends when one of the values to come lands on a slot that
passes the slot test. -/
theorem stx_search_shared_random_probe_returns (pool : List shmem_transport_ofi_stx_t)
    (stx_max threshold : Int) :
    ∀ values : List Nat,
      (∃ u ∈ values, stx_shareable
        (stx_pool_get pool (((u : Int) * stx_max) / (RAND_MAX_plus_one : Int))) threshold = true) →
      ∃ idx rest, stx_search_shared_random_probe pool stx_max threshold values = .ok (idx, rest)
  | [], ⟨u, hu, _⟩ => by cases hu
  | v :: values, ⟨u, hu, hs⟩ => by
    unfold stx_search_shared_random_probe
    dsimp only
    by_cases hv : stx_shareable
        (stx_pool_get pool (((v : Int) * stx_max) / (RAND_MAX_plus_one : Int))) threshold = true
    · rw [if_pos hv]
      exact ⟨_, _, rfl⟩
    · rw [if_neg hv]
      rcases List.mem_cons.mp hu with huv | hu
      · rw [huv] at hs
        exact absurd hs hv
      · exact stx_search_shared_random_probe_returns pool stx_max threshold values ⟨u, hu, hs⟩

/-- The random probe stops in one way only: the values of `rand_r` run out. -/
theorem stx_search_shared_random_probe_error (pool : List shmem_transport_ofi_stx_t)
    (stx_max threshold : Int) :
    ∀ (values : List Nat) (e : String),
      stx_search_shared_random_probe pool stx_max threshold values = .error e →
      e = "random probe of the STX pool did not end"
  | [], e, h => by
    unfold stx_search_shared_random_probe at h
    injection h with h
    exact h.symm
  | v :: values, e, h => by
    unfold stx_search_shared_random_probe at h
    dsimp only at h
    split at h
    · cases h
    · exact stx_search_shared_random_probe_error pool stx_max threshold values e h

/-- `shmem_transport_ofi_stx_search_shared` stops only under the random
allocator, when the values of `rand_r` run out. -/
theorem stx_search_shared_error (s : TransportState) (threshold : Int) (e : String)
    (h : shmem_transport_ofi_stx_search_shared s threshold = .error e) :
    s.shmem_transport_ofi_stx_allocator = .RANDOM ∧
    e = "random probe of the STX pool did not end" := by
  unfold shmem_transport_ofi_stx_search_shared at h
  split at h
  · split at h <;> cases h
  · rename_i hall
    refine ⟨hall, ?_⟩
    split at h
    · split at h
      · cases h
      · rename_i e1 hprobe
        injection h with h
        rw [← h]
        exact stx_search_shared_random_probe_error _ _ _ _ _ hprobe
    · cases h

/-- A miss of `shmem_transport_ofi_stx_search_shared` returns −1 and leaves the
globals as they were. -/
theorem stx_search_shared_miss (s : TransportState) (threshold idx : Int) (s1 : TransportState)
    (hmax : 1 ≤ s.shmem_transport_ofi_stx_max) (hrr : 0 ≤ s.rr_start_idx)
    (h : shmem_transport_ofi_stx_search_shared s threshold = .ok (idx, s1)) (hidx : idx < 0) :
    idx = -1 ∧ s1 = s := by
  unfold shmem_transport_ofi_stx_search_shared at h
  split at h
  · split at h
    · rename_i i rr hloop
      injection h with h
      injection h with hi _
      have := (stx_search_shared_rr_loop_spec _ _ _ hmax _ _ _ _ hrr hloop).1
      omega
    · injection h with h
      injection h with hi hs
      exact ⟨hi.symm, hs.symm⟩
  · split at h
    · split at h
      · rename_i i rest hprobe
        injection h with h
        injection h with hi _
        have := (stx_search_shared_random_probe_spec _ _ _ hmax _ _ _ hprobe).1
        omega
      · cases h
    · injection h with h
      injection h with hi hs
      exact ⟨hi.symm, hs.symm⟩

/-- When some slot of the pool passes the slot test, a returning
`shmem_transport_ofi_stx_search_shared` returns a slot. -/
theorem stx_search_shared_finds (s : TransportState) (threshold idx : Int) (s1 : TransportState)
    (hmax : 1 ≤ s.shmem_transport_ofi_stx_max)
    (hrr : 0 ≤ s.rr_start_idx ∧ s.rr_start_idx < s.shmem_transport_ofi_stx_max)
    (j : Int) (hj0 : 0 ≤ j) (hj1 : j < s.shmem_transport_ofi_stx_max)
    (hsh : stx_shareable (stx_pool_get s.shmem_transport_ofi_stx_pool j) threshold = true)
    (h : shmem_transport_ofi_stx_search_shared s threshold = .ok (idx, s1)) :
    0 ≤ idx := by
  unfold shmem_transport_ofi_stx_search_shared at h
  split at h
  · split at h
    · rename_i i rr hloop
      injection h with h
      injection h with hi _
      have := (stx_search_shared_rr_loop_spec _ _ _ hmax _ _ _ _ hrr.1 hloop).1
      omega
    · rename_i hloop
      have hmiss := stx_search_shared_rr_loop_miss _ _ _ hmax _ _ hrr.1 hrr.2 hloop
      obtain ⟨k, hk, hkj⟩ := cyclic_order_covers _ s.rr_start_idx j hmax hj0 hj1
      have := hmiss k hk
      rw [hkj, hsh] at this
      cases this
  · split at h
    · split at h
      · rename_i i rest hprobe
        injection h with h
        injection h with hi _
        have := (stx_search_shared_random_probe_spec _ _ _ hmax _ _ _ hprobe).1
        omega
      · cases h
    · rename_i hany
      exfalso
      apply hany
      rw [List.any_eq_true]
      refine ⟨j.toNat, List.mem_range.mpr (by omega), ?_⟩
      rw [Int.toNat_of_nonneg hj0]
      exact hsh

/-- Under the random allocator the search returns when the values of `rand_r`
to come land on an eligible slot whenever there is one. -/
theorem stx_search_shared_random_returns (s : TransportState) (threshold : Int)
    (hfair : (∃ j : Int, 0 ≤ j ∧ j < s.shmem_transport_ofi_stx_max ∧
        stx_shareable (stx_pool_get s.shmem_transport_ofi_stx_pool j) threshold = true) →
      ∃ u ∈ s.rand_r_values, stx_shareable
        (stx_pool_get s.shmem_transport_ofi_stx_pool
          (((u : Int) * s.shmem_transport_ofi_stx_max) / (RAND_MAX_plus_one : Int)))
        threshold = true) :
    ∃ idx s1, shmem_transport_ofi_stx_search_shared s threshold = .ok (idx, s1) := by
  unfold shmem_transport_ofi_stx_search_shared
  split
  · split <;> exact ⟨_, _, rfl⟩
  · split
    · rename_i hany
      rw [List.any_eq_true] at hany
      obtain ⟨i, hi, hs⟩ := hany
      have hi1 := List.mem_range.mp hi
      obtain ⟨idx, rest, hprobe⟩ := stx_search_shared_random_probe_returns _ _ _ _
        (hfair ⟨(i : Int), Int.ofNat_nonneg i, by omega, hs⟩)
      rw [hprobe]
      exact ⟨_, _, rfl⟩
    · exact ⟨_, _, rfl⟩

/-- The search for an unused slot looks at the pool and at `stx_max` only. -/
theorem stx_search_unused_of_same_pool (s sx : TransportState)
    (h : ∃ rr values, sx = { s with rr_start_idx := rr, rand_r_values := values }) :
    shmem_transport_ofi_stx_search_unused sx = shmem_transport_ofi_stx_search_unused s := by
  obtain ⟨rr, values, h⟩ := h
  rw [h]
  rfl

/-- In a state whose pool invariant holds and in which some slot is in use
and not private, `shmem_transport_ofi_stx_allocate` fails neither of its
assertions: it stops only when the random probe runs out of values; and it
returns whenever both searches for a shared slot return. -/
theorem stx_allocate_outcome {s : TransportState} {L : List stx_binding}
    (hinv : PoolInv s L) (ctx : shmem_transport_ctx_t)
    (j : Int) (hj0 : 0 ≤ j) (hj1 : j < s.shmem_transport_ofi_stx_max)
    (hju : 0 < (stx_pool_get s.shmem_transport_ofi_stx_pool j).ref_cnt)
    (hjp : (stx_pool_get s.shmem_transport_ofi_stx_pool j).is_private = false) :
    (∀ e, shmem_transport_ofi_stx_allocate s ctx = .error e →
      s.shmem_transport_ofi_stx_allocator = .RANDOM ∧
      e = "random probe of the STX pool did not end") ∧
    ((∃ idx sa, shmem_transport_ofi_stx_search_shared s s.shmem_transport_ofi_stx_threshold
        = .ok (idx, sa)) →
      (∃ idx sb, shmem_transport_ofi_stx_search_shared s (-1) = .ok (idx, sb)) →
      ∃ ctx1 s1, shmem_transport_ofi_stx_allocate s ctx = .ok (ctx1, s1)) := by
  have hlen := hinv.len
  have hmax := hinv.max_pos
  have hrr := hinv.cursor
  have hshare : stx_shareable (stx_pool_get s.shmem_transport_ofi_stx_pool j) (-1) = true := by
    unfold stx_shareable
    simp [hju, hjp]
  obtain ⟨iu, hun⟩ := stx_search_unused_returns hinv
  have hthird : ∀ (idx : Int) (sb : TransportState),
      shmem_transport_ofi_stx_search_shared s (-1) = .ok (idx, sb) → 0 ≤ idx :=
    fun idx sb h => stx_search_shared_finds s (-1) idx sb hmax hrr j hj0 hj1 hshare h
  constructor
  · intro e h
    unfold shmem_transport_ofi_stx_allocate at h
    split at h
    · split at h
      · cases h
      · rw [hun] at h
        dsimp only at h
        split at h
        · split at h
          · rename_i e1 hsh1
            injection h with h
            rw [← h]
            exact stx_search_shared_error _ _ _ hsh1
          · rename_i idx1 sa hsh1
            split at h
            · rename_i e2 hsh2
              injection h with h
              rw [← h]
              split at hsh2
              · rename_i hneg
                obtain ⟨_, hsa⟩ := stx_search_shared_miss s _ idx1 sa hmax hrr.1 hsh1 hneg
                rw [hsa] at hsh2
                exact stx_search_shared_error _ _ _ hsh2
              · cases hsh2
            · rename_i idx2 sb hsh2
              split at h
              · cases h
              · rename_i hneg2
                exfalso
                apply hneg2
                split at hsh2
                · rename_i hneg
                  obtain ⟨_, hsa⟩ := stx_search_shared_miss s _ idx1 sa hmax hrr.1 hsh1 hneg
                  rw [hsa] at hsh2
                  exact hthird _ _ hsh2
                · rename_i hneg
                  injection hsh2 with hsh2
                  injection hsh2 with hi _
                  omega
        · cases h
    · split at h
      · rename_i e1 hsh1
        injection h with h
        rw [← h]
        exact stx_search_shared_error _ _ _ hsh1
      · rename_i idx1 sa hsh1
        have hsa_shape := stx_search_shared_changes _ _ _ _ hsh1
        have hun_a : shmem_transport_ofi_stx_search_unused sa = .ok iu := by
          rw [stx_search_unused_of_same_pool s sa hsa_shape, hun]
        split at h
        · rename_i e2 hun2
          split at hun2
          · rw [hun_a] at hun2
            cases hun2
          · cases hun2
        · rename_i idx2 hun2
          split at h
          · rename_i e3 hsh3
            injection h with h
            rw [← h]
            split at hsh3
            · have hneg1 : idx1 < 0 := by
                by_contra hc
                rw [if_neg hc] at hun2
                injection hun2 with hun2
                omega
              obtain ⟨_, hsa⟩ := stx_search_shared_miss s _ idx1 sa hmax hrr.1 hsh1 hneg1
              rw [hsa] at hsh3
              exact stx_search_shared_error _ _ _ hsh3
            · cases hsh3
          · rename_i idx3 sb hsh3
            split at h
            · cases h
            · rename_i hneg3
              exfalso
              apply hneg3
              split at hsh3
              · have hneg1 : idx1 < 0 := by
                  by_contra hc
                  rw [if_neg hc] at hun2
                  injection hun2 with hun2
                  omega
                obtain ⟨_, hsa⟩ := stx_search_shared_miss s _ idx1 sa hmax hrr.1 hsh1 hneg1
                rw [hsa] at hsh3
                exact hthird _ _ hsh3
              · injection hsh3 with hsh3
                injection hsh3 with hi _
                omega
  · rintro ⟨idx1, sa, hsh1⟩ ⟨idx3, sb, hsh3⟩
    have hge3 := hthird _ _ hsh3
    have hsa_shape := stx_search_shared_changes _ _ _ _ hsh1
    have hun_a : shmem_transport_ofi_stx_search_unused sa = .ok iu := by
      rw [stx_search_unused_of_same_pool s sa hsa_shape, hun]
    unfold shmem_transport_ofi_stx_allocate
    by_cases hp : shmem_transport_ofi_is_private s ctx.options = true
    · rw [if_pos hp]
      cases hfind : s.shmem_transport_ofi_stx_kvs.find? (fun e => decide (e.tid = ctx.tid)) with
      | some f => exact ⟨_, _, rfl⟩
      | none =>
        dsimp only
        rw [hun]
        dsimp only
        by_cases hneg : iu < 0
        · rw [if_pos hneg, hsh1]
          dsimp only
          by_cases hneg1 : idx1 < 0
          · obtain ⟨_, hsa⟩ := stx_search_shared_miss s _ idx1 sa hmax hrr.1 hsh1 hneg1
            rw [if_pos hneg1, hsa, hsh3]
            dsimp only
            rw [if_pos hge3]
            exact ⟨_, _, rfl⟩
          · rw [if_neg hneg1]
            dsimp only
            rw [if_pos (by omega : idx1 ≥ 0)]
            exact ⟨_, _, rfl⟩
        · rw [if_neg hneg]
          exact ⟨_, _, rfl⟩
    · rw [if_neg hp, hsh1]
      dsimp only
      by_cases hneg1 : idx1 < 0
      · obtain ⟨_, hsa⟩ := stx_search_shared_miss s _ idx1 sa hmax hrr.1 hsh1 hneg1
        rw [if_pos hneg1, hun_a]
        dsimp only
        by_cases hneg2 : iu < 0
        · rw [if_pos hneg2, hsa, hsh3]
          dsimp only
          rw [if_pos hge3]
          exact ⟨_, _, rfl⟩
        · rw [if_neg hneg2]
          dsimp only
          rw [if_pos (by omega : iu ≥ 0)]
          exact ⟨_, _, rfl⟩
      · rw [if_neg hneg1]
        dsimp only
        rw [if_neg hneg1]
        dsimp only
        rw [if_pos (by omega : idx1 ≥ 0)]
        exact ⟨_, _, rfl⟩

/-- Claim C25.  In every state of a run in which the default context has
been set up and is live (from the initial pool of `stx_max ≥ 1` slots, any
threshold, any allocator, any options), a call of
`shmem_transport_ofi_stx_allocate` for any context, private or not, fails
neither the assertion `stx_idx >= 0` nor the one of the search for an unused
slot; the slot it binds the context to lies in `[0, stx_max)`; under the
round-robin allocator the call returns, and under the random allocator it
returns as soon as the values of `rand_r` to come land on an eligible slot
whenever the pool has one. -/
theorem C25_stx_allocate_finds_slot (s : TransportState) (ctx : shmem_transport_ctx_t)
    (hrun : TransportReachable s .live) :
    (∀ e, shmem_transport_ofi_stx_allocate s ctx = .error e →
      s.shmem_transport_ofi_stx_allocator = .RANDOM ∧
      e = "random probe of the STX pool did not end") ∧
    (∀ ctx1 s1, shmem_transport_ofi_stx_allocate s ctx = .ok (ctx1, s1) →
      0 ≤ ctx1.stx_idx ∧ ctx1.stx_idx < s.shmem_transport_ofi_stx_max) ∧
    (s.shmem_transport_ofi_stx_allocator = .ROUNDROBIN →
      ∃ ctx1 s1, shmem_transport_ofi_stx_allocate s ctx = .ok (ctx1, s1)) ∧
    ((∀ threshold : Int,
        (∃ j : Int, 0 ≤ j ∧ j < s.shmem_transport_ofi_stx_max ∧
          stx_shareable (stx_pool_get s.shmem_transport_ofi_stx_pool j) threshold = true) →
        ∃ u ∈ s.rand_r_values, stx_shareable
          (stx_pool_get s.shmem_transport_ofi_stx_pool
            (((u : Int) * s.shmem_transport_ofi_stx_max) / (RAND_MAX_plus_one : Int)))
          threshold = true) →
      ∃ ctx1 s1, shmem_transport_ofi_stx_allocate s ctx = .ok (ctx1, s1)) := by
  have hinv := hrun.layer_inv
  obtain ⟨hd0, hd1, hdu, hdp⟩ := hinv.default_slot
  have hout := stx_allocate_outcome hinv.pool ctx _ hd0 hd1 hdu hdp
  refine ⟨hout.1, ?_, ?_, ?_⟩
  · intro ctx1 s1 h
    obtain ⟨⟨pool, kvs, rr, values, hs1⟩, _, hinv1⟩ :=
      stx_allocate_frame s ctx ctx1 s1 _ hinv.pool h
    have hb := hinv1.bound (ctx_binding s1 ctx1) (List.mem_cons_self _ _)
    have hmaxeq : s1.shmem_transport_ofi_stx_max = s.shmem_transport_ofi_stx_max := by
      rw [hs1]
    rw [hmaxeq] at hb
    exact hb
  · intro hall
    exact hout.2 (stx_search_shared_rr_returns s _ hall) (stx_search_shared_rr_returns s _ hall)
  · intro hfair
    exact hout.2 (stx_search_shared_random_returns s _ (hfair _))
      (stx_search_shared_random_returns s _ (hfair _))

/-- Witness for claim C25: after the set-up of the default context on the pool
of two slots, a further context is bound to slot 0, inside the pool. -/
theorem C25_stx_allocate_finds_slot_witness :
    TransportReachable pool_of_two_started .live ∧
    shmem_transport_ofi_stx_allocate pool_of_two_started shared_ctx
      = .ok ({ shared_ctx with stx_idx := 0 },
          { pool_of_two_started with
            shmem_transport_ofi_stx_pool :=
              [{ ref_cnt := 2, is_private := false }, { ref_cnt := 0, is_private := false }]
            rr_start_idx := 1 }) ∧
    (∃ ctx1 s1, shmem_transport_ofi_stx_allocate pool_of_two_started shared_ctx
      = .ok (ctx1, s1)) ∧
    0 ≤ ({ shared_ctx with stx_idx := 0 } : shmem_transport_ctx_t).stx_idx ∧
    ({ shared_ctx with stx_idx := 0 } : shmem_transport_ctx_t).stx_idx
      < pool_of_two_started.shmem_transport_ofi_stx_max :=
  have hrun : TransportReachable pool_of_two_started .live :=
    TransportReachable.startup pool_of_two { tid_t := 0, val := 0 } provider_calls_ok
      default_ctx_set_up
      { pool_of_two with
        shmem_transport_ofi_stx_pool :=
          [{ ref_cnt := 1, is_private := false }, { ref_cnt := 0, is_private := false }] }
      (TransportReachable.init pool_of_two (by decide) (by decide) rfl rfl rfl rfl)
      (by decide)
  have hev : shmem_transport_ofi_stx_allocate pool_of_two_started shared_ctx
      = .ok ({ shared_ctx with stx_idx := 0 },
          { pool_of_two_started with
            shmem_transport_ofi_stx_pool :=
              [{ ref_cnt := 2, is_private := false }, { ref_cnt := 0, is_private := false }]
            rr_start_idx := 1 }) := by decide
  ⟨hrun, hev, (C25_stx_allocate_finds_slot pool_of_two_started shared_ctx hrun).2.2.1 rfl,
    (C25_stx_allocate_finds_slot pool_of_two_started shared_ctx hrun).2.1 _ _ hev⟩

/-- The pool after `ref_cnt--` on slot `i`: slot `i` has one reference fewer,
nothing else differs. -/
theorem stx_pool_decr_exactly (pool : List shmem_transport_ofi_stx_t) (i j : Int)
    (h0 : 0 ≤ i) (h1 : i.toNat < pool.length) (hj : 0 ≤ j) :
    stx_pool_get (stx_pool_decr pool i) j =
      if j = i then
        { stx_pool_get pool i with ref_cnt := (stx_pool_get pool i).ref_cnt - 1 }
      else stx_pool_get pool j := by
  unfold stx_pool_decr
  exact stx_pool_get_set pool i j _ h0 hj h1

/-- The pool after `is_private = v` on slot `i`. -/
theorem stx_pool_set_private_exactly (pool : List shmem_transport_ofi_stx_t) (i j : Int)
    (v : Bool) (h0 : 0 ≤ i) (h1 : i.toNat < pool.length) (hj : 0 ≤ j) :
    stx_pool_get (stx_pool_set_private pool i v) j =
      if j = i then { stx_pool_get pool i with is_private := v }
      else stx_pool_get pool j := by
  unfold stx_pool_set_private
  exact stx_pool_get_set pool i j _ h0 hj h1

/-- The STX release of `shmem_transport_ctx_destroy` for a context whose
binding the pool invariant covers: the slot loses one reference; when the
context is private and that was the last reference, the entry of its thread
leaves the owner table and the slot stops being private. -/
theorem ctx_destroy_stx_exact {s : TransportState} {L : List stx_binding}
    (hinv : PoolInv s L) (ctx : shmem_transport_ctx_t) (hb : ctx_binding s ctx ∈ L) :
    0 ≤ ctx.stx_idx ∧ ctx.stx_idx < s.shmem_transport_ofi_stx_max ∧
    ctx.stx_idx.toNat < s.shmem_transport_ofi_stx_pool.length ∧
    1 ≤ (stx_pool_get s.shmem_transport_ofi_stx_pool ctx.stx_idx).ref_cnt ∧
    (shmem_transport_ofi_is_private s ctx.options = true →
      ({ stx_idx := ctx.stx_idx, tid := ctx.tid } : shmem_transport_ofi_stx_kvs_t)
        ∈ s.shmem_transport_ofi_stx_kvs) ∧
    (shmem_transport_ofi_is_private s ctx.options = false →
      (stx_pool_get s.shmem_transport_ofi_stx_pool ctx.stx_idx).is_private = false) ∧
    shmem_transport_ctx_destroy_stx s ctx = .ok
      (if shmem_transport_ofi_is_private s ctx.options = true
          ∧ (stx_pool_get s.shmem_transport_ofi_stx_pool ctx.stx_idx).ref_cnt = 1 then
        { s with
          shmem_transport_ofi_stx_kvs := s.shmem_transport_ofi_stx_kvs.erase
            { stx_idx := ctx.stx_idx, tid := ctx.tid }
          shmem_transport_ofi_stx_pool :=
            stx_pool_set_private (stx_pool_decr s.shmem_transport_ofi_stx_pool ctx.stx_idx)
              ctx.stx_idx false }
      else
        { s with
          shmem_transport_ofi_stx_pool :=
            stx_pool_decr s.shmem_transport_ofi_stx_pool ctx.stx_idx }) := by
  obtain ⟨hi0, hi1⟩ := hinv.bound _ hb
  have hi0 : 0 ≤ ctx.stx_idx := hi0
  have hi1 : ctx.stx_idx < s.shmem_transport_ofi_stx_max := hi1
  have hlen := hinv.len
  have hin : ctx.stx_idx.toNat < s.shmem_transport_ofi_stx_pool.length := by
    rw [hlen]; omega
  have href : 1 ≤ (stx_pool_get s.shmem_transport_ofi_stx_pool ctx.stx_idx).ref_cnt := by
    have hr := hinv.refs ctx.stx_idx.toNat hin
    rw [Int.toNat_of_nonneg hi0] at hr
    rw [hr]
    have hpos : 0 < L.countP (fun b => decide (b.stx_idx = ctx.stx_idx)) :=
      List.countP_pos_iff.mpr ⟨_, hb, by simp [ctx_binding]⟩
    omega
  have hown : shmem_transport_ofi_is_private s ctx.options = true →
      ({ stx_idx := ctx.stx_idx, tid := ctx.tid } : shmem_transport_ofi_stx_kvs_t)
        ∈ s.shmem_transport_ofi_stx_kvs := fun hp => hinv.owner _ hb hp
  have hsh : shmem_transport_ofi_is_private s ctx.options = false →
      (stx_pool_get s.shmem_transport_ofi_stx_pool ctx.stx_idx).is_private = false :=
    fun hp => hinv.shared _ hb hp
  refine ⟨hi0, hi1, hin, href, hown, hsh, ?_⟩
  have hdecr : stx_pool_get (stx_pool_decr s.shmem_transport_ofi_stx_pool ctx.stx_idx)
      ctx.stx_idx = { stx_pool_get s.shmem_transport_ofi_stx_pool ctx.stx_idx with
        ref_cnt := (stx_pool_get s.shmem_transport_ofi_stx_pool ctx.stx_idx).ref_cnt - 1 } := by
    rw [stx_pool_decr_exactly _ _ _ hi0 hin hi0, if_pos rfl]
  have hcnt : (stx_pool_get (stx_pool_decr s.shmem_transport_ofi_stx_pool ctx.stx_idx)
      ctx.stx_idx).ref_cnt
        = (stx_pool_get s.shmem_transport_ofi_stx_pool ctx.stx_idx).ref_cnt - 1 := by
    rw [hdecr]
  have hflag : (stx_pool_get (stx_pool_decr s.shmem_transport_ofi_stx_pool ctx.stx_idx)
      ctx.stx_idx).is_private
        = (stx_pool_get s.shmem_transport_ofi_stx_pool ctx.stx_idx).is_private := by
    rw [hdecr]
  unfold shmem_transport_ctx_destroy_stx
  rw [if_pos (by omega : ctx.stx_idx ≥ 0)]
  by_cases hp : shmem_transport_ofi_is_private s ctx.options = true
  · rw [if_pos hp]
    have hmem := hown hp
    cases hfind : s.shmem_transport_ofi_stx_kvs.find? (fun e => decide (e.tid = ctx.tid)) with
    | none =>
      have := List.find?_eq_none.mp hfind _ hmem
      simp at this
    | some e =>
      have he_mem : e ∈ s.shmem_transport_ofi_stx_kvs := List.mem_of_find?_eq_some hfind
      have he_tid : e.tid = ctx.tid := by
        have := List.find?_some hfind
        simpa using this
      have he : e = { stx_idx := ctx.stx_idx, tid := ctx.tid } :=
        kvs_entry_unique _ hinv.kvs_tid _ _ he_mem hmem he_tid
      subst he
      dsimp only
      by_cases hone : (stx_pool_get s.shmem_transport_ofi_stx_pool ctx.stx_idx).ref_cnt = 1
      · rw [if_pos (by rw [hcnt]; omega), if_pos ⟨hp, hone⟩]
      · rw [if_neg (by rw [hcnt]; omega), if_neg (fun hc => hone hc.2)]
  · rw [if_neg hp]
    dsimp only
    have hpf : shmem_transport_ofi_is_private s ctx.options = false := by
      simpa using hp
    have hslot := hsh hpf
    rw [if_neg (by rw [hflag, hslot]; decide), if_neg (fun hc => hp hc.1)]

/-- A live context of a run sits in the registry under its id, or is the
default context with `SHMEM_TRANSPORT_CTX_DEFAULT_ID`. -/
theorem live_context_id {s : TransportState} {phase : default_ctx_phase}
    (hinv : TransportInv s phase) (ctx : shmem_transport_ctx_t)
    (hlive : ctx ∈ live_contexts s phase) :
    0 ≤ ctx.id ∨ ctx.id = SHMEM_TRANSPORT_CTX_DEFAULT_ID := by
  unfold live_contexts at hlive
  rcases List.mem_append.mp hlive with h | h
  · by_cases hp : phase = .live
    · rw [if_pos hp] at h
      rw [List.mem_singleton.mp h]
      exact Or.inr (hinv.default_id hp)
    · rw [if_neg hp] at h
      cases h
  · have hmem := List.reduceOption_mem_iff.mp h
    obtain ⟨i, hi, hget⟩ := List.getElem_of_mem hmem
    have hreg := hinv.registry i ctx (by rw [List.getElem?_eq_getElem hi, hget])
    exact Or.inl (by rw [hreg]; exact Int.ofNat_nonneg i)

/-- Claim C27.  In a state of a run, `shmem_transport_ctx_destroy` of a live
context bound to slot `i` returns when the closes succeed, and whenever it
returns it has taken exactly 1 from the `ref_cnt` of slot `i` and left every
other slot as it was; if the context is private and the count has reached 0,
the entry of the context's thread has left the owner table (it was there, and
no entry of that thread remains) and slot `i` is no longer private; otherwise
the owner table and the `is_private` of slot `i` are as before. -/
theorem C27_ctx_destroy_releases_slot (s : TransportState) (phase : default_ctx_phase)
    (ctx : shmem_transport_ctx_t) (hrun : TransportReachable s phase)
    (hlive : ctx ∈ live_contexts s phase) :
    0 ≤ ctx.stx_idx ∧ ctx.stx_idx < s.shmem_transport_ofi_stx_max ∧
    (∃ s2, shmem_transport_ctx_destroy s ctx closes_ok = .ok s2) ∧
    ∀ (close : ctx_close_results) (s2 : TransportState),
      shmem_transport_ctx_destroy s ctx close = .ok s2 →
      (stx_pool_get s2.shmem_transport_ofi_stx_pool ctx.stx_idx).ref_cnt
        = (stx_pool_get s.shmem_transport_ofi_stx_pool ctx.stx_idx).ref_cnt - 1 ∧
      (∀ j : Int, 0 ≤ j → j ≠ ctx.stx_idx →
        stx_pool_get s2.shmem_transport_ofi_stx_pool j
          = stx_pool_get s.shmem_transport_ofi_stx_pool j) ∧
      ((shmem_transport_ofi_is_private s ctx.options = true ∧
          (stx_pool_get s2.shmem_transport_ofi_stx_pool ctx.stx_idx).ref_cnt = 0) →
        ({ stx_idx := ctx.stx_idx, tid := ctx.tid } : shmem_transport_ofi_stx_kvs_t)
          ∈ s.shmem_transport_ofi_stx_kvs ∧
        s2.shmem_transport_ofi_stx_kvs = s.shmem_transport_ofi_stx_kvs.erase
          { stx_idx := ctx.stx_idx, tid := ctx.tid } ∧
        (∀ f ∈ s2.shmem_transport_ofi_stx_kvs, f.tid ≠ ctx.tid) ∧
        (stx_pool_get s2.shmem_transport_ofi_stx_pool ctx.stx_idx).is_private = false) ∧
      (¬ (shmem_transport_ofi_is_private s ctx.options = true ∧
          (stx_pool_get s2.shmem_transport_ofi_stx_pool ctx.stx_idx).ref_cnt = 0) →
        s2.shmem_transport_ofi_stx_kvs = s.shmem_transport_ofi_stx_kvs ∧
        (stx_pool_get s2.shmem_transport_ofi_stx_pool ctx.stx_idx).is_private
          = (stx_pool_get s.shmem_transport_ofi_stx_pool ctx.stx_idx).is_private) := by
  have hinv := hrun.layer_inv
  have hb : ctx_binding s ctx ∈ (live_contexts s phase).map (ctx_binding s) :=
    List.mem_map_of_mem _ hlive
  obtain ⟨hi0, hi1, hin, href, hown, hsh, hstx⟩ := ctx_destroy_stx_exact hinv.pool ctx hb
  refine ⟨hi0, hi1, ctx_destroy_returns s ctx ⟨_, hstx⟩ (live_context_id hinv ctx hlive), ?_⟩
  intro close s2 hd
  obtain ⟨s1, hstx1, hshape⟩ := ctx_destroy_spec s ctx close s2 hd
  rw [hstx] at hstx1
  injection hstx1 with hs1
  have hpool2 : s2.shmem_transport_ofi_stx_pool = s1.shmem_transport_ofi_stx_pool := by
    rcases hshape with ⟨_, h⟩ | ⟨_, h⟩ <;> rw [h]
  have hkvs2 : s2.shmem_transport_ofi_stx_kvs = s1.shmem_transport_ofi_stx_kvs := by
    rcases hshape with ⟨_, h⟩ | ⟨_, h⟩ <;> rw [h]
  rw [hpool2, hkvs2]
  have hin_d : ctx.stx_idx.toNat
      < (stx_pool_decr s.shmem_transport_ofi_stx_pool ctx.stx_idx).length := by
    rw [stx_pool_decr_length]; exact hin
  by_cases hP : shmem_transport_ofi_is_private s ctx.options = true
      ∧ (stx_pool_get s.shmem_transport_ofi_stx_pool ctx.stx_idx).ref_cnt = 1
  · rw [if_pos hP] at hs1
    subst hs1
    have hslot : stx_pool_get (stx_pool_set_private
        (stx_pool_decr s.shmem_transport_ofi_stx_pool ctx.stx_idx) ctx.stx_idx false)
        ctx.stx_idx
        = { ref_cnt := (stx_pool_get s.shmem_transport_ofi_stx_pool ctx.stx_idx).ref_cnt - 1
            is_private := false } := by
      rw [stx_pool_set_private_exactly _ _ _ _ hi0 hin_d hi0, if_pos rfl,
        stx_pool_decr_exactly _ _ _ hi0 hin hi0, if_pos rfl]
    have hnodup : s.shmem_transport_ofi_stx_kvs.Nodup := List.Nodup.of_map _ hinv.pool.kvs_tid
    refine ⟨?_, ?_, ?_, ?_⟩
    · show (stx_pool_get (stx_pool_set_private _ _ _) _).ref_cnt = _
      rw [hslot]
    · intro j hj hne
      show stx_pool_get (stx_pool_set_private _ _ _) _ = _
      rw [stx_pool_set_private_exactly _ _ _ _ hi0 hin_d hj, if_neg hne,
        stx_pool_decr_exactly _ _ _ hi0 hin hj, if_neg hne]
    · intro _
      refine ⟨hown hP.1, rfl, ?_, ?_⟩
      · intro f hf htid
        have hf_mem : f ∈ s.shmem_transport_ofi_stx_kvs := List.mem_of_mem_erase hf
        have hfe : f = { stx_idx := ctx.stx_idx, tid := ctx.tid } :=
          kvs_entry_unique _ hinv.pool.kvs_tid _ _ hf_mem (hown hP.1) htid
        rw [hfe] at hf
        exact hnodup.not_mem_erase hf
      · show (stx_pool_get (stx_pool_set_private _ _ _) _).is_private = _
        rw [hslot]
    · intro hnot
      exfalso
      apply hnot
      refine ⟨hP.1, ?_⟩
      show (stx_pool_get (stx_pool_set_private _ _ _) _).ref_cnt = _
      rw [hslot]
      show _ - 1 = (0 : Int)
      omega
  · rw [if_neg hP] at hs1
    subst hs1
    have hslot : stx_pool_get (stx_pool_decr s.shmem_transport_ofi_stx_pool ctx.stx_idx)
        ctx.stx_idx
        = { ref_cnt := (stx_pool_get s.shmem_transport_ofi_stx_pool ctx.stx_idx).ref_cnt - 1
            is_private :=
              (stx_pool_get s.shmem_transport_ofi_stx_pool ctx.stx_idx).is_private } := by
      rw [stx_pool_decr_exactly _ _ _ hi0 hin hi0, if_pos rfl]
    refine ⟨?_, ?_, ?_, ?_⟩
    · show (stx_pool_get (stx_pool_decr _ _) _).ref_cnt = _
      rw [hslot]
    · intro j hj hne
      show stx_pool_get (stx_pool_decr _ _) _ = _
      rw [stx_pool_decr_exactly _ _ _ hi0 hin hj, if_neg hne]
    · intro hboth
      exfalso
      apply hP
      refine ⟨hboth.1, ?_⟩
      have h0 := hboth.2
      change (stx_pool_get (stx_pool_decr _ _) _).ref_cnt = 0 at h0
      rw [hslot] at h0
      change _ - 1 = (0 : Int) at h0
      omega
    · intro _
      refine ⟨rfl, ?_⟩
      show (stx_pool_get (stx_pool_decr _ _) _).is_private = _
      rw [hslot]

/-- Witness for claim C27: the private context of thread 7 holds the only
reference to slot 1; destroying it takes that reference, removes the entry of
thread 7 from the owner table and clears the `is_private` of slot 1. -/
theorem C27_ctx_destroy_releases_slot_witness :
    TransportReachable pool_of_two_with_private .live ∧
    shmem_transport_ctx_destroy pool_of_two_with_private (private_ctx_created 0 1 7) closes_ok
      = .ok { pool_of_two_started with
          shmem_transport_ofi_contexts :=
            ((List.replicate 128 none).set 0 (some (private_ctx_created 0 1 7))).set 0 none } ∧
    (stx_pool_get pool_of_two_started.shmem_transport_ofi_stx_pool 1).ref_cnt
      = (stx_pool_get pool_of_two_with_private.shmem_transport_ofi_stx_pool 1).ref_cnt - 1 ∧
    pool_of_two_started.shmem_transport_ofi_stx_kvs
      = pool_of_two_with_private.shmem_transport_ofi_stx_kvs.erase
          { stx_idx := 1, tid := { tid_t := 0, val := 7 } } ∧
    (stx_pool_get pool_of_two_started.shmem_transport_ofi_stx_pool 1).is_private = false :=
  have hstart : TransportReachable pool_of_two_started .live :=
    TransportReachable.startup pool_of_two { tid_t := 0, val := 0 } provider_calls_ok
      default_ctx_set_up
      { pool_of_two with
        shmem_transport_ofi_stx_pool :=
          [{ ref_cnt := 1, is_private := false }, { ref_cnt := 0, is_private := false }] }
      (TransportReachable.init pool_of_two (by decide) (by decide) rfl rfl rfl rfl)
      (by decide)
  have hrun : TransportReachable pool_of_two_with_private .live :=
    TransportReachable.create pool_of_two_started .live options_private none
      { tid_t := 0, val := 7 } provider_calls_ok closes_ok 0
      (some (private_ctx_created 0 1 7)) _ hstart (by decide)
  have hd : shmem_transport_ctx_destroy pool_of_two_with_private (private_ctx_created 0 1 7)
      closes_ok
      = .ok { pool_of_two_started with
          shmem_transport_ofi_contexts :=
            ((List.replicate 128 none).set 0 (some (private_ctx_created 0 1 7))).set 0 none } := by
    decide
  have hc := (C27_ctx_destroy_releases_slot pool_of_two_with_private .live
    (private_ctx_created 0 1 7) hrun (by decide)).2.2.2 closes_ok _ hd
  ⟨hrun, hd, hc.1, (hc.2.2.1 ⟨by decide, by decide⟩).2.1, (hc.2.2.1 ⟨by decide, by decide⟩).2.2.2⟩

/-- The owner table under the pool invariant: an entry `(t, i)` is there
exactly when some binding of the list is private, of thread `t` and on slot
`i`; slot `i` is then private and its `ref_cnt` is the number of those
bindings. -/
theorem PoolInv.owner_entries {s : TransportState} {L : List stx_binding} (h : PoolInv s L)
    (t : shmem_internal_tid) (i : Int) :
    ((({ stx_idx := i, tid := t } : shmem_transport_ofi_stx_kvs_t)
        ∈ s.shmem_transport_ofi_stx_kvs) ↔
      ∃ b ∈ L, b.is_private = true ∧ b.tid = t ∧ b.stx_idx = i) ∧
    ((({ stx_idx := i, tid := t } : shmem_transport_ofi_stx_kvs_t)
        ∈ s.shmem_transport_ofi_stx_kvs) →
      (stx_pool_get s.shmem_transport_ofi_stx_pool i).is_private = true ∧
      (stx_pool_get s.shmem_transport_ofi_stx_pool i).ref_cnt =
        L.countP (fun b => b.is_private && decide (b.tid = t) && decide (b.stx_idx = i))) := by
  have hkey : (({ stx_idx := i, tid := t } : shmem_transport_ofi_stx_kvs_t)
        ∈ s.shmem_transport_ofi_stx_kvs) →
      ∀ b ∈ L, b.stx_idx = i → b.is_private = true ∧ b.tid = t := by
    intro he b hb hbi
    obtain ⟨_, _, hpriv⟩ := h.kvs_ok _ he
    have hbp : b.is_private = true := by
      cases hp : b.is_private
      · have := h.shared b hb hp
        rw [hbi] at this
        rw [this] at hpriv
        cases hpriv
      · rfl
    have hown := h.owner b hb hbp
    have heq := kvs_entry_unique_idx _ h.kvs_idx _ _ hown he hbi
    have htid : b.tid = t := congrArg (fun e => e.tid) heq
    exact ⟨hbp, htid⟩
  constructor
  · constructor
    · intro he
      obtain ⟨hi0, hi1, hpriv⟩ := h.kvs_ok _ he
      have hi0 : 0 ≤ i := hi0
      have hi1 : i < s.shmem_transport_ofi_stx_max := hi1
      have hin : i.toNat < s.shmem_transport_ofi_stx_pool.length := by
        rw [h.len]; omega
      have hone := h.priv i.toNat hin (by rw [Int.toNat_of_nonneg hi0]; exact hpriv)
      have href := h.refs i.toNat hin
      rw [Int.toNat_of_nonneg hi0] at hone href
      rw [href] at hone
      have hpos : 0 < L.countP (fun b => decide (b.stx_idx = i)) := by omega
      obtain ⟨b, hb, hbi⟩ := List.countP_pos_iff.mp hpos
      have hbi : b.stx_idx = i := by simpa using hbi
      obtain ⟨hbp, htid⟩ := hkey he b hb hbi
      exact ⟨b, hb, hbp, htid, hbi⟩
    · rintro ⟨b, hb, hbp, htid, hbi⟩
      have := h.owner b hb hbp
      rw [htid, hbi] at this
      exact this
  · intro he
    obtain ⟨hi0, hi1, hpriv⟩ := h.kvs_ok _ he
    have hi0 : 0 ≤ i := hi0
    have hi1 : i < s.shmem_transport_ofi_stx_max := hi1
    have hin : i.toNat < s.shmem_transport_ofi_stx_pool.length := by
      rw [h.len]; omega
    refine ⟨hpriv, ?_⟩
    have href := h.refs i.toNat hin
    rw [Int.toNat_of_nonneg hi0] at href
    rw [href]
    congr 1
    apply List.countP_congr
    intro b hb
    constructor
    · intro hbi
      have hbi : b.stx_idx = i := by simpa using hbi
      obtain ⟨hbp, htid⟩ := hkey he b hb hbi
      simp [hbp, htid, hbi]
    · intro hall
      simp only [Bool.and_eq_true, decide_eq_true_eq] at hall
      simpa using hall.2

/-- Claim C28, the counterexample.  With `OFI_STX_DISABLE_PRIVATE` set, a
private context is created on thread 7 after the default context: the create
returns 0, the new context is live, keeps `SHMEM_CTX_PRIVATE` in its options
and is bound to slot 0, and the owner table has no entry at all; slot 0 is not
private. -/
theorem C28_private_option_without_entry :
    TransportReachable pool_of_two_no_private_created .live ∧
    shmem_transport_ctx_create pool_of_two_no_private_started options_private none
        { tid_t := 0, val := 7 } provider_calls_ok closes_ok
      = .ok (0, some (private_ctx_created 0 0 0), pool_of_two_no_private_created) ∧
    private_ctx_created 0 0 0 ∈ live_contexts pool_of_two_no_private_created .live ∧
    (private_ctx_created 0 0 0).options.SHMEM_CTX_PRIVATE = true ∧
    (private_ctx_created 0 0 0).stx_idx = 0 ∧
    pool_of_two_no_private_created.shmem_transport_ofi_stx_kvs = [] ∧
    (stx_pool_get pool_of_two_no_private_created.shmem_transport_ofi_stx_pool 0).is_private
      = false ∧
    (stx_pool_get pool_of_two_no_private_created.shmem_transport_ofi_stx_pool 0).ref_cnt = 2 :=
  have hstart : TransportReachable pool_of_two_no_private_started .live :=
    TransportReachable.startup pool_of_two_no_private { tid_t := 0, val := 0 }
      provider_calls_ok default_ctx_set_up
      { pool_of_two_no_private with
        shmem_transport_ofi_stx_pool :=
          [{ ref_cnt := 1, is_private := false }, { ref_cnt := 0, is_private := false }] }
      (TransportReachable.init pool_of_two_no_private (by decide) (by decide) rfl rfl rfl rfl)
      (by decide)
  have hcreate : shmem_transport_ctx_create pool_of_two_no_private_started options_private none
        { tid_t := 0, val := 7 } provider_calls_ok closes_ok
      = .ok (0, some (private_ctx_created 0 0 0), pool_of_two_no_private_created) := by decide
  ⟨TransportReachable.create pool_of_two_no_private_started .live options_private none
      { tid_t := 0, val := 7 } provider_calls_ok closes_ok 0
      (some (private_ctx_created 0 0 0)) _ hstart hcreate,
    hcreate, by decide, rfl, rfl, rfl, by decide, by decide⟩

/-- Claim C28, amended.  In every state of a run the owner table has an entry
`(t, i)` exactly when some live context counts as private
(`shmem_transport_ofi_is_private` of its options: `SHMEM_CTX_PRIVATE` is set
and `OFI_STX_DISABLE_PRIVATE` is not), has `t` as its recorded thread id and
is bound to slot `i`; slot `i` is then private, its `ref_cnt` is the number of
those contexts, and no two entries of the table name the same slot or the
same thread. -/
theorem C28_owner_map_entries (s : TransportState) (phase : default_ctx_phase)
    (hrun : TransportReachable s phase) :
    (∀ (t : shmem_internal_tid) (i : Int),
      (({ stx_idx := i, tid := t } : shmem_transport_ofi_stx_kvs_t)
          ∈ s.shmem_transport_ofi_stx_kvs) ↔
        ∃ c ∈ live_contexts s phase,
          shmem_transport_ofi_is_private s c.options = true ∧ c.tid = t ∧ c.stx_idx = i) ∧
    (∀ (t : shmem_internal_tid) (i : Int),
      (({ stx_idx := i, tid := t } : shmem_transport_ofi_stx_kvs_t)
          ∈ s.shmem_transport_ofi_stx_kvs) →
        (stx_pool_get s.shmem_transport_ofi_stx_pool i).is_private = true ∧
        (stx_pool_get s.shmem_transport_ofi_stx_pool i).ref_cnt =
          (live_contexts s phase).countP (fun c =>
            shmem_transport_ofi_is_private s c.options && decide (c.tid = t)
              && decide (c.stx_idx = i))) ∧
    (s.shmem_transport_ofi_stx_kvs.map (fun e => e.stx_idx)).Nodup ∧
    (s.shmem_transport_ofi_stx_kvs.map (fun e => e.tid)).Nodup := by
  have hinv := hrun.layer_inv.pool
  refine ⟨?_, ?_, hinv.kvs_idx, hinv.kvs_tid⟩
  · intro t i
    rw [(hinv.owner_entries t i).1]
    constructor
    · rintro ⟨b, hb, hbp, htid, hbi⟩
      obtain ⟨c, hc, hcb⟩ := List.mem_map.mp hb
      subst hcb
      exact ⟨c, hc, hbp, htid, hbi⟩
    · rintro ⟨c, hc, hcp, htid, hci⟩
      exact ⟨ctx_binding s c, List.mem_map_of_mem _ hc, hcp, htid, hci⟩
  · intro t i he
    obtain ⟨hp, hcount⟩ := (hinv.owner_entries t i).2 he
    refine ⟨hp, ?_⟩
    rw [hcount, List.countP_map]
    rfl

/-- Witness for claim C28: after a private context was created on thread 7
the owner table has the entry (thread 7, slot 1); slot 1 is private and its
`ref_cnt` is the number of live private contexts of thread 7 on slot 1. -/
theorem C28_owner_map_entries_witness :
    TransportReachable pool_of_two_with_private .live ∧
    (∃ c ∈ live_contexts pool_of_two_with_private .live,
      shmem_transport_ofi_is_private pool_of_two_with_private c.options = true ∧
      c.tid = { tid_t := 0, val := 7 } ∧ c.stx_idx = 1) ∧
    (stx_pool_get pool_of_two_with_private.shmem_transport_ofi_stx_pool 1).is_private = true ∧
    (stx_pool_get pool_of_two_with_private.shmem_transport_ofi_stx_pool 1).ref_cnt =
      (live_contexts pool_of_two_with_private .live).countP (fun c =>
        shmem_transport_ofi_is_private pool_of_two_with_private c.options
          && decide (c.tid = { tid_t := 0, val := 7 }) && decide (c.stx_idx = 1)) :=
  have hstart : TransportReachable pool_of_two_started .live :=
    TransportReachable.startup pool_of_two { tid_t := 0, val := 0 } provider_calls_ok
      default_ctx_set_up
      { pool_of_two with
        shmem_transport_ofi_stx_pool :=
          [{ ref_cnt := 1, is_private := false }, { ref_cnt := 0, is_private := false }] }
      (TransportReachable.init pool_of_two (by decide) (by decide) rfl rfl rfl rfl)
      (by decide)
  have hrun : TransportReachable pool_of_two_with_private .live :=
    TransportReachable.create pool_of_two_started .live options_private none
      { tid_t := 0, val := 7 } provider_calls_ok closes_ok 0
      (some (private_ctx_created 0 1 7)) _ hstart (by decide)
  have hc := C28_owner_map_entries pool_of_two_with_private .live hrun
  ⟨hrun, (hc.1 { tid_t := 0, val := 7 } 1).mp (by decide),
    (hc.2.1 { tid_t := 0, val := 7 } 1 (by decide)).1,
    (hc.2.1 { tid_t := 0, val := 7 } 1 (by decide)).2⟩

/-- A PE that lies in none of the active sets of an axis makes no strided
split on it: `*axis_team` and the globals are left as they were. -/
theorem split_2d_axis_skip (parent_team : shmem_internal_team_t)
    (axis_config : Option Int) (axis_mask : Int) (peers : Nat → List Nat)
    (failure : String) :
    ∀ (teams : List (Int × Int × Int)) (k : Nat) (s : TeamsState)
      (axis_team : Option shmem_internal_team_t) (calls : List (Int × Int × Int)),
      (∀ t ∈ teams,
        (shmem_internal_pe_in_active_set s.shmem_internal_my_pe t.1 t.2.1 t.2.2).1 = false) →
      split_2d_axis parent_team axis_config axis_mask peers failure teams k s axis_team calls
        = .ok (axis_team, s, calls)
  | [], k, s, axis_team, calls, _ => by
    unfold split_2d_axis
    rfl
  | (start, stride, members) :: rest, k, s, axis_team, calls, h => by
    unfold split_2d_axis
    have hhead := h (start, stride, members) (List.mem_cons_self _ _)
    dsimp only at hhead
    rw [if_neg (by rw [hhead]; decide)]
    exact split_2d_axis_skip parent_team axis_config axis_mask peers failure rest (k + 1) s
      axis_team calls (fun t ht => h t (List.mem_cons_of_mem _ ht))

/-- The loop of one axis over no triple. -/
theorem split_2d_axis_nil (parent_team : shmem_internal_team_t)
    (axis_config : Option Int) (axis_mask : Int) (peers : Nat → List Nat)
    (failure : String) (k : Nat) (s : TeamsState)
    (axis_team : Option shmem_internal_team_t) (calls : List (Int × Int × Int)) :
    split_2d_axis parent_team axis_config axis_mask peers failure [] k s axis_team calls
      = .ok (axis_team, s, calls) := by
  unfold split_2d_axis
  rfl

/-- One iteration of the loop of one axis. -/
theorem split_2d_axis_cons (parent_team : shmem_internal_team_t)
    (axis_config : Option Int) (axis_mask : Int) (peers : Nat → List Nat)
    (failure : String) (start stride members : Int) (rest : List (Int × Int × Int))
    (k : Nat) (s : TeamsState)
    (axis_team : Option shmem_internal_team_t) (calls : List (Int × Int × Int)) :
    split_2d_axis parent_team axis_config axis_mask peers failure
        ((start, stride, members) :: rest) k s axis_team calls
      = if (shmem_internal_pe_in_active_set s.shmem_internal_my_pe start stride members).1 then
          match shmem_internal_team_split_strided s (peers k) parent_team start stride members
              axis_config axis_mask axis_team with
          | .error e => .error e
          | .ok (ret, axis_team1, s1) =>
            if ret ≠ 0 then
              .error failure
            else
              split_2d_axis parent_team axis_config axis_mask peers failure rest (k + 1) s1
                axis_team1 (calls ++ [(start, stride, members)])
        else
          split_2d_axis parent_team axis_config axis_mask peers failure rest (k + 1) s
            axis_team calls := by
  rw [split_2d_axis]

/-- The loop of one axis over a list of triples followed by another is the
loop over the first list, then, from where it stopped, over the second. -/
theorem split_2d_axis_append (parent_team : shmem_internal_team_t)
    (axis_config : Option Int) (axis_mask : Int) (peers : Nat → List Nat)
    (failure : String) (more : List (Int × Int × Int)) :
    ∀ (teams : List (Int × Int × Int)) (k : Nat) (s : TeamsState)
      (axis_team : Option shmem_internal_team_t) (calls : List (Int × Int × Int)),
      split_2d_axis parent_team axis_config axis_mask peers failure (teams ++ more) k s
          axis_team calls
        = match split_2d_axis parent_team axis_config axis_mask peers failure teams k s
            axis_team calls with
          | .error e => .error e
          | .ok (axis_team1, s1, calls1) =>
            split_2d_axis parent_team axis_config axis_mask peers failure more
              (k + teams.length) s1 axis_team1 calls1
  | [], k, s, axis_team, calls => by
    simp only [List.nil_append, List.length_nil, Nat.add_zero]
    rw [split_2d_axis_nil]
  | (start, stride, members) :: rest, k, s, axis_team, calls => by
    rw [List.cons_append, split_2d_axis_cons, split_2d_axis_cons]
    have hk : k + ((start, stride, members) :: rest).length = k + 1 + rest.length := by
      simp only [List.length_cons]; omega
    by_cases hin : (shmem_internal_pe_in_active_set s.shmem_internal_my_pe start stride
        members).1 = true
    · rw [if_pos hin, if_pos hin]
      cases hsplit : shmem_internal_team_split_strided s (peers k) parent_team start stride
          members axis_config axis_mask axis_team with
      | error e => rfl
      | ok r =>
        obtain ⟨ret, out, s2⟩ := r
        dsimp only
        by_cases hret : ret ≠ 0
        · rw [if_pos hret, if_pos hret]
        · rw [if_neg hret, if_neg hret, hk]
          exact split_2d_axis_append parent_team axis_config axis_mask peers failure more rest
            (k + 1) s2 out _
    · rw [if_neg hin, if_neg hin, hk]
      exact split_2d_axis_append parent_team axis_config axis_mask peers failure more rest
        (k + 1) s axis_team calls

/-- With `2 ^ 24 + 1` PEs and `xrange = 2` the `float` expression gives
8388608, one less than the ceiling of the quotient: `(float) 16777217` is
16777216. -/
theorem ceil_of_float_quotient_beyond_24_bits :
    float_round 16777217 1 = (2 ^ 24 / 2, 1) ∧
    ceil_of_float_quotient 16777217 2 = 8388608 ∧
    spec_ceil_quotient 16777217 2 = 8388609 := by
  decide


theorem split_2d_xteams_beyond_24_bits :
    split_2d_xteams world_of_16777217 2 =
      (List.range 8388607).map (fun j : Nat => ((j : Int) * 2, (1 : Int), (2 : Int)))
        ++ [(16777214, 1, 1)] := by
  have hc : ceil_of_float_quotient 16777217 2 = 8388608 :=
    ceil_of_float_quotient_beyond_24_bits.2.1
  have hn : (8388608 : Int).toNat = 8388607 + 1 := by decide
  have h0 : split_2d_xteams world_of_16777217 2 =
      split_2d_xteams_from 1 16777217 2 (ceil_of_float_quotient 16777217 2)
        (ceil_of_float_quotient 16777217 2).toNat 0 0 := by
    unfold split_2d_xteams world_of_16777217
    rfl
  rw [h0, hc, hn, split_2d_xteams_from_eq, List.range_succ, List.map_append]
  have hhead : (List.range 8388607).map (fun j : Nat =>
        ((0 : Int) + (j : Int) * (2 * 1), (1 : Int),
          if (0 : Int) + (j : Int) = 8388608 - 1 ∧ (16777217 : Int).tmod 2 ≠ 0 then
            (16777217 : Int).tmod 2 else 2))
      = (List.range 8388607).map (fun j : Nat => ((j : Int) * 2, (1 : Int), (2 : Int))) := by
    apply List.map_congr_left
    intro j hj
    have hj1 := List.mem_range.mp hj
    have hne : ¬ ((0 : Int) + (j : Int) = 8388608 - 1 ∧ (16777217 : Int).tmod 2 ≠ 0) := by
      intro hcj
      omega
    rw [if_neg hne]
    simp only [Prod.mk.injEq, and_true]
    omega
  have htail : List.map (fun j : Nat =>
        ((0 : Int) + (j : Int) * (2 * 1), (1 : Int),
          if (0 : Int) + (j : Int) = 8388608 - 1 ∧ (16777217 : Int).tmod 2 ≠ 0 then
            (16777217 : Int).tmod 2 else 2)) [8388607]
      = [(16777214, 1, 1)] := by
    decide
  rw [hhead, htail]

/-- With stride 1 a PE at or beyond `start + size` is not in the active set. -/
theorem pe_in_active_set_beyond (g st sz : Int) (h : st + sz ≤ g) :
    (shmem_internal_pe_in_active_set g st 1 sz).1 = false := by
  unfold shmem_internal_pe_in_active_set
  dsimp only
  rw [Int.tdiv_one, if_neg (by omega)]

/-- With `2 ^ 24 + 1` PEs and `xrange = 2` no x-team reaches a PE from rank
16777215 on. -/
theorem split_2d_xteams_beyond_24_bits_miss (me : Int) (hme : 16777215 ≤ me)
    (t : Int × Int × Int) (ht : t ∈ split_2d_xteams world_of_16777217 2) :
    (shmem_internal_pe_in_active_set me t.1 t.2.1 t.2.2).1 = false := by
  rw [split_2d_xteams_beyond_24_bits, List.mem_append] at ht
  rcases ht with ht | ht
  · obtain ⟨j, hj, rfl⟩ := List.mem_map.mp ht
    have hj1 := List.mem_range.mp hj
    exact pe_in_active_set_beyond me _ _ (by dsimp only; omega)
  · rw [List.mem_singleton] at ht
    subst ht
    exact pe_in_active_set_beyond me _ _ (by dsimp only; omega)

/-- With `2 ^ 24 + 1` PEs and `xrange = 2` the x-teams before the last do not
reach PE 16777214. -/
theorem split_2d_xteams_beyond_24_bits_prefix (t : Int × Int × Int)
    (ht : t ∈ (List.range 8388607).map
      (fun j : Nat => ((j : Int) * 2, (1 : Int), (2 : Int)))) :
    (shmem_internal_pe_in_active_set 16777214 t.1 t.2.1 t.2.2).1 = false := by
  obtain ⟨j, hj, rfl⟩ := List.mem_map.mp ht
  have hj1 := List.mem_range.mp hj
  exact pe_in_active_set_beyond 16777214 _ _ (by dsimp only; omega)

/-- The sizes of `n` runs of two PEs sum to `2 * n`. -/
theorem sum_of_runs_of_two (n : Nat) :
    (((List.range n).map (fun j : Nat => ((j : Int) * 2, (1 : Int), (2 : Int)))).map
      (fun t : Int × Int × Int => t.2.2)).sum = 2 * (n : Int) := by
  induction n with
  | zero => rfl
  | succ n ih =>
    rw [List.range_succ, List.map_append, List.map_append, List.sum_append, ih]
    simp only [List.map_cons, List.map_nil, List.sum_cons, List.sum_nil]
    push_cast
    ring

/-! ### The `float` expression for parent sizes below `2 ^ 24` -/

/-- The number of binary digits of a positive `n`, the fuel being enough. -/
theorem binary_digits_spec : ∀ (fuel n : Nat), n ≤ fuel → 0 < n →
    1 ≤ binary_digits fuel n ∧ 2 ^ (binary_digits fuel n - 1) ≤ n ∧
      n < 2 ^ binary_digits fuel n
  | 0, n, h, h0 => by omega
  | fuel + 1, n, h, h0 => by
    have hn : n ≠ 0 := by omega
    have hdef : binary_digits (fuel + 1) n = binary_digits fuel (n / 2) + 1 := by
      rw [binary_digits, if_neg hn]
    rw [hdef]
    by_cases h2 : n / 2 = 0
    · have hz : binary_digits fuel (n / 2) = 0 := by
        rw [h2]
        cases fuel with
        | zero => rfl
        | succ f => rw [binary_digits, if_pos rfl]
      rw [hz]
      refine ⟨by omega, ?_, ?_⟩
      · show 2 ^ 0 ≤ n
        omega
      · show n < 2 ^ 1
        omega
    · obtain ⟨hb, hlo, hhi⟩ := binary_digits_spec fuel (n / 2) (by omega) (by omega)
      refine ⟨by omega, ?_, ?_⟩
      · have hp : 2 ^ (binary_digits fuel (n / 2) + 1 - 1)
            = 2 * 2 ^ (binary_digits fuel (n / 2) - 1) := by
          have : binary_digits fuel (n / 2) + 1 - 1 = (binary_digits fuel (n / 2) - 1) + 1 := by
            omega
          rw [this, pow_succ]
          ring
        rw [hp]
        omega
      · rw [pow_succ]
        omega

/-- Scaling by a nonnegative exponent. -/
theorem scale_up_of_nat (n k : Nat) : scale_up n (k : Int) = n * 2 ^ k := by
  unfold scale_up
  rw [Int.toNat_ofNat]

/-- Scaling by a nonpositive exponent leaves the number alone. -/
theorem scale_up_of_neg (n k : Nat) : scale_up n (-(k : Int)) = n := by
  unfold scale_up
  rw [Int.toNat_neg_nat, pow_zero, Nat.mul_one]
/-- From `2 ^ e ≤ num / den` to `2 ^ 23 ≤ (num / den) / 2 ^ (e − 23)`, in
scaled natural numbers. -/
theorem scale_up_shift (num den : Nat) (e : Int)
    (h : scale_up den e ≤ scale_up num (-e)) :
    2 ^ 23 * scale_up den (e - 23) ≤ scale_up num (-(e - 23)) := by
  rcases le_or_lt 23 e with h23 | h23
  · obtain ⟨k, hk⟩ : ∃ k : Nat, e = ((k + 23 : Nat) : Int) := ⟨(e - 23).toNat, by omega⟩
    subst hk
    have h1 : ((k + 23 : Nat) : Int) - 23 = (k : Int) := by omega
    rw [h1, scale_up_of_nat, scale_up_of_neg]
    rw [scale_up_of_nat, scale_up_of_neg, pow_add] at h
    have : 2 ^ 23 * (den * 2 ^ k) = den * (2 ^ k * 2 ^ 23) := by ring
    rw [this]
    exact h
  · rcases le_or_lt 0 e with h0 | h0
    · obtain ⟨k, hk⟩ : ∃ k : Nat, e = (k : Int) := ⟨e.toNat, by omega⟩
      subst hk
      have h1 : (k : Int) - 23 = -((23 - k : Nat) : Int) := by omega
      rw [h1, neg_neg, scale_up_of_nat, scale_up_of_neg]
      rw [scale_up_of_nat, scale_up_of_neg] at h
      have hp : (2 : Nat) ^ 23 = 2 ^ k * 2 ^ (23 - k) := by
        rw [← pow_add]
        congr 1
        omega
      calc 2 ^ 23 * den = (den * 2 ^ k) * 2 ^ (23 - k) := by rw [hp]; ring
        _ ≤ num * 2 ^ (23 - k) := Nat.mul_le_mul_right _ h
    · obtain ⟨k, hk⟩ : ∃ k : Nat, e = -(k : Int) := ⟨(-e).toNat, by omega⟩
      subst hk
      have h1 : -(k : Int) - 23 = -((k + 23 : Nat) : Int) := by omega
      rw [h1, neg_neg, scale_up_of_nat, scale_up_of_neg]
      rw [neg_neg, scale_up_of_nat, scale_up_of_neg] at h
      calc 2 ^ 23 * den ≤ 2 ^ 23 * (num * 2 ^ k) := Nat.mul_le_mul_left _ h
        _ = num * 2 ^ (k + 23) := by rw [pow_add]; ring

/-- The exponent chosen for `num / den` leaves at least 24 significant bits:
`2 ^ 23 ≤ (num / den) / 2 ^ exponent`. -/
theorem float_exponent_spec (num den : Nat) (hn : 0 < num) (hd : 0 < den) :
    2 ^ 23 * scale_up den (float_exponent num den)
      ≤ scale_up num (-(float_exponent num den)) := by
  obtain ⟨hbn, hnlo, hnhi⟩ := binary_digits_spec num num le_rfl hn
  obtain ⟨hbd, hdlo, hdhi⟩ := binary_digits_spec den den le_rfl hd
  unfold float_exponent
  dsimp only
  generalize binary_digits num num = bn at hbn hnlo hnhi ⊢
  generalize binary_digits den den = bd at hbd hdlo hdhi ⊢
  by_cases hc : scale_up num (-((bn : Int) - (bd : Int))) ≥ scale_up den ((bn : Int) - (bd : Int))
  · rw [if_pos hc]
    exact scale_up_shift num den _ hc
  · rw [if_neg hc]
    apply scale_up_shift
    rcases le_or_lt 1 ((bn : Int) - (bd : Int)) with h1 | h1
    · have he : (bn : Int) - (bd : Int) - 1 = ((bn - bd - 1 : Nat) : Int) := by omega
      rw [he, scale_up_of_nat, scale_up_of_neg]
      have hp : (2 : Nat) ^ (bn - 1) = 2 ^ bd * 2 ^ (bn - bd - 1) := by
        rw [← pow_add]
        congr 1
        omega
      calc den * 2 ^ (bn - bd - 1) ≤ 2 ^ bd * 2 ^ (bn - bd - 1) :=
            Nat.mul_le_mul_right _ (le_of_lt hdhi)
        _ = 2 ^ (bn - 1) := hp.symm
        _ ≤ num := hnlo
    · have he : (bn : Int) - (bd : Int) - 1 = -((bd - bn + 1 : Nat) : Int) := by omega
      rw [he, neg_neg, scale_up_of_nat, scale_up_of_neg]
      have hp : (2 : Nat) ^ bd = 2 ^ (bn - 1) * 2 ^ (bd - bn + 1) := by
        rw [← pow_add]
        congr 1
        omega
      calc den ≤ 2 ^ bd := le_of_lt hdhi
        _ = 2 ^ (bn - 1) * 2 ^ (bd - bn + 1) := hp
        _ ≤ num * 2 ^ (bd - bn + 1) := Nat.mul_le_mul_right _ hnlo
/-- `ceil` of a `float` with a nonpositive exponent. -/
theorem float_ceil_of_neg (m k : Nat) :
    float_ceil (m, -(k : Int)) = (m + 2 ^ k - 1) / 2 ^ k := by
  unfold float_ceil
  dsimp only
  rw [neg_neg, scale_up_of_nat, scale_up_of_neg, Nat.one_mul]

/-- The ceiling of `m / T` for `J · T < m ≤ (J + 1) · T`. -/
theorem ceil_div_between (m T J : Nat) (hT : 0 < T) (hlo : J * T < m)
    (hhi : m ≤ (J + 1) * T) : (m + T - 1) / T = J + 1 := by
  apply Nat.div_eq_of_lt_le
  · have : (J + 1) * T = J * T + T := by ring
    omega
  · have h1 : (J + 1 + 1) * T = (J + 1) * T + T := by ring
    omega

/-- A quotient in `(J, J + 1]` with fewer than 24 integer bits that lies more
than half a unit in the last place above `J` is rounded to a `float` whose
ceiling is `J + 1`. -/
theorem float_round_between (num den J : Nat) (hn : 0 < num) (hd : 0 < den)
    (hlow : J * den < num) (hhigh : num ≤ (J + 1) * den)
    (hlt : num < 2 ^ 24 * den)
    (hgap : ∀ T : Nat, 2 ^ 23 * den ≤ num * T → den < 2 * (T * (num - J * den))) :
    float_ceil (float_round num den) = J + 1 := by
  have hB := float_exponent_spec num den hn hd
  unfold float_round
  dsimp only
  generalize float_exponent num den = E at hB ⊢
  have hE : E ≤ 0 := by
    by_contra hc
    obtain ⟨k, hk⟩ : ∃ k : Nat, E = ((k + 1 : Nat) : Int) := ⟨(E - 1).toNat, by omega⟩
    subst hk
    rw [scale_up_of_nat, scale_up_of_neg, pow_succ 2 k] at hB
    have h2 : 2 ^ 24 * den ≤ 2 ^ 23 * (den * (2 ^ k * 2)) := by
      have hk1 : 1 ≤ 2 ^ k := Nat.one_le_two_pow
      have : 2 ^ 23 * (den * (2 ^ k * 2)) = 2 ^ 24 * den * 2 ^ k := by ring
      rw [this]
      exact Nat.le_mul_of_pos_right _ hk1
    omega
  obtain ⟨k, hk⟩ : ∃ k : Nat, E = -(k : Int) := ⟨(-E).toNat, by omega⟩
  subst hk
  rw [neg_neg, scale_up_of_nat, scale_up_of_neg] at hB ⊢
  obtain ⟨T, hTk⟩ : ∃ T : Nat, 2 ^ k = T := ⟨_, rfl⟩
  have hT : 0 < T := by rw [← hTk]; exact Nat.two_pow_pos k
  rw [hTk] at hB ⊢
  have hdm := Nat.div_add_mod (num * T) den
  have hr := Nat.mod_lt (num * T) hd
  have hA1 : J * T * den < num * T := by
    have := Nat.mul_lt_mul_of_pos_right hlow hT
    calc J * T * den = J * den * T := by ring
      _ < num * T := this
  have hA2 : num * T ≤ (J + 1) * T * den := by
    have := Nat.mul_le_mul_right T hhigh
    calc num * T ≤ (J + 1) * den * T := this
      _ = (J + 1) * T * den := by ring
  have hq1 : J * T ≤ num * T / den := by
    rw [Nat.le_div_iff_mul_le hd]
    exact le_of_lt hA1
  have hq2 : num * T / den ≤ (J + 1) * T := by
    apply Nat.div_le_of_le_mul
    calc num * T ≤ (J + 1) * T * den := hA2
      _ = den * ((J + 1) * T) := by ring
  have hgapT := hgap T hB
  generalize num * T / den = q at hdm hq1 hq2 ⊢
  generalize num * T % den = r at hdm hr ⊢
  by_cases hup : 2 * r > den ∨ (2 * r = den ∧ q % 2 = 1)
  · rw [if_pos hup, float_ceil_of_neg, hTk]
    apply ceil_div_between _ _ _ hT
    · omega
    · by_contra hc
      have hqe : q = (J + 1) * T := by omega
      have hdq : den * q = (J + 1) * T * den := by rw [hqe]; ring
      have hr0 : r = 0 := by omega
      subst hr0
      rcases hup with h | ⟨h, _⟩ <;> omega
  · rw [if_neg hup, float_ceil_of_neg, hTk]
    apply ceil_div_between _ _ _ hT
    · by_contra hc
      have hqe : q = J * T := by omega
      have hdq : den * q = T * (J * den) := by rw [hqe]; ring
      have hsub : T * (num - J * den) = r := by
        rw [Nat.mul_sub]
        have hcomm : T * num = num * T := by ring
        omega
      rw [hsub] at hgapT
      exact hup (Or.inl hgapT)
    · exact hq2
/-- The quotient of two integers, the dividend below `2 ^ 24`, both scaled by
the same factor, is rounded to a `float` whose ceiling is the ceiling of the
quotient. -/
theorem float_round_quotient_of_integers (s x c J : Nat) (hc : 0 < c) (hx : 0 < x)
    (hs : s < 2 ^ 24) (hlow : J * x < s) (hhigh : s ≤ (J + 1) * x) :
    float_ceil (float_round (s * c) (x * c)) = J + 1 := by
  have hs0 : 0 < s := by omega
  apply float_round_between (s * c) (x * c) J (Nat.mul_pos hs0 hc) (Nat.mul_pos hx hc)
  · calc J * (x * c) = J * x * c := by ring
      _ < s * c := Nat.mul_lt_mul_of_pos_right hlow hc
  · calc s * c ≤ (J + 1) * x * c := Nat.mul_le_mul_right c hhigh
      _ = (J + 1) * (x * c) := by ring
  · have h1 : s * c < 2 ^ 24 * c := Nat.mul_lt_mul_of_pos_right hs hc
    have h2 : 2 ^ 24 * c ≤ 2 ^ 24 * (x * c) :=
      Nat.mul_le_mul_left _ (Nat.le_mul_of_pos_left c hx)
    omega
  · intro T hT
    have hT0 : 0 < T := by
      rcases Nat.eq_zero_or_pos T with h | h
      · subst h
        have : 0 < 2 ^ 23 * (x * c) := Nat.mul_pos (by decide) (Nat.mul_pos hx hc)
        omega
      · exact h
    have h1 : 2 ^ 23 * x ≤ s * T := by
      have h : 2 ^ 23 * x * c ≤ s * T * c := by
        calc 2 ^ 23 * x * c = 2 ^ 23 * (x * c) := by ring
          _ ≤ s * c * T := hT
          _ = s * T * c := by ring
      exact Nat.le_of_mul_le_mul_right h hc
    have h2 : s * T < 2 ^ 24 * T := Nat.mul_lt_mul_of_pos_right hs hT0
    have h3 : x < 2 * T := by omega
    have h4 : s * c - J * (x * c) = (s - J * x) * c := by
      rw [Nat.sub_mul]
      congr 1
      ring
    rw [h4]
    have h5 : 1 ≤ s - J * x := by omega
    calc x * c < 2 * T * c := Nat.mul_lt_mul_of_pos_right h3 hc
      _ = 2 * (T * (1 * c)) := by ring
      _ ≤ 2 * (T * ((s - J * x) * c)) :=
        Nat.mul_le_mul_left _ (Nat.mul_le_mul_left _ (Nat.mul_le_mul_right _ h5))

/-- A positive integer below `2 ^ 24` is converted to `float` exactly. -/
theorem float_round_integer (s : Nat) (h0 : 0 < s) (h : s < 2 ^ 24) :
    ∃ k : Nat, float_round s 1 = (s * 2 ^ k, -(k : Int)) := by
  have hB := float_exponent_spec s 1 h0 (by decide)
  unfold float_round
  dsimp only
  generalize float_exponent s 1 = E at hB ⊢
  have hE : E ≤ 0 := by
    by_contra hc
    obtain ⟨k, hk⟩ : ∃ k : Nat, E = ((k + 1 : Nat) : Int) := ⟨(E - 1).toNat, by omega⟩
    subst hk
    rw [scale_up_of_nat, scale_up_of_neg, pow_succ 2 k] at hB
    have hk1 : 1 ≤ 2 ^ k := Nat.one_le_two_pow
    omega
  obtain ⟨k, hk⟩ : ∃ k : Nat, E = -(k : Int) := ⟨(-E).toNat, by omega⟩
  subst hk
  refine ⟨k, ?_⟩
  rw [neg_neg, scale_up_of_nat, scale_up_of_neg, Nat.div_one, Nat.mod_one]
  rw [if_neg (by omega)]

/-- For a parent size and an `xrange` between 1 and `2 ^ 24 − 1` the `float`
expression `ceil(parent_size / (float) xrange)` is the ceiling of the
quotient. -/
theorem ceil_of_float_quotient_below_24_bits (parent_size xrange : Int)
    (hs0 : 0 < parent_size) (hs : parent_size < 2 ^ 24)
    (hx0 : 1 ≤ xrange) (hx : xrange < 2 ^ 24) :
    ceil_of_float_quotient parent_size xrange = spec_ceil_quotient parent_size xrange := by
  have h1 := spec_ceil_quotient_tight parent_size xrange hx0
  have h2 := spec_ceil_quotient_covers parent_size xrange hx0
  have hK : 1 ≤ spec_ceil_quotient parent_size xrange := by
    by_contra hc
    have : spec_ceil_quotient parent_size xrange * xrange ≤ 0 :=
      Int.mul_nonpos_of_nonpos_of_nonneg (by omega) (by omega)
    omega
  obtain ⟨J, hJ⟩ : ∃ J : Nat, spec_ceil_quotient parent_size xrange = ((J + 1 : Nat) : Int) :=
    ⟨(spec_ceil_quotient parent_size xrange - 1).toNat, by omega⟩
  obtain ⟨s, hsn⟩ : ∃ s : Nat, parent_size = (s : Int) := ⟨parent_size.toNat, by omega⟩
  obtain ⟨x, hxn⟩ : ∃ x : Nat, xrange = (x : Int) := ⟨xrange.toNat, by omega⟩
  rw [hJ] at h1 h2 ⊢
  subst hsn
  subst hxn
  have hs0n : 0 < s := by omega
  have hx0n : 0 < x := by omega
  have hsn : s < 2 ^ 24 := by exact_mod_cast hs
  have hxn : x < 2 ^ 24 := by exact_mod_cast hx
  have hlow : J * x < s := by
    have : ((J * x : Nat) : Int) < (s : Int) := by push_cast at h1 ⊢; linarith
    exact_mod_cast this
  have hhigh : s ≤ (J + 1) * x := by
    have : (s : Int) ≤ (((J + 1) * x : Nat) : Int) := by push_cast at h2 ⊢; linarith
    exact_mod_cast this
  obtain ⟨ka, ha⟩ := float_round_integer s hs0n hsn
  obtain ⟨kb, hb⟩ := float_round_integer x hx0n hxn
  unfold ceil_of_float_quotient
  rw [if_neg (by omega)]
  dsimp only
  rw [if_pos (Or.inl ⟨by omega, by omega⟩), Int.natAbs_ofNat, Int.natAbs_ofNat, ha, hb]
  unfold float_div
  dsimp only
  rw [neg_neg, neg_neg, scale_up_of_nat, scale_up_of_nat, scale_up_of_neg, scale_up_of_neg]
  have hnum : s * 2 ^ ka * (1 * 2 ^ kb) = s * (2 ^ ka * 2 ^ kb) := by ring
  have hden : 1 * 2 ^ ka * (x * 2 ^ kb) = x * (2 ^ ka * 2 ^ kb) := by ring
  rw [hnum, hden, float_round_quotient_of_integers s x _ J
    (Nat.mul_pos (Nat.two_pow_pos ka) (Nat.two_pow_pos kb)) hx0n hsn hlow hhigh]
/-- For a parent team of fewer than `2 ^ 24` PEs and `1 ≤ xrange < 2 ^ 24`, each
PE of the parent's active set lies in the active set of exactly one of the
x-teams and of exactly one of the y-teams that `team_split_2d` generates, and a
returning call of `shmem_internal_team_split_2d` on it has made exactly one
strided split per axis. -/
theorem split_2d_one_team_per_axis_below_24_bits (s : TeamsState)
    (xpeers ypeers : Nat → List Nat)
    (parent_team : shmem_internal_team_t) (xrange : Int)
    (xaxis_config : Option Int) (xaxis_mask : Int)
    (xaxis_team : Option shmem_internal_team_t)
    (yaxis_config : Option Int) (yaxis_mask : Int)
    (yaxis_team : Option shmem_internal_team_t)
    (ret : Int) (xt yt : Option shmem_internal_team_t) (s1 : TeamsState)
    (xcalls ycalls : List (Int × Int × Int))
    (hsd : 1 ≤ parent_team.stride) (hsz : parent_team.size < 2 ^ 24)
    (hxr : 1 ≤ xrange) (hx : xrange < 2 ^ 24)
    (hin : (shmem_internal_pe_in_active_set s.shmem_internal_my_pe parent_team.start
      parent_team.stride parent_team.size).1 = true)
    (h : shmem_internal_team_split_2d s xpeers ypeers parent_team xrange xaxis_config
        xaxis_mask xaxis_team yaxis_config yaxis_mask yaxis_team
      = .ok (ret, xt, yt, s1, xcalls, ycalls)) :
    ((split_2d_xteams parent_team xrange).filter
      (fun t => (shmem_internal_pe_in_active_set s.shmem_internal_my_pe
        t.1 t.2.1 t.2.2).1)).length = 1 ∧
    ((split_2d_yteams parent_team xrange).filter
      (fun t => (shmem_internal_pe_in_active_set s.shmem_internal_my_pe
        t.1 t.2.1 t.2.2).1)).length = 1 ∧
    xcalls.length = 1 ∧ ycalls.length = 1 := by
  obtain ⟨n, hn0, hn1, _⟩ := (pe_in_active_set_iff _ _ _ _ hsd).mp hin
  have hfl := ceil_of_float_quotient_below_24_bits parent_team.size xrange (by omega) hsz hxr hx
  obtain ⟨hx1, hy1⟩ := split_2d_one_team_per_axis.1 parent_team xrange
    s.shmem_internal_my_pe hsd hxr hfl hin
  obtain ⟨hx2, hy2⟩ := split_2d_one_team_per_axis.2.1 s xpeers ypeers parent_team xrange
    xaxis_config xaxis_mask xaxis_team yaxis_config yaxis_mask yaxis_team ret xt yt s1
    xcalls ycalls hsd hxr hfl hin h
  exact ⟨hx1, hy1, hx2, hy2⟩

/-- For a parent of size `0 < S < 2 ^ 24` and `1 ≤ xrange < 2 ^ 24`,
`team_split_2d` generates `ceil(S/xrange)` x-teams, the runs of `xrange` parent
indices with the last possibly shorter, and `xrange` y-teams whose sizes differ
by at most 1; the x-team sizes and the y-team sizes each sum to `S`. -/
theorem split_2d_team_shapes_below_24_bits (parent_team : shmem_internal_team_t)
    (xrange : Int) (hsize : 0 < parent_team.size) (hsz : parent_team.size < 2 ^ 24)
    (hxr : 1 ≤ xrange) (hx : xrange < 2 ^ 24) :
    ((split_2d_xteams parent_team xrange).length : Int)
      = ⌈(parent_team.size : ℚ) / (xrange : ℚ)⌉ ∧
    split_2d_xteams parent_team xrange =
      (List.range (split_2d_xteams parent_team xrange).length).map (fun i : Nat =>
        (parent_team.start + (i : Int) * xrange * parent_team.stride, parent_team.stride,
          min (((i : Int) + 1) * xrange) parent_team.size - (i : Int) * xrange)) ∧
    ((split_2d_yteams parent_team xrange).length : Int) = xrange ∧
    split_2d_yteams parent_team xrange =
      (List.range xrange.toNat).map (fun i : Nat =>
        (parent_team.start + (i : Int) * parent_team.stride, xrange * parent_team.stride,
          parent_team.size / xrange +
            if (i : Int) < parent_team.size % xrange then 1 else 0)) ∧
    (∀ a ∈ (split_2d_yteams parent_team xrange).map (fun t => t.2.2),
      ∀ b ∈ (split_2d_yteams parent_team xrange).map (fun t => t.2.2), a - b ≤ 1) ∧
    ((split_2d_xteams parent_team xrange).map (fun t => t.2.2)).sum = parent_team.size ∧
    ((split_2d_yteams parent_team xrange).map (fun t => t.2.2)).sum = parent_team.size := by
  obtain ⟨h1, h2, _, h4, h5, h6, h7, h8⟩ := split_2d_team_shapes parent_team xrange hsize hxr
    (ceil_of_float_quotient_below_24_bits parent_team.size xrange hsize hsz hxr hx)
  exact ⟨h1, h2, h4, h5, h6, h7, h8⟩

/-! ### The 2D split in a job of `2 ^ 24 + 1` PEs -/

/-- The result of `shmem_internal_team_split_2d` from the results of its two
loops. -/
theorem team_split_2d_of_axes (s : TeamsState) (xpeers ypeers : Nat → List Nat)
    (parent_team : shmem_internal_team_t) (xrange : Int)
    (xaxis_config : Option Int) (xaxis_mask : Int)
    (xaxis_team : Option shmem_internal_team_t)
    (yaxis_config : Option Int) (yaxis_mask : Int)
    (yaxis_team : Option shmem_internal_team_t)
    (xt yt : Option shmem_internal_team_t) (s1 s2 : TeamsState)
    (xcalls ycalls : List (Int × Int × Int))
    (hx : split_2d_axis parent_team xaxis_config xaxis_mask xpeers
      "x-axis 2D strided split failed" (split_2d_xteams parent_team xrange) 0 s
      xaxis_team [] = .ok (xt, s1, xcalls))
    (hy : split_2d_axis parent_team yaxis_config yaxis_mask ypeers
      "y-axis 2D strided split failed" (split_2d_yteams parent_team xrange) 0 s1
      yaxis_team [] = .ok (yt, s2, ycalls)) :
    shmem_internal_team_split_2d s xpeers ypeers parent_team xrange xaxis_config xaxis_mask
        xaxis_team yaxis_config yaxis_mask yaxis_team
      = .ok (0, xt, yt, s2, xcalls, ycalls) := by
  unfold shmem_internal_team_split_2d
  rw [hx]
  dsimp only
  rw [hy]

/-- C10, on the code: in a job of `2 ^ 24 + 1` PEs,
`shmem_internal_team_split_2d` of the world team with `xrange = 2` leaves
PE 16777216 without an x-team.  The PE is in the parent's active set, none of
the generated x-teams contains it (the count of x-teams that do is 0, not 1),
and the call on it returns 0 with the
x-axis handle still null and no strided split made on the x-axis, after one
on the y-axis; the other members of y-team 0 come with bits 0 and 1 of their
words cleared. -/
theorem C10_split_2d_pe_without_xteam :
    (TeamsState.after_init 16777217 16777216 16).shmem_internal_team_world
      = world_of_16777217 ∧
    (shmem_internal_pe_in_active_set 16777216 world_of_16777217.start
      world_of_16777217.stride world_of_16777217.size).1 = true ∧
    (∀ t ∈ split_2d_xteams world_of_16777217 2,
      (shmem_internal_pe_in_active_set 16777216 t.1 t.2.1 t.2.2).1 = false) ∧
    ((split_2d_xteams world_of_16777217 2).filter
      (fun t => (shmem_internal_pe_in_active_set 16777216 t.1 t.2.1 t.2.2).1)).length = 0 ∧
    shmem_internal_team_split_2d (TeamsState.after_init 16777217 16777216 16)
        (fun _ => []) (fun _ => [2 ^ 64 - 4]) world_of_16777217 2 none 0 none none 0 none
      = .ok (0, none,
          some { team_id := 2, psync_idx := 2, start := 0, stride := 2, size := 8388609,
                 my_pe := 8388608, config := 0, config_mask := 0 },
          { TeamsState.after_init 16777217 16777216 16 with
            num_teams := 2, shmem_internal_psync_pool_reserved := 2 ^ 64 - 8 },
          [], [(0, 2, 8388609)]) := by
  have hme : (TeamsState.after_init 16777217 16777216 16).shmem_internal_my_pe = 16777216 := by
    decide
  have hx : split_2d_axis world_of_16777217 none 0 (fun _ => [])
      "x-axis 2D strided split failed" (split_2d_xteams world_of_16777217 2) 0
      (TeamsState.after_init 16777217 16777216 16) none []
      = .ok (none, TeamsState.after_init 16777217 16777216 16, []) :=
    split_2d_axis_skip _ _ _ _ _ _ _ _ _ _ (fun t ht => by
      rw [hme]
      exact split_2d_xteams_beyond_24_bits_miss 16777216 (by decide) t ht)
  have hy : split_2d_axis world_of_16777217 none 0 (fun _ => [2 ^ 64 - 4])
      "y-axis 2D strided split failed" (split_2d_yteams world_of_16777217 2) 0
      (TeamsState.after_init 16777217 16777216 16) none []
      = .ok (some { team_id := 2, psync_idx := 2, start := 0, stride := 2, size := 8388609,
                    my_pe := 8388608, config := 0, config_mask := 0 },
          { TeamsState.after_init 16777217 16777216 16 with
            num_teams := 2, shmem_internal_psync_pool_reserved := 2 ^ 64 - 8 },
          [(0, 2, 8388609)]) := by
    decide
  refine ⟨by decide, by decide,
    fun t ht => split_2d_xteams_beyond_24_bits_miss 16777216 (by decide) t ht, ?_, ?_⟩
  · rw [List.length_eq_zero, List.filter_eq_nil_iff]
    intro t ht
    rw [split_2d_xteams_beyond_24_bits_miss 16777216 (by decide) t ht]
    decide
  · exact team_split_2d_of_axes _ _ _ _ _ _ _ _ _ _ _ _ _ _ _ _ _ hx hy

/-- C11, on the code: in a job of `2 ^ 24 + 1` PEs,
`shmem_internal_team_split_2d` of the world team with `xrange = 2` generates
8388608 x-teams, one fewer than the ceiling 8388609 of `S / xrange`; x-team
8388607 is the single PE 16777214 instead of the run of two from that rank,
and the x-team sizes sum to 16777215, not to `S`.  On PE 16777214 the call
makes its x-axis strided split with `(16777214, 1, 1)` and hands back an
x-team of one member. -/
theorem C11_split_2d_short_xteams :
    (TeamsState.after_init 16777217 16777214 16).shmem_internal_team_world
      = world_of_16777217 ∧
    spec_ceil_quotient world_of_16777217.size 2 = 8388609 ∧
    (split_2d_xteams world_of_16777217 2).length = 8388608 ∧
    (split_2d_xteams world_of_16777217 2).getLast? = some (16777214, 1, 1) ∧
    ((split_2d_xteams world_of_16777217 2).map (fun t : Int × Int × Int => t.2.2)).sum
      = 16777215 ∧
    shmem_internal_team_split_2d (TeamsState.after_init 16777217 16777214 16)
        (fun _ => []) (fun _ => [2 ^ 64 - 4, 2 ^ 64 - 2]) world_of_16777217 2
        none 0 none none 0 none
      = .ok (0,
          some { team_id := 2, psync_idx := 1, start := 16777214, stride := 1, size := 1,
                 my_pe := 0, config := 0, config_mask := 0 },
          some { team_id := 3, psync_idx := 2, start := 0, stride := 2, size := 8388609,
                 my_pe := 8388607, config := 0, config_mask := 0 },
          { TeamsState.after_init 16777217 16777214 16 with
            num_teams := 3, shmem_internal_psync_pool_reserved := 2 ^ 64 - 8 },
          [(16777214, 1, 1)], [(0, 2, 8388609)]) := by
  have hme : (TeamsState.after_init 16777217 16777214 16).shmem_internal_my_pe = 16777214 := by
    decide
  have hpre : split_2d_axis world_of_16777217 none 0 (fun _ => [])
      "x-axis 2D strided split failed"
      ((List.range 8388607).map (fun j : Nat => ((j : Int) * 2, (1 : Int), (2 : Int)))) 0
      (TeamsState.after_init 16777217 16777214 16) none []
      = .ok (none, TeamsState.after_init 16777217 16777214 16, []) :=
    split_2d_axis_skip _ _ _ _ _ _ _ _ _ _ (fun t ht => by
      rw [hme]
      exact split_2d_xteams_beyond_24_bits_prefix t ht)
  have hlast : split_2d_axis world_of_16777217 none 0 (fun _ => [])
      "x-axis 2D strided split failed" [(16777214, 1, 1)] (0 + 8388607)
      (TeamsState.after_init 16777217 16777214 16) none []
      = .ok (some { team_id := 2, psync_idx := 1, start := 16777214, stride := 1, size := 1,
                    my_pe := 0, config := 0, config_mask := 0 },
          { TeamsState.after_init 16777217 16777214 16 with
            num_teams := 2, shmem_internal_psync_pool_reserved := 2 ^ 64 - 4 },
          [(16777214, 1, 1)]) := by
    decide
  have hx : split_2d_axis world_of_16777217 none 0 (fun _ => [])
      "x-axis 2D strided split failed" (split_2d_xteams world_of_16777217 2) 0
      (TeamsState.after_init 16777217 16777214 16) none []
      = .ok (some { team_id := 2, psync_idx := 1, start := 16777214, stride := 1, size := 1,
                    my_pe := 0, config := 0, config_mask := 0 },
          { TeamsState.after_init 16777217 16777214 16 with
            num_teams := 2, shmem_internal_psync_pool_reserved := 2 ^ 64 - 4 },
          [(16777214, 1, 1)]) := by
    rw [split_2d_xteams_beyond_24_bits, split_2d_axis_append, hpre]
    dsimp only
    rw [List.length_map, List.length_range, hlast]
  have hy : split_2d_axis world_of_16777217 none 0 (fun _ => [2 ^ 64 - 4, 2 ^ 64 - 2])
      "y-axis 2D strided split failed" (split_2d_yteams world_of_16777217 2) 0
      { TeamsState.after_init 16777217 16777214 16 with
        num_teams := 2, shmem_internal_psync_pool_reserved := 2 ^ 64 - 4 } none []
      = .ok (some { team_id := 3, psync_idx := 2, start := 0, stride := 2, size := 8388609,
                    my_pe := 8388607, config := 0, config_mask := 0 },
          { TeamsState.after_init 16777217 16777214 16 with
            num_teams := 3, shmem_internal_psync_pool_reserved := 2 ^ 64 - 8 },
          [(0, 2, 8388609)]) := by
    decide
  refine ⟨by decide, by decide, ?_, ?_, ?_, ?_⟩
  · rw [split_2d_xteams_beyond_24_bits, List.length_append, List.length_map,
      List.length_range]
    rfl
  · rw [split_2d_xteams_beyond_24_bits, List.getLast?_concat]
  · rw [split_2d_xteams_beyond_24_bits, List.map_append, List.sum_append, sum_of_runs_of_two]
    decide
  · exact team_split_2d_of_axes _ _ _ _ _ _ _ _ _ _ _ _ _ _ _ _ _ hx hy

end SOS
